import Mathlib

/-!
# starform: the accretion engine (accrete.c)

A shallow embedding of the dust cloud, the accretion sweep and the collision
resolver of `accrete.c`, followed by theorems about them.

Conventions of the embedding.

* A C `double` is a rational number (`ℚ`). Each function is read first with
  exact arithmetic, the arithmetic the program text denotes. Where the
  rounding of the operations on `double` bears on a property (the range of
  `random_number`, the orbit and the eccentricity of a merged body, the mass
  a sweep returns), the function is read a second time with every operation
  rounded to IEEE 754 double precision (`binary64`, the definitions with a
  name ending in `_fp`), and the theorems on that property are about the
  second reading. The rounding is to the nearest number with a significand
  of 53 binary digits, ties to even; overflow and underflow are left aside
  (the exponent is not bounded).
* The C library functions `pow`, `sqrt` and `exp` are not rational valued.
  They are carried as the fields of a `Libm` record that every function using
  them takes as an argument; theorems state what they need of them as
  hypotheses.
* A `NULL`-terminated linked list is a `List`; a pointer into such a list is
  the position of the node.
* `exit(1)` is an outcome of its own (`none`, or `Outcome.exited`).
* `printf` diagnostics (guarded by `flag_verbose`) are left out.
* A division by zero is 0 in `ℚ` and infinite or NaN in C: what the embedding
  computes from a zero divisor (an orbit with `a = 0`, say) says nothing about
  the program.
-/

namespace Starform

/-! ## const.h -/

def PI : ℚ := 3.1415926536
def CLOUD_ECCENTRICITY : ℚ := 0.2
def PROTOPLANET_MASS : ℚ := 1.0e-15
def K : ℚ := 50.0
def B : ℚ := 1.2e-5
def TRIVIAL_MASS : ℚ := 1.0e-14

def STAR : Int := 0
def PLANET : Int := 1
def GAS_GIANT : Int := 2
def MOON : Int := 3

/-! ## The C library -/

/-- The functions of `math.h` that the program calls. -/
structure Libm where
  pow : ℚ → ℚ → ℚ
  sqrt : ℚ → ℚ
  exp : ℚ → ℚ

/-- utils.c `power`: `pow` with a diagnostic message on a domain error. -/
def power (M : Libm) (x y : ℚ) : ℚ := M.pow x y

/-! ## structs.h -/

/-- The record `struct dust_struct`, without its `next_band` link. -/
structure dust where
  inner_edge : ℚ
  outer_edge : ℚ
  dust_present : Bool
  gas_present : Bool
deriving DecidableEq

/-- The record `struct star_struct` (the scalar fields the accretion code touches). -/
structure stars where
  orbit_radius : ℚ := 0
  age : ℚ := 0
  stell_mass_ratio : ℚ := 0
  stell_luminosity_ratio : ℚ := 0
  stell_radius : ℚ := 0
  main_seq_life : ℚ := 0
  r_ecosphere : ℚ := 0
  r_greenhouse : ℚ := 0
  planet_ptr : Option Nat := none
deriving DecidableEq

/-- The record `struct planets_struct`, without its `next_planet` link.
`first_moon` and `star_ptr` are handles (`none` is `NULL`). -/
structure planets where
  a : ℚ := 0
  e : ℚ := 0
  mass : ℚ := 0
  mass_type : Int := 0
  orbit_zone : Int := 0
  radius : ℚ := 0
  density : ℚ := 0
  orb_period : ℚ := 0
  day : ℚ := 0
  resonant_period : Int := 0
  axial_tilt : Int := 0
  esc_velocity : ℚ := 0
  surf_accel : ℚ := 0
  surf_grav : ℚ := 0
  rms_velocity : ℚ := 0
  molec_weight : ℚ := 0
  volatile_gas_inventory : ℚ := 0
  surf_pressure : ℚ := 0
  greenhouse_effect : Int := 0
  boil_point : ℚ := 0
  albedo : ℚ := 0
  surf_temp : ℚ := 0
  hydrosphere : ℚ := 0
  cloud_cover : ℚ := 0
  ice_cover : ℚ := 0
  first_moon : Option Nat := none
  star_ptr : Option Nat := none

/-! ## accrete.c: the dust cloud -/

/-- accrete.c `set_initial_conditions`: the list `dust_head` points to
afterwards (`dust_left` is set to `TRUE`). -/
def set_initial_conditions (inner_limit_of_dust outer_limit_of_dust : ℚ) : List dust :=
  [{ inner_edge := inner_limit_of_dust, outer_edge := outer_limit_of_dust,
     dust_present := true, gas_present := true }]

/-- accrete.c `inner_effect_limit`; `collect_dust` passes the reduced mass as
`mass`. -/
def inner_effect_limit (a e mass : ℚ) : ℚ :=
  a * (1.0 - e) * (1.0 - mass) / (1.0 + CLOUD_ECCENTRICITY)

/-- accrete.c `outer_effect_limit`; `collect_dust` passes the reduced mass as
`mass`. -/
def outer_effect_limit (a e mass : ℚ) : ℚ :=
  a * (1.0 + e) * (1.0 + mass) / (1.0 - CLOUD_ECCENTRICITY)

/-- The second `while` loop of `dust_available`, entered at a band without dust
or continued after one. -/
def dust_available_scan (outside_range : ℚ) : List dust → Bool
  | [] => false
  | band :: rest =>
    if band.inner_edge < outside_range then
      if band.dust_present then true else dust_available_scan outside_range rest
    else false

/-- accrete.c `dust_available`, on the list `dust_head` points to. -/
def dust_available (inside_range outside_range : ℚ) : List dust → Bool
  | [] => false
  | band :: rest =>
    if band.outer_edge < inside_range then dust_available inside_range outside_range rest
    else if band.dust_present then true
    else dust_available_scan outside_range (band :: rest)

/-- The three `continue` tests at the head of both loops of `collect_dust`. -/
def band_skipped (r_inner r_outer mass crit_mass : ℚ) (band : dust) : Bool :=
  band.gas_present == false
    || (decide (band.outer_edge ≤ r_inner) || decide (band.inner_edge ≥ r_outer))
    || (decide (mass < crit_mass) && band.dust_present == false)

/-- The values `temp1` of `collect_dust`: how far the range of effect
reaches beyond the outer edge of the band, floored at 0. -/
def band_temp1 (r_outer : ℚ) (band : dust) : ℚ :=
  if r_outer - band.outer_edge < 0 then 0 else r_outer - band.outer_edge

/-- The values `temp2` of `collect_dust`: how far the range of effect
reaches below the inner edge of the band, floored at 0. -/
def band_temp2 (r_inner : ℚ) (band : dust) : ℚ :=
  if band.inner_edge - r_inner < 0 then 0 else band.inner_edge - r_inner

/-- What one band that is not skipped adds to `accumulated_mass` in the first
loop of `collect_dust` (`volume * mass_density`). -/
def band_gain (M : Libm) (dust_density r_inner r_outer reduced_mass mass a e crit_mass : ℚ)
    (band : dust) : ℚ :=
  let mass_density :=
    if mass < crit_mass then dust_density
    else K * dust_density / (1.0 + M.sqrt (crit_mass / mass) * (K - 1.0))
  let bandwidth := r_outer - r_inner
  let temp1 := band_temp1 r_outer band
  let temp2 := band_temp2 r_inner band
  let width := bandwidth - temp1 - temp2
  let volume := 4.0 * PI * power M a 2.0 * reduced_mass
    * (1.0 - e * (temp1 - temp2) / bandwidth) * width
  volume * mass_density

/-- The first loop of `collect_dust`, started with `accumulated_mass`. -/
def accumulate_mass (M : Libm) (dust_density r_inner r_outer reduced_mass mass a e crit_mass : ℚ)
    (accumulated_mass : ℚ) : List dust → ℚ
  | [] => accumulated_mass
  | band :: rest =>
    if band_skipped r_inner r_outer mass crit_mass band then
      accumulate_mass M dust_density r_inner r_outer reduced_mass mass a e crit_mass
        accumulated_mass rest
    else
      accumulate_mass M dust_density r_inner r_outer reduced_mass mass a e crit_mass
        (accumulated_mass
          + band_gain M dust_density r_inner r_outer reduced_mass mass a e crit_mass band) rest

/-- One pass through the body of the second loop of `collect_dust`, for the
band `band` with `next_band` (if any) after it.

The loop walks the list from the parameter `dust_head`, a copy of the global
pointer of the same name, and rewrites nodes in place. The state of the walk
is kept in two lists:

* `stale`: the bands (last one first) that were freed while they were the
  first node of the list. For those the code only moves the parameter
  `dust_head`; the global pointer keeps pointing at the freed node, whose
  `next_band` link is not cleared, so that a later walk from the global
  pointer still goes through them. Freed storage is taken to keep its
  contents;
* `done`: the bands already passed that are still linked (last one first), so
  that the head of `done` is what `prior_dust_band` returns for the current
  band, and `[]` means `prev_band == NULL`.

The result is the new `stale`, the new `done` (now including what became of
`band`), and whether `next_band` was rewritten and moved to `done` as well.

A band the loop has just created is visited next in the C code and is then
always skipped: `newband` has `inner_edge == r_outer` (second test), `gasband`
has `dust_present == FALSE` and is only created when `mass < crit_mass` (third
test), and so is the neighbour that case 4 extends before its `continue`. The
embedding moves these straight to `done`.

A gas band that case 3 creates in front of the first node is linked from the
parameter `dust_head` only; it is not in the list the global pointer leads to,
and so not in the result. -/
def sweep_band (r_inner r_outer mass crit_mass : ℚ) (stale done : List dust)
    (band : dust) (next_band : Option dust) : List dust × List dust × Bool :=
  if band_skipped r_inner r_outer mass crit_mass band then (stale, band :: done, false)
  else
    let temp1 := band_temp1 r_outer band
    let temp2 := band_temp2 r_inner band
    if temp1 = 0 ∧ temp2 = 0 then
      -- Case 1: the area of effect lies entirely within the dust band
      let newband : dust :=
        { inner_edge := r_outer, outer_edge := band.outer_edge,
          dust_present := band.dust_present, gas_present := band.gas_present }
      if mass < crit_mass then
        let gasband : dust :=
          { inner_edge := r_inner, outer_edge := r_outer,
            dust_present := false, gas_present := true }
        (stale, newband :: gasband :: { band with outer_edge := r_inner } :: done, false)
      else
        (stale, newband :: { band with outer_edge := r_inner } :: done, false)
    else if temp1 > 0 ∧ temp2 > 0 then
      -- Case 2: the area of effect encompasses the dust band entirely
      if mass ≥ crit_mass then
        match done with
        | [] => (band :: stale, [], false)
        | prev_band :: before => (stale, prev_band :: before, false)
      else
        (stale, { band with dust_present := false } :: done, false)
    else if temp2 > 0 then
      -- Case 3: the band reaches further from the primary than the area of effect
      if mass ≥ crit_mass then
        (stale, { band with inner_edge := r_outer } :: done, false)
      else
        let gasband : dust :=
          { inner_edge := band.inner_edge, outer_edge := r_outer,
            dust_present := false, gas_present := true }
        match done with
        | prev_band :: before =>
          if prev_band.dust_present = false ∧ prev_band.outer_edge = band.inner_edge then
            (stale, { band with inner_edge := r_outer }
              :: { prev_band with outer_edge := r_outer } :: before, false)
          else
            (stale, { band with inner_edge := r_outer } :: gasband :: prev_band :: before, false)
        | [] => (stale, [{ band with inner_edge := r_outer }], false)
    else if temp1 > 0 then
      -- Case 4: the band reaches closer to the primary than the area of effect
      if mass ≥ crit_mass then
        (stale, { band with outer_edge := r_inner } :: done, false)
      else
        let gasband : dust :=
          { inner_edge := r_inner, outer_edge := band.outer_edge,
            dust_present := false, gas_present := true }
        match next_band with
        | some next =>
          if next.dust_present = false ∧ next.inner_edge = band.outer_edge then
            (stale, { next with inner_edge := r_inner }
              :: { band with outer_edge := r_inner } :: done, true)
          else
            (stale, gasband :: { band with outer_edge := r_inner } :: done, false)
        | none => (stale, gasband :: { band with outer_edge := r_inner } :: done, false)
    else
      (stale, band :: done, false)

/-- The second loop of `collect_dust`: `sweep_band` for every band in turn.
The result is the list as walked from the global `dust_head` after the call:
the stale bands, then the bands still linked. -/
def update_bands (r_inner r_outer mass crit_mass : ℚ) :
    List dust → List dust → List dust → List dust
  | stale, done, [] => stale.reverse ++ done.reverse
  | stale, done, [band] =>
    let r := sweep_band r_inner r_outer mass crit_mass stale done band none
    r.1.reverse ++ r.2.1.reverse
  | stale, done, band :: next_band :: after =>
    let r := sweep_band r_inner r_outer mass crit_mass stale done band (some next_band)
    if r.2.2 then update_bands r_inner r_outer mass crit_mass r.1 r.2.1 after
    else update_bands r_inner r_outer mass crit_mass r.1 r.2.1 (next_band :: after)

/-- accrete.c `collect_dust`, called with the global `dust_head` as its last
argument (the only call there is). `none` is the `exit(1)` taken when
`r_inner < 0`; otherwise the result is the returned mass and the cloud as
walked from the global `dust_head` afterwards. `dust_density` is the global
variable of that name. -/
def collect_dust (M : Libm) (dust_density mass a e crit_mass : ℚ) (dust_head : List dust) :
    Option (ℚ × List dust) :=
  let reduced_mass := power M (mass / (1.0 + mass)) 0.25
  let r_inner := inner_effect_limit a e reduced_mass
  let r_outer := outer_effect_limit a e reduced_mass
  if r_inner < 0.0 then none
  else
    some (accumulate_mass M dust_density r_inner r_outer reduced_mass mass a e crit_mass
            mass dust_head,
          update_bands r_inner r_outer mass crit_mass [] [] dust_head)

/-! ## Well-formed clouds -/

/-- A cloud is ordered and non-overlapping: every band has
`inner_edge ≤ outer_edge`, and the outer edge of a band is at most the inner
edge of the band after it. -/
def cloud_ordered (cloud : List dust) : Prop :=
  (∀ band ∈ cloud, band.inner_edge ≤ band.outer_edge)
    ∧ cloud.Chain' (fun band next_band => band.outer_edge ≤ next_band.inner_edge)

/-- Every band of the list has `inner_edge ≤ outer_edge`. -/
def bands_valid (cloud : List dust) : Prop :=
  ∀ band ∈ cloud, band.inner_edge ≤ band.outer_edge

instance (cloud : List dust) : Decidable (bands_valid cloud) :=
  inferInstanceAs (Decidable (∀ band ∈ cloud, _))

/-- The sum of the widths `outer_edge - inner_edge` of the bands. -/
def total_width (cloud : List dust) : ℚ :=
  (cloud.map (fun band => band.outer_edge - band.inner_edge)).sum

instance (cloud : List dust) : Decidable (cloud_ordered cloud) :=
  inferInstanceAs (Decidable (_ ∧ _))


/-- The closed intervals `[band.inner_edge, band.outer_edge]` and
`[inside, outside]` have a point in common. -/
def band_intersects (band : dust) (inside outside : ℚ) : Prop :=
  band.inner_edge ≤ outside ∧ inside ≤ band.outer_edge

instance (band : dust) (inside outside : ℚ) : Decidable (band_intersects band inside outside) :=
  inferInstanceAs (Decidable (_ ∧ _))

/-- The band at which the first loop of `dust_available` stops: the first band
whose `outer_edge` is not below `inside_range`. -/
def first_reached (inside_range : ℚ) (cloud : List dust) : Option dust :=
  cloud.find? (fun band => decide (inside_range ≤ band.outer_edge))

/-- A table of exact values of the C library functions, for the concrete runs
below: `pow(x, 2) = x * x`, `pow(1/16, 0.25) = 1/2`, `pow(81/256, 0.25) = 3/4`,
`pow(1/10000, 0.25) = 1/10`, `pow(0, 0.25) = 0`, `sqrt(1/4) = 1/2`,
`sqrt(1) = 1`, `sqrt(4) = 2`, `sqrt(9/4) = 3/2`, `sqrt(0) = 0`. Elsewhere the
entries are placeholders (0). -/
def table_libm : Libm where
  pow := fun x y =>
    if y = 2 then x * x
    else if y = 1/4 ∧ x = 1/16 then 1/2
    else if y = 1/4 ∧ x = 81/256 then 3/4
    else if y = 1/4 ∧ x = 1/10000 then 1/10
    else 0
  sqrt := fun x =>
    if x = 1/4 then 1/2 else if x = 1 then 1 else if x = 4 then 2
    else if x = 9/4 then 3/2 else 0
  exp := fun _ => 0

/-- A band of `collect_dust` that is not skipped: it holds gas, overlaps the
range of effect, and holds dust unless the body is at or above the critical
mass. -/
def band_eligible (r_inner r_outer mass crit_mass : ℚ) (band : dust) : Prop :=
  band.gas_present = true ∧ r_inner < band.outer_edge ∧ band.inner_edge < r_outer
    ∧ (mass < crit_mass → band.dust_present = true)

instance (r_inner r_outer mass crit_mass : ℚ) (band : dust) :
    Decidable (band_eligible r_inner r_outer mass crit_mass band) :=
  inferInstanceAs (Decidable (_ ∧ _ ∧ _ ∧ _))

/-- The ways one pass through the body of the second loop of `collect_dust`
can go, each with the conditions under which the code takes it. This is
`sweep_band` read as a relation (`sweep_band_step` below). -/
inductive band_step (r_inner r_outer mass crit_mass : ℚ) (stale done : List dust)
    (band : dust) (next_band : Option dust) : List dust × List dust × Bool → Prop
  | skip (h : band_skipped r_inner r_outer mass crit_mass band = true) :
      band_step r_inner r_outer mass crit_mass stale done band next_band
        (stale, band :: done, false)
  | split_gas (h : band_eligible r_inner r_outer mass crit_mass band)
      (h1 : r_outer ≤ band.outer_edge) (h2 : band.inner_edge ≤ r_inner)
      (hm : mass < crit_mass) :
      band_step r_inner r_outer mass crit_mass stale done band next_band
        (stale, ⟨r_outer, band.outer_edge, band.dust_present, band.gas_present⟩
          :: ⟨r_inner, r_outer, false, true⟩
          :: { band with outer_edge := r_inner } :: done, false)
  | split (h : band_eligible r_inner r_outer mass crit_mass band)
      (h1 : r_outer ≤ band.outer_edge) (h2 : band.inner_edge ≤ r_inner)
      (hm : crit_mass ≤ mass) :
      band_step r_inner r_outer mass crit_mass stale done band next_band
        (stale, ⟨r_outer, band.outer_edge, band.dust_present, band.gas_present⟩
          :: { band with outer_edge := r_inner } :: done, false)
  | free_head (h : band_eligible r_inner r_outer mass crit_mass band)
      (h1 : band.outer_edge < r_outer) (h2 : r_inner < band.inner_edge)
      (hm : crit_mass ≤ mass) (hd : done = []) :
      band_step r_inner r_outer mass crit_mass stale done band next_band
        (band :: stale, [], false)
  | free (h : band_eligible r_inner r_outer mass crit_mass band)
      (h1 : band.outer_edge < r_outer) (h2 : r_inner < band.inner_edge)
      (hm : crit_mass ≤ mass) (hd : done ≠ []) :
      band_step r_inner r_outer mass crit_mass stale done band next_band
        (stale, done, false)
  | clear (h : band_eligible r_inner r_outer mass crit_mass band)
      (h1 : band.outer_edge < r_outer) (h2 : r_inner < band.inner_edge)
      (hm : mass < crit_mass) :
      band_step r_inner r_outer mass crit_mass stale done band next_band
        (stale, { band with dust_present := false } :: done, false)
  | cut_inner (h : band_eligible r_inner r_outer mass crit_mass band)
      (h1 : r_outer ≤ band.outer_edge) (h2 : r_inner < band.inner_edge)
      (hm : crit_mass ≤ mass) :
      band_step r_inner r_outer mass crit_mass stale done band next_band
        (stale, { band with inner_edge := r_outer } :: done, false)
  | merge_prev (h : band_eligible r_inner r_outer mass crit_mass band)
      (h1 : r_outer ≤ band.outer_edge) (h2 : r_inner < band.inner_edge)
      (hm : mass < crit_mass) (prev_band : dust) (before : List dust)
      (hd : done = prev_band :: before)
      (hp : prev_band.dust_present = false ∧ prev_band.outer_edge = band.inner_edge) :
      band_step r_inner r_outer mass crit_mass stale done band next_band
        (stale, { band with inner_edge := r_outer }
          :: { prev_band with outer_edge := r_outer } :: before, false)
  | gas_before (h : band_eligible r_inner r_outer mass crit_mass band)
      (h1 : r_outer ≤ band.outer_edge) (h2 : r_inner < band.inner_edge)
      (hm : mass < crit_mass) (prev_band : dust) (before : List dust)
      (hd : done = prev_band :: before)
      (hp : ¬ (prev_band.dust_present = false ∧ prev_band.outer_edge = band.inner_edge)) :
      band_step r_inner r_outer mass crit_mass stale done band next_band
        (stale, { band with inner_edge := r_outer }
          :: ⟨band.inner_edge, r_outer, false, true⟩ :: done, false)
  | gas_lost (h : band_eligible r_inner r_outer mass crit_mass band)
      (h1 : r_outer ≤ band.outer_edge) (h2 : r_inner < band.inner_edge)
      (hm : mass < crit_mass) (hd : done = []) :
      band_step r_inner r_outer mass crit_mass stale done band next_band
        (stale, [{ band with inner_edge := r_outer }], false)
  | cut_outer (h : band_eligible r_inner r_outer mass crit_mass band)
      (h1 : band.outer_edge < r_outer) (h2 : band.inner_edge ≤ r_inner)
      (hm : crit_mass ≤ mass) :
      band_step r_inner r_outer mass crit_mass stale done band next_band
        (stale, { band with outer_edge := r_inner } :: done, false)
  | merge_next (h : band_eligible r_inner r_outer mass crit_mass band)
      (h1 : band.outer_edge < r_outer) (h2 : band.inner_edge ≤ r_inner)
      (hm : mass < crit_mass) (next : dust) (hn : next_band = some next)
      (hp : next.dust_present = false ∧ next.inner_edge = band.outer_edge) :
      band_step r_inner r_outer mass crit_mass stale done band next_band
        (stale, { next with inner_edge := r_inner }
          :: { band with outer_edge := r_inner } :: done, true)
  | gas_after (h : band_eligible r_inner r_outer mass crit_mass band)
      (h1 : band.outer_edge < r_outer) (h2 : band.inner_edge ≤ r_inner)
      (hm : mass < crit_mass)
      (hp : ∀ next, next_band = some next →
        ¬ (next.dust_present = false ∧ next.inner_edge = band.outer_edge)) :
      band_step r_inner r_outer mass crit_mass stale done band next_band
        (stale, ⟨r_inner, band.outer_edge, false, true⟩
          :: { band with outer_edge := r_inner } :: done, false)

/-- What the theorems below assume of the C library when they need it:
`pow` of a non-negative base is non-negative, `pow` of a base in `[0, 1)` with
a positive exponent is below 1, and `sqrt` of a non-negative number is
non-negative. -/
structure libm_facts (M : Libm) : Prop where
  pow_nonneg : ∀ x y, 0 ≤ x → 0 ≤ M.pow x y
  pow_lt_one : ∀ x y, 0 ≤ x → x < 1 → 0 < y → M.pow x y < 1
  sqrt_nonneg : ∀ x, 0 ≤ x → 0 ≤ M.sqrt x

/-- The clouds that `set_initial_conditions(inner, outer)` followed by any
number of `collect_dust` sweeps with `a > 0`, `0 ≤ e < 1` and `mass ≥ 0` can
leave behind (sweeps that exit leave none). -/
inductive sweep_reachable (M : Libm) (inner outer : ℚ) : List dust → Prop
  | init : sweep_reachable M inner outer (set_initial_conditions inner outer)
  | sweep {cloud cloud1 : List dust} {dust_density mass a e crit_mass : ℚ}
      (h : sweep_reachable M inner outer cloud)
      (ha : 0 < a) (he0 : 0 ≤ e) (he1 : e < 1) (hm : 0 ≤ mass)
      (hc : (collect_dust M dust_density mass a e crit_mass cloud).map Prod.snd
        = some cloud1) :
      sweep_reachable M inner outer cloud1

/-- The bands of the list are contiguous, the first starts at `lo` and the
last ends at `hi` (for the empty list: `lo = hi`). -/
def spans : ℚ → ℚ → List dust → Prop
  | lo, hi, [] => lo = hi
  | lo, hi, band :: rest => band.inner_edge = lo ∧ spans band.outer_edge hi rest

/-- The sweep takes case 3 of `collect_dust` for the first band of the cloud:
the band is not skipped, and the range of effect starts below its inner edge
and ends at or before its outer edge. -/
def cuts_first_band (r_inner r_outer mass crit_mass : ℚ) : List dust → Prop
  | [] => False
  | band :: _ =>
    band_eligible r_inner r_outer mass crit_mass band
      ∧ r_outer ≤ band.outer_edge ∧ r_inner < band.inner_edge

instance (r_inner r_outer mass crit_mass : ℚ) :
    (cloud : List dust) → Decidable (cuts_first_band r_inner r_outer mass crit_mass cloud)
  | [] => inferInstanceAs (Decidable False)
  | _ :: _ => inferInstanceAs (Decidable (_ ∧ _ ∧ _))

/-- The clouds that `set_initial_conditions(inner, outer)` followed by any
number of `collect_dust` sweeps below the critical mass can leave behind, when
no sweep takes case 3 for the first band of the cloud. -/
inductive dust_sweep_reachable (M : Libm) (inner outer : ℚ) : List dust → Prop
  | init : dust_sweep_reachable M inner outer (set_initial_conditions inner outer)
  | sweep {cloud cloud1 : List dust} {dust_density mass a e crit_mass : ℚ}
      (h : dust_sweep_reachable M inner outer cloud)
      (hm : mass < crit_mass)
      (hcut : ¬ cuts_first_band
        (inner_effect_limit a e (power M (mass / (1.0 + mass)) 0.25))
        (outer_effect_limit a e (power M (mass / (1.0 + mass)) 0.25))
        mass crit_mass cloud)
      (hc : (collect_dust M dust_density mass a e crit_mass cloud).map Prod.snd
        = some cloud1) :
      dust_sweep_reachable M inner outer cloud1

/-! ## accrete.c: the planet list -/

/-- accrete.c `sorted_list_insert`: the list the returned pointer leads to. -/
def sorted_list_insert : List planets → planets → List planets
  | [], planet => [planet]
  | node :: rest, planet =>
    if node.a > planet.a then planet :: node :: rest
    else node :: sorted_list_insert rest planet

/-- The variable `separation` of `find_collision` for the node `node`. -/
def separation (a : ℚ) (node : planets) : ℚ := node.a - a

/-- The variable `dist1` of `find_collision` for the node `node`. The global
`reduced_mass` has just been set from the mass of `node`. -/
def collision_dist1 (M : Libm) (a e : ℚ) (node : planets) : ℚ :=
  let reduced_mass := power M (node.mass / (1.0 + node.mass)) 0.25
  if separation a node > 0.0 then (a * (1.0 + e) * (1.0 + reduced_mass)) - a
  else a - (a * (1.0 - e) * (1.0 - reduced_mass))

/-- The variable `dist2` of `find_collision` for the node `node`. -/
def collision_dist2 (M : Libm) (a : ℚ) (node : planets) : ℚ :=
  let reduced_mass := power M (node.mass / (1.0 + node.mass)) 0.25
  if separation a node > 0.0 then node.a - (node.a * (1.0 - node.e) * (1.0 - reduced_mass))
  else (node.a * (1.0 + node.e) * (1.0 + reduced_mass)) - node.a

/-- The test of `find_collision` that decides that `node` and the body at
`(a, e)` should collide. -/
def in_collision (M : Libm) (a e : ℚ) (node : planets) : Prop :=
  |separation a node| ≤ |collision_dist1 M a e node|
    ∨ |separation a node| ≤ |collision_dist2 M a node|

instance (M : Libm) (a e : ℚ) (node : planets) : Decidable (in_collision M a e node) :=
  inferInstanceAs (Decidable (_ ∨ _))

/-- The loop of `find_collision` from the node at position `i` on, with the
current `closest_neighbor` (a position in the list, `none` for `NULL`) and
`closest_approach`. -/
def find_collision_loop (M : Libm) (a e : ℚ) :
    List planets → Nat → Option Nat → ℚ → Option Nat
  | [], _, closest_neighbor, _ => closest_neighbor
  | node :: rest, i, closest_neighbor, closest_approach =>
    if in_collision M a e node then
      match closest_neighbor with
      | some k =>
        if |separation a node| < closest_approach then
          find_collision_loop M a e rest (i + 1) (some i) |separation a node|
        else find_collision_loop M a e rest (i + 1) (some k) closest_approach
      | none => find_collision_loop M a e rest (i + 1) (some i) |separation a node|
    else find_collision_loop M a e rest (i + 1) closest_neighbor closest_approach

/-- accrete.c `find_collision`: the position in the list of the node the
returned pointer points to, `none` for `NULL`. -/
def find_collision (M : Libm) (head : List planets) (a e : ℚ) : Option Nat :=
  find_collision_loop M a e head 0 none 0.0

/-- The result of running a function of the program: it returned, it called
`exit(1)`, or the number of loop iterations the embedding was given ran out
(which is not an outcome of the C code). -/
inductive Outcome (α : Type) where
  | value : α → Outcome α
  | exited : Outcome α
  | unfinished : Outcome α

/-- The global variables of accrete.c that outlive a call (`r_inner`,
`r_outer` and `reduced_mass` are written before each use), and the star
records that the `star_ptr` handles of the planet list refer to. -/
structure globals where
  planet_head : List planets
  dust_head : List dust
  dust_left : Bool
  dust_density : ℚ
  star_heap : List stars

/-- The `do ... while` loop of `accrete_dust`, run for at most `fuel` sweeps:
the final `new_mass` and the cloud. -/
def accrete_loop (M : Libm) (dust_density a e crit_mass : ℚ) :
    Nat → ℚ → List dust → Outcome (ℚ × List dust)
  | 0, _, _ => Outcome.unfinished
  | fuel + 1, new_mass, dust_head =>
    match collect_dust M dust_density new_mass a e crit_mass dust_head with
    | none => Outcome.exited
    | some (swept_mass, cloud) =>
      if (swept_mass - new_mass) > (0.001 * new_mass) then
        accrete_loop M dust_density a e crit_mass fuel swept_mass cloud
      else Outcome.value (swept_mass, cloud)

/-- accrete.c `accrete_dust`: the returned mass and the globals afterwards. -/
def accrete_dust (M : Libm) (fuel : Nat) (g : globals) (mass a e crit_mass : ℚ) :
    Outcome (ℚ × globals) :=
  match accrete_loop M g.dust_density a e crit_mass fuel mass g.dust_head with
  | Outcome.value (new_mass, cloud) =>
    Outcome.value (new_mass,
      { g with dust_head := cloud, dust_left := cloud.any (fun band => band.dust_present) })
  | Outcome.exited => Outcome.exited
  | Outcome.unfinished => Outcome.unfinished

/-- accrete.c `collide_planets`, for the node at position `node` of the planet
list, in a run with `flag_verbose == 0`. A `STAR` node is expected to carry a
`star_ptr`; without one there is no star record to update. -/
def collide_planets (M : Libm) (fuel : Nat) (g : globals) (a e mass : ℚ) (node : Nat)
    (stell_luminosity_ratio : ℚ) : Outcome globals :=
  match g.planet_head[node]? with
  | none => Outcome.value g
  | some n =>
    let new_orbit := (n.mass + mass) / ((n.mass / n.a) + (mass / a))
    let temp := n.mass * M.sqrt n.a * M.sqrt (1.0 - power M n.e 2.0)
    let temp := temp + (mass * M.sqrt a * M.sqrt (M.sqrt (1.0 - power M e 2.0)))
    let temp := temp / ((n.mass + mass) * M.sqrt new_orbit)
    let temp := 1.0 - power M temp 2.0
    let temp := if temp < 0.0 ∨ temp ≥ 1.0 then 0.0 else temp
    let e := M.sqrt temp
    let temp := n.mass + mass
    match accrete_dust M fuel g temp new_orbit e stell_luminosity_ratio with
    | Outcome.value (temp, g1) =>
      let n1 : planets := { n with a := new_orbit, e := e, mass := temp }
      let star_heap :=
        if n1.mass_type = STAR then
          match n1.star_ptr with
          | some s =>
            match g1.star_heap[s]? with
            | some star =>
              g1.star_heap.set s
                { star with orbit_radius := n1.a, stell_mass_ratio := n1.mass }
            | none => g1.star_heap
          | none => g1.star_heap
        else g1.star_heap
      Outcome.value
        { g1 with planet_head := g1.planet_head.set node n1, star_heap := star_heap }
    | Outcome.exited => Outcome.exited
    | Outcome.unfinished => Outcome.unfinished

/-- accrete.c `coalesce_planetesimals`. -/
def coalesce_planetesimals (M : Libm) (fuel : Nat) (g : globals)
    (a e mass crit_mass stell_luminosity_ratio : ℚ) (orbit_type : Int) : Outcome globals :=
  if mass ≤ TRIVIAL_MASS then Outcome.value g
  else
    match find_collision M g.planet_head a e with
    | some node => collide_planets M fuel g a e mass node stell_luminosity_ratio
    | none =>
      let new_planet : planets :=
        { mass_type := if mass ≥ crit_mass then GAS_GIANT else orbit_type,
          a := a, e := e, first_moon := none, mass := mass }
      Outcome.value { g with planet_head := sorted_list_insert g.planet_head new_planet }

/-- What the loop of `find_collision` has established after the nodes `pre`. -/
def collision_scan_inv (M : Libm) (a e : ℚ) (pre : List planets)
    (closest_neighbor : Option Nat) (closest_approach : ℚ) : Prop :=
  (closest_neighbor = none → ∀ n ∈ pre, ¬ in_collision M a e n)
  ∧ ∀ k : Nat, closest_neighbor = some k →
      ∃ x, pre[k]? = some x ∧ in_collision M a e x ∧ closest_approach = |separation a x|
        ∧ (∀ (j : Nat) y, pre[j]? = some y → in_collision M a e y →
            |separation a x| ≤ |separation a y|)
        ∧ (∀ (j : Nat) y, j < k → pre[j]? = some y → in_collision M a e y →
            |separation a x| < |separation a y|)

/-- What `find_collision` returns for the list `l`. -/
def collision_result (M : Libm) (a e : ℚ) (l : List planets) (r : Option Nat) : Prop :=
  (r = none ↔ ∀ n ∈ l, ¬ in_collision M a e n)
  ∧ ∀ i : Nat, r = some i →
      ∃ x, l[i]? = some x ∧ in_collision M a e x
        ∧ (∀ (j : Nat) y, l[j]? = some y → in_collision M a e y →
            |separation a x| ≤ |separation a y|)
        ∧ (∀ (j : Nat) y, j < i → l[j]? = some y → in_collision M a e y →
            |separation a x| < |separation a y|)


/-- The value a function returned, if it did return. -/
def Outcome.result {α : Type} : Outcome α → Option α
  | Outcome.value x => some x
  | Outcome.exited => none
  | Outcome.unfinished => none

/-- A state of the accretion process used in the concrete runs below: one
band `[1, 10]` with dust and gas, dust density 1, no planets. -/
def sweep_example : globals where
  planet_head := []
  dust_head := [⟨1, 10, true, true⟩]
  dust_left := true
  dust_density := 1
  star_heap := []

/-- A state of the accretion process used in the concrete runs below: a
companion star of 81/175 solar masses (reduced mass `3/4`) on a circular
orbit at 1 AU, a planet of 1/9999 solar masses (reduced mass `1/10`) on a
circular orbit at 2 AU, and a cloud whose dust is left beyond 6 AU. -/
def merge_example : globals where
  planet_head :=
    [{ a := 1, e := 0, mass := 81/175, mass_type := STAR, star_ptr := some 0 },
     { a := 2, e := 0, mass := 1/9999, mass_type := PLANET }]
  dust_head := [⟨1/5, 6, false, true⟩, ⟨6, 60, true, true⟩]
  dust_left := true
  dust_density := 1/500
  star_heap := [{ orbit_radius := 1, stell_mass_ratio := 81/175, planet_ptr := some 0 }]

/-- The sweep takes case 2 of `collect_dust` with `mass >= crit_mass` for the
first band of the cloud: the band is not skipped and lies strictly inside the
range of effect, so that it is freed while it is the first node of the list. -/
def frees_first_band (r_inner r_outer mass crit_mass : ℚ) : List dust → Prop
  | [] => False
  | band :: _ =>
    band_eligible r_inner r_outer mass crit_mass band
      ∧ band.outer_edge < r_outer ∧ r_inner < band.inner_edge ∧ crit_mass ≤ mass

instance (r_inner r_outer mass crit_mass : ℚ) :
    (cloud : List dust) → Decidable (frees_first_band r_inner r_outer mass crit_mass cloud)
  | [] => inferInstanceAs (Decidable False)
  | _ :: _ => inferInstanceAs (Decidable (_ ∧ _ ∧ _ ∧ _))

/-- The value `new_orbit` of `collide_planets` for the node `n` and the
incoming body. -/
def merged_orbit (n : planets) (a mass : ℚ) : ℚ :=
  (n.mass + mass) / ((n.mass / n.a) + (mass / a))

/-- The eccentricity `collide_planets` computes for the node `n` and the
incoming body `(a, e, mass)`: the value of its parameter `e` after
`e = sqrt(temp)`. -/
def merged_eccentricity (M : Libm) (n : planets) (a e mass : ℚ) : ℚ :=
  let new_orbit := (n.mass + mass) / ((n.mass / n.a) + (mass / a))
  let temp := n.mass * M.sqrt n.a * M.sqrt (1.0 - power M n.e 2.0)
  let temp := temp + (mass * M.sqrt a * M.sqrt (M.sqrt (1.0 - power M e 2.0)))
  let temp := temp / ((n.mass + mass) * M.sqrt new_orbit)
  let temp := 1.0 - power M temp 2.0
  let temp := if temp < 0.0 ∨ temp ≥ 1.0 then 0.0 else temp
  M.sqrt temp

/-- What the comment in `find_collision` says `dist1` is, "the distance over
which the new planet gravitationally attracts the existing planet": the
expression of the code with the reduced mass of the incoming body of mass
`mass` in place of the one of the node. -/
def spec_collision_dist1 (M : Libm) (a e mass : ℚ) (node : planets) : ℚ :=
  let reduced_mass := power M (mass / (1.0 + mass)) 0.25
  if separation a node > 0.0 then (a * (1.0 + e) * (1.0 + reduced_mass)) - a
  else a - (a * (1.0 - e) * (1.0 - reduced_mass))

/-- The collision test with `spec_collision_dist1` for `dist1`. -/
def spec_in_collision (M : Libm) (a e mass : ℚ) (node : planets) : Prop :=
  |separation a node| ≤ |spec_collision_dist1 M a e mass node|
    ∨ |separation a node| ≤ |collision_dist2 M a node|

instance (M : Libm) (a e mass : ℚ) (node : planets) :
    Decidable (spec_in_collision M a e mass node) :=
  inferInstanceAs (Decidable (_ ∨ _))

/-- The `do ... while` loop of `accrete_dust`, run for at most `fuel` sweeps,
with the values of the variables `mass` and `new_mass` when the loop is left
(`mass` is the mass the last sweep was given, `new_mass` the one it returned)
and the cloud. -/
def accrete_loop_vars (M : Libm) (dust_density a e crit_mass : ℚ) :
    Nat → ℚ → List dust → Outcome (ℚ × ℚ × List dust)
  | 0, _, _ => Outcome.unfinished
  | fuel + 1, new_mass, dust_head =>
    let mass := new_mass
    match collect_dust M dust_density new_mass a e crit_mass dust_head with
    | none => Outcome.exited
    | some (new_mass, cloud) =>
      if (new_mass - mass) > (0.001 * mass) then
        accrete_loop_vars M dust_density a e crit_mass fuel new_mass cloud
      else Outcome.value (mass, new_mass, cloud)

/-! ## utils.c: the random source -/

def ECCENTRICITY_COEFF : ℚ := 0.077
def DUST_DENSITY_COEFF : ℚ := 6.0e-3
def ALPHA : ℚ := 5.0
def N : ℚ := 3.0
def CM_PER_AU : ℚ := 1.495978707e13
def CM_PER_KM : ℚ := 1.0e5
def KM_PER_AU : ℚ := CM_PER_AU / CM_PER_KM

/-- utils.c `random_number`, where `rand` is the value the call of `rand()`
returns and `RAND_MAX` the constant of the platform. With equal bounds
`rand()` is not called. -/
def random_number (RAND_MAX rand : Nat) (bound1 bound2 : ℚ) : ℚ :=
  if bound1 > bound2 then
    ((rand : ℚ) / (RAND_MAX : ℚ)) * (bound1 - bound2) + bound2
  else if bound2 > bound1 then
    ((rand : ℚ) / (RAND_MAX : ℚ)) * (bound2 - bound1) + bound1
  else bound1

/-- The number of calls of `rand()` in `random_number(bound1, bound2)`. -/
def random_number_draws (bound1 bound2 : ℚ) : Nat :=
  if bound1 = bound2 then 0 else 1

/-- utils.c `random_eccentricity`. -/
def random_eccentricity (M : Libm) (RAND_MAX rand : Nat) : ℚ :=
  1.0 - power M (random_number RAND_MAX rand 0.0001 1.0) ECCENTRICITY_COEFF

/-! ## accrete.c: dist_masses -/

/-- accrete.c `stell_dust_limit`. -/
def stell_dust_limit (M : Libm) (mass_ratio dist_from_primary : ℚ) (central_mass : Int) : ℚ :=
  let norm_limit := 200.0 * power M mass_ratio (1.0 / 3.0)
  if central_mass = PLANET then
    let norm_limit := norm_limit / 125.0
    let primary_effect := power M dist_from_primary 2.0
    if primary_effect ≤ 1.0 then norm_limit * primary_effect else norm_limit
  else norm_limit

/-- accrete.c `nearest_body`. -/
def nearest_body (M : Libm) (mass_ratio : ℚ) : ℚ :=
  0.3 * power M mass_ratio (1.0 / 3.0)

/-- accrete.c `farthest_body`. -/
def farthest_body (M : Libm) (stell_mass_ratio : ℚ) : ℚ :=
  50.0 * power M stell_mass_ratio (1.0 / 3.0)

/-- accrete.c `roche_limit`. -/
def roche_limit (diameter : ℚ) : ℚ :=
  let dia_in_AU := diameter / KM_PER_AU
  2.44 * dia_in_AU

/-- accrete.c `critical_limit`. -/
def critical_limit (M : Libm) (orb_radius eccentricity stell_luminosity_ratio : ℚ) : ℚ :=
  let perihelion_dist := orb_radius - orb_radius * eccentricity
  let temp := perihelion_dist * M.sqrt stell_luminosity_ratio
  B * power M temp (-0.75)

/-- The search of `dist_masses` for the first band with dust still present
(`none` when it runs off the list, where the code exits). -/
def first_dust_band (dust_head : List dust) : Option dust :=
  dust_head.find? (fun band => band.dust_present)

/-- The value of `bound1` in `dist_masses` when `random_number` is called. -/
def trial_bound1 (band : dust) (planet_inner_bound : ℚ) : ℚ :=
  if band.inner_edge < planet_inner_bound then planet_inner_bound else band.inner_edge

/-- The value of `bound2` in `dist_masses` when `random_number` is called. -/
def trial_bound2 (band : dust) (planet_outer_bound : ℚ) : ℚ :=
  if band.outer_edge > planet_outer_bound then planet_outer_bound else band.outer_edge

/-- The value `a` of one iteration of the loop of `dist_masses`, for the
first band `band` with dust and the value `rand` of `rand()`. -/
def trial_location (RAND_MAX rand : Nat) (band : dust)
    (planet_inner_bound planet_outer_bound : ℚ) : ℚ :=
  random_number RAND_MAX rand (trial_bound1 band planet_inner_bound)
    (trial_bound2 band planet_outer_bound)

/-- The value `dust_density` is given in `dist_masses` for a body at `a`. -/
def trial_dust_density (M : Libm) (mass_ratio a : ℚ) (mass_type : Int) : ℚ :=
  let dust_density := DUST_DENSITY_COEFF * M.sqrt mass_ratio
    * M.exp (-ALPHA * power M a (1.0 / N))
  if mass_type = MOON then dust_density * 10.0 else dust_density

/-- One iteration of the `while (dust_left)` loop of `dist_masses`, where
`rand_e` and `rand_a` are the values of `rand()` in `random_eccentricity` and
in `random_number(bound1, bound2)`, and `sweeps` bounds the sweeps of each
call of `accrete_dust`. -/
def inject_trial (M : Libm) (RAND_MAX sweeps : Nat)
    (mass_ratio stell_luminosity_ratio : ℚ) (mass_type : Int)
    (planet_inner_bound planet_outer_bound : ℚ) (rand_e rand_a : Nat) (g : globals) :
    Outcome globals :=
  let e := random_eccentricity M RAND_MAX rand_e
  let mass := PROTOPLANET_MASS
  match first_dust_band g.dust_head with
  | none => Outcome.exited
  | some band =>
    if planet_inner_bound > planet_outer_bound then Outcome.exited
    else
      let a := trial_location RAND_MAX rand_a band planet_inner_bound planet_outer_bound
      let eff_inner_bound := inner_effect_limit a e mass
      let eff_outer_bound := outer_effect_limit a e mass
      if dust_available eff_inner_bound eff_outer_bound g.dust_head then
        let g0 := { g with dust_density := trial_dust_density M mass_ratio a mass_type }
        let crit_mass := critical_limit M a e stell_luminosity_ratio
        match accrete_dust M sweeps g0 mass a e crit_mass with
        | Outcome.value (mass, g1) =>
          if mass ≠ 0.0 ∧ mass ≠ PROTOPLANET_MASS then
            coalesce_planetesimals M sweeps g1 a e mass crit_mass stell_luminosity_ratio
              mass_type
          else Outcome.value g1
        | Outcome.exited => Outcome.exited
        | Outcome.unfinished => Outcome.unfinished
      else Outcome.value g

/-- The number of calls of `rand()` in one iteration of the loop of
`dist_masses` that does not exit. -/
def trial_draws (planet_inner_bound planet_outer_bound : ℚ) (g : globals) : Nat :=
  match first_dust_band g.dust_head with
  | none => 1
  | some band =>
    1 + random_number_draws (trial_bound1 band planet_inner_bound)
      (trial_bound2 band planet_outer_bound)

/-- The `while (dust_left)` loop of `dist_masses`, run for at most `fuel`
iterations. `rand k` is the value of the call number `k` of `rand()`, and
`calls` the number of calls so far. -/
def dist_masses_loop (M : Libm) (RAND_MAX : Nat) (rand : Nat → Nat) (sweeps : Nat)
    (mass_ratio stell_luminosity_ratio : ℚ) (mass_type : Int)
    (planet_inner_bound planet_outer_bound : ℚ) : Nat → Nat → globals → Outcome globals
  | 0, _, _ => Outcome.unfinished
  | fuel + 1, calls, g =>
    if g.dust_left then
      match inject_trial M RAND_MAX sweeps mass_ratio stell_luminosity_ratio mass_type
          planet_inner_bound planet_outer_bound (rand calls) (rand (calls + 1)) g with
      | Outcome.value g1 =>
        dist_masses_loop M RAND_MAX rand sweeps mass_ratio stell_luminosity_ratio mass_type
          planet_inner_bound planet_outer_bound fuel
          (calls + trial_draws planet_inner_bound planet_outer_bound g) g1
      | Outcome.exited => Outcome.exited
      | Outcome.unfinished => Outcome.unfinished
    else Outcome.value g

/-- The value of `planet_inner_bound` in `dist_masses`. -/
def planet_inner_bound (M : Libm) (mass_ratio : ℚ) (mass_type : Int) (radius : ℚ) : ℚ :=
  if mass_type = MOON then roche_limit (radius * 2.0) else nearest_body M mass_ratio

/-- The value of `dust_inner_bound` in `dist_masses` (for `PLANET` and for
`MOON`). -/
def dust_inner_bound (M : Libm) (mass_ratio : ℚ) (mass_type : Int) (radius : ℚ) : ℚ :=
  inner_effect_limit (planet_inner_bound M mass_ratio mass_type radius) 0.0 PROTOPLANET_MASS

/-- The value of `dust_outer_bound` in `dist_masses` (for `PLANET` and for
`MOON`). -/
def dust_outer_bound (M : Libm) (mass_ratio : ℚ) (mass_type : Int) (radius : ℚ) : ℚ :=
  let dust_outer_bound :=
    if mass_type = PLANET then stell_dust_limit M mass_ratio 0.0 STAR
    else stell_dust_limit M mass_ratio radius PLANET
  let temp1 := outer_effect_limit (farthest_body M mass_ratio) 0.0 PROTOPLANET_MASS
  if dust_outer_bound > temp1 then temp1 else dust_outer_bound

/-- accrete.c `dist_masses`, in a run with `flag_verbose == 0`: the globals
when it returns (`planet_head` is the list it returns). The globals `g` it
starts from matter for `dust_density` and the star records only. -/
def dist_masses (M : Libm) (RAND_MAX : Nat) (rand : Nat → Nat) (sweeps fuel : Nat)
    (g : globals) (mass_ratio stell_luminosity_ratio : ℚ) (mass_type : Int)
    (planet_list : List planets) (radius : ℚ) : Outcome globals :=
  let planet_head := if mass_type = MOON then [] else planet_list
  if mass_type = PLANET ∨ mass_type = MOON then
    dist_masses_loop M RAND_MAX rand sweeps mass_ratio stell_luminosity_ratio mass_type
      (planet_inner_bound M mass_ratio mass_type radius) (farthest_body M mass_ratio) fuel 0
      { g with
        planet_head := planet_head,
        dust_head := set_initial_conditions (dust_inner_bound M mass_ratio mass_type radius)
          (dust_outer_bound M mass_ratio mass_type radius),
        dust_left := true }
  else Outcome.exited

/-- Every band of the cloud still holds dust and starts at `lo` or beyond. -/
def dusty_above (lo : ℚ) (cloud : List dust) : Prop :=
  ∀ band ∈ cloud, band.dust_present = true ∧ lo ≤ band.inner_edge

/-- A stand-in for the C library under which every body is at or above its
critical mass and the cloud has no density: `pow(x, 2) = x * x`, `pow` with a
negative exponent is `1.0E-11`, other powers are `1/2` below 1 and `1` from 1
on; `sqrt` is 1 and `exp` is 0. Only the ranges of the values matter where it
is used. -/
def flat_libm : Libm where
  pow := fun x y =>
    if y = 2 then x * x
    else if y < 0 then 1/100000000000
    else if x < 1 then 1/2 else 1
  sqrt := fun _ => 1
  exp := fun _ => 0

/-- A state of `dist_masses` in which the loop goes on and the list the global
`dust_head` leads to is not empty, all dust, made of valid bands from `lo` on,
of total width `width` at most. -/
def all_dust_state (lo width : ℚ) (g : globals) : Prop :=
  g.dust_left = true ∧ g.dust_head ≠ [] ∧ dusty_above lo g.dust_head
    ∧ bands_valid g.dust_head ∧ total_width g.dust_head ≤ width

/-- Conditions on the star and the C library under which every protoplanet
starts at or above its critical mass and gains next to nothing: the cube root
of the mass ratio is positive; `pow(u, ECCENTRICITY_COEFF)` lies in `(0, 1]`
for `u` in `[0.0001, 1]`; for every orbit from the inner edge of the cloud on
and every eccentricity `random_eccentricity` can return, the critical mass is
positive and at most `PROTOPLANET_MASS`; and for every such orbit the dust
density is so low (not negative) that a sweep of the whole cloud gains at most
a thousandth of `PROTOPLANET_MASS`. -/
structure gas_from_start (M : Libm) (RAND_MAX : Nat)
    (mass_ratio stell_luminosity_ratio radius : ℚ) : Prop where
  cube_root_pos : 0 < power M mass_ratio (1.0 / 3.0)
  eccentricity_range : ∀ u : ℚ, 0.0001 ≤ u → u ≤ 1 →
    0 < M.pow u ECCENTRICITY_COEFF ∧ M.pow u ECCENTRICITY_COEFF ≤ 1
  critical_low : ∀ (a : ℚ) (r : Nat), dust_inner_bound M mass_ratio PLANET radius ≤ a →
    r ≤ RAND_MAX →
    0 < critical_limit M a (random_eccentricity M RAND_MAX r) stell_luminosity_ratio
      ∧ critical_limit M a (random_eccentricity M RAND_MAX r) stell_luminosity_ratio
          ≤ PROTOPLANET_MASS
  density_low : ∀ a : ℚ, dust_inner_bound M mass_ratio PLANET radius ≤ a →
    0 ≤ trial_dust_density M mass_ratio a PLANET
      ∧ 8 * PI * power M a 2 * K * trial_dust_density M mass_ratio a PLANET
          * (dust_outer_bound M mass_ratio PLANET radius
              - dust_inner_bound M mass_ratio PLANET radius)
        ≤ 0.001 * PROTOPLANET_MASS

/-- The value of the global `r_inner` in `collect_dust(mass, a, e, ...)`. -/
def effect_inner (M : Libm) (mass a e : ℚ) : ℚ :=
  inner_effect_limit a e (power M (mass / (1.0 + mass)) 0.25)

/-- The value of the global `r_outer` in `collect_dust(mass, a, e, ...)`. -/
def effect_outer (M : Libm) (mass a e : ℚ) : ℚ :=
  outer_effect_limit a e (power M (mass / (1.0 + mass)) 0.25)

/-- A state of the accretion process used in the concrete runs below: one
band `[1, 2]` with dust and gas, in a cloud so thin that a body of `1/15`
solar masses at or above its critical mass `1/60` gains `1/30000` from it. -/
def covered_example : globals where
  planet_head := []
  dust_head := [⟨1, 2, true, true⟩]
  dust_left := true
  dust_density := 51 / (24000000 * PI)
  star_heap := []

def EARTH_ALBEDO : ℚ := 0.3
def KM_EARTH_RADIUS : ℚ := 6378.0
def WATER_VAPOR : ℚ := 18.0
def EARTH_WATER_MASS_PER_AREA : ℚ := 3.83e15
def Q2_36 : ℚ := 0.0698
def CLOUD_COVERAGE_FACTOR : ℚ := 1.839e-8
def EARTH_EFFECTIVE_TEMP : ℚ := 255.0
def EARTH_CONVECTION_FACTOR : ℚ := 0.43
def EARTH_SURF_PRES_IN_MILLIBARS : ℚ := 1000.0
def FREEZING_POINT_OF_WATER : ℚ := 273.0
def CLOUD_ALBEDO : ℚ := 0.52
def ROCKY_AIRLESS_ALBEDO : ℚ := 0.07
def ROCKY_ALBEDO : ℚ := 0.15
def WATER_ALBEDO : ℚ := 0.04
def AIRLESS_ICE_ALBEDO : ℚ := 0.5
def ICE_ALBEDO : ℚ := 0.7
def TEMP_ITERATION_LIMIT : Nat := 101

/-- The constant `DBL_MAX` of `float.h` for IEEE doubles. In the exact
arithmetic of the embedding sums can exceed it. -/
def DBL_MAX : ℚ := 2 ^ 1024 - 2 ^ 971

/-- utils.c `about`, for the value `rand` of its call of `rand()`. -/
def about (RAND_MAX rand : Nat) (value variation : ℚ) : ℚ :=
  value + (value * random_number RAND_MAX rand (-variation) variation)

/-- enviro.c `hydro_fraction`. -/
def hydro_fraction (M : Libm) (volatile_gas_inventory planet_radius : ℚ) : ℚ :=
  let temp := (0.71 * volatile_gas_inventory / 1000.0)
    * power M (KM_EARTH_RADIUS / planet_radius) 2.0
  if temp ≥ 1.0 then 1.0 else temp

/-- enviro.c `cloud_fraction`. -/
def cloud_fraction (M : Libm) (surf_temp smallest_MW_retained equat_radius hyd_fraction : ℚ) :
    ℚ :=
  if smallest_MW_retained > WATER_VAPOR then 0.0
  else
    let surf_area := 4.0 * PI * power M equat_radius 2.0
    let hydro_mass := hyd_fraction * surf_area * EARTH_WATER_MASS_PER_AREA
    let water_vapor_in_kg := (0.00000001 * hydro_mass) * M.exp (Q2_36 * (surf_temp - 288.0))
    let fraction := CLOUD_COVERAGE_FACTOR * water_vapor_in_kg / surf_area
    if fraction ≥ 1.0 then 1.0 else fraction

/-- enviro.c `ice_fraction`. -/
def ice_fraction (M : Libm) (hyd_fraction surf_temp : ℚ) : ℚ :=
  let surf_temp := if surf_temp > 328.0 then 328.0 else surf_temp
  let temp := power M ((328.0 - surf_temp) / 90.0) 5.0
  let temp := if temp > (1.5 * hyd_fraction) then (1.5 * hyd_fraction) else temp
  if temp ≥ 1.0 then 1.0 else temp

/-- enviro.c `eff_temp`. -/
def eff_temp (M : Libm) (ecosphere_radius orb_radius albedo : ℚ) : ℚ :=
  M.sqrt (ecosphere_radius / orb_radius) * power M ((1.0 - albedo) / 0.7) 0.25
    * EARTH_EFFECTIVE_TEMP

/-- enviro.c `green_rise`. -/
def green_rise (M : Libm) (optical_depth effective_temp surf_pressure : ℚ) : ℚ :=
  let convection_factor := EARTH_CONVECTION_FACTOR
    * power M (surf_pressure / EARTH_SURF_PRES_IN_MILLIBARS) 0.25
  (power M (1.0 + 0.75 * optical_depth) 0.25 - 1.0) * effective_temp * convection_factor

/-- enviro.c `planet_albedo`, where `rand1` to `rand4` are the values of its
four calls of `rand()` (one in each call of `about`), in the order of the
calls. -/
def planet_albedo (RAND_MAX rand1 rand2 rand3 rand4 : Nat)
    (water_fraction cld_fraction ice_frc surf_pressure : ℚ) : ℚ :=
  let rock_fraction := 1.0 - water_fraction - ice_frc
  let components : ℚ := 0.0
  let components := if water_fraction > 0.0 then components + 1.0 else components
  let components := if ice_frc > 0.0 then components + 1.0 else components
  let components := if rock_fraction > 0.0 then components + 1.0 else components
  let cloud_adjustment := cld_fraction / components
  let rock_fraction :=
    if rock_fraction ≥ cloud_adjustment then rock_fraction - cloud_adjustment else 0.0
  let water_fraction :=
    if water_fraction > cloud_adjustment then water_fraction - cloud_adjustment else 0.0
  let ice_frc := if ice_frc > cloud_adjustment then ice_frc - cloud_adjustment else 0.0
  let cloud_part := cld_fraction * about RAND_MAX rand1 CLOUD_ALBEDO 0.2
  let rock_part :=
    if surf_pressure = 0.0 then rock_fraction * about RAND_MAX rand2 ROCKY_AIRLESS_ALBEDO 0.3
    else rock_fraction * about RAND_MAX rand2 ROCKY_ALBEDO 0.1
  let water_part := water_fraction * about RAND_MAX rand3 WATER_ALBEDO 0.2
  let ice_part :=
    if surf_pressure = 0.0 then ice_frc * about RAND_MAX rand4 AIRLESS_ICE_ALBEDO 0.4
    else ice_frc * about RAND_MAX rand4 ICE_ALBEDO 0.1
  cloud_part + rock_part + water_part + ice_part

/-- enviro.c `opacity`. -/
def opacity (molecular_weight surf_pressure : ℚ) : ℚ :=
  let optical_depth : ℚ := 0.0
  let optical_depth :=
    if molecular_weight ≥ 0.0 ∧ molecular_weight < 10.0 then optical_depth + 3.0
    else optical_depth
  let optical_depth :=
    if molecular_weight ≥ 10.0 ∧ molecular_weight < 20.0 then optical_depth + 2.34
    else optical_depth
  let optical_depth :=
    if molecular_weight ≥ 20.0 ∧ molecular_weight < 30.0 then optical_depth + 1.0
    else optical_depth
  let optical_depth :=
    if molecular_weight ≥ 30.0 ∧ molecular_weight < 45.0 then optical_depth + 0.15
    else optical_depth
  let optical_depth :=
    if molecular_weight ≥ 45.0 ∧ molecular_weight < 100.0 then optical_depth + 0.05
    else optical_depth
  if surf_pressure ≥ (70.0 * EARTH_SURF_PRES_IN_MILLIBARS) then optical_depth * 8.333
  else if surf_pressure ≥ (50.0 * EARTH_SURF_PRES_IN_MILLIBARS) then optical_depth * 6.666
  else if surf_pressure ≥ (30.0 * EARTH_SURF_PRES_IN_MILLIBARS) then optical_depth * 3.333
  else if surf_pressure ≥ (10.0 * EARTH_SURF_PRES_IN_MILLIBARS) then optical_depth * 2.0
  else if surf_pressure ≥ (5.0 * EARTH_SURF_PRES_IN_MILLIBARS) then optical_depth * 1.5
  else optical_depth

/-- The local variables of `iterate_surface_temp` that its loop writes. The
ones the code leaves uninitialised start at 0. -/
structure surface_vars where
  effective_temp : ℚ := 0
  greenhs_rise : ℚ := 0
  previous_temp : ℚ := 0
  albedo : ℚ := EARTH_ALBEDO
  eff_water : ℚ := 0
  clouds : ℚ := 0
  ice : ℚ := 0
  new_temp : ℚ := 0.0
  counter : Nat := 0

/-- One pass through the body of the `do ... while` loop of
`iterate_surface_temp`. `rand k` is the value of the call number `k` of
`rand()` since the function was entered; a pass calls it four times. -/
def surface_pass (M : Libm) (RAND_MAX : Nat) (rand : Nat → Nat) (planet : planets)
    (r_ecosphere water optical_depth : ℚ) (v : surface_vars) : surface_vars :=
  let effective_temp := eff_temp M r_ecosphere planet.a v.albedo
  let previous_temp := if v.counter = 0 then effective_temp else v.new_temp
  let greenhs_rise := green_rise M optical_depth effective_temp planet.surf_pressure
  let overflow : Prop := effective_temp + greenhs_rise > DBL_MAX
  let new_temp := if overflow then DBL_MAX else effective_temp + greenhs_rise
  let clouds := cloud_fraction M new_temp planet.molec_weight planet.radius water
  let ice := ice_fraction M water new_temp
  let eff_water :=
    if new_temp ≥ planet.boil_point ∨ new_temp ≤ FREEZING_POINT_OF_WATER then 0.0 else water
  let albedo := planet_albedo RAND_MAX (rand (4 * v.counter)) (rand (4 * v.counter + 1))
    (rand (4 * v.counter + 2)) (rand (4 * v.counter + 3)) eff_water clouds ice
    planet.surf_pressure
  { effective_temp := if overflow then DBL_MAX else effective_temp,
    greenhs_rise := if overflow then 0.0 else greenhs_rise,
    previous_temp := previous_temp,
    albedo := albedo,
    eff_water := eff_water,
    clouds := clouds,
    ice := ice,
    new_temp := new_temp,
    counter := v.counter + 1 }

/-- The `do ... while` loop of `iterate_surface_temp`, run for at most `fuel`
passes. -/
def surface_loop (M : Libm) (RAND_MAX : Nat) (rand : Nat → Nat) (planet : planets)
    (r_ecosphere water optical_depth : ℚ) : Nat → surface_vars → Outcome surface_vars
  | 0, _ => Outcome.unfinished
  | fuel + 1, v =>
    let v1 := surface_pass M RAND_MAX rand planet r_ecosphere water optical_depth v
    if |v1.new_temp - v1.previous_temp| > 1.0 ∧ v1.counter < TEMP_ITERATION_LIMIT then
      surface_loop M RAND_MAX rand planet r_ecosphere water optical_depth fuel v1
    else Outcome.value v1

/-- enviro.c `iterate_surface_temp`: the planet afterwards. -/
def iterate_surface_temp (M : Libm) (RAND_MAX : Nat) (rand : Nat → Nat) (fuel : Nat)
    (planet : planets) (r_ecosphere : ℚ) : Outcome planets :=
  let water := hydro_fraction M planet.volatile_gas_inventory planet.radius
  let optical_depth := opacity planet.molec_weight planet.surf_pressure
  match surface_loop M RAND_MAX rand planet r_ecosphere water optical_depth fuel {} with
  | Outcome.value v =>
    Outcome.value
      { planet with
        hydrosphere := v.eff_water, cloud_cover := v.clouds, ice_cover := v.ice,
        albedo := v.albedo, surf_temp := v.new_temp }
  | Outcome.exited => Outcome.exited
  | Outcome.unfinished => Outcome.unfinished

/-! ## accrete.c: init_planet_list -/

/-- The planet record `init_planet_list` fills in for the star number `i` of
the star list, for the value `rand` of the call of `rand()` in
`random_eccentricity`. `star_ptr` is the number of the star. The fields the
code does not assign are the defaults of the embedding. -/
def star_node (M : Libm) (RAND_MAX rand : Nat) (i : Nat) (star : stars) : planets :=
  { mass_type := STAR, a := star.orbit_radius, mass := star.stell_mass_ratio,
    e := random_eccentricity M RAND_MAX rand, star_ptr := some i }

/-- The loop of `init_planet_list` from the star number `i` on, with the
planet list built so far. `rand i` is the value of `rand()` for star `i`. -/
def init_planet_loop (M : Libm) (RAND_MAX : Nat) (rand : Nat → Nat) :
    Nat → List stars → List planets → List planets
  | _, [], planet_list_head => planet_list_head
  | i, star :: rest, planet_list_head =>
    init_planet_loop M RAND_MAX rand (i + 1) rest
      (sorted_list_insert planet_list_head (star_node M RAND_MAX (rand i) i star))

/-- The position in the planet list of the first node whose `star_ptr` is the
star number `i`. -/
def node_position (i : Nat) : List planets → Option Nat
  | [] => none
  | node :: rest =>
    if node.star_ptr = some i then some 0 else (node_position i rest).map (fun p => p + 1)

/-- The star records after `init_planet_list`: the `planet_ptr` of the star
number `i` points to the node made for it, given as the position of that node
in the list the function returns. -/
def link_stars (planet_list : List planets) : Nat → List stars → List stars
  | _, [] => []
  | i, star :: rest =>
    { star with planet_ptr := node_position i planet_list }
      :: link_stars planet_list (i + 1) rest

/-- accrete.c `init_planet_list`: the planet list it returns and the star
list afterwards. -/
def init_planet_list (M : Libm) (RAND_MAX : Nat) (rand : Nat → Nat) (star_head : List stars) :
    List planets × List stars :=
  let planet_list_head := init_planet_loop M RAND_MAX rand 0 star_head []
  (planet_list_head, link_stars planet_list_head 0 star_head)

/-- The nodes `init_planet_list` makes, in the order of the star list, from
the star number `i` on. -/
def star_nodes (M : Libm) (RAND_MAX : Nat) (rand : Nat → Nat) : Nat → List stars → List planets
  | _, [] => []
  | i, star :: rest =>
    star_node M RAND_MAX (rand i) i star :: star_nodes M RAND_MAX rand (i + 1) rest

/-! ## accrete.c: check_planets -/

/-- The loop of `check_planets` from the node at position `i` on: the
positions of the nodes it frees. No statement of the loop writes a
`next_planet` link. -/
def check_planets_loop (M : Libm) (r_ecosphere star_radius : ℚ) : Nat → List planets → List Nat
  | _, [] => []
  | i, planet :: rest =>
    let temperature := eff_temp M r_ecosphere planet.a ROCKY_AIRLESS_ALBEDO
    if planet.a ≤ star_radius then
      i :: check_planets_loop M r_ecosphere star_radius (i + 1) rest
    else if temperature ≥ 2000.0 then
      i :: check_planets_loop M r_ecosphere star_radius (i + 1) rest
    else check_planets_loop M r_ecosphere star_radius (i + 1) rest

/-- accrete.c `check_planets`, in a run with `flag_verbose == 0`: the list the
returned pointer leads to, and the positions in it of the nodes that were
freed. The loop starts at the second node, so the tests
`absorbed_planet == head` and `vaporized_planet == head` fail and `head` is
returned as it came; the node before a freed node keeps its link to it. Freed
storage is taken to keep its contents. -/
def check_planets (M : Libm) (head : List planets) (luminosity star_radius : ℚ) :
    List planets × List Nat :=
  match head with
  | [] => ([], [])
  | first :: rest =>
    let r_ecosphere := M.sqrt luminosity
    (first :: rest, check_planets_loop M r_ecosphere star_radius 1 rest)

/-- The list the comment of `check_planets` describes: the first node, and of
the others those that are neither within the radius of the star nor hot
enough to be vaporized. -/
def spec_check_planets (M : Libm) (head : List planets) (luminosity star_radius : ℚ) :
    List planets :=
  match head with
  | [] => []
  | first :: rest =>
    first :: rest.filter (fun planet =>
      ¬ (planet.a ≤ star_radius
          ∨ eff_temp M (M.sqrt luminosity) planet.a ROCKY_AIRLESS_ALBEDO ≥ 2000.0))

/-! ## Clouds reachable by sweeps with any arguments -/

/-- The clouds that `set_initial_conditions(inner, outer)` followed by any
number of `collect_dust` sweeps, with any arguments, can leave behind (sweeps
that exit leave none). -/
inductive any_sweep_reachable (M : Libm) (inner outer : ℚ) : List dust → Prop
  | init : any_sweep_reachable M inner outer (set_initial_conditions inner outer)
  | sweep {cloud cloud1 : List dust} {dust_density mass a e crit_mass : ℚ}
      (h : any_sweep_reachable M inner outer cloud)
      (hc : (collect_dust M dust_density mass a e crit_mass cloud).map Prod.snd
        = some cloud1) :
      any_sweep_reachable M inner outer cloud1

/-! ## collide_planets: the value under the square root -/

/-- The value of `temp` in `collide_planets` after
`temp = 1.0 - power(temp,2.0)`, before it is clamped, for the node `n` and the
incoming body `(a, e, mass)`. -/
def merged_eccentricity_temp (M : Libm) (n : planets) (a e mass : ℚ) : ℚ :=
  let new_orbit := (n.mass + mass) / ((n.mass / n.a) + (mass / a))
  let temp := n.mass * M.sqrt n.a * M.sqrt (1.0 - power M n.e 2.0)
  let temp := temp + (mass * M.sqrt a * M.sqrt (M.sqrt (1.0 - power M e 2.0)))
  let temp := temp / ((n.mass + mass) * M.sqrt new_orbit)
  1.0 - power M temp 2.0

/-! ## planet_albedo: the number of components -/

/-- The value of `components` in `planet_albedo` when `cloud_adjustment` is
computed. -/
def albedo_components (water_fraction ice_frc : ℚ) : ℚ :=
  let rock_fraction := 1.0 - water_fraction - ice_frc
  let components : ℚ := 0.0
  let components := if water_fraction > 0.0 then components + 1.0 else components
  let components := if ice_frc > 0.0 then components + 1.0 else components
  let components := if rock_fraction > 0.0 then components + 1.0 else components
  components

/-- A table of exact values of the C library functions for the runs of the
surface temperature: `pow(x, 2) = x * x`, `pow(0, y) = 0` and `pow(1, y) = 1`
for the other exponents, `sqrt(0) = 0`, `sqrt(1) = 1`, `sqrt(4) = 2`.
Elsewhere the entries are placeholders (0). -/
def unit_libm : Libm where
  pow := fun x y =>
    if y = 2 then x * x
    else if x = 1 then 1
    else 0
  sqrt := fun x => if x = 1 then 1 else if x = 4 then 2 else 0
  exp := fun _ => 0

/-! ## Double precision

The definitions above compute with exact rationals. Where the rounding of the
C `double` operations bears on a property, the functions concerned are read a
second time with a rounding operator `fl` applied to the result of every
arithmetic operation and to every decimal constant that is not a double; with
`fl = id` the second reading is the first. `binary64` is the rounding of
IEEE 754 double precision. -/

/-- The number of binary digits of `n`, by halving (`fuel` bounds the number
of halvings). -/
def bit_length_loop : Nat → Nat → Nat
  | 0, _ => 0
  | fuel + 1, n => if n = 0 then 0 else bit_length_loop fuel (n / 2) + 1

/-- The number of binary digits of `n`: 0 for 0, and `k` when
`2 ^ (k - 1) ≤ n < 2 ^ k`. -/
def bit_length (n : Nat) : Nat := bit_length_loop n n

/-- The binary exponent of a rational `x ≠ 0`: the `e` with
`2 ^ e ≤ |x| < 2 ^ (e + 1)`. -/
def binade (x : ℚ) : Int :=
  let e0 : Int := (bit_length x.num.natAbs : Int) - (bit_length x.den : Int)
  if (2 : ℚ) ^ e0 ≤ |x| then e0 else e0 - 1

/-- The integer nearest to `q`, the even one of the two when `q` lies half way
between two integers. -/
def round_half_even (q : ℚ) : Int :=
  let f := ⌊q⌋
  let r := q - f
  if r < 1/2 then f else if r > 1/2 then f + 1 else if f % 2 = 0 then f else f + 1

/-- Rounding to the nearest number with a significand of 53 binary digits,
ties to the even significand: the rounding of the operations on `double` in
IEEE 754 arithmetic. The range of the exponent is not bounded here: overflow
and gradual underflow are not modelled, so this is the rounding of the
hardware for results of magnitude between `2 ^ (-1022)` and `DBL_MAX`. -/
def binary64 (x : ℚ) : ℚ :=
  if x = 0 then 0
  else (round_half_even (x / (2 : ℚ) ^ (binade x - 52)) : ℚ) * (2 : ℚ) ^ (binade x - 52)

/-- The unit roundoff `2 ^ (-53)` of double precision. -/
def unit_roundoff : ℚ := 1 / 2 ^ 53

/-! ## The arithmetic of the program in double precision

Every operation on `double` rounds its exact result with `fl`, in the order
the C expression is evaluated in (no excess precision, no fused
multiply-add). The values the C library returns are doubles as they are. -/

/-- utils.c `random_number` with every operation rounded by `fl`: the casts
`(double)rand()` and `(double)(RAND_MAX)`, the quotient, `range`, the product
and the sum. -/
def random_number_fp (fl : ℚ → ℚ) (RAND_MAX rand : Nat) (bound1 bound2 : ℚ) : ℚ :=
  if bound1 > bound2 then
    fl (fl (fl (fl (rand : ℚ) / fl (RAND_MAX : ℚ)) * fl (bound1 - bound2)) + bound2)
  else if bound2 > bound1 then
    fl (fl (fl (fl (rand : ℚ) / fl (RAND_MAX : ℚ)) * fl (bound2 - bound1)) + bound1)
  else bound1

/-- The value `a` of one iteration of the loop of `dist_masses`, with
`random_number` rounded by `fl`. -/
def trial_location_fp (fl : ℚ → ℚ) (RAND_MAX rand : Nat) (band : dust)
    (planet_inner_bound planet_outer_bound : ℚ) : ℚ :=
  random_number_fp fl RAND_MAX rand (trial_bound1 band planet_inner_bound)
    (trial_bound2 band planet_outer_bound)

/-- The value `new_orbit` of `collide_planets` with every operation rounded by
`fl`. -/
def merged_orbit_fp (fl : ℚ → ℚ) (n : planets) (a mass : ℚ) : ℚ :=
  fl (fl (n.mass + mass) / fl (fl (n.mass / n.a) + fl (mass / a)))

/-- accrete.c `inner_effect_limit` with every operation rounded by `fl`. -/
def inner_effect_limit_fp (fl : ℚ → ℚ) (a e mass : ℚ) : ℚ :=
  fl (fl (fl (a * fl (1.0 - e)) * fl (1.0 - mass)) / fl (1.0 + fl CLOUD_ECCENTRICITY))

/-- accrete.c `outer_effect_limit` with every operation rounded by `fl`. -/
def outer_effect_limit_fp (fl : ℚ → ℚ) (a e mass : ℚ) : ℚ :=
  fl (fl (fl (a * fl (1.0 + e)) * fl (1.0 + mass)) / fl (1.0 - fl CLOUD_ECCENTRICITY))

/-- The value `temp1` of `collect_dust`, with the subtraction rounded. -/
def band_temp1_fp (fl : ℚ → ℚ) (r_outer : ℚ) (band : dust) : ℚ :=
  if fl (r_outer - band.outer_edge) < 0.0 then 0.0 else fl (r_outer - band.outer_edge)

/-- The value `temp2` of `collect_dust`, with the subtraction rounded. -/
def band_temp2_fp (fl : ℚ → ℚ) (r_inner : ℚ) (band : dust) : ℚ :=
  if fl (band.inner_edge - r_inner) < 0.0 then 0.0 else fl (band.inner_edge - r_inner)

/-- The value `width` of the first loop of `collect_dust` for a band, with
every operation rounded by `fl`. -/
def band_width_fp (fl : ℚ → ℚ) (r_inner r_outer : ℚ) (band : dust) : ℚ :=
  let bandwidth := fl (r_outer - r_inner)
  fl (fl (bandwidth - band_temp1_fp fl r_outer band) - band_temp2_fp fl r_inner band)

/-- The term `volume * mass_density` that the first loop of `collect_dust`
adds for a band it does not skip, with every operation rounded by `fl`. -/
def band_gain_fp (fl : ℚ → ℚ) (M : Libm)
    (dust_density r_inner r_outer reduced_mass mass a e crit_mass : ℚ) (band : dust) : ℚ :=
  let mass_density :=
    if mass < crit_mass then dust_density
    else fl (fl (K * dust_density)
      / fl (1.0 + fl (M.sqrt (fl (crit_mass / mass)) * fl (K - 1.0))))
  let bandwidth := fl (r_outer - r_inner)
  let temp1 := band_temp1_fp fl r_outer band
  let temp2 := band_temp2_fp fl r_inner band
  let width := fl (fl (bandwidth - temp1) - temp2)
  let volume := fl (fl (fl (fl (fl (4.0 * fl PI) * power M a 2.0) * reduced_mass)
    * fl (1.0 - fl (fl (e * fl (temp1 - temp2)) / bandwidth))) * width)
  fl (volume * mass_density)

/-- The first loop of `collect_dust`, started with `accumulated_mass`, with
every operation rounded by `fl`. -/
def accumulate_mass_fp (fl : ℚ → ℚ) (M : Libm)
    (dust_density r_inner r_outer reduced_mass mass a e crit_mass : ℚ)
    (accumulated_mass : ℚ) : List dust → ℚ
  | [] => accumulated_mass
  | band :: rest =>
    if band_skipped r_inner r_outer mass crit_mass band then
      accumulate_mass_fp fl M dust_density r_inner r_outer reduced_mass mass a e crit_mass
        accumulated_mass rest
    else
      accumulate_mass_fp fl M dust_density r_inner r_outer reduced_mass mass a e crit_mass
        (fl (accumulated_mass
          + band_gain_fp fl M dust_density r_inner r_outer reduced_mass mass a e crit_mass band))
        rest

/-- accrete.c `collect_dust` with every operation on `double` rounded by `fl`.
The second loop is `update_bands` as it is: it compares and copies edges, and
its cases are chosen by the signs of `temp1` and `temp2`, which rounding
leaves as they are. -/
def collect_dust_fp (fl : ℚ → ℚ) (M : Libm) (dust_density mass a e crit_mass : ℚ)
    (dust_head : List dust) : Option (ℚ × List dust) :=
  let reduced_mass := power M (fl (mass / fl (1.0 + mass))) 0.25
  let r_inner := inner_effect_limit_fp fl a e reduced_mass
  let r_outer := outer_effect_limit_fp fl a e reduced_mass
  if r_inner < 0.0 then none
  else
    some (accumulate_mass_fp fl M dust_density r_inner r_outer reduced_mass mass a e crit_mass
            mass dust_head,
          update_bands r_inner r_outer mass crit_mass [] [] dust_head)

/-- The `do ... while` loop of `accrete_dust` with every operation on `double`
rounded by `fl`, run for at most `fuel` sweeps: the final `new_mass` and the
cloud. -/
def accrete_loop_fp (fl : ℚ → ℚ) (M : Libm) (dust_density a e crit_mass : ℚ) :
    Nat → ℚ → List dust → Outcome (ℚ × List dust)
  | 0, _, _ => Outcome.unfinished
  | fuel + 1, new_mass, dust_head =>
    match collect_dust_fp fl M dust_density new_mass a e crit_mass dust_head with
    | none => Outcome.exited
    | some (swept_mass, cloud) =>
      if fl (swept_mass - new_mass) > fl (fl 0.001 * new_mass) then
        accrete_loop_fp fl M dust_density a e crit_mass fuel swept_mass cloud
      else Outcome.value (swept_mass, cloud)

/-! ## The C library in double precision -/

/-- Half the distance from the double `s` to the next double of larger
magnitude. -/
def half_ulp (s : ℚ) : ℚ := if s = 0 then 0 else (2 : ℚ) ^ (binade s - 53)

/-- The double `s` is a value of `sqrt(x)` rounded to nearest, as IEEE 754
requires of `sqrt`: the square root of `x` lies within half a unit in the
last place of `s`. -/
def sqrt_rounded (x s : ℚ) : Prop :=
  binary64 s = s ∧ 0 ≤ s ∧ (s - half_ulp s) ^ 2 ≤ x ∧ x ≤ (s + half_ulp s) ^ 2

instance (x s : ℚ) : Decidable (sqrt_rounded x s) :=
  inferInstanceAs (Decidable (_ ∧ _ ∧ _ ∧ _))

/-- The double `s` is a value of `pow(x, 0.25)` rounded to nearest: the fourth
root of `x` lies within half a unit in the last place of `s`. -/
def fourth_root_rounded (x s : ℚ) : Prop :=
  binary64 s = s ∧ 0 ≤ s ∧ (s - half_ulp s) ^ 4 ≤ x ∧ x ≤ (s + half_ulp s) ^ 4

instance (x s : ℚ) : Decidable (fourth_root_rounded x s) :=
  inferInstanceAs (Decidable (_ ∧ _ ∧ _ ∧ _))

/-- A table of values of the C library in double precision, for the runs in
double precision below: `pow(x, 2)` is `x * x` rounded; `pow(1/16, 0.25)` is
`1/2`; `pow(x, 0.25)` for `x = fl(1.0E-15 / fl(1 + 1.0E-15))` is
`0.00017782794100389224`; `sqrt(1) = 1`, `sqrt(49) = 7`,
`sqrt(50) = 7.0710678118654755`,
`sqrt(49.00000000000001) = 7.000000000000001` and
`sqrt(2 ^ (-52)) = 2 ^ (-26)`. Every entry is the double nearest to the exact
value (`double_libm_entries`). Elsewhere the entries are placeholders (0). -/
def double_libm : Libm where
  pow := fun x y =>
    if y = 2 then binary64 (x * x)
    else if y = 1/4 ∧ x = 1/16 then 1/2
    else if y = 1/4 ∧ x = 316912650057057/316912650057057350374175801344 then
      3280346516853521/18446744073709551616
    else 0
  sqrt := fun x =>
    if x = 1 then 1
    else if x = 49 then 7
    else if x = 50 then 124395540479019/17592186044416
    else if x = 6896136929411073/140737488355328 then 7881299347898369/1125899906842624
    else if x = 1/4503599627370496 then 1/67108864
    else 0
  exp := fun _ => 0

/-- The value `reduced_mass` of a sweep of `collect_dust`, with every
operation rounded by `fl`. -/
def sweep_reduced_mass_fp (fl : ℚ → ℚ) (M : Libm) (mass : ℚ) : ℚ :=
  power M (fl (mass / fl (1.0 + mass))) 0.25

/-- The value `r_inner` of a sweep of `collect_dust`, with every operation
rounded by `fl`. -/
def sweep_r_inner_fp (fl : ℚ → ℚ) (M : Libm) (mass a e : ℚ) : ℚ :=
  inner_effect_limit_fp fl a e (sweep_reduced_mass_fp fl M mass)

/-- The value `r_outer` of a sweep of `collect_dust`, with every operation
rounded by `fl`. -/
def sweep_r_outer_fp (fl : ℚ → ℚ) (M : Libm) (mass a e : ℚ) : ℚ :=
  outer_effect_limit_fp fl a e (sweep_reduced_mass_fp fl M mass)

/-- Every band of the cloud that the first loop of `collect_dust` does not
skip gets a `width` that is not negative. -/
def swept_widths_nonneg (fl : ℚ → ℚ) (M : Libm) (mass a e crit_mass : ℚ)
    (cloud : List dust) : Prop :=
  ∀ band ∈ cloud,
    band_skipped (sweep_r_inner_fp fl M mass a e) (sweep_r_outer_fp fl M mass a e) mass
        crit_mass band = false →
      0 ≤ band_width_fp fl (sweep_r_inner_fp fl M mass a e) (sweep_r_outer_fp fl M mass a e) band

instance (fl : ℚ → ℚ) (M : Libm) (mass a e crit_mass : ℚ) (cloud : List dust) :
    Decidable (swept_widths_nonneg fl M mass a e crit_mass cloud) :=
  inferInstanceAs (Decidable (∀ band ∈ cloud, _))

set_option linter.unnecessarySeqFocus false
set_option linter.unusedTactic false
set_option linter.unusedVariables false

/-! ### dust_available -/

theorem cloud_ordered_cons {band : dust} {rest : List dust}
    (h : cloud_ordered (band :: rest)) : cloud_ordered rest :=
  ⟨fun b hb => h.1 b (List.mem_cons_of_mem _ hb), h.2.tail⟩

theorem cloud_ordered_head {band : dust} {rest : List dust}
    (h : cloud_ordered (band :: rest)) : band.inner_edge ≤ band.outer_edge :=
  h.1 band (List.mem_cons_self _ _)

/-- In an ordered cloud every later band starts at or after the end of an earlier one. -/
theorem cloud_ordered_later {band : dust} {rest : List dust}
    (h : cloud_ordered (band :: rest)) :
    ∀ b ∈ rest, band.outer_edge ≤ b.inner_edge := by
  induction rest generalizing band with
  | nil => intro b hb; cases hb
  | cons x xs ih =>
    intro b hb
    have hx : band.outer_edge ≤ x.inner_edge := by
      have := h.2
      simp [List.Chain'] at this
      exact this.1
    rcases List.mem_cons.1 hb with rfl | hb
    · exact hx
    · have h2 := cloud_ordered_cons h
      have := ih h2 b hb
      have hx2 := cloud_ordered_head h2
      linarith

theorem dust_available_scan_iff (outside : ℚ) (cloud : List dust)
    (h : cloud_ordered cloud) :
    dust_available_scan outside cloud = true
      ↔ ∃ b ∈ cloud, b.dust_present = true ∧ b.inner_edge < outside := by
  induction cloud with
  | nil => simp [dust_available_scan]
  | cons band rest ih =>
    have hlater := cloud_ordered_later h
    have hhead := cloud_ordered_head h
    have ih := ih (cloud_ordered_cons h)
    unfold dust_available_scan
    by_cases hin : band.inner_edge < outside
    · by_cases hd : band.dust_present = true
      · simp [hin, hd]
      · rw [if_pos hin, if_neg hd, ih]
        simp only [List.mem_cons]
        constructor
        · rintro ⟨b, hb, h1, h2⟩; exact ⟨b, Or.inr hb, h1, h2⟩
        · rintro ⟨b, hb | hb, h1, h2⟩
          · subst hb; exact absurd h1 hd
          · exact ⟨b, hb, h1, h2⟩
    · rw [if_neg hin]
      simp only [List.mem_cons]
      constructor
      · intro hf; cases hf
      · rintro ⟨b, hb | hb, _, h2⟩
        · subst hb; exact absurd h2 hin
        · have := hlater b hb
          exact absurd (by linarith : band.inner_edge < outside) hin

/-- What `dust_available` computes on an ordered cloud. -/
theorem dust_available_iff (inside outside : ℚ) (cloud : List dust)
    (h : cloud_ordered cloud) :
    dust_available inside outside cloud = true
      ↔ (∃ b, first_reached inside cloud = some b ∧ b.dust_present = true)
        ∨ ∃ b ∈ cloud, b.dust_present = true ∧ inside ≤ b.outer_edge
            ∧ b.inner_edge < outside := by
  induction cloud with
  | nil => simp [dust_available, first_reached]
  | cons band rest ih =>
    have hlater := cloud_ordered_later h
    have hhead := cloud_ordered_head h
    have ih := ih (cloud_ordered_cons h)
    unfold dust_available
    by_cases hout : band.outer_edge < inside
    · have hnot : ¬ inside ≤ band.outer_edge := not_le.2 hout
      rw [if_pos hout, ih]
      simp only [first_reached, List.find?, hnot, decide_False, List.mem_cons]
      constructor
      · rintro (h1 | ⟨b, hb, h1, h2, h3⟩)
        · exact Or.inl h1
        · exact Or.inr ⟨b, Or.inr hb, h1, h2, h3⟩
      · rintro (h1 | ⟨b, hb | hb, h1, h2, h3⟩)
        · exact Or.inl h1
        · subst hb; exact absurd h2 hnot
        · exact Or.inr ⟨b, hb, h1, h2, h3⟩
    · have hle : inside ≤ band.outer_edge := not_lt.1 hout
      by_cases hd : band.dust_present = true
      · simp [hout, hd, first_reached, List.find?, hle]
      · rw [if_neg hout, if_neg hd, dust_available_scan_iff outside _ h]
        simp only [first_reached, List.find?, hle, decide_True, Option.some.injEq, List.mem_cons]
        constructor
        · rintro ⟨b, hb | hb, h1, h2⟩
          · subst hb; exact absurd h1 hd
          · refine Or.inr ⟨b, Or.inr hb, h1, ?_, h2⟩
            have := hlater b hb
            have := (cloud_ordered_cons h).1 b hb
            linarith
        · rintro (⟨b, hb, h1⟩ | ⟨b, hb, h1, _, h3⟩)
          · subst hb; exact absurd h1 hd
          · exact ⟨b, hb, h1, h3⟩

/-- C6, as stated, fails: in the ordered cloud made of the single dusty band
`[5, 6]`, `dust_available(1, 2)` returns `TRUE`, although no band of the cloud
intersects `[1, 2]`. The first band whose outer edge is not below
`inside_range` is tested for dust without looking at its inner edge. -/
theorem C6_counterexample :
    cloud_ordered [⟨5, 6, true, true⟩] ∧ (1 : ℚ) ≤ 2
      ∧ dust_available 1 2 [⟨5, 6, true, true⟩] = true
      ∧ ¬ ∃ band ∈ [(⟨5, 6, true, true⟩ : dust)],
            band_intersects band 1 2 ∧ band.dust_present = true := by
  refine ⟨by norm_num [cloud_ordered], by norm_num, by decide!, ?_⟩
  simp [band_intersects]
  norm_num

/-- C6, amended: on an ordered cloud `dust_available(inside, outside)` returns
`TRUE` if and only if a band with dust is either the first band of the cloud
whose outer edge is at or beyond `inside`, or has its outer edge at or beyond
`inside` and its inner edge strictly below `outside`. -/
theorem C6_dust_available_amended (inside outside : ℚ) (cloud : List dust)
    (h : cloud_ordered cloud) :
    dust_available inside outside cloud = true
      ↔ (∃ band, first_reached inside cloud = some band ∧ band.dust_present = true)
        ∨ ∃ band ∈ cloud, band.dust_present = true ∧ inside ≤ band.outer_edge
            ∧ band.inner_edge < outside :=
  dust_available_iff inside outside cloud h

/-- C6, amended, at a cloud of two bands and the range `[3/2, 5/2]`. -/
theorem C6_dust_available_amended_witness :
    cloud_ordered [⟨1, 2, false, true⟩, ⟨2, 3, true, true⟩]
      ∧ (dust_available (3/2) (5/2) [⟨1, 2, false, true⟩, ⟨2, 3, true, true⟩] = true
        ↔ (∃ band, first_reached (3/2) [⟨1, 2, false, true⟩, ⟨2, 3, true, true⟩] = some band
              ∧ band.dust_present = true)
          ∨ ∃ band ∈ [(⟨1, 2, false, true⟩ : dust), ⟨2, 3, true, true⟩],
              band.dust_present = true ∧ (3/2 : ℚ) ≤ band.outer_edge
                ∧ band.inner_edge < 5/2) :=
  ⟨by norm_num [cloud_ordered],
    C6_dust_available_amended (3/2) (5/2) _ (by norm_num [cloud_ordered])⟩

/-! ### Sweeps that find every band out of reach -/

/-- Without a next band, none is absorbed. -/
theorem sweep_band_none (r_inner r_outer mass crit_mass : ℚ)
    (stale done : List dust) (band : dust) :
    (sweep_band r_inner r_outer mass crit_mass stale done band none).2.2 = false := by
  unfold sweep_band
  dsimp only
  split_ifs
  all_goals first
    | rfl
    | (cases done <;> rfl)
    | (cases done
       · rfl
       · dsimp only; split_ifs <;> rfl)

/-- The state of the walk after the loop body has run for `band`: the new
`stale`, the new `done`, and the bands still to visit. -/
theorem update_bands_cons (r_inner r_outer mass crit_mass : ℚ)
    (stale done : List dust) (band : dust) (rest : List dust) :
    update_bands r_inner r_outer mass crit_mass stale done (band :: rest)
      = update_bands r_inner r_outer mass crit_mass
          (sweep_band r_inner r_outer mass crit_mass stale done band rest.head?).1
          (sweep_band r_inner r_outer mass crit_mass stale done band rest.head?).2.1
          (if (sweep_band r_inner r_outer mass crit_mass stale done band rest.head?).2.2
            then rest.tail else rest) := by
  cases rest with
  | nil =>
    simp only [List.head?, sweep_band_none, Bool.false_eq_true, if_false]
    rw [update_bands, update_bands]
  | cons next after =>
    simp only [List.head?, List.tail]
    rw [update_bands]
    split_ifs <;> rfl

theorem update_bands_all_skipped (r_inner r_outer mass crit_mass : ℚ)
    (stale done rest : List dust)
    (h : ∀ b ∈ rest, band_skipped r_inner r_outer mass crit_mass b = true) :
    update_bands r_inner r_outer mass crit_mass stale done rest
      = stale.reverse ++ (done.reverse ++ rest) := by
  induction rest generalizing done with
  | nil => simp [update_bands]
  | cons band rest ih =>
    have hs : ∀ nb, sweep_band r_inner r_outer mass crit_mass stale done band nb
        = (stale, band :: done, false) := by
      intro nb
      rw [sweep_band.eq_def, if_pos (h band (List.mem_cons_self _ _))]
    rw [update_bands_cons, hs]
    simp only [Bool.false_eq_true, if_false]
    rw [ih _ (fun b hb => h b (List.mem_cons_of_mem _ hb))]
    simp

theorem accumulate_mass_all_skipped (M : Libm)
    (dust_density r_inner r_outer reduced_mass mass a e crit_mass acc : ℚ) (cloud : List dust)
    (h : ∀ b ∈ cloud, band_skipped r_inner r_outer mass crit_mass b = true) :
    accumulate_mass M dust_density r_inner r_outer reduced_mass mass a e crit_mass acc cloud
      = acc := by
  induction cloud with
  | nil => simp [accumulate_mass]
  | cons band rest ih =>
    rw [accumulate_mass, if_pos (h band (List.mem_cons_self _ _))]
    exact ih (fun b hb => h b (List.mem_cons_of_mem _ hb))

/-- When `dust_available` finds nothing in an ordered cloud, a sweep below the
critical mass skips every band. -/
theorem all_skipped_of_no_dust (r_inner r_outer mass crit_mass : ℚ) (cloud : List dust)
    (hord : cloud_ordered cloud) (hlt : mass < crit_mass)
    (hno : dust_available r_inner r_outer cloud = false) :
    ∀ b ∈ cloud, band_skipped r_inner r_outer mass crit_mass b = true := by
  intro b hb
  have hiff := dust_available_iff r_inner r_outer cloud hord
  rw [hno] at hiff
  have hnone : ¬ ∃ x ∈ cloud, x.dust_present = true ∧ r_inner ≤ x.outer_edge
      ∧ x.inner_edge < r_outer := fun hx => by
    have := hiff.2 (Or.inr hx)
    cases this
  unfold band_skipped
  by_cases hd : b.dust_present = true
  · have : b.outer_edge ≤ r_inner ∨ b.inner_edge ≥ r_outer := by
      by_contra hc
      push_neg at hc
      exact hnone ⟨b, hb, hd, le_of_lt hc.1, hc.2⟩
    rcases this with h1 | h1 <;> simp [h1]
  · simp [hlt, hd]

/-- C4, as stated, fails: a body at or above the critical mass sweeps gas, so
it rewrites bands in which `dust_available` finds no dust. With
`mass = 1/15` (reduced mass `1/2`), `a = 4`, `e = 0` the range of effect is
`[5/3, 15/2]`; in the cloud made of the single dust-free gas band `[1, 10]`
`dust_available` returns `FALSE`, and `collect_dust` with
`crit_mass = 1/60` splits the band into `[1, 5/3]` and `[15/2, 10]`. -/
theorem C4_counterexample :
    power table_libm ((1/15) / (1.0 + 1/15)) 0.25 = 1/2
      ∧ inner_effect_limit 4 0 (1/2) = 5/3 ∧ outer_effect_limit 4 0 (1/2) = 15/2
      ∧ dust_available (5/3) (15/2) [⟨1, 10, false, true⟩] = false
      ∧ (collect_dust table_libm 1 (1/15) 4 0 (1/60) [⟨1, 10, false, true⟩]).map Prod.snd
          = some [⟨1, 5/3, false, true⟩, ⟨15/2, 10, false, true⟩] := by
  refine ⟨by decide!, by decide!, by decide!, by decide!, by decide!⟩

/-- C4, amended: for every ordered cloud and every sweep below the critical
mass (`mass < crit_mass`) whose range of effect `[r_inner, r_outer]` makes
`dust_available(r_inner, r_outer)` return `FALSE`, `collect_dust` (unless it
exits because `r_inner < 0`) returns `mass` and leaves the cloud unchanged. -/
theorem C4_noop_sweep (M : Libm) (dust_density mass a e crit_mass : ℚ) (cloud : List dust)
    (hord : cloud_ordered cloud) (hlt : mass < crit_mass)
    (hno : dust_available
        (inner_effect_limit a e (power M (mass / (1.0 + mass)) 0.25))
        (outer_effect_limit a e (power M (mass / (1.0 + mass)) 0.25)) cloud = false) :
    collect_dust M dust_density mass a e crit_mass cloud
      = if inner_effect_limit a e (power M (mass / (1.0 + mass)) 0.25) < 0.0 then none
        else some (mass, cloud) := by
  have hall := all_skipped_of_no_dust _ _ mass crit_mass cloud hord hlt hno
  unfold collect_dust
  simp only
  rw [accumulate_mass_all_skipped _ _ _ _ _ _ _ _ _ _ _ hall,
    update_bands_all_skipped _ _ _ _ _ _ _ hall]
  simp

/-- C4, amended, at a sweep of mass 0 with the range `[5/6, 5/4]`, which holds no dust. -/
theorem C4_noop_sweep_witness :
    collect_dust table_libm 1 0 1 0 1 [⟨1/2, 2, false, true⟩, ⟨2, 3, true, true⟩]
      = if inner_effect_limit 1 0 (power table_libm (0 / (1.0 + 0)) 0.25) < 0.0 then none
        else some (0, [⟨1/2, 2, false, true⟩, ⟨2, 3, true, true⟩]) :=
  C4_noop_sweep table_libm 1 0 1 0 1 [⟨1/2, 2, false, true⟩, ⟨2, 3, true, true⟩]
    (by norm_num [cloud_ordered]) (by norm_num) (by decide!)

/-! ### The loop body as a relation -/

theorem band_eligible_of_not_skipped {r_inner r_outer mass crit_mass : ℚ} {band : dust}
    (h : ¬ band_skipped r_inner r_outer mass crit_mass band = true) :
    band_eligible r_inner r_outer mass crit_mass band := by
  unfold band_skipped at h
  simp only [Bool.or_eq_true, Bool.and_eq_true, decide_eq_true_eq, beq_iff_eq, not_or,
    not_and, not_le, ge_iff_le] at h
  obtain ⟨⟨hg, h1, h2⟩, h3⟩ := h
  refine ⟨by simpa using hg, h1, h2, fun hm => by simpa using h3 hm⟩

theorem band_temp1_zero_iff (r_outer : ℚ) (band : dust) :
    band_temp1 r_outer band = 0 ↔ r_outer ≤ band.outer_edge := by
  unfold band_temp1
  split_ifs with h
  · constructor
    · intro _; linarith
    · intro _; rfl
  · constructor
    · intro h2; linarith
    · intro h2; linarith

theorem band_temp1_pos_iff (r_outer : ℚ) (band : dust) :
    band_temp1 r_outer band > 0 ↔ band.outer_edge < r_outer := by
  unfold band_temp1
  split_ifs with h
  · constructor
    · intro h2; exact absurd h2 (lt_irrefl _)
    · intro h2; linarith
  · constructor
    · intro h2; linarith
    · intro h2; linarith

theorem band_temp2_zero_iff (r_inner : ℚ) (band : dust) :
    band_temp2 r_inner band = 0 ↔ band.inner_edge ≤ r_inner := by
  unfold band_temp2
  split_ifs with h
  · constructor
    · intro _; linarith
    · intro _; rfl
  · constructor
    · intro h2; linarith
    · intro h2; linarith

theorem band_temp2_pos_iff (r_inner : ℚ) (band : dust) :
    band_temp2 r_inner band > 0 ↔ r_inner < band.inner_edge := by
  unfold band_temp2
  split_ifs with h
  · constructor
    · intro h2; exact absurd h2 (lt_irrefl _)
    · intro h2; linarith
  · constructor
    · intro h2; linarith
    · intro h2; linarith

/-- Every run of the loop body is one of the steps of `band_step`. -/
theorem sweep_band_step (r_inner r_outer mass crit_mass : ℚ) (stale done : List dust)
    (band : dust) (next_band : Option dust) :
    band_step r_inner r_outer mass crit_mass stale done band next_band
      (sweep_band r_inner r_outer mass crit_mass stale done band next_band) := by
  unfold sweep_band
  by_cases hs : band_skipped r_inner r_outer mass crit_mass band = true
  · rw [if_pos hs]; exact band_step.skip hs
  rw [if_neg hs]
  have he := band_eligible_of_not_skipped hs
  simp only [band_temp1_zero_iff, band_temp2_zero_iff, band_temp1_pos_iff, band_temp2_pos_iff,
    ge_iff_le]
  by_cases h1 : r_outer ≤ band.outer_edge <;> by_cases h2 : band.inner_edge ≤ r_inner
    <;> by_cases hm : mass < crit_mass
  · rw [if_pos ⟨h1, h2⟩, if_pos hm]
    exact band_step.split_gas he h1 h2 hm
  · rw [if_pos ⟨h1, h2⟩, if_neg hm]
    exact band_step.split he h1 h2 (not_lt.1 hm)
  · have h2' := not_le.1 h2
    rw [if_neg (fun h => h2 h.2), if_neg (fun h => absurd h.1 (not_lt.2 h1)), if_pos h2',
      if_neg (not_le.2 hm)]
    cases done with
    | nil => exact band_step.gas_lost he h1 h2' hm rfl
    | cons prev_band before =>
      dsimp only
      split_ifs with hp
      · exact band_step.merge_prev he h1 h2' hm prev_band before rfl hp
      · exact band_step.gas_before he h1 h2' hm prev_band before rfl hp
  · have h2' := not_le.1 h2
    rw [if_neg (fun h => h2 h.2), if_neg (fun h => absurd h.1 (not_lt.2 h1)), if_pos h2',
      if_pos (not_lt.1 hm)]
    exact band_step.cut_inner he h1 h2' (not_lt.1 hm)
  · have h1' := not_le.1 h1
    rw [if_neg (fun h => h1 h.1), if_neg (fun h => absurd h.2 (not_lt.2 h2)),
      if_neg (not_lt.2 h2), if_pos h1', if_neg (not_le.2 hm)]
    cases next_band with
    | none => exact band_step.gas_after he h1' h2 hm (fun n hn => by cases hn)
    | some next =>
      dsimp only
      split_ifs with hp
      · exact band_step.merge_next he h1' h2 hm next rfl hp
      · exact band_step.gas_after he h1' h2 hm (fun n hn => by cases hn; exact hp)
  · have h1' := not_le.1 h1
    rw [if_neg (fun h => h1 h.1), if_neg (fun h => absurd h.2 (not_lt.2 h2)),
      if_neg (not_lt.2 h2), if_pos h1', if_pos (not_lt.1 hm)]
    exact band_step.cut_outer he h1' h2 (not_lt.1 hm)
  · have h1' := not_le.1 h1
    have h2' := not_le.1 h2
    rw [if_neg (fun h => h1 h.1), if_pos ⟨h1', h2'⟩, if_neg (not_le.2 hm)]
    exact band_step.clear he h1' h2' hm
  · have h1' := not_le.1 h1
    have h2' := not_le.1 h2
    rw [if_neg (fun h => h1 h.1), if_pos ⟨h1', h2'⟩, if_pos (not_lt.1 hm)]
    cases done with
    | nil => exact band_step.free_head he h1' h2' (not_lt.1 hm) rfl
    | cons prev_band before =>
      exact band_step.free he h1' h2' (not_lt.1 hm) (List.cons_ne_nil _ _)

/-! ### Invariants of the second loop -/

/-- Induction over the second loop of `collect_dust`: a property of the state
of the walk that every step keeps holds when the walk is over. -/
theorem update_bands_invariant (r_inner r_outer mass crit_mass : ℚ)
    (Inv : List dust → List dust → List dust → Prop)
    (hstep : ∀ stale done band rest r, Inv stale done (band :: rest) →
      band_step r_inner r_outer mass crit_mass stale done band rest.head? r →
      Inv r.1 r.2.1 (if r.2.2 = true then rest.tail else rest))
    (stale done rest : List dust) (h : Inv stale done rest) :
    ∃ stale1 done1, update_bands r_inner r_outer mass crit_mass stale done rest
        = stale1.reverse ++ done1.reverse ∧ Inv stale1 done1 [] := by
  suffices hmain : ∀ n : Nat, ∀ stale done rest : List dust, rest.length = n →
      Inv stale done rest →
      ∃ stale1 done1, update_bands r_inner r_outer mass crit_mass stale done rest
        = stale1.reverse ++ done1.reverse ∧ Inv stale1 done1 [] from
    hmain rest.length stale done rest rfl h
  intro n
  induction n using Nat.strong_induction_on with
  | _ n ih =>
    intro stale done rest hn h
    cases rest with
    | nil => exact ⟨stale, done, by simp [update_bands], h⟩
    | cons band rest =>
      rw [update_bands_cons]
      have hs := hstep stale done band rest _ h
        (sweep_band_step r_inner r_outer mass crit_mass stale done band rest.head?)
      refine ih _ ?_ _ _ _ rfl hs
      subst hn
      split_ifs
      · have := List.length_tail rest
        simp only [List.length_cons]
        omega
      · simp

theorem bands_valid_append {l1 l2 : List dust} :
    bands_valid (l1 ++ l2) ↔ bands_valid l1 ∧ bands_valid l2 := by
  unfold bands_valid
  simp only [List.mem_append]
  constructor
  · intro h; exact ⟨fun b hb => h b (Or.inl hb), fun b hb => h b (Or.inr hb)⟩
  · rintro ⟨h1, h2⟩ b (hb | hb)
    · exact h1 b hb
    · exact h2 b hb

theorem bands_valid_cons {b : dust} {l : List dust} :
    bands_valid (b :: l) ↔ b.inner_edge ≤ b.outer_edge ∧ bands_valid l := by
  unfold bands_valid
  simp

theorem bands_valid_reverse {l : List dust} : bands_valid l.reverse ↔ bands_valid l := by
  unfold bands_valid
  simp

theorem bands_valid_nil : bands_valid [] := by
  intro b hb; cases hb

theorem head?_eq_some_cons {α : Type} {l : List α} {x : α} (h : l.head? = some x) :
    l = x :: l.tail := by
  cases l with
  | nil => cases h
  | cons y ys => simp at h; simp [h]

/-- A step of the loop keeps every band valid, when `r_inner ≤ r_outer`. -/
theorem band_step_valid {r_inner r_outer mass crit_mass : ℚ} (hio : r_inner ≤ r_outer)
    {stale done : List dust} {band : dust} {rest : List dust}
    {r : List dust × List dust × Bool}
    (hv : bands_valid stale ∧ bands_valid done ∧ bands_valid (band :: rest))
    (hs : band_step r_inner r_outer mass crit_mass stale done band rest.head? r) :
    bands_valid r.1 ∧ bands_valid r.2.1
      ∧ bands_valid (if r.2.2 = true then rest.tail else rest) := by
  obtain ⟨hv1, hv2, hv3⟩ := hv
  rw [bands_valid_cons] at hv3
  obtain ⟨hb, hv3⟩ := hv3
  cases hs with
  | skip h => exact ⟨hv1, bands_valid_cons.2 ⟨hb, hv2⟩, by simpa using hv3⟩
  | split_gas h h1 h2 hm =>
    refine ⟨hv1, ?_, by simpa using hv3⟩
    simp only [bands_valid_cons]
    exact ⟨h1, hio, h2, hv2⟩
  | split h h1 h2 hm =>
    refine ⟨hv1, ?_, by simpa using hv3⟩
    simp only [bands_valid_cons]
    exact ⟨h1, h2, hv2⟩
  | free_head h h1 h2 hm hd =>
    exact ⟨bands_valid_cons.2 ⟨hb, hv1⟩, bands_valid_nil, by simpa using hv3⟩
  | free h h1 h2 hm hd => exact ⟨hv1, hv2, by simpa using hv3⟩
  | clear h h1 h2 hm =>
    exact ⟨hv1, bands_valid_cons.2 ⟨hb, hv2⟩, by simpa using hv3⟩
  | cut_inner h h1 h2 hm =>
    exact ⟨hv1, bands_valid_cons.2 ⟨h1, hv2⟩, by simpa using hv3⟩
  | merge_prev h h1 h2 hm prev_band before hd hp =>
    subst hd
    rw [bands_valid_cons] at hv2
    refine ⟨hv1, ?_, by simpa using hv3⟩
    simp only [bands_valid_cons]
    refine ⟨h1, ?_, hv2.2⟩
    have := h.2.2.1
    have := hv2.1
    linarith [hp.2]
  | gas_before h h1 h2 hm prev_band before hd hp =>
    refine ⟨hv1, ?_, by simpa using hv3⟩
    simp only [bands_valid_cons]
    exact ⟨h1, le_of_lt h.2.2.1, hv2⟩
  | gas_lost h h1 h2 hm hd =>
    refine ⟨hv1, ?_, by simpa using hv3⟩
    simp only [bands_valid_cons]
    exact ⟨h1, bands_valid_nil⟩
  | cut_outer h h1 h2 hm =>
    exact ⟨hv1, bands_valid_cons.2 ⟨h2, hv2⟩, by simpa using hv3⟩
  | merge_next h h1 h2 hm next hn hp =>
    have hr := head?_eq_some_cons hn
    rw [hr, bands_valid_cons] at hv3
    refine ⟨hv1, ?_, by simpa using hv3.2⟩
    simp only [bands_valid_cons]
    refine ⟨?_, h2, hv2⟩
    have := h.2.1
    have := hv3.1
    linarith [hp.2]
  | gas_after h h1 h2 hm hp =>
    refine ⟨hv1, ?_, by simpa using hv3⟩
    simp only [bands_valid_cons]
    exact ⟨le_of_lt h.2.1, h2, hv2⟩

/-- The second loop of `collect_dust` keeps every band valid. -/
theorem update_bands_valid {r_inner r_outer mass crit_mass : ℚ} (hio : r_inner ≤ r_outer)
    (cloud : List dust) (hv : bands_valid cloud) :
    bands_valid (update_bands r_inner r_outer mass crit_mass [] [] cloud) := by
  obtain ⟨s1, d1, he, hI⟩ := update_bands_invariant r_inner r_outer mass crit_mass
    (fun stale done rest => bands_valid stale ∧ bands_valid done ∧ bands_valid rest)
    (fun stale done band rest r hI hs => band_step_valid hio hI hs)
    [] [] cloud ⟨bands_valid_nil, bands_valid_nil, hv⟩
  rw [he, bands_valid_append, bands_valid_reverse, bands_valid_reverse]
  exact ⟨hI.1, hI.2.1⟩

/-- An ordered cloud, said with all pairs of bands instead of neighbours. -/
theorem cloud_ordered_iff (cloud : List dust) :
    cloud_ordered cloud
      ↔ bands_valid cloud ∧ cloud.Pairwise (fun x y => x.outer_edge ≤ y.inner_edge) := by
  constructor
  · intro h
    refine ⟨h.1, ?_⟩
    induction cloud with
    | nil => exact List.Pairwise.nil
    | cons b rest ih =>
      exact List.Pairwise.cons (cloud_ordered_later h) (ih (cloud_ordered_cons h))
  · rintro ⟨h1, h2⟩
    exact ⟨h1, h2.chain'⟩

/-- Replacing a run `mid` of an ordered cloud by an ordered run `mid1` whose
bands all lie between an inner edge and an outer edge of bands of `mid`
leaves the cloud ordered. -/
theorem cloud_ordered_replace (l1 mid mid1 l2 : List dust)
    (h : cloud_ordered (l1 ++ (mid ++ l2))) (hm : cloud_ordered mid1)
    (hin : ∀ y ∈ mid1, (∃ x ∈ mid, x.inner_edge ≤ y.inner_edge)
      ∧ (∃ x ∈ mid, y.outer_edge ≤ x.outer_edge)) :
    cloud_ordered (l1 ++ (mid1 ++ l2)) := by
  rw [cloud_ordered_iff] at h hm ⊢
  obtain ⟨hv, hp⟩ := h
  obtain ⟨hv1, hp1⟩ := hm
  rw [bands_valid_append, bands_valid_append] at hv
  rw [List.pairwise_append, List.pairwise_append] at hp
  obtain ⟨hpl1, ⟨_, hpl2, hml2⟩, hl1⟩ := hp
  refine ⟨bands_valid_append.2 ⟨hv.1, bands_valid_append.2 ⟨hv1, hv.2.2⟩⟩, ?_⟩
  rw [List.pairwise_append, List.pairwise_append]
  refine ⟨hpl1, ⟨hp1, hpl2, ?_⟩, ?_⟩
  · intro y hy b hb
    obtain ⟨x, hx, hxy⟩ := (hin y hy).2
    have := hml2 x hx b hb
    linarith
  · intro a ha b hb
    rcases List.mem_append.1 hb with hb | hb
    · obtain ⟨x, hx, hxy⟩ := (hin b hb).1
      have := hl1 a ha x (List.mem_append.2 (Or.inl hx))
      linarith
    · exact hl1 a ha b (List.mem_append.2 (Or.inr hb))

/-- A short list of bands is ordered when the edges say so. -/
theorem cloud_ordered_of (mid : List dust) (hv : bands_valid mid)
    (hp : mid.Pairwise (fun x y => x.outer_edge ≤ y.inner_edge)) : cloud_ordered mid :=
  (cloud_ordered_iff mid).2 ⟨hv, hp⟩

/-- A step of the loop keeps the cloud ordered, when `r_inner ≤ r_outer`. -/
theorem band_step_ordered {r_inner r_outer mass crit_mass : ℚ} (hio : r_inner ≤ r_outer)
    {stale done : List dust} {band : dust} {rest : List dust}
    {r : List dust × List dust × Bool}
    (hG : cloud_ordered (stale.reverse ++ (done.reverse ++ band :: rest)))
    (hs : band_step r_inner r_outer mass crit_mass stale done band rest.head? r) :
    cloud_ordered (r.1.reverse ++ (r.2.1.reverse ++
      (if r.2.2 = true then rest.tail else rest))) := by
  have hG1 : cloud_ordered ((stale.reverse ++ done.reverse) ++ ([band] ++ rest)) := by
    simpa using hG
  have hband : band.inner_edge ≤ band.outer_edge :=
    hG.1 band (by simp)
  cases hs with
  | skip h => simpa using hG
  | split_gas h h1 h2 hm =>
    have := cloud_ordered_replace _ [band]
      [{ band with outer_edge := r_inner }, ⟨r_inner, r_outer, false, true⟩,
        ⟨r_outer, band.outer_edge, band.dust_present, band.gas_present⟩] rest hG1
      (cloud_ordered_of _
        (by simp [bands_valid] <;> (try constructorm* _ ∧ _) <;> linarith)
        (by simp <;> (try constructorm* _ ∧ _) <;> linarith))
      (by simp <;> (try constructorm* _ ∧ _) <;> linarith)
    simpa using this
  | split h h1 h2 hm =>
    have := cloud_ordered_replace _ [band]
      [{ band with outer_edge := r_inner },
        ⟨r_outer, band.outer_edge, band.dust_present, band.gas_present⟩] rest hG1
      (cloud_ordered_of _
        (by simp [bands_valid] <;> (try constructorm* _ ∧ _) <;> linarith)
        (by simp <;> (try constructorm* _ ∧ _) <;> linarith))
      (by simp <;> (try constructorm* _ ∧ _) <;> linarith)
    simpa using this
  | free_head h h1 h2 hm hd => subst hd; simpa using hG
  | free h h1 h2 hm hd =>
    have := cloud_ordered_replace _ [band] [] rest hG1
      (cloud_ordered_of _ bands_valid_nil List.Pairwise.nil)
      (by simp)
    simpa using this
  | clear h h1 h2 hm =>
    have := cloud_ordered_replace _ [band] [{ band with dust_present := false }] rest hG1
      (cloud_ordered_of _
        (by simp [bands_valid] <;> (try constructorm* _ ∧ _) <;> linarith)
        (by simp))
      (by simp)
    simpa using this
  | cut_inner h h1 h2 hm =>
    have hlt := h.2.2.1
    have := cloud_ordered_replace _ [band] [{ band with inner_edge := r_outer }] rest hG1
      (cloud_ordered_of _
        (by simp [bands_valid] <;> (try constructorm* _ ∧ _) <;> linarith)
        (by simp))
      (by simp <;> (try constructorm* _ ∧ _) <;> linarith)
    simpa using this
  | merge_prev h h1 h2 hm prev_band before hd hp =>
    subst hd
    have hG2 : cloud_ordered ((stale.reverse ++ before.reverse)
        ++ ([prev_band, band] ++ rest)) := by
      simpa using hG
    have hprev : prev_band.inner_edge ≤ prev_band.outer_edge := hG.1 prev_band (by simp)
    have hlt := h.2.2.1
    have hp2 := hp.2
    have := cloud_ordered_replace _ [prev_band, band]
      [{ prev_band with outer_edge := r_outer }, { band with inner_edge := r_outer }] rest hG2
      (cloud_ordered_of _
        (by simp [bands_valid] <;> (try constructorm* _ ∧ _) <;> linarith)
        (by simp))
      (by
        intro y hy
        simp only [List.mem_cons, List.mem_singleton, List.not_mem_nil, or_false] at hy
        rcases hy with rfl | rfl
        · exact ⟨⟨prev_band, by simp, le_refl _⟩, ⟨band, by simp, h1⟩⟩
        · exact ⟨⟨prev_band, by simp, by simp only; linarith⟩, ⟨band, by simp, le_refl _⟩⟩)
    simpa using this
  | gas_before h h1 h2 hm prev_band before hd hp =>
    have hlt := h.2.2.1
    have := cloud_ordered_replace _ [band]
      [⟨band.inner_edge, r_outer, false, true⟩, { band with inner_edge := r_outer }] rest hG1
      (cloud_ordered_of _
        (by simp [bands_valid] <;> (try constructorm* _ ∧ _) <;> linarith)
        (by simp))
      (by simp <;> (try constructorm* _ ∧ _) <;> linarith)
    simpa using this
  | gas_lost h h1 h2 hm hd =>
    subst hd
    have hlt := h.2.2.1
    have := cloud_ordered_replace _ [band] [{ band with inner_edge := r_outer }] rest hG1
      (cloud_ordered_of _
        (by simp [bands_valid] <;> (try constructorm* _ ∧ _) <;> linarith)
        (by simp))
      (by simp <;> (try constructorm* _ ∧ _) <;> linarith)
    simpa using this
  | cut_outer h h1 h2 hm =>
    have hlt := h.2.1
    have := cloud_ordered_replace _ [band] [{ band with outer_edge := r_inner }] rest hG1
      (cloud_ordered_of _
        (by simp [bands_valid] <;> (try constructorm* _ ∧ _) <;> linarith)
        (by simp))
      (by simp <;> (try constructorm* _ ∧ _) <;> linarith)
    simpa using this
  | merge_next h h1 h2 hm next hn hp =>
    have hr := head?_eq_some_cons hn
    have hG2 : cloud_ordered ((stale.reverse ++ done.reverse)
        ++ ([band, next] ++ rest.tail)) := by
      rw [hr] at hG
      simpa using hG
    have hnext : next.inner_edge ≤ next.outer_edge := by
      apply hG.1 next
      rw [hr]; simp
    have hlt := h.2.1
    have hp2 := hp.2
    have := cloud_ordered_replace _ [band, next]
      [{ band with outer_edge := r_inner }, { next with inner_edge := r_inner }] rest.tail hG2
      (cloud_ordered_of _
        (by simp [bands_valid] <;> (try constructorm* _ ∧ _) <;> linarith)
        (by simp))
      (by
        intro y hy
        simp only [List.mem_cons, List.mem_singleton, List.not_mem_nil, or_false] at hy
        rcases hy with rfl | rfl
        · exact ⟨⟨band, by simp, le_refl _⟩, ⟨next, by simp, by simp only; linarith⟩⟩
        · exact ⟨⟨band, by simp, h2⟩, ⟨next, by simp, le_refl _⟩⟩)
    simpa using this
  | gas_after h h1 h2 hm hp =>
    have hlt := h.2.1
    have := cloud_ordered_replace _ [band]
      [{ band with outer_edge := r_inner }, ⟨r_inner, band.outer_edge, false, true⟩] rest hG1
      (cloud_ordered_of _
        (by simp [bands_valid] <;> (try constructorm* _ ∧ _) <;> linarith)
        (by simp))
      (by simp <;> (try constructorm* _ ∧ _) <;> linarith)
    simpa using this

/-- The second loop of `collect_dust` keeps an ordered cloud ordered. -/
theorem update_bands_ordered {r_inner r_outer mass crit_mass : ℚ} (hio : r_inner ≤ r_outer)
    (cloud : List dust) (h : cloud_ordered cloud) :
    cloud_ordered (update_bands r_inner r_outer mass crit_mass [] [] cloud) := by
  obtain ⟨s1, d1, he, hI⟩ := update_bands_invariant r_inner r_outer mass crit_mass
    (fun stale done rest => cloud_ordered (stale.reverse ++ (done.reverse ++ rest)))
    (fun stale done band rest r hI hs => band_step_ordered hio hI hs)
    [] [] cloud (by simpa using h)
  rw [he]
  simpa using hI

/-! ### The range of effect -/

theorem inner_effect_limit_nonneg {a e rm : ℚ} (ha : 0 ≤ a) (he : e ≤ 1) (hrm : rm ≤ 1) :
    0 ≤ inner_effect_limit a e rm := by
  unfold inner_effect_limit CLOUD_ECCENTRICITY
  apply div_nonneg
  · apply mul_nonneg (mul_nonneg ha (by linarith)) (by linarith)
  · norm_num

theorem effect_limits_lt {a e rm : ℚ} (ha : 0 < a) (he0 : 0 ≤ e) (he1 : e ≤ 1)
    (hrm0 : 0 ≤ rm) :
    inner_effect_limit a e rm < outer_effect_limit a e rm := by
  unfold inner_effect_limit outer_effect_limit CLOUD_ECCENTRICITY
  have h1 : a * (1.0 - e) * (1.0 - rm) ≤ a := by
    have : (1.0 - e) * (1.0 - rm) ≤ 1 := by
      have h0 : (0 : ℚ) ≤ 1.0 - e := by linarith
      nlinarith
    calc a * (1.0 - e) * (1.0 - rm) = a * ((1.0 - e) * (1.0 - rm)) := by ring
      _ ≤ a * 1 := mul_le_mul_of_nonneg_left this (le_of_lt ha)
      _ = a := by ring
  have h2 : a ≤ a * (1.0 + e) * (1.0 + rm) := by
    have : (1 : ℚ) ≤ (1.0 + e) * (1.0 + rm) := by nlinarith
    calc a = a * 1 := by ring
      _ ≤ a * ((1.0 + e) * (1.0 + rm)) := mul_le_mul_of_nonneg_left this (le_of_lt ha)
      _ = a * (1.0 + e) * (1.0 + rm) := by ring
  have e1 : a * (1.0 - e) * (1.0 - rm) / (1.0 + 0.2) = a * (1.0 - e) * (1.0 - rm) * (5/6) := by
    norm_num; ring
  have e2 : a * (1.0 + e) * (1.0 + rm) / (1.0 - 0.2) = a * (1.0 + e) * (1.0 + rm) * (5/4) := by
    norm_num; ring
  rw [e1, e2]
  nlinarith

/-- The reduced mass of a body of non-negative mass lies in `[0, 1)`. -/
theorem reduced_mass_range {M : Libm} (hM : libm_facts M) {mass : ℚ} (hm : 0 ≤ mass) :
    0 ≤ power M (mass / (1.0 + mass)) 0.25 ∧ power M (mass / (1.0 + mass)) 0.25 < 1 := by
  have hpos : (0 : ℚ) < 1.0 + mass := by norm_num; linarith
  have h0 : 0 ≤ mass / (1.0 + mass) := div_nonneg hm (le_of_lt hpos)
  have h1 : mass / (1.0 + mass) < 1 := by
    rw [div_lt_one hpos]; norm_num
  exact ⟨hM.pow_nonneg _ _ h0, hM.pow_lt_one _ _ h0 h1 (by norm_num)⟩

/-- A sweep with `a > 0`, `0 ≤ e < 1` and `mass ≥ 0` does not exit, and its
result is made of the two loops. -/
theorem collect_dust_eq {M : Libm} (hM : libm_facts M) (dust_density : ℚ)
    {mass a e : ℚ} (crit_mass : ℚ) (cloud : List dust)
    (ha : 0 < a) (he1 : e < 1) (hm : 0 ≤ mass) :
    collect_dust M dust_density mass a e crit_mass cloud
      = some (accumulate_mass M dust_density
            (inner_effect_limit a e (power M (mass / (1.0 + mass)) 0.25))
            (outer_effect_limit a e (power M (mass / (1.0 + mass)) 0.25))
            (power M (mass / (1.0 + mass)) 0.25) mass a e crit_mass mass cloud,
          update_bands
            (inner_effect_limit a e (power M (mass / (1.0 + mass)) 0.25))
            (outer_effect_limit a e (power M (mass / (1.0 + mass)) 0.25))
            mass crit_mass [] [] cloud) := by
  have hrm := reduced_mass_range hM hm
  have h := inner_effect_limit_nonneg (le_of_lt ha) (le_of_lt he1) (le_of_lt hrm.2)
  unfold collect_dust
  simp only
  rw [if_neg]
  rw [show (0.0 : ℚ) = 0 by norm_num]
  exact not_lt.2 h

theorem libm_facts_table : libm_facts table_libm where
  pow_nonneg := by
    intro x y hx
    simp only [table_libm]
    split_ifs
    · exact mul_nonneg hx hx
    all_goals norm_num
  pow_lt_one := by
    intro x y hx hx1 hy
    simp only [table_libm]
    split_ifs
    · nlinarith
    all_goals norm_num
  sqrt_nonneg := by
    intro x hx
    simp only [table_libm]
    split_ifs <;> norm_num

/-! ### Contiguity of the cloud under sweeps below the critical mass -/

theorem spans_append (lo hi : ℚ) (l1 l2 : List dust) :
    spans lo hi (l1 ++ l2) ↔ ∃ mid, spans lo mid l1 ∧ spans mid hi l2 := by
  induction l1 generalizing lo with
  | nil =>
    simp only [List.nil_append, spans]
    constructor
    · intro h; exact ⟨lo, rfl, h⟩
    · rintro ⟨mid, rfl, h⟩; exact h
  | cons b rest ih =>
    rw [List.cons_append]
    simp only [spans]
    rw [ih]
    constructor
    · rintro ⟨h1, mid, h2, h3⟩; exact ⟨mid, ⟨h1, h2⟩, h3⟩
    · rintro ⟨mid, ⟨h1, h2⟩, h3⟩; exact ⟨h1, mid, h2, h3⟩

/-- What `spans` says of a cloud that is not empty. -/
theorem spans_chain (lo hi : ℚ) (cloud : List dust) (h : spans lo hi cloud)
    (hne : cloud ≠ []) :
    cloud.Chain' (fun band next_band => band.outer_edge = next_band.inner_edge)
      ∧ cloud.head?.map dust.inner_edge = some lo
      ∧ cloud.getLast?.map dust.outer_edge = some hi := by
  induction cloud generalizing lo with
  | nil => exact absurd rfl hne
  | cons b rest ih =>
    obtain ⟨h1, h2⟩ := h
    cases rest with
    | nil =>
      simp only [spans] at h2
      simp [h1, h2]
    | cons c rest2 =>
      obtain ⟨ih1, ih2, ih3⟩ := ih b.outer_edge h2 (List.cons_ne_nil _ _)
      refine ⟨?_, by simp [h1], ?_⟩
      · rw [List.chain'_cons]
        refine ⟨?_, ih1⟩
        simp only [List.head?, Option.map, Option.some.injEq] at ih2
        exact ih2.symm
      · rw [List.getLast?_cons_cons]
        exact ih3

/-- A step of the loop of a sweep below the critical mass keeps the bands
contiguous between the same two ends, as long as case 3 is not taken for the
first band of the cloud. -/
theorem band_step_spans {r_inner r_outer mass crit_mass lo hi : ℚ} (hm : mass < crit_mass)
    {stale done : List dust} {band : dust} {rest : List dust}
    {r : List dust × List dust × Bool}
    (hI : stale = [] ∧ spans lo hi (done.reverse ++ band :: rest)
      ∧ (done = [] → ¬ cuts_first_band r_inner r_outer mass crit_mass (band :: rest)))
    (hs : band_step r_inner r_outer mass crit_mass stale done band rest.head? r) :
    r.1 = [] ∧ spans lo hi (r.2.1.reverse ++ (if r.2.2 = true then rest.tail else rest))
      ∧ (r.2.1 = [] → ¬ cuts_first_band r_inner r_outer mass crit_mass
          (if r.2.2 = true then rest.tail else rest)) := by
  obtain ⟨hst, hsp, hcut⟩ := hI
  have hsp0 := hsp
  rw [spans_append] at hsp
  obtain ⟨mid, hd, hb, hr⟩ := hsp
  cases hs with
  | skip h =>
    refine ⟨hst, ?_, by simp⟩
    simpa using hsp0
  | split_gas h h1 h2 hm1 =>
    refine ⟨hst, ?_, by simp⟩
    simp only [List.reverse_cons, List.append_assoc, List.singleton_append, Bool.false_eq_true,
      if_false]
    rw [spans_append]
    exact ⟨mid, hd, hb, rfl, rfl, hr⟩
  | split h h1 h2 hm1 => exact absurd hm (not_lt.2 hm1)
  | free_head h h1 h2 hm1 hd1 => exact absurd hm (not_lt.2 hm1)
  | free h h1 h2 hm1 hd1 => exact absurd hm (not_lt.2 hm1)
  | clear h h1 h2 hm1 =>
    refine ⟨hst, ?_, by simp⟩
    simp only [List.reverse_cons, List.append_assoc, List.singleton_append, Bool.false_eq_true,
      if_false]
    rw [spans_append]
    exact ⟨mid, hd, hb, hr⟩
  | cut_inner h h1 h2 hm1 => exact absurd hm (not_lt.2 hm1)
  | merge_prev h h1 h2 hm1 prev_band before hd1 hp =>
    subst hd1
    refine ⟨hst, ?_, by simp⟩
    simp only [List.reverse_cons, List.append_assoc, List.singleton_append, Bool.false_eq_true,
      if_false] at hd ⊢
    rw [spans_append] at hd ⊢
    obtain ⟨mid2, hbefore, hprev, hmid⟩ := hd
    exact ⟨mid2, hbefore, hprev, rfl, hr⟩
  | gas_before h h1 h2 hm1 prev_band before hd1 hp =>
    refine ⟨hst, ?_, by simp⟩
    simp only [List.reverse_cons, List.append_assoc, List.singleton_append, Bool.false_eq_true,
      if_false]
    rw [spans_append]
    exact ⟨mid, hd, hb, rfl, hr⟩
  | gas_lost h h1 h2 hm1 hd1 =>
    exact absurd ⟨h, h1, h2⟩ (hcut hd1)
  | cut_outer h h1 h2 hm1 => exact absurd hm (not_lt.2 hm1)
  | merge_next h h1 h2 hm1 next hn hp =>
    have hrest := head?_eq_some_cons hn
    rw [hrest] at hr
    obtain ⟨hr1, hr2⟩ := hr
    refine ⟨hst, ?_, by simp⟩
    simp only [List.reverse_cons, List.append_assoc, List.singleton_append, if_true]
    rw [spans_append]
    exact ⟨mid, hd, hb, rfl, hr2⟩
  | gas_after h h1 h2 hm1 hp =>
    refine ⟨hst, ?_, by simp⟩
    simp only [List.reverse_cons, List.append_assoc, List.singleton_append, Bool.false_eq_true,
      if_false]
    rw [spans_append]
    exact ⟨mid, hd, hb, rfl, hr⟩

/-- A sweep below the critical mass that does not take case 3 for the first
band keeps the bands contiguous between the same two ends. -/
theorem update_bands_spans {r_inner r_outer mass crit_mass lo hi : ℚ} (hm : mass < crit_mass)
    (cloud : List dust) (h : spans lo hi cloud)
    (hcut : ¬ cuts_first_band r_inner r_outer mass crit_mass cloud) :
    spans lo hi (update_bands r_inner r_outer mass crit_mass [] [] cloud) := by
  obtain ⟨s1, d1, he, hI⟩ := update_bands_invariant r_inner r_outer mass crit_mass
    (fun stale done rest => stale = [] ∧ spans lo hi (done.reverse ++ rest)
      ∧ (done = [] → ¬ cuts_first_band r_inner r_outer mass crit_mass rest))
    (fun stale done band rest r hI hs => band_step_spans hm hI hs)
    [] [] cloud ⟨rfl, by simpa using h, fun _ => hcut⟩
  rw [he, hI.1]
  simpa using hI.2.1

theorem collect_dust_some {M : Libm} {dust_density mass a e crit_mass : ℚ}
    {cloud cloud1 : List dust}
    (hc : (collect_dust M dust_density mass a e crit_mass cloud).map Prod.snd = some cloud1) :
    cloud1 = update_bands
      (inner_effect_limit a e (power M (mass / (1.0 + mass)) 0.25))
      (outer_effect_limit a e (power M (mass / (1.0 + mass)) 0.25))
      mass crit_mass [] [] cloud := by
  unfold collect_dust at hc
  simp only at hc
  split_ifs at hc
  · cases hc
  · simp only [Option.map_some', Option.some.injEq] at hc
    exact hc.symm

theorem dust_sweep_reachable_spans {M : Libm} {inner outer : ℚ} {cloud : List dust}
    (hr : dust_sweep_reachable M inner outer cloud) : spans inner outer cloud := by
  induction hr with
  | init => simp [set_initial_conditions, spans]
  | sweep h hm hcut hc ih =>
    rw [collect_dust_some hc]
    exact update_bands_spans hm _ ih hcut

theorem sweep_reachable_valid {M : Libm} (hM : libm_facts M) {inner outer : ℚ}
    (hio : inner ≤ outer) {cloud : List dust}
    (hr : sweep_reachable M inner outer cloud) : bands_valid cloud := by
  induction hr with
  | init =>
    intro b hb
    simp only [set_initial_conditions, List.mem_singleton] at hb
    subst hb
    exact hio
  | sweep h ha he0 he1 hm hc ih =>
    rw [collect_dust_some hc]
    exact update_bands_valid
      (le_of_lt (effect_limits_lt ha he0 (le_of_lt he1) (reduced_mass_range hM hm).1)) _ ih

/-! ### C1, C9, C10: the shape of the cloud after sweeps -/

/-- C1, as stated, fails: a body at or above the critical mass takes the gas
with the dust and leaves a gap. From `set_initial_conditions(1, 10)`, one
sweep with `mass = 1/15` (reduced mass `1/2`), `a = 4`, `e = 0`,
`crit_mass = 1/60` has the range of effect `[5/3, 15/2]` and leaves the bands
`[1, 5/3]` and `[15/2, 10]`, which are not contiguous. -/
theorem C1_counterexample :
    (1 : ℚ) < 10
      ∧ sweep_reachable table_libm 1 10
          [⟨1, 5/3, true, true⟩, ⟨15/2, 10, true, true⟩]
      ∧ ¬ List.Chain' (fun band next_band : dust => band.outer_edge = next_band.inner_edge)
          [⟨1, 5/3, true, true⟩, ⟨15/2, 10, true, true⟩] := by
  have hc : (collect_dust table_libm 1 (1/15) 4 0 (1/60) (set_initial_conditions 1 10)).map
      Prod.snd = some [⟨1, 5/3, true, true⟩, ⟨15/2, 10, true, true⟩] := by decide!
  refine ⟨by norm_num, ?_, ?_⟩
  · exact sweep_reachable.sweep sweep_reachable.init (by norm_num) (by norm_num)
      (by norm_num) (by norm_num) hc
  · simp only [List.chain'_cons, List.chain'_singleton, and_true]
    norm_num

/-- C1, amended: for every cloud created by `set_initial_conditions(inner,
outer)` with `inner < outer`, after every finite sequence of `collect_dust`
sweeps below the critical mass (`mass < crit_mass`) none of which takes case 3
for the first band of the cloud, the bands that later sweeps traverse are
contiguous, the first starts at `inner` and the last ends at `outer`. -/
theorem C1_partition_amended (M : Libm) (inner outer : ℚ) (hio : inner < outer)
    (cloud : List dust) (hr : dust_sweep_reachable M inner outer cloud) :
    cloud.Chain' (fun band next_band => band.outer_edge = next_band.inner_edge)
      ∧ cloud.head?.map dust.inner_edge = some inner
      ∧ cloud.getLast?.map dust.outer_edge = some outer := by
  have hs := dust_sweep_reachable_spans hr
  apply spans_chain inner outer cloud hs
  rintro rfl
  simp only [spans] at hs
  exact absurd hs (ne_of_lt hio)

/-- C1, amended, at the cloud one sweep below the critical mass leaves of `[1, 10]`. -/
theorem C1_partition_amended_witness :
    List.Chain' (fun band next_band : dust => band.outer_edge = next_band.inner_edge)
        [⟨1, 5/3, true, true⟩, ⟨5/3, 15/2, false, true⟩, ⟨15/2, 10, true, true⟩]
      ∧ (List.head?
          [(⟨1, 5/3, true, true⟩ : dust), ⟨5/3, 15/2, false, true⟩,
            ⟨15/2, 10, true, true⟩]).map dust.inner_edge = some 1
      ∧ (List.getLast?
          [(⟨1, 5/3, true, true⟩ : dust), ⟨5/3, 15/2, false, true⟩,
            ⟨15/2, 10, true, true⟩]).map dust.outer_edge = some 10 :=
  C1_partition_amended table_libm 1 10 (by norm_num) _
    (dust_sweep_reachable.sweep dust_sweep_reachable.init
      (show (1/15 : ℚ) < 1 by norm_num)
      (show ¬ cuts_first_band
        (inner_effect_limit 4 0 (power table_libm ((1/15) / (1.0 + 1/15)) 0.25))
        (outer_effect_limit 4 0 (power table_libm ((1/15) / (1.0 + 1/15)) 0.25))
        (1/15) 1 (set_initial_conditions 1 10) by decide!)
      (show (collect_dust table_libm 1 (1/15) 4 0 1 (set_initial_conditions 1 10)).map
        Prod.snd = some [⟨1, 5/3, true, true⟩, ⟨5/3, 15/2, false, true⟩,
          ⟨15/2, 10, true, true⟩] by decide!))

/-- C9: for every cloud whose bands are ordered and non-overlapping and every
sweep with `a > 0`, `0 ≤ e < 1` and `mass ≥ 0`, below or at or above the
critical mass, `collect_dust` returns and the cloud it leaves is again ordered
and non-overlapping. -/
theorem C9_sweep_keeps_order (M : Libm) (hM : libm_facts M)
    (dust_density mass a e crit_mass : ℚ) (cloud : List dust)
    (hord : cloud_ordered cloud) (ha : 0 < a) (he0 : 0 ≤ e) (he1 : e < 1) (hm : 0 ≤ mass) :
    ∃ mass1 cloud1, collect_dust M dust_density mass a e crit_mass cloud = some (mass1, cloud1)
      ∧ cloud_ordered cloud1 :=
  ⟨_, _, collect_dust_eq hM dust_density crit_mass cloud ha he1 hm,
    update_bands_ordered
      (le_of_lt (effect_limits_lt ha he0 (le_of_lt he1) (reduced_mass_range hM hm).1))
      cloud hord⟩

/-- C9 at a cloud of three bands with a gap, swept at the critical mass. -/
theorem C9_sweep_keeps_order_witness :
    ∃ mass1 cloud1,
      collect_dust table_libm 1 (1/15) 4 0 (1/60)
          [⟨1, 2, true, true⟩, ⟨2, 6, false, true⟩, ⟨7, 10, true, true⟩]
        = some (mass1, cloud1)
      ∧ cloud_ordered cloud1 :=
  C9_sweep_keeps_order table_libm libm_facts_table 1 (1/15) 4 0 (1/60)
    [⟨1, 2, true, true⟩, ⟨2, 6, false, true⟩, ⟨7, 10, true, true⟩]
    (by norm_num [cloud_ordered]) (by norm_num) (by norm_num) (by norm_num) (by norm_num)

/-- C10, as stated, fails: a band of width zero is created when the range of
effect starts exactly at the inner edge of a band. From
`set_initial_conditions(5/3, 10)`, one sweep with `mass = 1/15` (reduced mass
`1/2`), `a = 4`, `e = 0`, `crit_mass = 1` has `r_inner = 5/3`; case 1 applies
(`temp2 == 0`) and the first band becomes `[5/3, 5/3]`. -/
theorem C10_counterexample :
    (0 : ℚ) < 5/3 ∧ (5/3 : ℚ) < 10
      ∧ sweep_reachable table_libm (5/3) 10
          [⟨5/3, 5/3, true, true⟩, ⟨5/3, 15/2, false, true⟩, ⟨15/2, 10, true, true⟩]
      ∧ ∃ band ∈ [(⟨5/3, 5/3, true, true⟩ : dust), ⟨5/3, 15/2, false, true⟩,
            ⟨15/2, 10, true, true⟩],
          ¬ band.inner_edge < band.outer_edge := by
  have hc : (collect_dust table_libm 1 (1/15) 4 0 1 (set_initial_conditions (5/3) 10)).map
      Prod.snd = some [⟨5/3, 5/3, true, true⟩, ⟨5/3, 15/2, false, true⟩,
        ⟨15/2, 10, true, true⟩] := by decide!
  refine ⟨by norm_num, by norm_num, ?_, ⟨5/3, 5/3, true, true⟩, by simp, by simp⟩
  exact sweep_reachable.sweep sweep_reachable.init (by norm_num) (by norm_num)
    (by norm_num) (by norm_num) hc

/-- C10, amended: in every cloud reachable from `set_initial_conditions(inner,
outer)` with `0 < inner < outer` by any sequence of `collect_dust` sweeps
(`a > 0`, `0 ≤ e < 1`, `mass ≥ 0`), every band satisfies
`inner_edge ≤ outer_edge`. -/
theorem C10_band_validity_amended (M : Libm) (hM : libm_facts M) (inner outer : ℚ)
    (hin : 0 < inner) (hio : inner < outer) (cloud : List dust)
    (hr : sweep_reachable M inner outer cloud) :
    ∀ band ∈ cloud, band.inner_edge ≤ band.outer_edge :=
  sweep_reachable_valid hM (le_of_lt hio) hr

/-- C10, amended, at the band of width zero of `C10_counterexample`. -/
theorem C10_band_validity_amended_witness :
    sweep_reachable table_libm (5/3) 10
        [⟨5/3, 5/3, true, true⟩, ⟨5/3, 15/2, false, true⟩, ⟨15/2, 10, true, true⟩]
      ∧ (⟨5/3, 5/3, true, true⟩ : dust).inner_edge
          ≤ (⟨5/3, 5/3, true, true⟩ : dust).outer_edge :=
  have hr : sweep_reachable table_libm (5/3) 10
      [⟨5/3, 5/3, true, true⟩, ⟨5/3, 15/2, false, true⟩, ⟨15/2, 10, true, true⟩] :=
    sweep_reachable.sweep sweep_reachable.init
      (show (0 : ℚ) < 4 by norm_num) (show (0 : ℚ) ≤ 0 by norm_num)
      (show (0 : ℚ) < 1 by norm_num) (show (0 : ℚ) ≤ 1/15 by norm_num)
      (show (collect_dust table_libm 1 (1/15) 4 0 1 (set_initial_conditions (5/3) 10)).map
        Prod.snd = some [⟨5/3, 5/3, true, true⟩, ⟨5/3, 15/2, false, true⟩,
          ⟨15/2, 10, true, true⟩] by decide!)
  ⟨hr, C10_band_validity_amended table_libm libm_facts_table (5/3) 10 (by norm_num)
    (by norm_num) _ hr ⟨5/3, 5/3, true, true⟩ (by simp)⟩

/-! ### sorted_list_insert -/

/-- Where `sorted_list_insert` puts the planet: after the nodes before the
first one that lies further out. -/
theorem sorted_list_insert_split (head : List planets) (planet : planets) :
    ∃ before after, head = before ++ after
      ∧ sorted_list_insert head planet = before ++ planet :: after
      ∧ (∀ node ∈ before, node.a ≤ planet.a)
      ∧ (∀ node, after.head? = some node → planet.a < node.a) := by
  induction head with
  | nil => exact ⟨[], [], rfl, rfl, by simp, by simp⟩
  | cons node rest ih =>
    by_cases h : node.a > planet.a
    · refine ⟨[], node :: rest, rfl, ?_, by simp, ?_⟩
      · simp [sorted_list_insert, h]
      · intro x hx
        simp only [List.head?, Option.some.injEq] at hx
        subst hx
        exact h
    · obtain ⟨before, after, h1, h2, h3, h4⟩ := ih
      refine ⟨node :: before, after, by simp [h1], ?_, ?_, h4⟩
      · simp [sorted_list_insert, h, h2]
      · intro x hx
        rcases List.mem_cons.1 hx with rfl | hx
        · exact not_lt.1 h
        · exact h3 x hx

/-- C8: for every planet list sorted ascending by `a` and every planet,
`sorted_list_insert` returns the nodes of the list in their order with the
planet added: the list is cut in two, the planet is put between the two parts,
every node before it has `a ≤ planet.a`, every node after it has
`a > planet.a` (so the planet sits immediately before the first node that is
strictly further out, at the end if there is none, alone if the list was
empty), and the result is sorted ascending by `a`. -/
theorem C8_sorted_list_insert (head : List planets) (planet : planets)
    (hsorted : head.Pairwise (fun x y => x.a ≤ y.a)) :
    ∃ before after, head = before ++ after
      ∧ sorted_list_insert head planet = before ++ planet :: after
      ∧ (∀ node ∈ before, node.a ≤ planet.a)
      ∧ (∀ node ∈ after, planet.a < node.a)
      ∧ (sorted_list_insert head planet).Pairwise (fun x y => x.a ≤ y.a) := by
  obtain ⟨before, after, h1, h2, h3, h4⟩ := sorted_list_insert_split head planet
  subst h1
  rw [List.pairwise_append] at hsorted
  obtain ⟨hb, ha, hba⟩ := hsorted
  have hafter : ∀ node ∈ after, planet.a < node.a := by
    cases after with
    | nil => intro node hn; cases hn
    | cons x xs =>
      have hx := h4 x rfl
      intro node hn
      rcases List.mem_cons.1 hn with rfl | hn
      · exact hx
      · have := List.rel_of_pairwise_cons ha hn
        linarith
  refine ⟨before, after, rfl, h2, h3, hafter, ?_⟩
  rw [h2, List.pairwise_append]
  refine ⟨hb, List.Pairwise.cons (fun y hy => le_of_lt (hafter y hy)) ha, ?_⟩
  intro x hx y hy
  rcases List.mem_cons.1 hy with rfl | hy
  · exact h3 x hx
  · exact hba x hx y hy

/-- C8 at a list with two nodes on the orbit of the planet. -/
theorem C8_sorted_list_insert_witness :
    ∃ before after,
      [({ a := 1 } : planets), { a := 2 }, { a := 2, e := 1/2 }, { a := 3 }] = before ++ after
      ∧ sorted_list_insert [{ a := 1 }, { a := 2 }, { a := 2, e := 1/2 }, { a := 3 }] { a := 2 }
          = before ++ { a := 2 } :: after
      ∧ (∀ node ∈ before, node.a ≤ ({ a := 2 } : planets).a)
      ∧ (∀ node ∈ after, ({ a := 2 } : planets).a < node.a)
      ∧ (sorted_list_insert [{ a := 1 }, { a := 2 }, { a := 2, e := 1/2 }, { a := 3 }]
          { a := 2 }).Pairwise (fun x y => x.a ≤ y.a) :=
  C8_sorted_list_insert [{ a := 1 }, { a := 2 }, { a := 2, e := 1/2 }, { a := 3 }] { a := 2 }
    (by simp; norm_num)

/-! ### find_collision -/

theorem getElem?_snoc_cases {α : Type} (pre : List α) (x y : α) (j : Nat)
    (h : (pre ++ [x])[j]? = some y) :
    pre[j]? = some y ∨ (j = pre.length ∧ y = x) := by
  by_cases hj : j < pre.length
  · left
    rw [List.getElem?_append_left hj] at h
    exact h
  · right
    have hj2 : pre.length ≤ j := not_lt.1 hj
    rw [List.getElem?_append_right hj2] at h
    by_cases h0 : j - pre.length = 0
    · rw [h0] at h
      simp only [List.getElem?_cons_zero, Option.some.injEq] at h
      exact ⟨by omega, h.symm⟩
    · obtain ⟨m, hm⟩ := Nat.exists_eq_succ_of_ne_zero h0
      rw [hm] at h
      simp at h

theorem getElem?_append_of_some {α : Type} (pre l : List α) (x : α) (k : Nat)
    (h : pre[k]? = some x) : (pre ++ l)[k]? = some x := by
  have hk : k < pre.length := by
    by_contra hc
    rw [List.getElem?_eq_none (not_lt.1 hc)] at h
    cases h
  rw [List.getElem?_append_left hk]
  exact h

theorem getElem?_lt_length {α : Type} (pre : List α) (x : α) (k : Nat)
    (h : pre[k]? = some x) : k < pre.length := by
  by_contra hc
  rw [List.getElem?_eq_none (not_lt.1 hc)] at h
  cases h

theorem getElem?_snoc_length {α : Type} (pre : List α) (x : α) :
    (pre ++ [x])[pre.length]? = some x := by
  rw [List.getElem?_append_right (le_refl _)]
  simp

theorem collision_result_of_inv (M : Libm) (a e : ℚ) (pre : List planets)
    (cn : Option Nat) (ca : ℚ) (h : collision_scan_inv M a e pre cn ca) :
    collision_result M a e pre cn := by
  obtain ⟨h1, h2⟩ := h
  refine ⟨⟨h1, ?_⟩, ?_⟩
  · intro hall
    cases cn with
    | none => rfl
    | some k =>
      obtain ⟨x, hx, hc, _⟩ := h2 k rfl
      exact absurd hc (hall x (List.getElem?_mem hx))
  · intro i hi
    obtain ⟨x, hx, hc, _, h3, h4⟩ := h2 i hi
    exact ⟨x, hx, hc, h3, h4⟩

theorem find_collision_loop_cons (M : Libm) (a e : ℚ) (node : planets)
    (rest : List planets) (i : Nat) (cn : Option Nat) (ca : ℚ) :
    find_collision_loop M a e (node :: rest) i cn ca
      = if in_collision M a e node then
          match cn with
          | some k =>
            if |separation a node| < ca then
              find_collision_loop M a e rest (i + 1) (some i) |separation a node|
            else find_collision_loop M a e rest (i + 1) (some k) ca
          | none => find_collision_loop M a e rest (i + 1) (some i) |separation a node|
        else find_collision_loop M a e rest (i + 1) cn ca := by
  rfl

theorem find_collision_loop_result (M : Libm) (a e : ℚ) (rest : List planets) :
    ∀ (pre : List planets) (cn : Option Nat) (ca : ℚ),
      collision_scan_inv M a e pre cn ca →
      collision_result M a e (pre ++ rest)
        (find_collision_loop M a e rest pre.length cn ca) := by
  induction rest with
  | nil =>
    intro pre cn ca h
    simp only [List.append_nil, find_collision_loop]
    exact collision_result_of_inv M a e pre cn ca h
  | cons node rest ih =>
    intro pre cn ca h
    obtain ⟨h1, h2⟩ := h
    have hlen : (pre ++ [node]).length = pre.length + 1 := by simp
    have happ : pre ++ node :: rest = (pre ++ [node]) ++ rest := by simp
    rw [happ, find_collision_loop_cons, ← hlen]
    by_cases hc : in_collision M a e node
    · rw [if_pos hc]
      cases cn with
      | none =>
        simp only
        apply ih
        refine ⟨fun h => (by cases h), ?_⟩
        intro k hk
        simp only [Option.some.injEq] at hk
        subst hk
        refine ⟨node, ?_, hc, rfl, ?_, ?_⟩
        · exact getElem?_snoc_length pre node
        · intro j y hy hcy
          rcases getElem?_snoc_cases pre node y j hy with hy | ⟨_, rfl⟩
          · exact absurd hcy (h1 rfl y (List.getElem?_mem hy))
          · exact le_refl _
        · intro j y hj hy hcy
          rcases getElem?_snoc_cases pre node y j hy with hy | ⟨hj2, rfl⟩
          · exact absurd hcy (h1 rfl y (List.getElem?_mem hy))
          · omega
      | some k =>
        obtain ⟨x, hx, hcx, hca, h3, h4⟩ := h2 k rfl
        simp only
        by_cases hlt : |separation a node| < ca
        · rw [if_pos hlt]
          apply ih
          refine ⟨fun h => (by cases h), ?_⟩
          intro k2 hk2
          simp only [Option.some.injEq] at hk2
          subst hk2
          refine ⟨node, ?_, hc, rfl, ?_, ?_⟩
          · exact getElem?_snoc_length pre node
          · intro j y hy hcy
            rcases getElem?_snoc_cases pre node y j hy with hy | ⟨_, rfl⟩
            · have := h3 j y hy hcy
              rw [hca] at hlt
              linarith
            · exact le_refl _
          · intro j y hj hy hcy
            rcases getElem?_snoc_cases pre node y j hy with hy | ⟨hj2, rfl⟩
            · have := h3 j y hy hcy
              rw [hca] at hlt
              linarith
            · omega
        · rw [if_neg hlt]
          apply ih
          refine ⟨fun h => (by cases h), ?_⟩
          intro k2 hk2
          simp only [Option.some.injEq] at hk2
          subst hk2
          refine ⟨x, getElem?_append_of_some pre [node] x _ hx, hcx, hca, ?_, ?_⟩
          · intro j y hy hcy
            rcases getElem?_snoc_cases pre node y j hy with hy | ⟨_, rfl⟩
            · exact h3 j y hy hcy
            · rw [hca] at hlt
              exact not_lt.1 hlt
          · intro j y hj hy hcy
            rcases getElem?_snoc_cases pre node y j hy with hy | ⟨hj2, rfl⟩
            · exact h4 j y hj hy hcy
            · have := getElem?_lt_length pre x _ hx
              omega
    · rw [if_neg hc]
      apply ih
      refine ⟨?_, ?_⟩
      · intro hn n hn2
        rcases List.mem_append.1 hn2 with hn2 | hn2
        · exact h1 hn n hn2
        · simp only [List.mem_singleton] at hn2
          subst hn2
          exact hc
      · intro k hk
        obtain ⟨x, hx, hcx, hca, h3, h4⟩ := h2 k hk
        refine ⟨x, getElem?_append_of_some pre [node] x _ hx, hcx, hca, ?_, ?_⟩
        · intro j y hy hcy
          rcases getElem?_snoc_cases pre node y j hy with hy | ⟨_, rfl⟩
          · exact h3 j y hy hcy
          · exact absurd hcy hc
        · intro j y hj hy hcy
          rcases getElem?_snoc_cases pre node y j hy with hy | ⟨hj2, rfl⟩
          · exact h4 j y hj hy hcy
          · exact absurd hcy hc

/-- C7: `find_collision(head, a, e)` returns no neighbour if and only if no
node of the list passes the test `|node.a - a| ≤ |dist1|` or
`|node.a - a| ≤ |dist2|`; otherwise the node it returns passes the test, no
node that passes the test has a smaller `|node.a - a|`, and every node before
it in the list that passes the test has a strictly greater `|node.a - a|`. -/
theorem C7_find_collision (M : Libm) (head : List planets) (a e : ℚ) :
    (find_collision M head a e = none ↔ ∀ node ∈ head, ¬ in_collision M a e node)
      ∧ ∀ i : Nat, find_collision M head a e = some i →
          ∃ found, head[i]? = some found ∧ in_collision M a e found
            ∧ (∀ (j : Nat) node, head[j]? = some node → in_collision M a e node →
                |found.a - a| ≤ |node.a - a|)
            ∧ (∀ (j : Nat) node, j < i → head[j]? = some node → in_collision M a e node →
                |found.a - a| < |node.a - a|) := by
  have h := find_collision_loop_result M a e head [] none 0.0
    ⟨fun _ n hn => (by cases hn), fun k hk => (by cases hk)⟩
  simpa [collision_result, separation, find_collision] using h

/-! ### The mass a sweep returns -/

theorem band_gain_eq (M : Libm) (dust_density r_inner r_outer reduced_mass mass a e crit_mass : ℚ)
    (band : dust) :
    band_gain M dust_density r_inner r_outer reduced_mass mass a e crit_mass band
      = (4 * PI * power M a 2) * (reduced_mass
          * (1 - e * (band_temp1 r_outer band - band_temp2 r_inner band) / (r_outer - r_inner)))
        * ((r_outer - r_inner) - band_temp1 r_outer band - band_temp2 r_inner band)
        * (if mass < crit_mass then dust_density
            else K * dust_density / (1 + M.sqrt (crit_mass / mass) * (K - 1))) := by
  unfold band_gain
  norm_num
  ring_nf

theorem PI_pos : 0 < PI := by unfold PI; norm_num

/-- The mass density used by a sweep lies between 0 and `K * dust_density`. -/
theorem mass_density_range {M : Libm} (hM : libm_facts M) {dust_density mass crit_mass : ℚ}
    (hd : 0 ≤ dust_density) (hm : 0 ≤ mass) (hc : 0 < crit_mass) :
    0 ≤ (if mass < crit_mass then dust_density
          else K * dust_density / (1 + M.sqrt (crit_mass / mass) * (K - 1)))
      ∧ (if mass < crit_mass then dust_density
          else K * dust_density / (1 + M.sqrt (crit_mass / mass) * (K - 1)))
        ≤ K * dust_density := by
  have hK : K = 50 := by unfold K; norm_num
  split_ifs with h
  · rw [hK]; constructor <;> linarith
  · have hs := hM.sqrt_nonneg (crit_mass / mass) (div_nonneg (le_of_lt hc) hm)
    have hden : (1 : ℚ) ≤ 1 + M.sqrt (crit_mass / mass) * (K - 1) := by
      rw [hK]; nlinarith
    have hnum : 0 ≤ K * dust_density := by rw [hK]; linarith
    constructor
    · exact div_nonneg hnum (by linarith)
    · exact div_le_self hnum hden

/-- What one band adds to the mass lies between 0 and a multiple of its width. -/
theorem band_gain_bounds {M : Libm} (hM : libm_facts M)
    (dust_density r_inner r_outer reduced_mass mass a e crit_mass : ℚ) {band : dust}
    (hio : r_inner < r_outer) (hrm0 : 0 ≤ reduced_mass) (hrm1 : reduced_mass ≤ 1)
    (ha : 0 ≤ a) (he0 : 0 ≤ e) (he1 : e ≤ 1)
    (hd : 0 ≤ dust_density) (hm : 0 ≤ mass) (hc : 0 < crit_mass)
    (hel : band_eligible r_inner r_outer mass crit_mass band)
    (hv : band.inner_edge ≤ band.outer_edge) :
    0 ≤ band_gain M dust_density r_inner r_outer reduced_mass mass a e crit_mass band
      ∧ band_gain M dust_density r_inner r_outer reduced_mass mass a e crit_mass band
        ≤ 8 * PI * power M a 2 * K * dust_density * (band.outer_edge - band.inner_edge) := by
  rw [band_gain_eq]
  obtain ⟨_, h1, h2, _⟩ := hel
  have hbw : 0 < r_outer - r_inner := by linarith
  have hA : 0 ≤ power M a 2 := hM.pow_nonneg a 2 ha
  have hX : 0 ≤ 4 * PI * power M a 2 := by
    have := PI_pos
    positivity
  obtain ⟨hD0, hD1⟩ := mass_density_range hM hd hm hc
  generalize (if mass < crit_mass then dust_density
    else K * dust_density / (1 + M.sqrt (crit_mass / mass) * (K - 1))) = D at hD0 hD1
  have ht1 : 0 ≤ band_temp1 r_outer band ∧ band_temp1 r_outer band < r_outer - r_inner
      ∧ ((band_temp1 r_outer band = 0 ∧ r_outer ≤ band.outer_edge)
        ∨ band_temp1 r_outer band = r_outer - band.outer_edge) := by
    unfold band_temp1
    split_ifs with h
    · exact ⟨le_refl _, hbw, Or.inl ⟨rfl, by linarith⟩⟩
    · exact ⟨by linarith, by linarith, Or.inr rfl⟩
  have ht2 : 0 ≤ band_temp2 r_inner band ∧ band_temp2 r_inner band < r_outer - r_inner
      ∧ ((band_temp2 r_inner band = 0 ∧ band.inner_edge ≤ r_inner)
        ∨ band_temp2 r_inner band = band.inner_edge - r_inner) := by
    unfold band_temp2
    split_ifs with h
    · exact ⟨le_refl _, hbw, Or.inl ⟨rfl, by linarith⟩⟩
    · exact ⟨by linarith, by linarith, Or.inr rfl⟩
  obtain ⟨ht10, ht11, ht12⟩ := ht1
  obtain ⟨ht20, ht21, ht22⟩ := ht2
  generalize band_temp1 r_outer band = t1 at ht10 ht11 ht12
  generalize band_temp2 r_inner band = t2 at ht20 ht21 ht22
  have hw0 : 0 ≤ (r_outer - r_inner) - t1 - t2 := by
    rcases ht12 with ⟨h, _⟩ | h <;> rcases ht22 with ⟨h', _⟩ | h' <;> rw [h, h'] <;> linarith
  have hw1 : (r_outer - r_inner) - t1 - t2 ≤ band.outer_edge - band.inner_edge := by
    rcases ht12 with ⟨h, _⟩ | h <;> rcases ht22 with ⟨h', _⟩ | h' <;> rw [h, h'] <;> linarith
  have hq : -1 ≤ (t1 - t2) / (r_outer - r_inner) ∧ (t1 - t2) / (r_outer - r_inner) ≤ 1 := by
    constructor
    · rw [le_div_iff₀ hbw]; linarith
    · rw [div_le_iff₀ hbw]; linarith
  have hF : 0 ≤ 1 - e * (t1 - t2) / (r_outer - r_inner)
      ∧ 1 - e * (t1 - t2) / (r_outer - r_inner) ≤ 2 := by
    have : e * (t1 - t2) / (r_outer - r_inner) = e * ((t1 - t2) / (r_outer - r_inner)) := by
      ring
    rw [this]
    obtain ⟨hq1, hq2⟩ := hq
    constructor <;> nlinarith
  obtain ⟨hF0, hF1⟩ := hF
  generalize 1 - e * (t1 - t2) / (r_outer - r_inner) = F at hF0 hF1
  generalize (r_outer - r_inner) - t1 - t2 = w at hw0 hw1
  have hY0 : 0 ≤ reduced_mass * F := mul_nonneg hrm0 hF0
  have hY1 : reduced_mass * F ≤ 2 := by nlinarith
  have hKd : 0 ≤ K * dust_density := by unfold K; linarith
  have hwb : 0 ≤ band.outer_edge - band.inner_edge := by linarith
  constructor
  · exact mul_nonneg (mul_nonneg (mul_nonneg hX hY0) hw0) hD0
  · calc 4 * PI * power M a 2 * (reduced_mass * F) * w * D
        ≤ 4 * PI * power M a 2 * 2 * (band.outer_edge - band.inner_edge) * (K * dust_density) := by
          apply mul_le_mul _ hD1 hD0
          · exact mul_nonneg (mul_nonneg hX (by norm_num)) hwb
          · apply mul_le_mul _ hw1 hw0 (mul_nonneg hX (by norm_num))
            exact mul_le_mul_of_nonneg_left hY1 hX
      _ = 8 * PI * power M a 2 * K * dust_density * (band.outer_edge - band.inner_edge) := by
          ring

theorem total_width_cons (b : dust) (l : List dust) :
    total_width (b :: l) = (b.outer_edge - b.inner_edge) + total_width l := by
  simp [total_width]

theorem total_width_nil : total_width [] = 0 := by simp [total_width]

theorem total_width_append (l1 l2 : List dust) :
    total_width (l1 ++ l2) = total_width l1 + total_width l2 := by
  simp [total_width]

theorem total_width_reverse (l : List dust) : total_width l.reverse = total_width l := by
  simp [total_width, List.sum_reverse]

theorem total_width_nonneg {l : List dust} (h : bands_valid l) : 0 ≤ total_width l := by
  induction l with
  | nil => simp [total_width]
  | cons b rest ih =>
    rw [total_width_cons]
    rw [bands_valid_cons] at h
    have := ih h.2
    linarith [h.1]

/-- The first loop of `collect_dust` adds to the mass it starts with at least
0 and at most a multiple of the total width of the bands. -/
theorem accumulate_mass_bounds {M : Libm} (hM : libm_facts M)
    (dust_density r_inner r_outer reduced_mass mass a e crit_mass : ℚ)
    (hio : r_inner < r_outer) (hrm0 : 0 ≤ reduced_mass) (hrm1 : reduced_mass ≤ 1)
    (ha : 0 ≤ a) (he0 : 0 ≤ e) (he1 : e ≤ 1)
    (hd : 0 ≤ dust_density) (hm : 0 ≤ mass) (hc : 0 < crit_mass)
    (cloud : List dust) (hv : bands_valid cloud) (acc : ℚ) :
    acc ≤ accumulate_mass M dust_density r_inner r_outer reduced_mass mass a e crit_mass
          acc cloud
      ∧ accumulate_mass M dust_density r_inner r_outer reduced_mass mass a e crit_mass
          acc cloud
        ≤ acc + 8 * PI * power M a 2 * K * dust_density * total_width cloud := by
  have hcoef : 0 ≤ 8 * PI * power M a 2 * K * dust_density := by
    have := PI_pos
    have := hM.pow_nonneg a 2 ha
    have : (0 : ℚ) ≤ K := by unfold K; norm_num
    positivity
  induction cloud generalizing acc with
  | nil => simp [accumulate_mass, total_width]
  | cons band rest ih =>
    rw [bands_valid_cons] at hv
    have hw := total_width_nonneg hv.2
    rw [total_width_cons]
    unfold accumulate_mass
    by_cases hs : band_skipped r_inner r_outer mass crit_mass band = true
    · rw [if_pos hs]
      obtain ⟨h1, h2⟩ := ih hv.2 acc
      refine ⟨h1, ?_⟩
      have : 0 ≤ 8 * PI * power M a 2 * K * dust_density
          * (band.outer_edge - band.inner_edge) :=
        mul_nonneg hcoef (by linarith [hv.1])
      linarith
    · rw [if_neg hs]
      obtain ⟨hg0, hg1⟩ := band_gain_bounds hM dust_density r_inner r_outer reduced_mass
        mass a e crit_mass hio hrm0 hrm1 ha he0 he1 hd hm hc
        (band_eligible_of_not_skipped hs) hv.1
      obtain ⟨h1, h2⟩ := ih hv.2
        (acc + band_gain M dust_density r_inner r_outer reduced_mass mass a e crit_mass band)
      constructor
      · linarith
      · linarith

/-- A step of the loop does not add to the total width of the bands. -/
theorem band_step_width {r_inner r_outer mass crit_mass : ℚ} (hio : r_inner ≤ r_outer)
    {stale done : List dust} {band : dust} {rest : List dust}
    {r : List dust × List dust × Bool}
    (hv : bands_valid stale ∧ bands_valid done ∧ bands_valid (band :: rest))
    (hs : band_step r_inner r_outer mass crit_mass stale done band rest.head? r) :
    total_width r.1 + total_width r.2.1
        + total_width (if r.2.2 = true then rest.tail else rest)
      ≤ total_width stale + total_width done + total_width (band :: rest) := by
  obtain ⟨hv1, hv2, hv3⟩ := hv
  rw [bands_valid_cons] at hv3
  obtain ⟨hb, hv3⟩ := hv3
  cases hs with
  | skip h => simp only [total_width_cons, Bool.false_eq_true, if_false]; linarith
  | split_gas h h1 h2 hm =>
    simp only [total_width_cons, Bool.false_eq_true, if_false]; linarith
  | split h h1 h2 hm =>
    simp only [total_width_cons, Bool.false_eq_true, if_false]; linarith
  | free_head h h1 h2 hm hd =>
    subst hd
    simp only [total_width_cons, total_width_nil, Bool.false_eq_true, if_false]; linarith
  | free h h1 h2 hm hd =>
    simp only [total_width_cons, Bool.false_eq_true, if_false]; linarith
  | clear h h1 h2 hm =>
    simp only [total_width_cons, Bool.false_eq_true, if_false]; linarith
  | cut_inner h h1 h2 hm =>
    have := h.2.2.1
    simp only [total_width_cons, Bool.false_eq_true, if_false]; linarith
  | merge_prev h h1 h2 hm prev_band before hd hp =>
    subst hd
    have := hp.2
    simp only [total_width_cons, Bool.false_eq_true, if_false]; linarith
  | gas_before h h1 h2 hm prev_band before hd hp =>
    simp only [total_width_cons, Bool.false_eq_true, if_false]; linarith
  | gas_lost h h1 h2 hm hd =>
    subst hd
    have := h.2.2.1
    simp only [total_width_cons, total_width_nil, Bool.false_eq_true, if_false]; linarith
  | cut_outer h h1 h2 hm =>
    have := h.2.1
    simp only [total_width_cons, Bool.false_eq_true, if_false]; linarith
  | merge_next h h1 h2 hm next hn hp =>
    have hr := head?_eq_some_cons hn
    have := hp.2
    simp only [total_width_cons, if_true]
    have hw : total_width rest = (next.outer_edge - next.inner_edge) + total_width rest.tail := by
      conv_lhs => rw [hr]
      rw [total_width_cons]
    rw [hw]
    linarith
  | gas_after h h1 h2 hm hp =>
    simp only [total_width_cons, Bool.false_eq_true, if_false]; linarith

/-- The second loop of `collect_dust` keeps the bands valid and does not add
to their total width. -/
theorem update_bands_width (r_inner r_outer mass crit_mass : ℚ) (hio : r_inner ≤ r_outer)
    (cloud : List dust) (hv : bands_valid cloud) :
    bands_valid (update_bands r_inner r_outer mass crit_mass [] [] cloud)
      ∧ total_width (update_bands r_inner r_outer mass crit_mass [] [] cloud)
        ≤ total_width cloud := by
  obtain ⟨s1, d1, he, hI⟩ := update_bands_invariant r_inner r_outer mass crit_mass
    (fun stale done rest => (bands_valid stale ∧ bands_valid done ∧ bands_valid rest)
      ∧ total_width stale + total_width done + total_width rest ≤ total_width cloud)
    (fun stale done band rest r hI hs =>
      ⟨band_step_valid hio hI.1 hs, le_trans (band_step_width hio hI.1 hs) hI.2⟩)
    [] [] cloud ⟨⟨bands_valid_nil, bands_valid_nil, hv⟩, by simp [total_width_nil]⟩
  rw [he]
  refine ⟨?_, ?_⟩
  · rw [bands_valid_append, bands_valid_reverse, bands_valid_reverse]
    exact ⟨hI.1.1, hI.1.2.1⟩
  · rw [total_width_append, total_width_reverse, total_width_reverse]
    have := hI.2
    rw [total_width_nil] at this
    linarith

/-- One sweep with `a > 0`, `0 ≤ e < 1`, `mass ≥ 0`, `crit_mass > 0` and
`dust_density ≥ 0` over valid bands: it returns, the mass does not go down and
goes up by a multiple of the total width at most, and the bands stay valid and
no wider. -/
theorem collect_dust_bounds {M : Libm} (hM : libm_facts M)
    {dust_density mass a e crit_mass : ℚ} (cloud : List dust)
    (ha : 0 < a) (he0 : 0 ≤ e) (he1 : e < 1) (hm : 0 ≤ mass) (hc : 0 < crit_mass)
    (hd : 0 ≤ dust_density) (hv : bands_valid cloud) :
    ∃ mass1 cloud1, collect_dust M dust_density mass a e crit_mass cloud = some (mass1, cloud1)
      ∧ mass ≤ mass1
      ∧ mass1 ≤ mass + 8 * PI * power M a 2 * K * dust_density * total_width cloud
      ∧ bands_valid cloud1 ∧ total_width cloud1 ≤ total_width cloud := by
  have hrm := reduced_mass_range hM hm
  have hio := effect_limits_lt ha he0 (le_of_lt he1) hrm.1
  obtain ⟨hb1, hb2⟩ := accumulate_mass_bounds hM dust_density _ _ _ mass a e crit_mass
    hio hrm.1 (le_of_lt hrm.2) (le_of_lt ha) he0 (le_of_lt he1) hd hm hc cloud hv mass
  obtain ⟨hw1, hw2⟩ := update_bands_width _ _ mass crit_mass (le_of_lt hio) cloud hv
  exact ⟨_, _, collect_dust_eq hM dust_density crit_mass cloud ha he1 hm, hb1, hb2, hw1, hw2⟩

/-! ### accrete_dust returns -/

theorem accrete_loop_succ (M : Libm) (dust_density a e crit_mass : ℚ) (fuel : Nat)
    (new_mass : ℚ) (dust_head : List dust) :
    accrete_loop M dust_density a e crit_mass (fuel + 1) new_mass dust_head
      = match collect_dust M dust_density new_mass a e crit_mass dust_head with
        | none => Outcome.exited
        | some (swept_mass, cloud) =>
          if (swept_mass - new_mass) > (0.001 * new_mass) then
            accrete_loop M dust_density a e crit_mass fuel swept_mass cloud
          else Outcome.value (swept_mass, cloud) := by
  rfl

/-- If the gain of a sweep is bounded by `bound` and
`bound ≤ 0.001 * 1.001 ^ n * mass`, the loop of `accrete_dust` is over after
`n + 1` sweeps at most, and the mass it returns is not below the one it was
given. -/
theorem accrete_loop_returns_within {M : Libm} (hM : libm_facts M)
    {dust_density a e crit_mass : ℚ}
    (ha : 0 < a) (he0 : 0 ≤ e) (he1 : e < 1) (hc : 0 < crit_mass) (hd : 0 ≤ dust_density)
    (width : ℚ) (n : Nat) :
    ∀ (mass : ℚ) (cloud : List dust), 0 ≤ mass → bands_valid cloud →
      total_width cloud ≤ width →
      8 * PI * power M a 2 * K * dust_density * width ≤ 0.001 * 1.001 ^ n * mass →
      ∃ mass1 cloud1,
        accrete_loop M dust_density a e crit_mass (n + 1) mass cloud
          = Outcome.value (mass1, cloud1) ∧ mass ≤ mass1 := by
  have hcoef : 0 ≤ 8 * PI * power M a 2 * K * dust_density := by
    have := PI_pos
    have := hM.pow_nonneg a 2 (le_of_lt ha)
    have : (0 : ℚ) ≤ K := by unfold K; norm_num
    positivity
  induction n with
  | zero =>
    intro mass cloud hm hv hw hb
    obtain ⟨m1, c1, hcd, h1, h2, h3, h4⟩ := collect_dust_bounds hM cloud ha he0 he1 hm hc hd hv
    refine ⟨m1, c1, ?_, h1⟩
    rw [accrete_loop_succ, hcd]
    simp only
    rw [if_neg]
    have hle : 8 * PI * power M a 2 * K * dust_density * total_width cloud
        ≤ 8 * PI * power M a 2 * K * dust_density * width :=
      mul_le_mul_of_nonneg_left hw hcoef
    simp only [pow_zero, mul_one] at hb
    norm_num at hb ⊢
    linarith
  | succ n ih =>
    intro mass cloud hm hv hw hb
    obtain ⟨m1, c1, hcd, h1, h2, h3, h4⟩ := collect_dust_bounds hM cloud ha he0 he1 hm hc hd hv
    rw [accrete_loop_succ, hcd]
    simp only
    by_cases hgo : (m1 - mass) > (0.001 * mass)
    · rw [if_pos hgo]
      have hm1 : 0 ≤ m1 := le_trans hm h1
      have hpow : (0 : ℚ) ≤ 0.001 * 1.001 ^ n := by positivity
      have hb1 : 8 * PI * power M a 2 * K * dust_density * width ≤ 0.001 * 1.001 ^ n * m1 := by
        have hstep : 1.001 * mass ≤ m1 := by
          norm_num at hgo ⊢
          linarith
        calc 8 * PI * power M a 2 * K * dust_density * width
            ≤ 0.001 * 1.001 ^ (n + 1) * mass := hb
          _ = 0.001 * 1.001 ^ n * (1.001 * mass) := by ring
          _ ≤ 0.001 * 1.001 ^ n * m1 := mul_le_mul_of_nonneg_left hstep hpow
      obtain ⟨m2, c2, hl, h5⟩ := ih m1 c1 hm1 h3 (le_trans h4 hw) hb1
      exact ⟨m2, c2, hl, le_trans h1 h5⟩
    · rw [if_neg hgo]
      exact ⟨m1, c1, rfl, h1⟩

/-- With `a > 0`, `0 ≤ e < 1`, `mass ≥ 0`, `crit_mass > 0` and
`dust_density ≥ 0` over valid bands the loop of `accrete_dust` ends, and the
mass it returns is not below the one it was given. -/
theorem accrete_loop_returns {M : Libm} (hM : libm_facts M)
    {dust_density a e crit_mass : ℚ}
    (ha : 0 < a) (he0 : 0 ≤ e) (he1 : e < 1) (hc : 0 < crit_mass) (hd : 0 ≤ dust_density)
    (mass : ℚ) (cloud : List dust) (hm : 0 ≤ mass) (hv : bands_valid cloud) :
    ∃ fuel mass1 cloud1,
      accrete_loop M dust_density a e crit_mass fuel mass cloud
        = Outcome.value (mass1, cloud1) ∧ mass ≤ mass1 := by
  have key : ∀ (m : ℚ) (c : List dust), 0 < m → bands_valid c →
      ∃ fuel mass1 cloud1,
        accrete_loop M dust_density a e crit_mass fuel m c
          = Outcome.value (mass1, cloud1) ∧ m ≤ mass1 := by
    intro m c hm0 hvc
    obtain ⟨n, hn⟩ := pow_unbounded_of_one_lt
      (8 * PI * power M a 2 * K * dust_density * total_width c / (0.001 * m))
      (show (1 : ℚ) < 1.001 by norm_num)
    have hpos : (0 : ℚ) < 0.001 * m := by positivity
    have hb : 8 * PI * power M a 2 * K * dust_density * total_width c
        ≤ 0.001 * 1.001 ^ n * m := by
      rw [div_lt_iff₀ hpos] at hn
      linarith
    obtain ⟨m1, c1, h1, h2⟩ := accrete_loop_returns_within hM ha he0 he1 hc hd
      (total_width c) n m c (le_of_lt hm0) hvc (le_refl _) hb
    exact ⟨n + 1, m1, c1, h1, h2⟩
  rcases lt_or_eq_of_le hm with hpos | hzero
  · exact key mass cloud hpos hv
  · obtain ⟨m1, c1, hcd, h1, h2, h3, h4⟩ := collect_dust_bounds hM cloud ha he0 he1 hm hc hd hv
    by_cases hgo : (m1 - mass) > (0.001 * mass)
    · have hm1 : 0 < m1 := by
        rw [← hzero] at hgo
        norm_num at hgo
        exact hgo
      obtain ⟨fuel, m2, c2, hl, h5⟩ := key m1 c1 hm1 h3
      refine ⟨fuel + 1, m2, c2, ?_, le_trans h1 h5⟩
      rw [accrete_loop_succ, hcd]
      simp only
      rw [if_pos hgo]
      exact hl
    · refine ⟨1, m1, c1, ?_, h1⟩
      rw [accrete_loop_succ, hcd]
      simp only
      rw [if_neg hgo]

/-- In exact arithmetic, for every cloud of valid bands (`inner_edge ≤ outer_edge`), every
`a > 0`, `0 ≤ e < 1`, `mass ≥ 0`, `crit_mass > 0` and `dust_density ≥ 0`:
each `collect_dust` sweep returns a value that is at least the mass it was
given, and `accrete_dust` returns (its loop ends after finitely many sweeps)
a value that is at least the mass it was given. -/
theorem mass_monotone_exact (M : Libm) (hM : libm_facts M) (g : globals)
    (mass a e crit_mass : ℚ)
    (hv : bands_valid g.dust_head) (hd : 0 ≤ g.dust_density)
    (ha : 0 < a) (he0 : 0 ≤ e) (he1 : e < 1) (hm : 0 ≤ mass) (hc : 0 < crit_mass) :
    (∃ mass1 cloud1,
        collect_dust M g.dust_density mass a e crit_mass g.dust_head = some (mass1, cloud1)
          ∧ mass ≤ mass1)
      ∧ ∃ fuel mass1 g1,
          accrete_dust M fuel g mass a e crit_mass = Outcome.value (mass1, g1)
            ∧ mass ≤ mass1 := by
  constructor
  · obtain ⟨m1, c1, hcd, h1, _⟩ := collect_dust_bounds hM g.dust_head ha he0 he1 hm hc hd hv
    exact ⟨m1, c1, hcd, h1⟩
  · obtain ⟨fuel, m1, c1, hl, h1⟩ := accrete_loop_returns hM ha he0 he1 hc hd mass g.dust_head
      hm hv
    refine ⟨fuel, m1,
      { g with dust_head := c1, dust_left := c1.any (fun band => band.dust_present) },
      ?_, h1⟩
    unfold accrete_dust
    rw [hl]

/-! ### A second sweep with the same arguments -/

theorem band_skipped_iff (r_inner r_outer mass crit_mass : ℚ) (band : dust) :
    band_skipped r_inner r_outer mass crit_mass band = true
      ↔ band.gas_present = false ∨ band.outer_edge ≤ r_inner ∨ r_outer ≤ band.inner_edge
        ∨ (mass < crit_mass ∧ band.dust_present = false) := by
  unfold band_skipped
  simp only [Bool.or_eq_true, Bool.and_eq_true, decide_eq_true_eq, beq_iff_eq, ge_iff_le]
  tauto

/-- A step of the loop leaves behind only bands that the same sweep skips, as
long as no band is freed while it is the first node of the list. -/
theorem band_step_swept {r_inner r_outer mass crit_mass : ℚ}
    {stale done : List dust} {band : dust} {rest : List dust}
    {r : List dust × List dust × Bool}
    (hI : stale = []
      ∧ (done = [] → ¬ frees_first_band r_inner r_outer mass crit_mass (band :: rest))
      ∧ ∀ b ∈ done, band_skipped r_inner r_outer mass crit_mass b = true)
    (hs : band_step r_inner r_outer mass crit_mass stale done band rest.head? r) :
    r.1 = []
      ∧ (r.2.1 = [] → ¬ frees_first_band r_inner r_outer mass crit_mass
          (if r.2.2 = true then rest.tail else rest))
      ∧ ∀ b ∈ r.2.1, band_skipped r_inner r_outer mass crit_mass b = true := by
  obtain ⟨hst, hfree, hdone⟩ := hI
  cases hs with
  | skip h =>
    refine ⟨hst, by simp, ?_⟩
    intro b hb
    rcases List.mem_cons.1 hb with rfl | hb
    · exact h
    · exact hdone b hb
  | split_gas h h1 h2 hm =>
    refine ⟨hst, by simp, ?_⟩
    intro b hb
    simp only [List.mem_cons] at hb
    rcases hb with rfl | rfl | rfl | hb
    · rw [band_skipped_iff]; exact Or.inr (Or.inr (Or.inl (le_refl _)))
    · rw [band_skipped_iff]; exact Or.inr (Or.inr (Or.inr ⟨hm, rfl⟩))
    · rw [band_skipped_iff]; exact Or.inr (Or.inl (le_refl _))
    · exact hdone b hb
  | split h h1 h2 hm =>
    refine ⟨hst, by simp, ?_⟩
    intro b hb
    simp only [List.mem_cons] at hb
    rcases hb with rfl | rfl | hb
    · rw [band_skipped_iff]; exact Or.inr (Or.inr (Or.inl (le_refl _)))
    · rw [band_skipped_iff]; exact Or.inr (Or.inl (le_refl _))
    · exact hdone b hb
  | free_head h h1 h2 hm hd => exact absurd ⟨h, h1, h2, hm⟩ (hfree hd)
  | free h h1 h2 hm hd =>
    exact ⟨hst, fun hd2 => absurd hd2 hd, hdone⟩
  | clear h h1 h2 hm =>
    refine ⟨hst, by simp, ?_⟩
    intro b hb
    rcases List.mem_cons.1 hb with rfl | hb
    · rw [band_skipped_iff]; exact Or.inr (Or.inr (Or.inr ⟨hm, rfl⟩))
    · exact hdone b hb
  | cut_inner h h1 h2 hm =>
    refine ⟨hst, by simp, ?_⟩
    intro b hb
    rcases List.mem_cons.1 hb with rfl | hb
    · rw [band_skipped_iff]; exact Or.inr (Or.inr (Or.inl (le_refl _)))
    · exact hdone b hb
  | merge_prev h h1 h2 hm prev_band before hd hp =>
    subst hd
    refine ⟨hst, by simp, ?_⟩
    intro b hb
    simp only [List.mem_cons] at hb
    rcases hb with rfl | rfl | hb
    · rw [band_skipped_iff]; exact Or.inr (Or.inr (Or.inl (le_refl _)))
    · rw [band_skipped_iff]; exact Or.inr (Or.inr (Or.inr ⟨hm, hp.1⟩))
    · exact hdone b (List.mem_cons_of_mem _ hb)
  | gas_before h h1 h2 hm prev_band before hd hp =>
    refine ⟨hst, by simp, ?_⟩
    intro b hb
    simp only [List.mem_cons] at hb
    rcases hb with rfl | rfl | hb
    · rw [band_skipped_iff]; exact Or.inr (Or.inr (Or.inl (le_refl _)))
    · rw [band_skipped_iff]; exact Or.inr (Or.inr (Or.inr ⟨hm, rfl⟩))
    · exact hdone b hb
  | gas_lost h h1 h2 hm hd =>
    refine ⟨hst, by simp, ?_⟩
    intro b hb
    simp only [List.mem_singleton] at hb
    subst hb
    rw [band_skipped_iff]; exact Or.inr (Or.inr (Or.inl (le_refl _)))
  | cut_outer h h1 h2 hm =>
    refine ⟨hst, by simp, ?_⟩
    intro b hb
    rcases List.mem_cons.1 hb with rfl | hb
    · rw [band_skipped_iff]; exact Or.inr (Or.inl (le_refl _))
    · exact hdone b hb
  | merge_next h h1 h2 hm next hn hp =>
    refine ⟨hst, by simp, ?_⟩
    intro b hb
    simp only [List.mem_cons] at hb
    rcases hb with rfl | rfl | hb
    · rw [band_skipped_iff]; exact Or.inr (Or.inr (Or.inr ⟨hm, hp.1⟩))
    · rw [band_skipped_iff]; exact Or.inr (Or.inl (le_refl _))
    · exact hdone b hb
  | gas_after h h1 h2 hm hp =>
    refine ⟨hst, by simp, ?_⟩
    intro b hb
    simp only [List.mem_cons] at hb
    rcases hb with rfl | rfl | hb
    · rw [band_skipped_iff]; exact Or.inr (Or.inr (Or.inr ⟨hm, rfl⟩))
    · rw [band_skipped_iff]; exact Or.inr (Or.inl (le_refl _))
    · exact hdone b hb

/-- After a sweep that does not free the first band of the cloud, the same
sweep skips every band. -/
theorem update_bands_swept {r_inner r_outer mass crit_mass : ℚ} (cloud : List dust)
    (hfree : ¬ frees_first_band r_inner r_outer mass crit_mass cloud) :
    ∀ b ∈ update_bands r_inner r_outer mass crit_mass [] [] cloud,
      band_skipped r_inner r_outer mass crit_mass b = true := by
  obtain ⟨s1, d1, he, hI⟩ := update_bands_invariant r_inner r_outer mass crit_mass
    (fun stale done rest => stale = []
      ∧ (done = [] → ¬ frees_first_band r_inner r_outer mass crit_mass rest)
      ∧ ∀ b ∈ done, band_skipped r_inner r_outer mass crit_mass b = true)
    (fun stale done band rest r hI hs => band_step_swept hI hs)
    [] [] cloud ⟨rfl, fun _ => hfree, fun b hb => by cases hb⟩
  rw [he, hI.1]
  intro b hb
  simp only [List.reverse_nil, List.nil_append, List.mem_reverse] at hb
  exact hI.2.2 b hb

/-- No double counting, away from the first band: when the first call of
`collect_dust` returns and does not free the first band of the cloud, a second
call with the same arguments returns exactly `mass` and leaves the cloud as
the first call left it. -/
theorem second_sweep_gains_nothing (M : Libm) (dust_density mass a e crit_mass mass1 : ℚ)
    (cloud cloud1 : List dust)
    (hfree : ¬ frees_first_band
      (inner_effect_limit a e (power M (mass / (1.0 + mass)) 0.25))
      (outer_effect_limit a e (power M (mass / (1.0 + mass)) 0.25)) mass crit_mass cloud)
    (h1 : collect_dust M dust_density mass a e crit_mass cloud = some (mass1, cloud1)) :
    collect_dust M dust_density mass a e crit_mass cloud1 = some (mass, cloud1) := by
  have hc1 : cloud1 = update_bands
      (inner_effect_limit a e (power M (mass / (1.0 + mass)) 0.25))
      (outer_effect_limit a e (power M (mass / (1.0 + mass)) 0.25))
      mass crit_mass [] [] cloud := by
    apply @collect_dust_some M dust_density mass a e crit_mass cloud cloud1
    rw [h1]; rfl
  have hall := update_bands_swept cloud hfree
  rw [← hc1] at hall
  unfold collect_dust at h1 ⊢
  simp only at h1 ⊢
  split_ifs at h1 ⊢ with hneg
  rw [accumulate_mass_all_skipped _ _ _ _ _ _ _ _ _ _ _ hall,
    update_bands_all_skipped _ _ _ _ _ _ _ hall]
  simp

/-! ### The insert path of coalesce_planetesimals -/

theorem find_collision_none_iff (M : Libm) (head : List planets) (a e : ℚ) :
    find_collision M head a e = none ↔ ∀ node ∈ head, ¬ in_collision M a e node := by
  have h := find_collision_loop_result M a e head [] none 0.0
    ⟨fun _ n hn => (by cases hn), fun k hk => (by cases hk)⟩
  simpa [find_collision] using h.1

/-- A node on the same orbit as the incoming body passes the collision test. -/
theorem in_collision_of_same_orbit (M : Libm) (a e : ℚ) (node : planets) (h : node.a = a) :
    in_collision M a e node := by
  left
  unfold separation
  rw [h, sub_self, abs_zero]
  exact abs_nonneg _

/-- When the incoming body collides with no node, `coalesce_planetesimals`
inserts it and a list that was strictly ascending in `a` stays so. -/
theorem insert_keeps_strict_order (M : Libm) (fuel : Nat) (g : globals)
    (a e mass crit_mass stell_luminosity_ratio : ℚ) (orbit_type : Int)
    (hs : g.planet_head.Pairwise (fun x y => x.a < y.a))
    (hm : TRIVIAL_MASS < mass)
    (hnone : find_collision M g.planet_head a e = none) :
    ∃ g1, coalesce_planetesimals M fuel g a e mass crit_mass stell_luminosity_ratio orbit_type
        = Outcome.value g1
      ∧ g1.planet_head.Pairwise (fun x y => x.a < y.a) := by
  unfold coalesce_planetesimals
  rw [if_neg (not_le.2 hm), hnone]
  refine ⟨_, rfl, ?_⟩
  simp only
  obtain ⟨before, after, h1, h2, h3, h4⟩ := sorted_list_insert_split g.planet_head
    { mass_type := if mass ≥ crit_mass then GAS_GIANT else orbit_type,
      a := a, e := e, first_moon := none, mass := mass }
  rw [h2]
  rw [h1, List.pairwise_append] at hs
  obtain ⟨hb, ha, hba⟩ := hs
  have hno := (find_collision_none_iff M g.planet_head a e).1 hnone
  have hne : ∀ node ∈ g.planet_head, node.a ≠ a := fun node hn heq =>
    hno node hn (in_collision_of_same_orbit M a e node heq)
  have hafter : ∀ node ∈ after, a < node.a := by
    cases after with
    | nil => intro node hn; cases hn
    | cons x xs =>
      have hx := h4 x rfl
      intro node hn
      rcases List.mem_cons.1 hn with rfl | hn
      · exact hx
      · have := List.rel_of_pairwise_cons ha hn
        exact lt_trans hx this
  rw [List.pairwise_append]
  refine ⟨hb, List.Pairwise.cons (fun y hy => hafter y hy) ha, ?_⟩
  intro x hx y hy
  rcases List.mem_cons.1 hy with rfl | hy
  · have hle := h3 x hx
    have hxne := hne x (by rw [h1]; exact List.mem_append.2 (Or.inl hx))
    exact lt_of_le_of_ne hle hxne
  · exact hba x hx y hy

/-! ### C3, C5: runs of the code -/

/-- C3, the code at the failing input: the planet list `[1 AU, 2 AU]` of
`merge_example` is strictly ascending in `a`. A body with `a = 4`, `e = 0`,
`mass = 324/245` collides with the star at 1 AU (`|1 - 4| = 3 ≤ dist1 = 3`)
and not with the planet at 2 AU (`2 > dist1 = 2/5`, `2 > dist2 = 1/5`).
`collide_planets` gives the star node the orbit
`(81/175 + 324/245) / (81/175 + 81/245) = 9/4` and leaves it where it is in
the list, in front of the planet at 2 AU. The value of `pow` at the merged
mass and the cloud do not matter for the orbits. -/
theorem C3_merge_breaks_order :
    (merge_example.planet_head.map planets.a).Pairwise (fun x y => x < y)
      ∧ find_collision table_libm merge_example.planet_head 4 0 = some 0
      ∧ (coalesce_planetesimals table_libm 1 merge_example 4 0 (324/245) 1 4 PLANET).result.map
          (fun g => g.planet_head.map planets.a) = some [9/4, 2]
      ∧ ¬ ([(9/4 : ℚ), 2]).Pairwise (fun x y => x ≤ y) := by
  refine ⟨by decide!, by decide!, by decide!, by decide!⟩

/-- C5, the code at the failing input: the cloud is the single band `[1, 2]`
with dust and gas, and the sweep has `mass = 1/15` (reduced mass `1/2`),
`a = 2`, `e = 0`, `crit_mass = 1/60`, `dust_density = 1`, so that the range of
effect `[5/6, 15/4]` covers the band. The first call counts the band
(`800 * PI / 51`) and frees it; since it was the first node, only the
parameter `dust_head` is moved and the list the global pointer leads to still
starts with the band. The second call with the same arguments counts it
again. -/
theorem C5_swept_twice :
    collect_dust table_libm 1 (1/15) 2 0 (1/60) [⟨1, 2, true, true⟩]
        = some (1/15 + 800 * PI / 51, [⟨1, 2, true, true⟩])
      ∧ ((collect_dust table_libm 1 (1/15) 2 0 (1/60) [⟨1, 2, true, true⟩]).bind
          (fun first => collect_dust table_libm 1 (1/15) 2 0 (1/60) first.2)).map Prod.fst
        = some (1/15 + 800 * PI / 51)
      ∧ (1/15 + 800 * PI / 51 : ℚ) ≠ 1/15 := by
  refine ⟨by decide!, by decide!, by decide!⟩

/-! ### coalesce_planetesimals and accrete_dust: what a call leaves behind -/

/-- With valid arguments over valid bands `accrete_dust` returns. -/
theorem accrete_dust_returns {M : Libm} (hM : libm_facts M) (g : globals)
    {mass a e crit_mass : ℚ}
    (hv : bands_valid g.dust_head) (hd : 0 ≤ g.dust_density)
    (ha : 0 < a) (he0 : 0 ≤ e) (he1 : e < 1) (hm : 0 ≤ mass) (hc : 0 < crit_mass) :
    ∃ fuel mass1 g1,
      accrete_dust M fuel g mass a e crit_mass = Outcome.value (mass1, g1) ∧ mass ≤ mass1 := by
  obtain ⟨fuel, m1, c1, hl, h1⟩ := accrete_loop_returns hM ha he0 he1 hc hd mass g.dust_head
    hm hv
  refine ⟨fuel, m1,
    { g with dust_head := c1, dust_left := c1.any (fun band => band.dust_present) }, ?_, h1⟩
  unfold accrete_dust
  rw [hl]

/-- What `accrete_dust` returns, from what its loop returns. -/
theorem accrete_dust_value {M : Libm} {fuel : Nat} {g : globals} {mass a e crit_mass : ℚ}
    {mass1 : ℚ} {g1 : globals}
    (h : accrete_dust M fuel g mass a e crit_mass = Outcome.value (mass1, g1)) :
    accrete_loop M g.dust_density a e crit_mass fuel mass g.dust_head
        = Outcome.value (mass1, g1.dust_head)
      ∧ g1 = { g with dust_head := g1.dust_head,
                      dust_left := g1.dust_head.any (fun band => band.dust_present) } := by
  unfold accrete_dust at h
  split at h
  · rename_i m c hl
    simp only [Outcome.value.injEq, Prod.mk.injEq] at h
    obtain ⟨h1, h2⟩ := h
    subst h1
    subst h2
    exact ⟨hl, rfl⟩
  · cases h
  · cases h

/-- C16: for every `mass ≤ TRIVIAL_MASS` and any `a`, `e`, `crit_mass`,
luminosity, orbit type and state, `coalesce_planetesimals` returns with the
state (planet list, dust cloud and all other globals) as it was; the planet
list is not even searched for a collision. -/
theorem C16_trivial_mass_rejected (M : Libm) (fuel : Nat) (g : globals)
    (a e mass crit_mass stell_luminosity_ratio : ℚ) (orbit_type : Int)
    (h : mass ≤ TRIVIAL_MASS) :
    coalesce_planetesimals M fuel g a e mass crit_mass stell_luminosity_ratio orbit_type
      = Outcome.value g := by
  unfold coalesce_planetesimals
  rw [if_pos h]

/-- C16 at `merge_example` with a body of mass `1.0E-14` on the orbit of the
star at 1 AU, which passes the collision test. -/
theorem C16_trivial_mass_rejected_witness :
    find_collision table_libm merge_example.planet_head 1 0 = some 0
      ∧ coalesce_planetesimals table_libm 1 merge_example 1 0 (1/100000000000000) 1 4 PLANET
          = Outcome.value merge_example :=
  ⟨by decide!,
   C16_trivial_mass_rejected table_libm 1 merge_example 1 0 (1/100000000000000) 1 4 PLANET
     (by norm_num [TRIVIAL_MASS])⟩

/-- C19: `collect_dust` takes its `exit(1)` (no mass, and no band has been
touched, since the test comes before the loops) if and only if
`r_inner = a (1 - e) (1 - rm) / (1 + CLOUD_ECCENTRICITY)` with
`rm = (mass / (1 + mass)) ^ 0.25` is negative, and it returns a mass if and
only if `r_inner` is not negative. Running out of memory for a new band is
not part of the embedding. -/
theorem C19_collect_dust_abort (M : Libm) (dust_density mass a e crit_mass : ℚ)
    (cloud : List dust) :
    (collect_dust M dust_density mass a e crit_mass cloud = none
        ↔ a * (1 - e) * (1 - power M (mass / (1 + mass)) (1/4)) / (1 + CLOUD_ECCENTRICITY) < 0)
      ∧ ((∃ mass1 cloud1,
            collect_dust M dust_density mass a e crit_mass cloud = some (mass1, cloud1))
        ↔ 0 ≤ a * (1 - e) * (1 - power M (mass / (1 + mass)) (1/4))
              / (1 + CLOUD_ECCENTRICITY)) := by
  have hr : inner_effect_limit a e (power M (mass / (1.0 + mass)) 0.25)
      = a * (1 - e) * (1 - power M (mass / (1 + mass)) (1/4)) / (1 + CLOUD_ECCENTRICITY) := by
    unfold inner_effect_limit
    norm_num
  unfold collect_dust
  simp only
  rw [hr, show (0.0 : ℚ) = 0 by norm_num]
  by_cases h : a * (1 - e) * (1 - power M (mass / (1 + mass)) (1/4))
      / (1 + CLOUD_ECCENTRICITY) < 0
  · rw [if_pos h]
    exact ⟨⟨fun _ => h, fun _ => rfl⟩,
      ⟨fun ⟨_, _, hh⟩ => (by cases hh), fun h0 => absurd h (not_lt.2 h0)⟩⟩
  · rw [if_neg h]
    exact ⟨⟨fun hh => (by cases hh), fun h0 => absurd h0 h⟩,
      ⟨fun _ => not_lt.1 h, fun _ => ⟨_, _, rfl⟩⟩⟩

/-- C17: whenever `accrete_dust` returns, the global `dust_left` is `TRUE`
if and only if some band of the list the global `dust_head` then points to
has `dust_present` set. -/
theorem C17_dust_left_flag (M : Libm) (fuel : Nat) (g : globals) (mass a e crit_mass : ℚ)
    (mass1 : ℚ) (g1 : globals)
    (h : accrete_dust M fuel g mass a e crit_mass = Outcome.value (mass1, g1)) :
    g1.dust_left = true ↔ ∃ band ∈ g1.dust_head, band.dust_present = true := by
  obtain ⟨_, hg⟩ := accrete_dust_value h
  rw [hg]
  simp only [List.any_eq_true]

/-- C17 at `sweep_example`, where `accrete_dust` returns. -/
theorem C17_dust_left_flag_witness :
    ∃ fuel mass1 g1,
      accrete_dust table_libm fuel sweep_example (1/15) 4 0 (1/60) = Outcome.value (mass1, g1)
        ∧ (g1.dust_left = true ↔ ∃ band ∈ g1.dust_head, band.dust_present = true) := by
  obtain ⟨fuel, mass1, g1, h, _⟩ :=
    @accrete_dust_returns table_libm libm_facts_table sweep_example (1/15) 4 0 (1/60)
      (by decide!) (by decide!) (by norm_num) (by norm_num) (by norm_num) (by norm_num)
      (by norm_num)
  exact ⟨fuel, mass1, g1, h,
    C17_dust_left_flag table_libm fuel sweep_example (1/15) 4 0 (1/60) mass1 g1 h⟩

/-- C15: when `mass > TRIVIAL_MASS` and `find_collision` returns `NULL`,
`coalesce_planetesimals` returns, and the planet list is then the old one
with exactly one node `new_planet` added, at the place `sorted_list_insert`
gives it (after the nodes `before`, none of which lies further out, and
immediately before the first node that lies strictly further out). The node
has the given `a`, `e` and `mass`, no moons, and the type `GAS_GIANT` if
`mass ≥ crit_mass` and `orbit_type` otherwise. The old nodes are as they were
and in their old order, and the dust cloud, `dust_left`, `dust_density` and
the star records are unchanged. -/
theorem C15_new_body_on_miss (M : Libm) (fuel : Nat) (g : globals)
    (a e mass crit_mass stell_luminosity_ratio : ℚ) (orbit_type : Int)
    (hm : TRIVIAL_MASS < mass)
    (hnone : find_collision M g.planet_head a e = none) :
    ∃ new_planet before after g1,
      coalesce_planetesimals M fuel g a e mass crit_mass stell_luminosity_ratio orbit_type
          = Outcome.value g1
        ∧ new_planet.a = a ∧ new_planet.e = e ∧ new_planet.mass = mass
        ∧ new_planet.first_moon = none
        ∧ new_planet.mass_type = (if mass ≥ crit_mass then GAS_GIANT else orbit_type)
        ∧ g.planet_head = before ++ after
        ∧ g1.planet_head = before ++ new_planet :: after
        ∧ g1.planet_head = sorted_list_insert g.planet_head new_planet
        ∧ g1.planet_head.length = g.planet_head.length + 1
        ∧ (∀ node ∈ before, node.a ≤ a)
        ∧ (∀ node, after.head? = some node → a < node.a)
        ∧ g1.dust_head = g.dust_head ∧ g1.dust_left = g.dust_left
        ∧ g1.dust_density = g.dust_density ∧ g1.star_heap = g.star_heap := by
  let np : planets :=
    { mass_type := if mass ≥ crit_mass then GAS_GIANT else orbit_type,
      a := a, e := e, first_moon := none, mass := mass }
  obtain ⟨before, after, h1, h2, h3, h4⟩ := sorted_list_insert_split g.planet_head np
  refine ⟨np, before, after, { g with planet_head := sorted_list_insert g.planet_head np },
    ?_, rfl, rfl, rfl, rfl, rfl, h1, h2, rfl, ?_, h3, h4, rfl, rfl, rfl, rfl⟩
  · unfold coalesce_planetesimals
    rw [if_neg (not_le.2 hm), hnone]
  · simp only [h2]
    rw [h1]
    simp
    omega

/-- C15 at `merge_example`: a body of `1/9999` solar masses at 8 AU collides
with neither node and is added behind them. -/
theorem C15_new_body_on_miss_witness :
    ∃ new_planet before after g1,
      coalesce_planetesimals table_libm 1 merge_example 8 0 (1/9999) 1 4 PLANET
          = Outcome.value g1
        ∧ new_planet.a = 8 ∧ new_planet.e = 0 ∧ new_planet.mass = 1/9999
        ∧ new_planet.first_moon = none
        ∧ new_planet.mass_type = (if (1/9999 : ℚ) ≥ 1 then GAS_GIANT else PLANET)
        ∧ merge_example.planet_head = before ++ after
        ∧ g1.planet_head = before ++ new_planet :: after
        ∧ g1.planet_head = sorted_list_insert merge_example.planet_head new_planet
        ∧ g1.planet_head.length = merge_example.planet_head.length + 1
        ∧ (∀ node ∈ before, node.a ≤ 8)
        ∧ (∀ node, after.head? = some node → (8 : ℚ) < node.a)
        ∧ g1.dust_head = merge_example.dust_head ∧ g1.dust_left = merge_example.dust_left
        ∧ g1.dust_density = merge_example.dust_density
        ∧ g1.star_heap = merge_example.star_heap :=
  C15_new_body_on_miss table_libm 1 merge_example 8 0 (1/9999) 1 4 PLANET
    (by norm_num [TRIVIAL_MASS]) (by decide!)

/-! ### collide_planets -/

/-- The call of `accrete_dust` inside `collide_planets`. -/
theorem collide_planets_eq (M : Libm) (fuel : Nat) (g : globals) (a e mass : ℚ) (node : Nat)
    (stell_luminosity_ratio : ℚ) (n : planets) (hn : g.planet_head[node]? = some n) :
    collide_planets M fuel g a e mass node stell_luminosity_ratio
      = match accrete_dust M fuel g (n.mass + mass) (merged_orbit n a mass)
            (merged_eccentricity M n a e mass) stell_luminosity_ratio with
        | Outcome.value (temp, g1) =>
          Outcome.value
            { g1 with
              planet_head := g1.planet_head.set node
                { n with a := merged_orbit n a mass, e := merged_eccentricity M n a e mass,
                         mass := temp },
              star_heap :=
                if n.mass_type = STAR then
                  match n.star_ptr with
                  | some s =>
                    match g1.star_heap[s]? with
                    | some star =>
                      g1.star_heap.set s
                        { star with orbit_radius := merged_orbit n a mass,
                                    stell_mass_ratio := temp }
                    | none => g1.star_heap
                  | none => g1.star_heap
                else g1.star_heap }
        | Outcome.exited => Outcome.exited
        | Outcome.unfinished => Outcome.unfinished := by
  unfold collide_planets
  rw [hn]
  rfl

/-- What a call of `collide_planets` that returns leaves behind: the node has
the merged orbit, the merged eccentricity and the mass `accrete_dust`
returned, and the cloud is the one `accrete_dust` left. -/
theorem collide_planets_value {M : Libm} {fuel : Nat} {g g1 : globals} {a e mass : ℚ}
    {node : Nat} {stell_luminosity_ratio : ℚ} {n : planets}
    (hn : g.planet_head[node]? = some n)
    (h : collide_planets M fuel g a e mass node stell_luminosity_ratio = Outcome.value g1) :
    ∃ mass1 g0,
      accrete_dust M fuel g (n.mass + mass) (merged_orbit n a mass)
          (merged_eccentricity M n a e mass) stell_luminosity_ratio = Outcome.value (mass1, g0)
        ∧ g1.planet_head = g.planet_head.set node
            { n with a := merged_orbit n a mass, e := merged_eccentricity M n a e mass,
                     mass := mass1 }
        ∧ g1.dust_head = g0.dust_head ∧ g1.dust_left = g0.dust_left
        ∧ g1.dust_density = g.dust_density := by
  rw [collide_planets_eq M fuel g a e mass node stell_luminosity_ratio n hn] at h
  split at h
  · rename_i temp g0 hacc
    simp only [Outcome.value.injEq] at h
    obtain ⟨_, hg0⟩ := accrete_dust_value hacc
    refine ⟨temp, g0, hacc, ?_, ?_, ?_, ?_⟩
    · rw [← h]
      simp only
      rw [hg0]
    · rw [← h]
    · rw [← h]
    · rw [← h]
      simp only
      rw [hg0]
  · cases h
  · cases h

/-- The eccentricity `collide_planets` computes lies in `[0, 1)` when `sqrt`
maps `[0, 1)` into `[0, 1)`. -/
theorem merged_eccentricity_range (M : Libm)
    (hs0 : ∀ x, 0 ≤ x → 0 ≤ M.sqrt x) (hs1 : ∀ x, 0 ≤ x → x < 1 → M.sqrt x < 1)
    (n : planets) (a e mass : ℚ) :
    0 ≤ merged_eccentricity M n a e mass ∧ merged_eccentricity M n a e mass < 1 := by
  have key : ∀ t : ℚ, 0 ≤ (if t < 0.0 ∨ t ≥ 1.0 then (0.0 : ℚ) else t)
      ∧ (if t < 0.0 ∨ t ≥ 1.0 then (0.0 : ℚ) else t) < 1 := by
    intro t
    split_ifs with hc
    · norm_num
    · rw [not_or] at hc
      obtain ⟨h1, h2⟩ := hc
      norm_num at h1 h2
      exact ⟨h1, h2⟩
  unfold merged_eccentricity
  simp only
  exact ⟨hs0 _ (key _).1, hs1 _ (key _).1 (key _).2⟩

/-- The merged orbit is positive for bodies with positive orbits, when the
incoming mass is positive and the mass of the node is not negative. -/
theorem merged_orbit_pos {n : planets} {a mass : ℚ} (hna : 0 < n.a) (hnm : 0 ≤ n.mass)
    (ha : 0 < a) (hm : 0 < mass) : 0 < merged_orbit n a mass := by
  unfold merged_orbit
  have h1 : 0 ≤ n.mass / n.a := div_nonneg hnm (le_of_lt hna)
  have h2 : 0 < mass / a := div_pos hm ha
  exact div_pos (by linarith) (by linarith)

/-- The node `find_collision` returns is a node of the list that passes the
collision test. -/
theorem find_collision_some {M : Libm} {head : List planets} {a e : ℚ} {i : Nat}
    (h : find_collision M head a e = some i) :
    ∃ x, head[i]? = some x ∧ in_collision M a e x := by
  have hr := find_collision_loop_result M a e head [] none 0.0
    ⟨fun _ n hn => (by cases hn), fun k hk => (by cases hk)⟩
  simp only [List.nil_append, List.length_nil] at hr
  obtain ⟨x, hx, hc, _⟩ := hr.2 i h
  exact ⟨x, hx, hc⟩

/-- With valid arguments `collide_planets` returns. -/
theorem collide_planets_returns {M : Libm} (hM : libm_facts M)
    (hs1 : ∀ x, 0 ≤ x → x < 1 → M.sqrt x < 1) (g : globals) (a e mass : ℚ) (node : Nat)
    (stell_luminosity_ratio : ℚ) (n : planets) (hn : g.planet_head[node]? = some n)
    (hv : bands_valid g.dust_head) (hd : 0 ≤ g.dust_density)
    (hnm : 0 ≤ n.mass) (hm : 0 < mass) (hna : 0 < n.a) (ha : 0 < a)
    (hl : 0 < stell_luminosity_ratio) :
    ∃ fuel g1, collide_planets M fuel g a e mass node stell_luminosity_ratio
      = Outcome.value g1 := by
  simp only [collide_planets_eq M _ g a e mass node stell_luminosity_ratio n hn]
  obtain ⟨he0, he1⟩ := merged_eccentricity_range M hM.sqrt_nonneg hs1 n a e mass
  obtain ⟨fuel, m1, g0, hacc, _⟩ :=
    @accrete_dust_returns M hM g (n.mass + mass) (merged_orbit n a mass)
      (merged_eccentricity M n a e mass) stell_luminosity_ratio hv hd
      (merged_orbit_pos hna hnm ha hm) he0 he1 (by linarith) hl
  exact ⟨fuel, by rw [hacc]; exact ⟨_, rfl⟩⟩

/-- C13: when `mass > TRIVIAL_MASS` and `find_collision` returns the node at
position `node`, every call of `coalesce_planetesimals` that returns leaves a
planet list of the same length in which every other position holds the node
it held before, and the node at `node` differs from the old one in its `a`,
`e` and `mass` at most (its `mass_type`, its moon list and all other fields
are the old ones); nothing is inserted. With `a > 0`, a node with `a > 0` and
`mass ≥ 0`, a positive luminosity, valid bands and a `sqrt` that maps
`[0, 1)` into `[0, 1)`, the call does return. -/
theorem C13_merge_in_place (M : Libm) (g : globals)
    (a e mass crit_mass stell_luminosity_ratio : ℚ) (orbit_type : Int) (node : Nat)
    (hm : TRIVIAL_MASS < mass)
    (hhit : find_collision M g.planet_head a e = some node) :
    ∃ n, g.planet_head[node]? = some n
      ∧ (∀ fuel g1,
          coalesce_planetesimals M fuel g a e mass crit_mass stell_luminosity_ratio orbit_type
            = Outcome.value g1 →
          g1.planet_head.length = g.planet_head.length
            ∧ (∀ j : Nat, j ≠ node → g1.planet_head[j]? = g.planet_head[j]?)
            ∧ ∃ n1, g1.planet_head[node]? = some n1
                ∧ n1 = { n with a := n1.a, e := n1.e, mass := n1.mass }
                ∧ n1.mass_type = n.mass_type ∧ n1.first_moon = n.first_moon)
      ∧ (libm_facts M → (∀ x, 0 ≤ x → x < 1 → M.sqrt x < 1) → bands_valid g.dust_head →
          0 ≤ g.dust_density → 0 < a → 0 < n.a → 0 ≤ n.mass → 0 < stell_luminosity_ratio →
          ∃ fuel g1,
            coalesce_planetesimals M fuel g a e mass crit_mass stell_luminosity_ratio orbit_type
              = Outcome.value g1) := by
  obtain ⟨n, hn, _⟩ := find_collision_some hhit
  have hco : ∀ fuel,
      coalesce_planetesimals M fuel g a e mass crit_mass stell_luminosity_ratio orbit_type
        = collide_planets M fuel g a e mass node stell_luminosity_ratio := by
    intro fuel
    unfold coalesce_planetesimals
    rw [if_neg (not_le.2 hm), hhit]
  have hlt : node < g.planet_head.length := by
    rcases Nat.lt_or_ge node g.planet_head.length with h | h
    · exact h
    · rw [List.getElem?_eq_none h] at hn
      cases hn
  refine ⟨n, hn, ?_, ?_⟩
  · intro fuel g1 h
    rw [hco] at h
    obtain ⟨mass1, g0, _, hp, _⟩ := collide_planets_value hn h
    rw [hp]
    refine ⟨List.length_set _ _ _, ?_, ?_⟩
    · intro j hj
      exact List.getElem?_set_ne (Ne.symm hj)
    · exact ⟨_, List.getElem?_set_self hlt, rfl, rfl, rfl⟩
  · intro hM hs1 hv hd ha hna hnm hl
    have hpos : (0 : ℚ) < mass := lt_trans (by norm_num [TRIVIAL_MASS]) hm
    obtain ⟨fuel, g1, h⟩ := collide_planets_returns hM hs1 g a e mass node
      stell_luminosity_ratio n hn hv hd hnm hpos hna ha hl
    exact ⟨fuel, g1, by rw [hco]; exact h⟩

theorem table_sqrt_lt_one : ∀ x : ℚ, 0 ≤ x → x < 1 → table_libm.sqrt x < 1 := by
  intro x _ h1
  simp only [table_libm]
  split_ifs with c1 c2 c3 c4
  · norm_num
  · rw [c2] at h1
    exact absurd h1 (lt_irrefl _)
  · rw [c3] at h1
    norm_num at h1
  · rw [c4] at h1
    norm_num at h1
  · norm_num

/-- C13 at `merge_example`: the body `a = 4`, `e = 0`, `mass = 324/245`
collides with the star at position 0; the call returns, the list keeps its two
nodes, the planet at position 1 is untouched and the node at position 0 is
still a star without moons. -/
theorem C13_merge_in_place_witness :
    ∃ fuel g1,
      coalesce_planetesimals table_libm fuel merge_example 4 0 (324/245) 1 4 PLANET
          = Outcome.value g1
        ∧ g1.planet_head.length = merge_example.planet_head.length
        ∧ (∀ j : Nat, j ≠ 0 → g1.planet_head[j]? = merge_example.planet_head[j]?)
        ∧ ∃ n1, g1.planet_head[0]? = some n1 ∧ n1.mass_type = STAR
            ∧ n1.first_moon = none := by
  obtain ⟨n, hn, hframe, hret⟩ :=
    C13_merge_in_place table_libm merge_example 4 0 (324/245) 1 4 PLANET 0
      (by norm_num [TRIVIAL_MASS]) (by decide!)
  have hn1 : ({ a := 1, e := 0, mass := 81/175, mass_type := STAR, star_ptr := some 0 }
      : planets) = n := Option.some.inj hn
  subst hn1
  obtain ⟨fuel, g1, h⟩ := hret libm_facts_table table_sqrt_lt_one (by decide!) (by decide!)
    (by norm_num) (by norm_num) (by norm_num) (by norm_num)
  obtain ⟨h1, h2, n1, h3, _, h4, h5⟩ := hframe fuel g1 h
  exact ⟨fuel, g1, h, h1, h2, n1, h3, h4, h5⟩

/-- C14: whenever `collide_planets` returns, the eccentricity it has stored
in the surviving node is `sqrt(temp)` for the clamped `temp`, and lies in
`[0, 1)` provided `sqrt` maps `[0, 1)` into `[0, 1)`; this holds for all
values of the two bodies, in particular for positive masses and semi-major
axes and eccentricities in `[0, 1]`. With positive masses, positive
semi-major axes, a positive luminosity, valid bands and a dust density that
is not negative, `collide_planets` does return. -/
theorem C14_merged_eccentricity (M : Libm)
    (hs0 : ∀ x, 0 ≤ x → 0 ≤ M.sqrt x) (hs1 : ∀ x, 0 ≤ x → x < 1 → M.sqrt x < 1)
    (g : globals) (a e mass stell_luminosity_ratio : ℚ) (node : Nat) (n : planets)
    (hn : g.planet_head[node]? = some n) :
    (∀ fuel g1,
        collide_planets M fuel g a e mass node stell_luminosity_ratio = Outcome.value g1 →
        ∃ n1, g1.planet_head[node]? = some n1
          ∧ n1.e = merged_eccentricity M n a e mass ∧ 0 ≤ n1.e ∧ n1.e < 1)
      ∧ (libm_facts M → bands_valid g.dust_head → 0 ≤ g.dust_density →
          0 < n.mass → 0 < mass → 0 < n.a → 0 < a → 0 < stell_luminosity_ratio →
          ∃ fuel g1,
            collide_planets M fuel g a e mass node stell_luminosity_ratio
              = Outcome.value g1) := by
  have hlt : node < g.planet_head.length := by
    rcases Nat.lt_or_ge node g.planet_head.length with h | h
    · exact h
    · rw [List.getElem?_eq_none h] at hn
      cases hn
  obtain ⟨he0, he1⟩ := merged_eccentricity_range M hs0 hs1 n a e mass
  constructor
  · intro fuel g1 h
    obtain ⟨mass1, g0, _, hp, _⟩ := collide_planets_value hn h
    rw [hp]
    exact ⟨_, List.getElem?_set_self hlt, rfl, he0, he1⟩
  · intro hM hv hd hnm hm hna ha hl
    exact collide_planets_returns hM hs1 g a e mass node stell_luminosity_ratio n hn hv hd
      (le_of_lt hnm) hm hna ha hl

/-- C14 at `merge_example`: the body `a = 4`, `e = 0`, `mass = 324/245`
merged into the star at position 0. -/
theorem C14_merged_eccentricity_witness :
    ∃ fuel g1 n1,
      collide_planets table_libm fuel merge_example 4 0 (324/245) 0 4 = Outcome.value g1
        ∧ g1.planet_head[0]? = some n1 ∧ 0 ≤ n1.e ∧ n1.e < 1 := by
  obtain ⟨hstored, hret⟩ :=
    C14_merged_eccentricity table_libm libm_facts_table.sqrt_nonneg table_sqrt_lt_one
      merge_example 4 0 (324/245) 4 0
      { a := 1, e := 0, mass := 81/175, mass_type := STAR, star_ptr := some 0 } rfl
  obtain ⟨fuel, g1, h⟩ := hret libm_facts_table (by decide!) (by decide!)
    (by norm_num) (by norm_num) (by norm_num) (by norm_num) (by norm_num)
  obtain ⟨n1, h1, _, h2, h3⟩ := hstored fuel g1 h
  exact ⟨fuel, g1, n1, h, h1, h2, h3⟩

/-- C20, the code at the failing input: the list of `merge_example` (a star
of `81/175` solar masses at 1 AU, reduced mass `3/4`; a planet at 2 AU) and an
incoming body of `1/9999` solar masses (reduced mass `1/10`) with `a = 3`,
`e = 0`. `find_collision` is not given the mass of the incoming body: it
computes `dist1` with the reduced mass of the star, `3 - 3 * (1 - 3/4) = 9/4`,
which reaches the star 2 AU away, and returns the star. With the reduced mass
of the incoming body `dist1` is `3 - 3 * (1 - 1/10) = 3/10`, and then neither
distance reaches any node (`dist2 = 3/4 < 2` for the star). -/
theorem C20_reach_of_incoming_body :
    find_collision table_libm merge_example.planet_head 3 0 = some 0
      ∧ (merge_example.planet_head.map (collision_dist1 table_libm 3 0)) = [9/4, 3/10]
      ∧ (merge_example.planet_head.map (spec_collision_dist1 table_libm 3 0 (1/9999)))
          = [3/10, 3/10]
      ∧ (merge_example.planet_head.map (collision_dist2 table_libm 3)) = [3/4, 1/5]
      ∧ (merge_example.planet_head.map (separation 3)) = [-2, -1]
      ∧ ∀ node ∈ merge_example.planet_head, ¬ spec_in_collision table_libm 3 0 (1/9999) node := by
  refine ⟨by decide!, by decide!, by decide!, by decide!, by decide!, by decide!⟩

/-! ### The last sweep of accrete_dust -/

theorem accrete_loop_vars_succ (M : Libm) (dust_density a e crit_mass : ℚ) (fuel : Nat)
    (new_mass : ℚ) (dust_head : List dust) :
    accrete_loop_vars M dust_density a e crit_mass (fuel + 1) new_mass dust_head
      = match collect_dust M dust_density new_mass a e crit_mass dust_head with
        | none => Outcome.exited
        | some (swept_mass, cloud) =>
          if (swept_mass - new_mass) > (0.001 * new_mass) then
            accrete_loop_vars M dust_density a e crit_mass fuel swept_mass cloud
          else Outcome.value (new_mass, swept_mass, cloud) := by
  rfl

/-- When the loop of `accrete_dust` returns, the variables `mass` and
`new_mass` hold the argument and the result of one sweep, the last one, and
that sweep gained at most `0.001 * mass`. -/
theorem accrete_loop_last_sweep (M : Libm) (dust_density a e crit_mass : ℚ) (fuel : Nat) :
    ∀ (mass : ℚ) (cloud : List dust) (mass1 : ℚ) (cloud1 : List dust),
      accrete_loop M dust_density a e crit_mass fuel mass cloud = Outcome.value (mass1, cloud1) →
      ∃ mass0 cloud0,
        accrete_loop_vars M dust_density a e crit_mass fuel mass cloud
            = Outcome.value (mass0, mass1, cloud1)
          ∧ collect_dust M dust_density mass0 a e crit_mass cloud0 = some (mass1, cloud1)
          ∧ mass1 - mass0 ≤ 0.001 * mass0 := by
  induction fuel with
  | zero =>
    intro mass cloud mass1 cloud1 h
    simp [accrete_loop] at h
  | succ fuel ih =>
    intro mass cloud mass1 cloud1 h
    rw [accrete_loop_succ] at h
    rw [accrete_loop_vars_succ]
    cases hcd : collect_dust M dust_density mass a e crit_mass cloud with
    | none =>
      rw [hcd] at h
      cases h
    | some r =>
      obtain ⟨m, c⟩ := r
      rw [hcd] at h
      simp only at h ⊢
      by_cases hgo : (m - mass) > (0.001 * mass)
      · rw [if_pos hgo] at h ⊢
        exact ih m c mass1 cloud1 h
      · rw [if_neg hgo] at h ⊢
        simp only [Outcome.value.injEq, Prod.mk.injEq] at h
        obtain ⟨h1, h2⟩ := h
        subst h1
        subst h2
        exact ⟨mass, cloud, rfl, hcd, not_lt.1 hgo⟩

/-- C11, the claim at a sweep that gains exactly one thousandth: the cloud is
the band `[1, 2]` with dust and gas, `dust_density = 1 / (120000 * PI)`,
`mass = 1/15` (reduced mass `1/2`), `a = 2`, `e = 0`, `crit_mass = 1`. The
range of effect `[5/6, 15/4]` covers the band, the sweep gains
`8 * PI * dust_density = 1/15000 = 0.001 * mass`, which is not greater than
`0.001 * mass`, so the loop ends after this one sweep with a gain that is not
less than `0.001` times the mass before it. -/
theorem C11_counterexample :
    cloud_ordered [⟨1, 2, true, true⟩]
      ∧ (accrete_loop_vars table_libm (1 / (120000 * PI)) 2 0 1 1 (1/15)
          [⟨1, 2, true, true⟩]).result
        = some (1/15, 1/15 + 1/15000, [⟨1, 2, false, true⟩])
      ∧ ¬ ((1/15 + 1/15000 : ℚ) - 1/15 < 0.001 * (1/15)) := by
  refine ⟨by norm_num [cloud_ordered], by decide!, by norm_num⟩

/-- C11, amended: for every cloud of valid bands (in particular every
ordered cloud), `a > 0`, `0 ≤ e < 1`, `mass ≥ 0`, `crit_mass > 0` and
`dust_density ≥ 0`, `accrete_dust` returns after finitely many sweeps, and
the last sweep, which was given `mass0` and returned the final mass, gained
at most `0.001 * mass0` (and not less than 0). -/
theorem C11_accrete_converges_amended (M : Libm) (hM : libm_facts M) (g : globals)
    (mass a e crit_mass : ℚ)
    (hv : bands_valid g.dust_head) (hd : 0 ≤ g.dust_density)
    (ha : 0 < a) (he0 : 0 ≤ e) (he1 : e < 1) (hm : 0 ≤ mass) (hc : 0 < crit_mass) :
    ∃ fuel mass1 g1 mass0 cloud0,
      accrete_dust M fuel g mass a e crit_mass = Outcome.value (mass1, g1)
        ∧ accrete_loop_vars M g.dust_density a e crit_mass fuel mass g.dust_head
            = Outcome.value (mass0, mass1, g1.dust_head)
        ∧ collect_dust M g.dust_density mass0 a e crit_mass cloud0
            = some (mass1, g1.dust_head)
        ∧ mass1 - mass0 ≤ 0.001 * mass0 := by
  obtain ⟨fuel, m1, c1, hl, _⟩ := accrete_loop_returns hM ha he0 he1 hc hd mass g.dust_head
    hm hv
  obtain ⟨m0, c0, hvars, hcd, hgain⟩ :=
    accrete_loop_last_sweep M g.dust_density a e crit_mass fuel mass g.dust_head m1 c1 hl
  refine ⟨fuel, m1,
    { g with dust_head := c1, dust_left := c1.any (fun band => band.dust_present) },
    m0, c0, ?_, hvars, hcd, hgain⟩
  unfold accrete_dust
  rw [hl]

/-- C11, amended, at the cloud `[1, 10]` of `sweep_example`. -/
theorem C11_accrete_converges_amended_witness :
    ∃ fuel mass1 g1 mass0 cloud0,
      accrete_dust table_libm fuel sweep_example (1/15) 4 0 (1/60) = Outcome.value (mass1, g1)
        ∧ accrete_loop_vars table_libm sweep_example.dust_density 4 0 (1/60) fuel (1/15)
            sweep_example.dust_head = Outcome.value (mass0, mass1, g1.dust_head)
        ∧ collect_dust table_libm sweep_example.dust_density mass0 4 0 (1/60) cloud0
            = some (mass1, g1.dust_head)
        ∧ mass1 - mass0 ≤ 0.001 * mass0 :=
  C11_accrete_converges_amended table_libm libm_facts_table sweep_example (1/15) 4 0 (1/60)
    (by decide!) (by decide!) (by norm_num) (by norm_num) (by norm_num) (by norm_num)
    (by norm_num)

/-! ### The random source and the trial location -/

/-- The value of `random_number` lies between its bounds, whichever is the
greater, when `rand()` returns a value in `[0, RAND_MAX]`. -/
theorem random_number_between (RAND_MAX rand : Nat) (bound1 bound2 : ℚ)
    (hR : 0 < RAND_MAX) (hr : rand ≤ RAND_MAX) :
    min bound1 bound2 ≤ random_number RAND_MAX rand bound1 bound2
      ∧ random_number RAND_MAX rand bound1 bound2 ≤ max bound1 bound2 := by
  have hRq : (0 : ℚ) < (RAND_MAX : ℚ) := by exact_mod_cast hR
  have hu0 : (0 : ℚ) ≤ (rand : ℚ) / (RAND_MAX : ℚ) :=
    div_nonneg (by exact_mod_cast Nat.zero_le rand) (le_of_lt hRq)
  have hu1 : (rand : ℚ) / (RAND_MAX : ℚ) ≤ 1 := by
    rw [div_le_one hRq]
    exact_mod_cast hr
  unfold random_number
  split_ifs with h1 h2
  · rw [min_eq_right (le_of_lt h1), max_eq_left (le_of_lt h1)]
    constructor
    · nlinarith
    · nlinarith
  · rw [min_eq_left (le_of_lt h2), max_eq_right (le_of_lt h2)]
    constructor
    · nlinarith
    · nlinarith
  · have heq : bound1 = bound2 := le_antisymm (not_lt.1 h1) (not_lt.1 h2)
    rw [heq, min_self, max_self]
    exact ⟨le_refl _, le_refl _⟩

theorem trial_bound1_eq (band : dust) (planet_inner_bound : ℚ) :
    trial_bound1 band planet_inner_bound = max band.inner_edge planet_inner_bound := by
  unfold trial_bound1
  split_ifs with h
  · rw [max_eq_right (le_of_lt h)]
  · rw [max_eq_left (not_lt.1 h)]

theorem trial_bound2_eq (band : dust) (planet_outer_bound : ℚ) :
    trial_bound2 band planet_outer_bound = min band.outer_edge planet_outer_bound := by
  unfold trial_bound2
  split_ifs with h
  · rw [min_eq_right (le_of_lt h)]
  · rw [min_eq_left (not_lt.1 h)]

/-- C18, the claim at an iteration whose first band with dust ends below
`planet_inner_bound`. Around a star with `planet_inner_bound = 3/10` and
`planet_outer_bound = 50` the cloud starts at
`dust_inner_bound = inner_effect_limit(3/10, 0, PROTOPLANET_MASS) < 3/10`;
a sweep with `r_inner = 11/40` leaves the band `[dust_inner_bound, 11/40]`
with dust at the inner end of the cloud. In the next iteration
`bound1 = 3/10 > bound2 = 11/40`, `random_number` takes them in the other
order, and for `rand() = 0` the trial is at `a = 11/40`, below
`max(band.inner_edge, planet_inner_bound) = 3/10`. For `rand() = RAND_MAX`
it is at `3/10`, above `min(band.outer_edge, planet_outer_bound) = 11/40`. -/
theorem C18_counterexample :
    first_dust_band
        [⟨inner_effect_limit (3/10) 0 PROTOPLANET_MASS, 11/40, true, true⟩,
         ⟨11/40, 1, false, true⟩, ⟨1, 60, true, true⟩]
        = some ⟨inner_effect_limit (3/10) 0 PROTOPLANET_MASS, 11/40, true, true⟩
      ∧ trial_location 32767 0
          ⟨inner_effect_limit (3/10) 0 PROTOPLANET_MASS, 11/40, true, true⟩ (3/10) 50 = 11/40
      ∧ ¬ (max (inner_effect_limit (3/10) 0 PROTOPLANET_MASS) (3/10) ≤ 11/40)
      ∧ trial_location 32767 32767
          ⟨inner_effect_limit (3/10) 0 PROTOPLANET_MASS, 11/40, true, true⟩ (3/10) 50 = 3/10
      ∧ ¬ ((3/10 : ℚ) ≤ min (11/40) 50) := by
  refine ⟨by decide!, by decide!, by decide!, by decide!, by decide!⟩

/-! ### Sweeps at or above the critical mass -/

theorem dusty_above_nil (lo : ℚ) : dusty_above lo [] := by
  intro b hb
  cases hb

theorem dusty_above_cons {lo : ℚ} {b : dust} {l : List dust} :
    dusty_above lo (b :: l)
      ↔ (b.dust_present = true ∧ lo ≤ b.inner_edge) ∧ dusty_above lo l := by
  simp [dusty_above]

theorem dusty_above_append {lo : ℚ} {l1 l2 : List dust} :
    dusty_above lo (l1 ++ l2) ↔ dusty_above lo l1 ∧ dusty_above lo l2 := by
  simp only [dusty_above, List.mem_append]
  constructor
  · intro h
    exact ⟨fun b hb => h b (Or.inl hb), fun b hb => h b (Or.inr hb)⟩
  · rintro ⟨h1, h2⟩ b (hb | hb)
    · exact h1 b hb
    · exact h2 b hb

theorem dusty_above_reverse {lo : ℚ} {l : List dust} :
    dusty_above lo l.reverse ↔ dusty_above lo l := by
  simp [dusty_above]

theorem dusty_above_tail {lo : ℚ} {l : List dust} (h : dusty_above lo l) :
    dusty_above lo l.tail := by
  intro b hb
  exact h b (List.mem_of_mem_tail hb)

/-- At or above the critical mass a step of the second loop of `collect_dust`
clears no dust flag and moves no inner edge inwards, and it leaves a band in
the list the global `dust_head` leads to: what it frees while no band has been
kept yet is the first node, which stays where it was. -/
theorem band_step_gas {r_inner r_outer mass crit_mass lo : ℚ} (hm : crit_mass ≤ mass)
    {stale done : List dust} {band : dust} {rest : List dust}
    {r : List dust × List dust × Bool}
    (hI : dusty_above lo stale ∧ dusty_above lo done ∧ dusty_above lo (band :: rest))
    (hs : band_step r_inner r_outer mass crit_mass stale done band rest.head? r) :
    dusty_above lo r.1 ∧ dusty_above lo r.2.1
      ∧ dusty_above lo (if r.2.2 = true then rest.tail else rest)
      ∧ r.1 ++ r.2.1 ≠ [] := by
  obtain ⟨h1', h2', h3'⟩ := hI
  rw [dusty_above_cons] at h3'
  obtain ⟨hb, h3'⟩ := h3'
  cases hs with
  | skip h =>
    exact ⟨h1', dusty_above_cons.2 ⟨hb, h2'⟩, by simpa using h3', by simp⟩
  | split_gas h h1 h2 hlt => exact absurd hlt (not_lt.2 hm)
  | split h h1 h2 hge =>
    refine ⟨h1', ?_, by simpa using h3', by simp⟩
    simp only [dusty_above_cons]
    exact ⟨⟨hb.1, le_trans hb.2 (le_of_lt h.2.2.1)⟩, hb, h2'⟩
  | free_head h h1 h2 hge hd =>
    exact ⟨dusty_above_cons.2 ⟨hb, h1'⟩, dusty_above_nil lo, by simpa using h3', by simp⟩
  | free h h1 h2 hge hd =>
    exact ⟨h1', h2', by simpa using h3', by simp [hd]⟩
  | clear h h1 h2 hlt => exact absurd hlt (not_lt.2 hm)
  | cut_inner h h1 h2 hge =>
    refine ⟨h1', ?_, by simpa using h3', by simp⟩
    simp only [dusty_above_cons]
    exact ⟨⟨hb.1, le_trans hb.2 (le_of_lt h.2.2.1)⟩, h2'⟩
  | merge_prev h h1 h2 hlt prev_band before hd hp => exact absurd hlt (not_lt.2 hm)
  | gas_before h h1 h2 hlt prev_band before hd hp => exact absurd hlt (not_lt.2 hm)
  | gas_lost h h1 h2 hlt hd => exact absurd hlt (not_lt.2 hm)
  | cut_outer h h1 h2 hge =>
    exact ⟨h1', dusty_above_cons.2 ⟨hb, h2'⟩, by simpa using h3', by simp⟩
  | merge_next h h1 h2 hlt next hn hp => exact absurd hlt (not_lt.2 hm)
  | gas_after h h1 h2 hlt hp => exact absurd hlt (not_lt.2 hm)

/-- At or above the critical mass the second loop of `collect_dust` leaves a
cloud that is not empty and in which every band still holds dust. -/
theorem update_bands_gas {r_inner r_outer mass crit_mass lo : ℚ} (hm : crit_mass ≤ mass)
    (cloud : List dust) (hne : cloud ≠ []) (hd : dusty_above lo cloud) :
    update_bands r_inner r_outer mass crit_mass [] [] cloud ≠ []
      ∧ dusty_above lo (update_bands r_inner r_outer mass crit_mass [] [] cloud) := by
  obtain ⟨s1, d1, he, hI⟩ := update_bands_invariant r_inner r_outer mass crit_mass
    (fun stale done rest => dusty_above lo stale ∧ dusty_above lo done ∧ dusty_above lo rest
      ∧ stale ++ done ++ rest ≠ [])
    (fun stale done band rest r hI hs => by
      obtain ⟨g1, g2, g3, g4⟩ := band_step_gas hm ⟨hI.1, hI.2.1, hI.2.2.1⟩ hs
      refine ⟨g1, g2, g3, ?_⟩
      intro hnil
      apply g4
      rw [List.append_eq_nil] at hnil
      exact hnil.1)
    [] [] cloud ⟨dusty_above_nil lo, dusty_above_nil lo, hd, by simpa using hne⟩
  rw [he]
  obtain ⟨g1, g2, _, g4⟩ := hI
  constructor
  · intro hnil
    apply g4
    rw [List.append_eq_nil] at hnil
    simp only [List.reverse_eq_nil_iff] at hnil
    simp [hnil.1, hnil.2]
  · rw [dusty_above_append, dusty_above_reverse, dusty_above_reverse]
    exact ⟨g1, g2⟩

/-- A sweep at or above the critical mass, with valid arguments: the bounds of
`collect_dust_bounds`, and the cloud is still not empty and all dust. -/
theorem collect_dust_gas {M : Libm} (hM : libm_facts M)
    {dust_density mass a e crit_mass lo : ℚ} (cloud : List dust)
    (ha : 0 < a) (he0 : 0 ≤ e) (he1 : e < 1) (hc : 0 < crit_mass) (hm : crit_mass ≤ mass)
    (hd : 0 ≤ dust_density) (hv : bands_valid cloud)
    (hne : cloud ≠ []) (hdust : dusty_above lo cloud) :
    ∃ mass1 cloud1, collect_dust M dust_density mass a e crit_mass cloud = some (mass1, cloud1)
      ∧ mass ≤ mass1
      ∧ mass1 ≤ mass + 8 * PI * power M a 2 * K * dust_density * total_width cloud
      ∧ bands_valid cloud1 ∧ total_width cloud1 ≤ total_width cloud
      ∧ cloud1 ≠ [] ∧ dusty_above lo cloud1 := by
  have hm0 : 0 ≤ mass := le_trans (le_of_lt hc) hm
  obtain ⟨m1, c1, hcd, h1, h2, h3, h4⟩ := collect_dust_bounds hM cloud ha he0 he1 hm0 hc hd hv
  have hc1 := @collect_dust_some M dust_density mass a e crit_mass cloud c1 (by rw [hcd]; rfl)
  obtain ⟨g1, g2⟩ := @update_bands_gas
    (inner_effect_limit a e (power M (mass / (1.0 + mass)) 0.25))
    (outer_effect_limit a e (power M (mass / (1.0 + mass)) 0.25))
    mass crit_mass lo hm cloud hne hdust
  rw [← hc1] at g1 g2
  exact ⟨m1, c1, hcd, h1, h2, h3, h4, g1, g2⟩

/-! ### dist_masses around a star whose protoplanets start above the critical mass -/

/-- The bounds of `dist_masses` for a star: the cloud starts at a positive
distance, not beyond the innermost orbit, and ends at the outermost orbit or
beyond. -/
theorem star_bounds (M : Libm) (mass_ratio radius : ℚ)
    (hc : 0 < power M mass_ratio (1.0 / 3.0)) :
    0 < dust_inner_bound M mass_ratio PLANET radius
      ∧ dust_inner_bound M mass_ratio PLANET radius
          ≤ planet_inner_bound M mass_ratio PLANET radius
      ∧ planet_inner_bound M mass_ratio PLANET radius ≤ farthest_body M mass_ratio
      ∧ farthest_body M mass_ratio ≤ dust_outer_bound M mass_ratio PLANET radius := by
  have hpm : PLANET ≠ MOON := by decide
  have hsp : ¬ (STAR = PLANET) := by decide
  unfold dust_inner_bound dust_outer_bound planet_inner_bound farthest_body nearest_body
    stell_dust_limit inner_effect_limit outer_effect_limit CLOUD_ECCENTRICITY PROTOPLANET_MASS
  rw [if_neg hpm]
  simp only [if_true, hsp, if_false]
  generalize power M mass_ratio (1.0 / 3.0) = c at hc
  refine ⟨by norm_num; linarith, by norm_num; linarith, by norm_num; linarith, ?_⟩
  split_ifs
  all_goals norm_num
  all_goals linarith

theorem first_dust_band_cons {band : dust} {rest : List dust} (h : band.dust_present = true) :
    first_dust_band (band :: rest) = some band := by
  simp [first_dust_band, h]

/-- The eccentricity of a trial lies in `[0, 1)` when `pow(u, ECCENTRICITY_COEFF)`
lies in `(0, 1]` for `u` in `[0.0001, 1]`. -/
theorem random_eccentricity_range (M : Libm) (RAND_MAX rand : Nat)
    (hp : ∀ u : ℚ, 0.0001 ≤ u → u ≤ 1 →
      0 < M.pow u ECCENTRICITY_COEFF ∧ M.pow u ECCENTRICITY_COEFF ≤ 1)
    (hR : 0 < RAND_MAX) (hr : rand ≤ RAND_MAX) :
    0 ≤ random_eccentricity M RAND_MAX rand ∧ random_eccentricity M RAND_MAX rand < 1 := by
  obtain ⟨h1, h2⟩ := random_number_between RAND_MAX rand 0.0001 1.0 hR hr
  rw [min_eq_left (by norm_num)] at h1
  rw [max_eq_right (by norm_num)] at h2
  obtain ⟨h3, h4⟩ := hp _ h1 (by norm_num at h2 ⊢; exact h2)
  unfold random_eccentricity power
  generalize M.pow (random_number RAND_MAX rand 0.0001 1.0) ECCENTRICITY_COEFF = p at h3 h4
  norm_num
  exact ⟨h4, h3⟩

/-- A protoplanet that starts at or above its critical mass in a cloud so thin
that a sweep gains at most a thousandth of its mass: `accrete_dust` returns
after one sweep with a mass of at most `1.001` times the mass it was given,
and the state is an all-dust state again. -/
theorem accrete_dust_gas_once {M : Libm} (hM : libm_facts M) (sweeps : Nat) (g : globals)
    {mass a e crit_mass lo width : ℚ}
    (ha : 0 < a) (he0 : 0 ≤ e) (he1 : e < 1) (hc : 0 < crit_mass) (hm : crit_mass ≤ mass)
    (hd : 0 ≤ g.dust_density) (hg : all_dust_state lo width g)
    (hthin : 8 * PI * power M a 2 * K * g.dust_density * width ≤ 0.001 * mass) :
    ∃ mass1 g1, accrete_dust M (sweeps + 1) g mass a e crit_mass = Outcome.value (mass1, g1)
      ∧ mass ≤ mass1 ∧ mass1 ≤ mass + 0.001 * mass
      ∧ all_dust_state lo width g1 ∧ g1.planet_head = g.planet_head := by
  obtain ⟨_, hne, hdust, hv, hw⟩ := hg
  obtain ⟨m1, c1, hcd, h1, h2, h3, h4, h5, h6⟩ :=
    @collect_dust_gas M hM g.dust_density mass a e crit_mass lo g.dust_head ha he0 he1 hc hm hd
      hv hne hdust
  have hcoef : 0 ≤ 8 * PI * power M a 2 * K * g.dust_density := by
    have := PI_pos
    have := hM.pow_nonneg a 2 (le_of_lt ha)
    have : (0 : ℚ) ≤ K := by unfold K; norm_num
    unfold power
    positivity
  have hgain : m1 ≤ mass + 0.001 * mass := by
    have := mul_le_mul_of_nonneg_left hw hcoef
    linarith
  have hloop : accrete_loop M g.dust_density a e crit_mass (sweeps + 1) mass g.dust_head
      = Outcome.value (m1, c1) := by
    rw [accrete_loop_succ, hcd]
    simp only
    rw [if_neg]
    intro hgo
    linarith
  refine ⟨m1, { g with dust_head := c1, dust_left := c1.any (fun band => band.dust_present) },
    ?_, h1, hgain, ?_, rfl⟩
  · unfold accrete_dust
    rw [hloop]
  · refine ⟨?_, h5, h6, h3, le_trans h4 hw⟩
    simp only [List.any_eq_true]
    cases c1 with
    | nil => exact absurd rfl h5
    | cons b t => exact ⟨b, List.mem_cons_self b t, (h6 b (List.mem_cons_self b t)).1⟩

/-- Under `gas_from_start` one iteration of the loop of `dist_masses` returns
and leaves an all-dust state, whatever `rand()` returns. -/
theorem inject_trial_gas {M : Libm} (hM : libm_facts M) {RAND_MAX : Nat}
    {mass_ratio stell_luminosity_ratio radius : ℚ}
    (hrun : gas_from_start M RAND_MAX mass_ratio stell_luminosity_ratio radius)
    (hR : 0 < RAND_MAX) (sweeps rand_e rand_a : Nat)
    (hre : rand_e ≤ RAND_MAX) (hra : rand_a ≤ RAND_MAX) (g : globals)
    (hg : all_dust_state (dust_inner_bound M mass_ratio PLANET radius)
      (dust_outer_bound M mass_ratio PLANET radius
        - dust_inner_bound M mass_ratio PLANET radius) g) :
    ∃ g1, inject_trial M RAND_MAX (sweeps + 1) mass_ratio stell_luminosity_ratio PLANET
          (planet_inner_bound M mass_ratio PLANET radius) (farthest_body M mass_ratio)
          rand_e rand_a g = Outcome.value g1
      ∧ all_dust_state (dust_inner_bound M mass_ratio PLANET radius)
          (dust_outer_bound M mass_ratio PLANET radius
            - dust_inner_bound M mass_ratio PLANET radius) g1 := by
  obtain ⟨hb1, hb2, hb3, hb4⟩ := star_bounds M mass_ratio radius hrun.cube_root_pos
  obtain ⟨he0, he1⟩ := random_eccentricity_range M RAND_MAX rand_e hrun.eccentricity_range
    hR hre
  have hg' := hg
  obtain ⟨hleft, hne, hdust, hv, hw⟩ := hg'
  obtain ⟨band, rest, hcloud⟩ := List.exists_cons_of_ne_nil hne
  have hband := hdust band (by rw [hcloud]; exact List.mem_cons_self band rest)
  have hbv : band.inner_edge ≤ band.outer_edge :=
    hv band (by rw [hcloud]; exact List.mem_cons_self band rest)
  have hfirst : first_dust_band g.dust_head = some band := by
    rw [hcloud]
    exact first_dust_band_cons hband.1
  -- the trial location is not below the inner edge of the cloud
  have hloc := random_number_between RAND_MAX rand_a
    (trial_bound1 band (planet_inner_bound M mass_ratio PLANET radius))
    (trial_bound2 band (farthest_body M mass_ratio)) hR hra
  rw [trial_bound1_eq, trial_bound2_eq] at hloc
  have ha : dust_inner_bound M mass_ratio PLANET radius
      ≤ trial_location RAND_MAX rand_a band (planet_inner_bound M mass_ratio PLANET radius)
          (farthest_body M mass_ratio) := by
    unfold trial_location
    rw [trial_bound1_eq, trial_bound2_eq]
    refine le_trans (le_min ?_ ?_) hloc.1
    · exact le_trans hband.2 (le_max_left _ _)
    · exact le_min (le_trans hband.2 hbv) (le_trans hb2 hb3)
  have hapos := lt_of_lt_of_le hb1 ha
  obtain ⟨hc0, hc1⟩ := hrun.critical_low _ rand_e ha hre
  obtain ⟨hd0, hd1⟩ := hrun.density_low _ ha
  unfold inject_trial
  simp only
  rw [hfirst]
  simp only
  rw [if_neg (not_lt.2 hb3)]
  generalize trial_location RAND_MAX rand_a band (planet_inner_bound M mass_ratio PLANET radius)
    (farthest_body M mass_ratio) = a at ha hapos hc0 hc1 hd0 hd1
  split_ifs with hav
  · obtain ⟨m1, g1, hacc, hm0, hm1, hg1, _⟩ :=
      @accrete_dust_gas_once M hM sweeps
        { g with dust_density := trial_dust_density M mass_ratio a PLANET }
        PROTOPLANET_MASS _ _ _ _ _ hapos he0 he1 hc0 hc1 hd0
        ⟨hleft, hne, hdust, hv, hw⟩ hd1
    rw [hacc]
    simp only
    have htriv : m1 ≤ TRIVIAL_MASS := by
      unfold TRIVIAL_MASS
      unfold PROTOPLANET_MASS at hm1
      norm_num at hm1 ⊢
      linarith
    split_ifs with hcoal
    · unfold coalesce_planetesimals
      rw [if_pos htriv]
      exact ⟨g1, rfl, hg1⟩
    · exact ⟨g1, rfl, hg1⟩
  · exact ⟨g, rfl, hg⟩

/-- Under `gas_from_start` the loop of `dist_masses` started in an all-dust
state is still running after any number of iterations. -/
theorem dist_masses_loop_gas {M : Libm} (hM : libm_facts M) {RAND_MAX : Nat}
    (rand : Nat → Nat) {mass_ratio stell_luminosity_ratio radius : ℚ}
    (hrun : gas_from_start M RAND_MAX mass_ratio stell_luminosity_ratio radius)
    (hR : 0 < RAND_MAX) (hrand : ∀ k, rand k ≤ RAND_MAX) (sweeps fuel : Nat) :
    ∀ (calls : Nat) (g : globals),
      all_dust_state (dust_inner_bound M mass_ratio PLANET radius)
        (dust_outer_bound M mass_ratio PLANET radius
          - dust_inner_bound M mass_ratio PLANET radius) g →
      dist_masses_loop M RAND_MAX rand (sweeps + 1) mass_ratio stell_luminosity_ratio PLANET
          (planet_inner_bound M mass_ratio PLANET radius) (farthest_body M mass_ratio)
          fuel calls g = Outcome.unfinished := by
  induction fuel with
  | zero =>
    intro calls g _
    rfl
  | succ fuel ih =>
    intro calls g hg
    obtain ⟨g1, htrial, hg1⟩ := inject_trial_gas hM hrun hR sweeps (rand calls)
      (rand (calls + 1)) (hrand calls) (hrand (calls + 1)) g hg
    unfold dist_masses_loop
    rw [if_pos hg.1, htrial]
    exact ih _ g1 hg1

/-- The embedding on a star with `gas_from_start`: when every protoplanet
starts at or above its critical mass (a luminosity so high that
`critical_limit ≤ PROTOPLANET_MASS` on every orbit of the cloud) and the cloud
is so thin that no protoplanet grows beyond `TRIVIAL_MASS`, then for every
sequence of values of `rand()`, every planet list and every bound `sweeps > 0`
on the sweeps of a call of `accrete_dust` (each call returns after one), the
`while (dust_left)` loop of `dist_masses` is still running after `fuel`
iterations, for every `fuel`. At or above the critical mass `collect_dust`
never clears a `dust_present` flag; it removes dust only by freeing bands, and
the first band of the list is never unlinked from the global `dust_head`. -/
theorem thin_cloud_loop_runs_on (M : Libm) (hM : libm_facts M) (RAND_MAX : Nat)
    (rand : Nat → Nat) (mass_ratio stell_luminosity_ratio radius : ℚ)
    (hrun : gas_from_start M RAND_MAX mass_ratio stell_luminosity_ratio radius)
    (hR : 0 < RAND_MAX) (hrand : ∀ k, rand k ≤ RAND_MAX)
    (g : globals) (planet_list : List planets) (sweeps fuel : Nat) (hs : 0 < sweeps) :
    dist_masses M RAND_MAX rand sweeps fuel g mass_ratio stell_luminosity_ratio PLANET
      planet_list radius = Outcome.unfinished := by
  obtain ⟨n, rfl⟩ : ∃ n, sweeps = n + 1 := ⟨sweeps - 1, by omega⟩
  obtain ⟨hb1, hb2, hb3, hb4⟩ := star_bounds M mass_ratio radius hrun.cube_root_pos
  unfold dist_masses
  simp only [true_or, if_true]
  apply dist_masses_loop_gas hM rand hrun hR hrand
  refine ⟨rfl, ?_, ?_, ?_, ?_⟩
  · simp [set_initial_conditions]
  · intro b hb
    simp only [set_initial_conditions, List.mem_singleton] at hb
    subst hb
    exact ⟨rfl, le_refl _⟩
  · intro b hb
    simp only [set_initial_conditions, List.mem_singleton] at hb
    subst hb
    exact le_trans hb2 (le_trans hb3 hb4)
  · simp [set_initial_conditions, total_width]

theorem libm_facts_flat : libm_facts flat_libm where
  pow_nonneg := by
    intro x y hx
    simp only [flat_libm]
    split_ifs
    · exact mul_nonneg hx hx
    all_goals norm_num
  pow_lt_one := by
    intro x y hx hx1 hy
    simp only [flat_libm]
    split_ifs
    · nlinarith
    all_goals norm_num
  sqrt_nonneg := by
    intro x _
    simp only [flat_libm]
    norm_num

theorem gas_from_start_flat : gas_from_start flat_libm 32767 1 1 0 where
  cube_root_pos := by
    simp only [power, flat_libm]
    norm_num
  eccentricity_range := by
    intro u _ _
    simp only [flat_libm, ECCENTRICITY_COEFF]
    norm_num
    split_ifs <;> norm_num
  critical_low := by
    intro a r _ _
    simp only [critical_limit, power, flat_libm, B, PROTOPLANET_MASS]
    norm_num
  density_low := by
    intro a _
    simp only [trial_dust_density, flat_libm]
    norm_num [PROTOPLANET_MASS]

/-- The embedding at a star of mass ratio 1 with the stand-in `flat_libm` for
the C library (which meets `gas_from_start`) and `rand()` always 0: after 1000
iterations the loop is still running. -/
theorem thin_cloud_loop_runs_on_example :
    dist_masses flat_libm 32767 (fun _ => 0) 1 1000 sweep_example 1 1 PLANET [] 0
      = Outcome.unfinished :=
  thin_cloud_loop_runs_on flat_libm libm_facts_flat 32767 (fun _ => 0) 1 1 0
    gas_from_start_flat (by norm_num) (fun _ => Nat.zero_le _) sweep_example [] 1 1000
    (by norm_num)

/-! ### utils.c: random_number and random_eccentricity -/

/-- C22: for every value `rand ≤ RAND_MAX` of `rand()` the argument
`u = random_number(0.0001, 1.0)` of `pow` lies in `[0.0001, 1]`, and
`random_eccentricity() = 1 - pow(u, 0.077)` lies in `[0, 1)`, for a `pow` that
is positive on positive bases and at most 1 on bases in `(0, 1]` with a
positive exponent. -/
theorem C22_random_eccentricity_range (M : Libm) (RAND_MAX rand : Nat)
    (hpos : ∀ x y : ℚ, 0 < x → 0 < M.pow x y)
    (hle : ∀ x y : ℚ, 0 < x → x ≤ 1 → 0 < y → M.pow x y ≤ 1)
    (hR : 0 < RAND_MAX) (hr : rand ≤ RAND_MAX) :
    (1/10000 : ℚ) ≤ random_number RAND_MAX rand 0.0001 1.0
      ∧ random_number RAND_MAX rand 0.0001 1.0 ≤ 1
      ∧ random_eccentricity M RAND_MAX rand
          = 1 - M.pow (random_number RAND_MAX rand 0.0001 1.0) (77/1000)
      ∧ 0 ≤ random_eccentricity M RAND_MAX rand
      ∧ random_eccentricity M RAND_MAX rand < 1 := by
  obtain ⟨h1, h2⟩ := random_number_between RAND_MAX rand 0.0001 1.0 hR hr
  rw [min_eq_left (by norm_num)] at h1
  rw [max_eq_right (by norm_num)] at h2
  have hp : ∀ u : ℚ, 0.0001 ≤ u → u ≤ 1 →
      0 < M.pow u ECCENTRICITY_COEFF ∧ M.pow u ECCENTRICITY_COEFF ≤ 1 := by
    intro u hu0 hu1
    have hu : 0 < u := lt_of_lt_of_le (by norm_num) hu0
    exact ⟨hpos u _ hu, hle u _ hu hu1 (by unfold ECCENTRICITY_COEFF; norm_num)⟩
  obtain ⟨h3, h4⟩ := random_eccentricity_range M RAND_MAX rand hp hR hr
  refine ⟨le_trans (by norm_num) h1, le_trans h2 (by norm_num), ?_, h3, h4⟩
  unfold random_eccentricity power ECCENTRICITY_COEFF
  generalize random_number RAND_MAX rand 0.0001 1.0 = u
  norm_num

theorem flat_pow_pos : ∀ x y : ℚ, 0 < x → 0 < flat_libm.pow x y := by
  intro x y hx
  simp only [flat_libm]
  split_ifs
  · exact mul_pos hx hx
  all_goals norm_num

theorem flat_pow_le_one : ∀ x y : ℚ, 0 < x → x ≤ 1 → 0 < y → flat_libm.pow x y ≤ 1 := by
  intro x y hx hx1 _
  simp only [flat_libm]
  split_ifs
  · nlinarith
  all_goals norm_num

/-- C22 at `rand() = RAND_MAX`, where `u = 1` and the eccentricity is
`1 - pow(1, 0.077) = 0`. -/
theorem C22_random_eccentricity_range_witness :
    (1/10000 : ℚ) ≤ random_number 32767 32767 0.0001 1.0
      ∧ random_number 32767 32767 0.0001 1.0 ≤ 1
      ∧ random_eccentricity flat_libm 32767 32767
          = 1 - flat_libm.pow (random_number 32767 32767 0.0001 1.0) (77/1000)
      ∧ 0 ≤ random_eccentricity flat_libm 32767 32767
      ∧ random_eccentricity flat_libm 32767 32767 < 1 :=
  C22_random_eccentricity_range flat_libm 32767 32767 flat_pow_pos flat_pow_le_one
    (by norm_num) (by norm_num)

/-! ### The first loop of collect_dust, band by band -/

/-- The first loop of `collect_dust` adds up, over the bands that are not
skipped, what each of them gives. -/
theorem accumulate_mass_sum (M : Libm)
    (dust_density r_inner r_outer reduced_mass mass a e crit_mass : ℚ) (cloud : List dust) :
    ∀ acc : ℚ,
      accumulate_mass M dust_density r_inner r_outer reduced_mass mass a e crit_mass acc cloud
        = acc + (cloud.map (fun band =>
            if band_skipped r_inner r_outer mass crit_mass band then 0
            else band_gain M dust_density r_inner r_outer reduced_mass mass a e crit_mass
              band)).sum := by
  induction cloud with
  | nil =>
    intro acc
    simp [accumulate_mass]
  | cons band rest ih =>
    intro acc
    rw [accumulate_mass]
    split_ifs with hs
    · rw [ih]
      simp [hs]
    · rw [ih]
      simp [hs]
      ring

/-- The gain of a sweep of a cloud made of one band. -/
theorem collect_dust_single (M : Libm) (dust_density mass a e crit_mass : ℚ) (band : dust)
    (hr : ¬ inner_effect_limit a e (power M (mass / (1.0 + mass)) 0.25) < 0.0) :
    ∃ cloud1, collect_dust M dust_density mass a e crit_mass [band]
      = some (mass +
          (if band_skipped (inner_effect_limit a e (power M (mass / (1.0 + mass)) 0.25))
              (outer_effect_limit a e (power M (mass / (1.0 + mass)) 0.25)) mass crit_mass band
            then 0
            else band_gain M dust_density
              (inner_effect_limit a e (power M (mass / (1.0 + mass)) 0.25))
              (outer_effect_limit a e (power M (mass / (1.0 + mass)) 0.25))
              (power M (mass / (1.0 + mass)) 0.25) mass a e crit_mass band), cloud1) := by
  unfold collect_dust
  simp only
  rw [if_neg hr, accumulate_mass_sum]
  simp

/-- In exact arithmetic, whenever `collect_dust` returns for a cloud, it returns for each
cloud made of one of its bands alone, with the same arguments, and the gain
(result minus `mass`) on the cloud is the sum over the bands of the gains on
the single bands. (It returns if and only if `r_inner ≥ 0`, whatever the
cloud, so that for `r_inner < 0` there is no gain on either side.) -/
theorem swept_mass_additive_exact (M : Libm) (dust_density mass a e crit_mass : ℚ)
    (cloud : List dust) (mass1 : ℚ) (cloud1 : List dust)
    (h : collect_dust M dust_density mass a e crit_mass cloud = some (mass1, cloud1)) :
    (∀ band ∈ cloud, ∃ mass_b cloud_b,
        collect_dust M dust_density mass a e crit_mass [band] = some (mass_b, cloud_b))
      ∧ mass1 - mass
        = (cloud.map (fun band =>
            ((collect_dust M dust_density mass a e crit_mass [band]).map
              (fun r => r.1 - mass)).getD 0)).sum := by
  have hr : ¬ inner_effect_limit a e (power M (mass / (1.0 + mass)) 0.25) < 0.0 := by
    intro hneg
    unfold collect_dust at h
    simp only at h
    rw [if_pos hneg] at h
    cases h
  constructor
  · intro band _
    obtain ⟨c, hc⟩ := collect_dust_single M dust_density mass a e crit_mass band hr
    exact ⟨_, c, hc⟩
  · have hm : mass1 = accumulate_mass M dust_density
        (inner_effect_limit a e (power M (mass / (1.0 + mass)) 0.25))
        (outer_effect_limit a e (power M (mass / (1.0 + mass)) 0.25))
        (power M (mass / (1.0 + mass)) 0.25) mass a e crit_mass mass cloud := by
      unfold collect_dust at h
      simp only at h
      rw [if_neg hr] at h
      simp only [Option.some.injEq, Prod.mk.injEq] at h
      exact h.1.symm
    rw [hm, accumulate_mass_sum]
    rw [add_sub_cancel_left]
    congr 1
    apply List.map_congr_left
    intro band _
    obtain ⟨c, hc⟩ := collect_dust_single M dust_density mass a e crit_mass band hr
    rw [hc]
    simp

/-! ### The cases of the second loop of collect_dust, in an ordered cloud -/

/-- In an ordered cloud the bands before a band end at or before its inner
edge and the bands after it start at or beyond its outer edge. -/
theorem ordered_split {pre post : List dust} {band : dust}
    (h : cloud_ordered (pre ++ band :: post)) :
    (∀ b ∈ pre, b.outer_edge ≤ band.inner_edge)
      ∧ (∀ b ∈ post, band.outer_edge ≤ b.inner_edge)
      ∧ band.inner_edge ≤ band.outer_edge := by
  rw [cloud_ordered_iff] at h
  obtain ⟨hv, hp⟩ := h
  rw [List.pairwise_append] at hp
  obtain ⟨_, hp2, hp3⟩ := hp
  refine ⟨fun b hb => hp3 b hb band (List.mem_cons_self _ _), ?_, ?_⟩
  · intro b hb
    exact List.rel_of_pairwise_cons hp2 hb
  · exact hv band (List.mem_append_right _ (List.mem_cons_self _ _))

/-- Bands at the front of the list that the loop skips are passed unchanged. -/
theorem update_bands_skip_front (r_inner r_outer mass crit_mass : ℚ)
    (stale : List dust) (pre rest : List dust)
    (h : ∀ b ∈ pre, band_skipped r_inner r_outer mass crit_mass b = true) :
    ∀ done : List dust,
      update_bands r_inner r_outer mass crit_mass stale done (pre ++ rest)
        = update_bands r_inner r_outer mass crit_mass stale (pre.reverse ++ done) rest := by
  induction pre with
  | nil =>
    intro done
    simp
  | cons band pre ih =>
    intro done
    have hs : ∀ nb, sweep_band r_inner r_outer mass crit_mass stale done band nb
        = (stale, band :: done, false) := by
      intro nb
      rw [sweep_band.eq_def, if_pos (h band (List.mem_cons_self _ _))]
    rw [List.cons_append, update_bands_cons, hs]
    simp only [Bool.false_eq_true, if_false]
    rw [ih (fun b hb => h b (List.mem_cons_of_mem _ hb))]
    simp

theorem band_skipped_of_outer_le {r_inner r_outer mass crit_mass : ℚ} {b : dust}
    (h : b.outer_edge ≤ r_inner) : band_skipped r_inner r_outer mass crit_mass b = true := by
  simp [band_skipped, h]

theorem band_skipped_of_inner_ge {r_inner r_outer mass crit_mass : ℚ} {b : dust}
    (h : r_outer ≤ b.inner_edge) : band_skipped r_inner r_outer mass crit_mass b = true := by
  simp [band_skipped, h]

theorem not_skipped_of_eligible {r_inner r_outer mass crit_mass : ℚ} {band : dust}
    (h : band_eligible r_inner r_outer mass crit_mass band) :
    ¬ band_skipped r_inner r_outer mass crit_mass band = true := by
  intro hs
  rw [band_skipped_iff] at hs
  obtain ⟨hg, h1, h2, hd⟩ := h
  rcases hs with hs | hs | hs | hs
  · rw [hg] at hs
    cases hs
  · exact absurd h1 (not_lt.2 hs)
  · exact absurd h2 (not_lt.2 hs)
  · have := hd hs.1
    rw [hs.2] at this
    cases this

/-- The cloud `collect_dust` leaves when it does not exit. -/
theorem collect_dust_cloud (M : Libm) (dust_density mass a e crit_mass : ℚ) (cloud : List dust)
    (hr : 0 ≤ effect_inner M mass a e) :
    (collect_dust M dust_density mass a e crit_mass cloud).map Prod.snd
      = some (update_bands (effect_inner M mass a e) (effect_outer M mass a e)
          mass crit_mass [] [] cloud) := by
  unfold collect_dust
  simp only
  rw [if_neg]
  · rfl
  · rw [show (0.0 : ℚ) = 0 by norm_num]
    exact not_lt.2 hr

/-- Case 1 of the second loop: the range of effect lies within the band. -/
theorem sweep_band_interior {r_inner r_outer mass crit_mass : ℚ} (stale done : List dust)
    {band : dust} (next_band : Option dust)
    (h : band_eligible r_inner r_outer mass crit_mass band)
    (h1 : r_outer ≤ band.outer_edge) (h2 : band.inner_edge ≤ r_inner) :
    sweep_band r_inner r_outer mass crit_mass stale done band next_band
      = (stale,
          ⟨r_outer, band.outer_edge, band.dust_present, band.gas_present⟩
            :: ((if mass < crit_mass then [(⟨r_inner, r_outer, false, true⟩ : dust)] else [])
              ++ { band with outer_edge := r_inner } :: done), false) := by
  have hs := sweep_band_step r_inner r_outer mass crit_mass stale done band next_band
  generalize sweep_band r_inner r_outer mass crit_mass stale done band next_band = r at hs
  cases hs with
  | skip hk => exact absurd hk (not_skipped_of_eligible h)
  | split_gas _ _ _ hm => rw [if_pos hm]; rfl
  | split _ _ _ hm => rw [if_neg (not_lt.2 hm)]; rfl
  | free_head _ g1 g2 _ _ => exact absurd g1 (not_lt.2 h1)
  | free _ g1 g2 _ _ => exact absurd g1 (not_lt.2 h1)
  | clear _ g1 g2 _ => exact absurd g1 (not_lt.2 h1)
  | cut_inner _ g1 g2 _ => exact absurd g2 (not_lt.2 h2)
  | merge_prev _ g1 g2 _ _ _ _ _ => exact absurd g2 (not_lt.2 h2)
  | gas_before _ g1 g2 _ _ _ _ _ => exact absurd g2 (not_lt.2 h2)
  | gas_lost _ g1 g2 _ _ => exact absurd g2 (not_lt.2 h2)
  | cut_outer _ g1 g2 _ => exact absurd g1 (not_lt.2 h1)
  | merge_next _ g1 g2 _ _ _ _ => exact absurd g1 (not_lt.2 h1)
  | gas_after _ g1 g2 _ _ => exact absurd g1 (not_lt.2 h1)

/-- C25: in an ordered cloud `pre ++ band :: post`, when `band` is eligible
and `band.inner_edge ≤ r_inner`, `r_outer ≤ band.outer_edge` (with
`band.inner_edge ≥ 0`, so that the sweep does not exit), the cloud after
`collect_dust` is `pre`, then `[band.inner_edge, r_inner]` and
`[r_outer, band.outer_edge]` with the flags of `band`, with the gas-only band
`[r_inner, r_outer]` between the two if `mass < crit_mass` and nothing between
them otherwise, then `post`: the other bands are as they were. -/
theorem C25_fully_interior (M : Libm) (dust_density mass a e crit_mass : ℚ)
    (pre post : List dust) (band : dust)
    (hord : cloud_ordered (pre ++ band :: post))
    (helig : band_eligible (effect_inner M mass a e) (effect_outer M mass a e) mass crit_mass
      band)
    (h2 : band.inner_edge ≤ effect_inner M mass a e)
    (h1 : effect_outer M mass a e ≤ band.outer_edge)
    (h0 : 0 ≤ band.inner_edge) :
    (collect_dust M dust_density mass a e crit_mass (pre ++ band :: post)).map Prod.snd
      = some (pre ++ { band with outer_edge := effect_inner M mass a e }
          :: ((if mass < crit_mass
                then [(⟨effect_inner M mass a e, effect_outer M mass a e, false, true⟩ : dust)]
                else [])
            ++ ⟨effect_outer M mass a e, band.outer_edge, band.dust_present,
                band.gas_present⟩ :: post)) := by
  obtain ⟨hpre, hpost, _⟩ := ordered_split hord
  rw [collect_dust_cloud M dust_density mass a e crit_mass _ (le_trans h0 h2)]
  rw [update_bands_skip_front _ _ _ _ [] pre (band :: post)
    (fun b hb => band_skipped_of_outer_le (le_trans (hpre b hb) h2))]
  rw [update_bands_cons, sweep_band_interior _ _ _ helig h1 h2]
  simp only [Bool.false_eq_true, if_false]
  rw [update_bands_all_skipped _ _ _ _ _ _ post
    (fun b hb => band_skipped_of_inner_ge (le_trans h1 (hpost b hb)))]
  split_ifs <;> simp

/-- C25 at the cloud `[1/2, 1]`, `[1, 10]`, `[10, 20]` swept with
`mass = 1/15` (reduced mass `1/2`), `a = 4`, `e = 0`, below the critical mass
`1`: the range of effect `[5/3, 15/2]` lies within `[1, 10]`. -/
theorem C25_fully_interior_witness :
    (collect_dust table_libm 1 (1/15) 4 0 1
        ([⟨1/2, 1, true, true⟩] ++ ⟨1, 10, true, true⟩ :: [⟨10, 20, true, true⟩])).map Prod.snd
      = some ([⟨1/2, 1, true, true⟩]
          ++ { (⟨1, 10, true, true⟩ : dust) with
                outer_edge := effect_inner table_libm (1/15) 4 0 }
          :: ((if (1/15 : ℚ) < 1
                then [(⟨effect_inner table_libm (1/15) 4 0, effect_outer table_libm (1/15) 4 0,
                        false, true⟩ : dust)]
                else [])
            ++ ⟨effect_outer table_libm (1/15) 4 0, 10, true, true⟩
              :: [⟨10, 20, true, true⟩])) :=
  C25_fully_interior table_libm 1 (1/15) 4 0 1 [⟨1/2, 1, true, true⟩] [⟨10, 20, true, true⟩]
    ⟨1, 10, true, true⟩ (by norm_num [cloud_ordered]) (by decide!) (by decide!) (by decide!)
    (by norm_num)

/-- Case 4 of the second loop: the range of effect starts within the band and
ends beyond it. -/
theorem sweep_band_near_side {r_inner r_outer mass crit_mass : ℚ} (stale done : List dust)
    {band : dust} (next_band : Option dust)
    (h : band_eligible r_inner r_outer mass crit_mass band)
    (h1 : band.outer_edge < r_outer) (h2 : band.inner_edge ≤ r_inner) :
    sweep_band r_inner r_outer mass crit_mass stale done band next_band
      = if crit_mass ≤ mass then (stale, { band with outer_edge := r_inner } :: done, false)
        else match next_band with
          | some next =>
            if next.dust_present = false ∧ next.inner_edge = band.outer_edge then
              (stale, { next with inner_edge := r_inner }
                :: { band with outer_edge := r_inner } :: done, true)
            else
              (stale, ⟨r_inner, band.outer_edge, false, true⟩
                :: { band with outer_edge := r_inner } :: done, false)
          | none =>
            (stale, ⟨r_inner, band.outer_edge, false, true⟩
              :: { band with outer_edge := r_inner } :: done, false) := by
  have hs := sweep_band_step r_inner r_outer mass crit_mass stale done band next_band
  generalize sweep_band r_inner r_outer mass crit_mass stale done band next_band = r at hs
  cases hs with
  | skip hk => exact absurd hk (not_skipped_of_eligible h)
  | split_gas _ g1 g2 _ => exact absurd h1 (not_lt.2 g1)
  | split _ g1 g2 _ => exact absurd h1 (not_lt.2 g1)
  | free_head _ g1 g2 _ _ => exact absurd g2 (not_lt.2 h2)
  | free _ g1 g2 _ _ => exact absurd g2 (not_lt.2 h2)
  | clear _ g1 g2 _ => exact absurd g2 (not_lt.2 h2)
  | cut_inner _ g1 g2 _ => exact absurd g2 (not_lt.2 h2)
  | merge_prev _ g1 g2 _ _ _ _ _ => exact absurd g2 (not_lt.2 h2)
  | gas_before _ g1 g2 _ _ _ _ _ => exact absurd g2 (not_lt.2 h2)
  | gas_lost _ g1 g2 _ _ => exact absurd g2 (not_lt.2 h2)
  | cut_outer _ _ _ hm => rw [if_pos hm]
  | merge_next _ _ _ hm next hn hp =>
    subst hn
    rw [if_neg (not_le.2 hm)]
    simp only
    rw [if_pos hp]
  | gas_after _ _ _ hm hp =>
    rw [if_neg (not_le.2 hm)]
    cases next_band with
    | none => rfl
    | some next =>
      simp only
      rw [if_neg (hp next rfl)]

/-- C28: in an ordered cloud `pre ++ band :: post`, when `band` is eligible
and `band.inner_edge ≤ r_inner`, `band.outer_edge < r_outer` (with
`band.inner_edge ≥ 0`, so that the sweep does not exit), the pass of the
second loop of `collect_dust` for `band` leaves `pre` as it was and puts
`walked` in the place of `band`, or of `band` and its neighbour, and the loop
goes on with the bands `remaining`:
* if `mass ≥ crit_mass`, `walked` is the band with `outer_edge = r_inner`
  alone and `remaining = post`;
* else if the next band has `dust_present = FALSE` and starts where `band`
  ends, `walked` is the band with `outer_edge = r_inner` followed by that
  neighbour with `inner_edge = r_inner` (as many bands as before), and the
  loop goes on after the neighbour;
* otherwise `walked` is the band with `outer_edge = r_inner` followed by a new
  gas-only band `[r_inner, band.outer_edge]`, and `remaining = post`.
When the sweep skips all of `remaining`, the cloud `collect_dust` leaves is
`pre ++ walked ++ remaining`. -/
theorem C28_near_side_overlap (M : Libm) (dust_density mass a e crit_mass : ℚ)
    (pre post : List dust) (band : dust)
    (hord : cloud_ordered (pre ++ band :: post))
    (helig : band_eligible (effect_inner M mass a e) (effect_outer M mass a e) mass crit_mass
      band)
    (h2 : band.inner_edge ≤ effect_inner M mass a e)
    (h1 : band.outer_edge < effect_outer M mass a e)
    (h0 : 0 ≤ band.inner_edge) :
    ∃ walked remaining : List dust,
      (walked, remaining)
          = (if crit_mass ≤ mass then
              ([{ band with outer_edge := effect_inner M mass a e }], post)
            else match post with
              | next :: after =>
                if next.dust_present = false ∧ next.inner_edge = band.outer_edge then
                  ([{ band with outer_edge := effect_inner M mass a e },
                    { next with inner_edge := effect_inner M mass a e }], after)
                else
                  ([{ band with outer_edge := effect_inner M mass a e },
                    ⟨effect_inner M mass a e, band.outer_edge, false, true⟩], post)
              | [] =>
                ([{ band with outer_edge := effect_inner M mass a e },
                  ⟨effect_inner M mass a e, band.outer_edge, false, true⟩], post))
        ∧ (collect_dust M dust_density mass a e crit_mass (pre ++ band :: post)).map Prod.snd
            = some (update_bands (effect_inner M mass a e) (effect_outer M mass a e)
                mass crit_mass [] (walked.reverse ++ pre.reverse) remaining)
        ∧ ((∀ b ∈ remaining,
              band_skipped (effect_inner M mass a e) (effect_outer M mass a e) mass crit_mass b
                = true) →
            (collect_dust M dust_density mass a e crit_mass (pre ++ band :: post)).map Prod.snd
              = some (pre ++ walked ++ remaining)) := by
  obtain ⟨hpre, _, _⟩ := ordered_split hord
  have hwalk : (collect_dust M dust_density mass a e crit_mass (pre ++ band :: post)).map
      Prod.snd
      = some (update_bands (effect_inner M mass a e) (effect_outer M mass a e) mass crit_mass
          (sweep_band (effect_inner M mass a e) (effect_outer M mass a e) mass crit_mass
            [] pre.reverse band post.head?).1
          (sweep_band (effect_inner M mass a e) (effect_outer M mass a e) mass crit_mass
            [] pre.reverse band post.head?).2.1
          (if (sweep_band (effect_inner M mass a e) (effect_outer M mass a e) mass crit_mass
            [] pre.reverse band post.head?).2.2 then post.tail else post)) := by
    rw [collect_dust_cloud M dust_density mass a e crit_mass _ (le_trans h0 h2)]
    rw [update_bands_skip_front _ _ _ _ [] pre (band :: post)
      (fun b hb => band_skipped_of_outer_le (le_trans (hpre b hb) h2))]
    rw [update_bands_cons]
    simp
  rw [sweep_band_near_side _ _ _ helig h1 h2] at hwalk
  have hfinal : ∀ walked remaining : List dust,
      (collect_dust M dust_density mass a e crit_mass (pre ++ band :: post)).map Prod.snd
          = some (update_bands (effect_inner M mass a e) (effect_outer M mass a e)
              mass crit_mass [] (walked.reverse ++ pre.reverse) remaining) →
      (∀ b ∈ remaining,
          band_skipped (effect_inner M mass a e) (effect_outer M mass a e) mass crit_mass b
            = true) →
      (collect_dust M dust_density mass a e crit_mass (pre ++ band :: post)).map Prod.snd
        = some (pre ++ walked ++ remaining) := by
    intro walked remaining hw hskip
    rw [hw, update_bands_all_skipped _ _ _ _ _ _ remaining hskip]
    simp
  by_cases hm : crit_mass ≤ mass
  · rw [if_pos hm] at hwalk
    simp only [Bool.false_eq_true, if_false] at hwalk
    refine ⟨[{ band with outer_edge := effect_inner M mass a e }], post,
      by rw [if_pos hm], ?_, ?_⟩
    · rw [hwalk]; simp
    · exact hfinal _ _ (by rw [hwalk]; simp)
  · rw [if_neg hm] at hwalk
    cases post with
    | nil =>
      simp only [List.head?, Bool.false_eq_true, if_false] at hwalk
      refine ⟨[{ band with outer_edge := effect_inner M mass a e },
          ⟨effect_inner M mass a e, band.outer_edge, false, true⟩], [],
        by rw [if_neg hm], ?_, ?_⟩
      · rw [hwalk]; simp
      · exact hfinal _ _ (by rw [hwalk]; simp)
    | cons next after =>
      simp only [List.head?] at hwalk
      by_cases hp : next.dust_present = false ∧ next.inner_edge = band.outer_edge
      · simp only [if_pos hp, if_true, List.tail] at hwalk
        refine ⟨[{ band with outer_edge := effect_inner M mass a e },
            { next with inner_edge := effect_inner M mass a e }], after,
          by rw [if_neg hm]; dsimp only; rw [if_pos hp], ?_, ?_⟩
        · rw [hwalk]; simp
        · exact hfinal _ _ (by rw [hwalk]; simp)
      · simp only [if_neg hp, Bool.false_eq_true, if_false] at hwalk
        refine ⟨[{ band with outer_edge := effect_inner M mass a e },
            ⟨effect_inner M mass a e, band.outer_edge, false, true⟩], next :: after,
          by rw [if_neg hm]; dsimp only; rw [if_neg hp], ?_, ?_⟩
        · rw [hwalk]; simp
        · exact hfinal _ _ (by rw [hwalk]; simp)

/-- C28 at the cloud `[1, 2]` (dust), `[2, 3]` (gas only), `[3, 20]` (dust)
swept with `mass = 1/15`, `a = 4`, `e = 0` below the critical mass `1`: the
range of effect `[5/3, 15/2]` starts within `[1, 2]`, which is cut at `5/3`,
and the gas band after it is extended down to `5/3`. -/
theorem C28_near_side_overlap_witness :
    ∃ walked remaining : List dust,
      (walked, remaining)
          = (if (1 : ℚ) ≤ 1/15 then
              ([{ (⟨1, 2, true, true⟩ : dust) with
                  outer_edge := effect_inner table_libm (1/15) 4 0 }],
                [(⟨2, 3, false, true⟩ : dust), ⟨3, 20, true, true⟩])
            else match [(⟨2, 3, false, true⟩ : dust), ⟨3, 20, true, true⟩] with
              | next :: after =>
                if next.dust_present = false
                    ∧ next.inner_edge = (⟨1, 2, true, true⟩ : dust).outer_edge then
                  ([{ (⟨1, 2, true, true⟩ : dust) with
                      outer_edge := effect_inner table_libm (1/15) 4 0 },
                    { next with inner_edge := effect_inner table_libm (1/15) 4 0 }], after)
                else
                  ([{ (⟨1, 2, true, true⟩ : dust) with
                      outer_edge := effect_inner table_libm (1/15) 4 0 },
                    ⟨effect_inner table_libm (1/15) 4 0,
                      (⟨1, 2, true, true⟩ : dust).outer_edge, false, true⟩],
                    [(⟨2, 3, false, true⟩ : dust), ⟨3, 20, true, true⟩])
              | [] =>
                ([{ (⟨1, 2, true, true⟩ : dust) with
                    outer_edge := effect_inner table_libm (1/15) 4 0 },
                  ⟨effect_inner table_libm (1/15) 4 0,
                    (⟨1, 2, true, true⟩ : dust).outer_edge, false, true⟩],
                  [(⟨2, 3, false, true⟩ : dust), ⟨3, 20, true, true⟩]))
        ∧ (collect_dust table_libm 1 (1/15) 4 0 1
              ([] ++ ⟨1, 2, true, true⟩
                :: [(⟨2, 3, false, true⟩ : dust), ⟨3, 20, true, true⟩])).map Prod.snd
            = some (update_bands (effect_inner table_libm (1/15) 4 0)
                (effect_outer table_libm (1/15) 4 0) (1/15) 1 []
                (walked.reverse ++ ([] : List dust).reverse) remaining)
        ∧ ((∀ b ∈ remaining,
              band_skipped (effect_inner table_libm (1/15) 4 0)
                (effect_outer table_libm (1/15) 4 0) (1/15) 1 b = true) →
            (collect_dust table_libm 1 (1/15) 4 0 1
                ([] ++ ⟨1, 2, true, true⟩
                  :: [(⟨2, 3, false, true⟩ : dust), ⟨3, 20, true, true⟩])).map Prod.snd
              = some ([] ++ walked ++ remaining)) :=
  C28_near_side_overlap table_libm 1 (1/15) 4 0 1 []
    [⟨2, 3, false, true⟩, ⟨3, 20, true, true⟩] ⟨1, 2, true, true⟩
    (by norm_num [cloud_ordered]) (by decide!) (by decide!) (by decide!) (by norm_num)

/-! ### C26, C27: the first band of the list -/

/-- C26, the code at the failing input: the cloud of `covered_example` is the
single band `[1, 2]` with dust and gas, and `accrete_dust` is called with
`mass = 1/15` (reduced mass `1/2`), `a = 2`, `e = 0`, `crit_mass = 1/60`. The
range of effect `[5/6, 15/4]` covers the band, which is the first of the list
and is swept at the critical mass or above (case 2, `prev_band == NULL`). The
sweep gains `1/30000`, which ends the loop. The band is freed, but the list
the global `dust_head` leads to still is `[1, 2]` with `dust_present`: the
rescan of `accrete_dust` finds it and sets `dust_left = TRUE`, and a later
sweep with the same arguments collects `1/30000` from it again. A band that is
not the first (here behind a band `[1/4, 1/2]` out of reach) is removed from
the list. -/
theorem C26_first_band_not_removed :
    frees_first_band (effect_inner table_libm (1/15) 2 0) (effect_outer table_libm (1/15) 2 0)
        (1/15) (1/60) covered_example.dust_head
      ∧ (accrete_dust table_libm 1 covered_example (1/15) 2 0 (1/60)).result.map
          (fun r => (r.1, r.2.dust_head, r.2.dust_left))
        = some (1/15 + 1/30000, [⟨1, 2, true, true⟩], true)
      ∧ ((accrete_dust table_libm 1 covered_example (1/15) 2 0 (1/60)).result.bind
          (fun r => collect_dust table_libm r.2.dust_density (1/15) 2 0 (1/60) r.2.dust_head))
        = some (1/15 + 1/30000, [⟨1, 2, true, true⟩])
      ∧ (collect_dust table_libm covered_example.dust_density (1/15) 2 0 (1/60)
          [⟨1/4, 1/2, true, true⟩, ⟨1, 2, true, true⟩]).map Prod.snd
        = some [⟨1/4, 1/2, true, true⟩] := by
  refine ⟨by decide!, by decide!, by decide!, by decide!⟩

/-- C27, the code at the failing input: the cloud is the single band
`[1, 10]` with dust and gas, swept with `mass = 1/15` (reduced mass `1/2`),
`a = 2`, `e = 0` below the critical mass `1`. The range of effect
`[5/6, 15/4]` reaches over the inner edge of the band and ends within it
(case 3), and the band is the first of the list (`prev_band == NULL`). The
inner edge of the band becomes `15/4`, and the new gas band `[1, 15/4]` is
linked from the parameter `dust_head` only: the list the global `dust_head`
leads to starts with the band `[15/4, 10]`, and no band `[1, 15/4]` is in it.
Behind another band (here `[1/4, 1/2]`, out of reach) the gas band is where
the claim says. -/
theorem C27_gas_band_before_first_band_lost :
    effect_inner table_libm (1/15) 2 0 = 5/6 ∧ effect_outer table_libm (1/15) 2 0 = 15/4
      ∧ (collect_dust table_libm 1 (1/15) 2 0 1 [⟨1, 10, true, true⟩]).map Prod.snd
        = some [⟨15/4, 10, true, true⟩]
      ∧ (collect_dust table_libm 1 (1/15) 2 0 1
          [⟨1/4, 1/2, true, true⟩, ⟨1, 10, true, true⟩]).map Prod.snd
        = some [⟨1/4, 1/2, true, true⟩, ⟨1, 15/4, false, true⟩, ⟨15/4, 10, true, true⟩] := by
  refine ⟨by decide!, by decide!, by decide!, by decide!⟩

/-! ### A first band that is covered at or above the critical mass -/

theorem surface_loop_succ (M : Libm) (RAND_MAX : Nat) (rand : Nat → Nat) (planet : planets)
    (r_ecosphere water optical_depth : ℚ) (fuel : Nat) (v : surface_vars) :
    surface_loop M RAND_MAX rand planet r_ecosphere water optical_depth (fuel + 1) v
      = if |(surface_pass M RAND_MAX rand planet r_ecosphere water optical_depth v).new_temp
            - (surface_pass M RAND_MAX rand planet r_ecosphere water optical_depth
                v).previous_temp| > 1.0
          ∧ (surface_pass M RAND_MAX rand planet r_ecosphere water optical_depth v).counter
              < TEMP_ITERATION_LIMIT then
          surface_loop M RAND_MAX rand planet r_ecosphere water optical_depth fuel
            (surface_pass M RAND_MAX rand planet r_ecosphere water optical_depth v)
        else Outcome.value
          (surface_pass M RAND_MAX rand planet r_ecosphere water optical_depth v) := by
  rfl

theorem surface_pass_counter (M : Libm) (RAND_MAX : Nat) (rand : Nat → Nat) (planet : planets)
    (r_ecosphere water optical_depth : ℚ) (v : surface_vars) :
    (surface_pass M RAND_MAX rand planet r_ecosphere water optical_depth v).counter
      = v.counter + 1 := by
  rfl

/-- More passes than the loop needs change nothing. -/
theorem surface_loop_more (M : Libm) (RAND_MAX : Nat) (rand : Nat → Nat) (planet : planets)
    (r_ecosphere water optical_depth : ℚ) (n : Nat) :
    ∀ (v v1 : surface_vars) (m : Nat),
      surface_loop M RAND_MAX rand planet r_ecosphere water optical_depth n v
        = Outcome.value v1 →
      surface_loop M RAND_MAX rand planet r_ecosphere water optical_depth (n + m) v
        = Outcome.value v1 := by
  induction n with
  | zero =>
    intro v v1 m h
    simp [surface_loop] at h
  | succ n ih =>
    intro v v1 m h
    rw [show n + 1 + m = (n + m) + 1 by omega, surface_loop_succ]
    rw [surface_loop_succ] at h
    split_ifs at h ⊢ with hc
    · exact ih _ _ m h
    · exact h

/-- From a state with `counter + d = TEMP_ITERATION_LIMIT` and `d > 0` the loop
makes `n` passes, with `1 ≤ n ≤ d`: it returns with `n` passes allowed and with
no fewer, `counter` has gone up by `n`, and if `n < d` the last pass left
`|new_temp - previous_temp| ≤ 1.0`. -/
theorem surface_loop_passes (M : Libm) (RAND_MAX : Nat) (rand : Nat → Nat) (planet : planets)
    (r_ecosphere water optical_depth : ℚ) (d : Nat) :
    ∀ v : surface_vars, v.counter + d = TEMP_ITERATION_LIMIT → 0 < d →
      ∃ (n : Nat) (v1 : surface_vars), 1 ≤ n ∧ n ≤ d
        ∧ surface_loop M RAND_MAX rand planet r_ecosphere water optical_depth n v
            = Outcome.value v1
        ∧ (∀ k : Nat, k < n →
            surface_loop M RAND_MAX rand planet r_ecosphere water optical_depth k v
              = Outcome.unfinished)
        ∧ v1.counter = v.counter + n
        ∧ (n < d → |v1.new_temp - v1.previous_temp| ≤ 1.0) := by
  induction d with
  | zero =>
    intro v _ h
    exact absurd h (lt_irrefl _)
  | succ d ih =>
    intro v hv _
    by_cases hc :
        |(surface_pass M RAND_MAX rand planet r_ecosphere water optical_depth v).new_temp
            - (surface_pass M RAND_MAX rand planet r_ecosphere water optical_depth
                v).previous_temp| > 1.0
          ∧ (surface_pass M RAND_MAX rand planet r_ecosphere water optical_depth v).counter
              < TEMP_ITERATION_LIMIT
    · have hcnt := surface_pass_counter M RAND_MAX rand planet r_ecosphere water optical_depth v
      have hd : 0 < d := by
        have := hc.2
        omega
      obtain ⟨n, v1, h1, h2, h3, h4, h5, h6⟩ := ih
        (surface_pass M RAND_MAX rand planet r_ecosphere water optical_depth v)
        (by omega) hd
      refine ⟨n + 1, v1, by omega, by omega, ?_, ?_, by omega, fun hlt => h6 (by omega)⟩
      · rw [surface_loop_succ, if_pos hc]
        exact h3
      · intro k hk
        cases k with
        | zero => rfl
        | succ j =>
          rw [surface_loop_succ, if_pos hc]
          exact h4 j (by omega)
    · refine ⟨1, surface_pass M RAND_MAX rand planet r_ecosphere water optical_depth v,
        le_refl _, by omega, ?_, ?_, rfl, ?_⟩
      · rw [surface_loop_succ, if_neg hc]
      · intro k hk
        have : k = 0 := by omega
        subst this
        rfl
      · intro hlt
        have hcnt := surface_pass_counter M RAND_MAX rand planet r_ecosphere water
          optical_depth v
        by_contra hgt
        apply hc
        exact ⟨not_le.1 hgt, by omega⟩

/-- C21: for every planet and all values of `rand()`, the loop of
`iterate_surface_temp` makes `n` passes through its body with
`1 ≤ n ≤ TEMP_ITERATION_LIMIT = 101` (it returns when `n` passes are allowed
and not when fewer are, and then `counter = n`); if `n < 101`, the last pass
left `|new_temp - previous_temp| ≤ 1.0`; and `iterate_surface_temp` returns
with the values of that pass stored in the planet. In the first pass
`previous_temp` is the effective temperature of that pass. -/
theorem C21_surface_iteration_ceiling (M : Libm) (RAND_MAX : Nat) (rand : Nat → Nat)
    (planet : planets) (r_ecosphere : ℚ) :
    ∃ (n : Nat) (v : surface_vars), 1 ≤ n ∧ n ≤ TEMP_ITERATION_LIMIT
      ∧ TEMP_ITERATION_LIMIT = 101
      ∧ surface_loop M RAND_MAX rand planet r_ecosphere
          (hydro_fraction M planet.volatile_gas_inventory planet.radius)
          (opacity planet.molec_weight planet.surf_pressure) n {} = Outcome.value v
      ∧ (∀ k : Nat, k < n →
          surface_loop M RAND_MAX rand planet r_ecosphere
            (hydro_fraction M planet.volatile_gas_inventory planet.radius)
            (opacity planet.molec_weight planet.surf_pressure) k {} = Outcome.unfinished)
      ∧ v.counter = n
      ∧ (n < TEMP_ITERATION_LIMIT → |v.new_temp - v.previous_temp| ≤ 1.0)
      ∧ iterate_surface_temp M RAND_MAX rand TEMP_ITERATION_LIMIT planet r_ecosphere
          = Outcome.value
              { planet with
                hydrosphere := v.eff_water, cloud_cover := v.clouds, ice_cover := v.ice,
                albedo := v.albedo, surf_temp := v.new_temp } := by
  obtain ⟨n, v, h1, h2, h3, h4, h5, h6⟩ := surface_loop_passes M RAND_MAX rand planet
    r_ecosphere (hydro_fraction M planet.volatile_gas_inventory planet.radius)
    (opacity planet.molec_weight planet.surf_pressure) TEMP_ITERATION_LIMIT {}
    (by simp [TEMP_ITERATION_LIMIT]) (by simp [TEMP_ITERATION_LIMIT])
  refine ⟨n, v, h1, h2, rfl, h3, h4, by simpa using h5, h6, ?_⟩
  have hm := surface_loop_more M RAND_MAX rand planet r_ecosphere
    (hydro_fraction M planet.volatile_gas_inventory planet.radius)
    (opacity planet.molec_weight planet.surf_pressure) n {} v (TEMP_ITERATION_LIMIT - n) h3
  rw [show n + (TEMP_ITERATION_LIMIT - n) = TEMP_ITERATION_LIMIT by omega] at hm
  unfold iterate_surface_temp
  simp only
  rw [hm]

/-! ### init_planet_list -/

theorem sorted_list_insert_perm (head : List planets) (planet : planets) :
    (sorted_list_insert head planet).Perm (planet :: head) := by
  obtain ⟨before, after, h1, h2, _, _⟩ := sorted_list_insert_split head planet
  rw [h2, h1]
  exact List.perm_middle

/-- Inserting into a list sorted by `a` gives a list sorted by `a`. -/
theorem sorted_list_insert_sorted (head : List planets) (planet : planets)
    (hs : head.Pairwise (fun x y => x.a ≤ y.a)) :
    (sorted_list_insert head planet).Pairwise (fun x y => x.a ≤ y.a) := by
  obtain ⟨before, after, h1, h2, h3, h4⟩ := sorted_list_insert_split head planet
  subst h1
  rw [List.pairwise_append] at hs
  obtain ⟨hb, ha, hba⟩ := hs
  have hafter : ∀ node ∈ after, planet.a < node.a := by
    cases after with
    | nil => intro node hn; cases hn
    | cons x xs =>
      have hx := h4 x rfl
      intro node hn
      rcases List.mem_cons.1 hn with rfl | hn
      · exact hx
      · have := List.rel_of_pairwise_cons ha hn
        linarith
  rw [h2, List.pairwise_append]
  refine ⟨hb, List.Pairwise.cons (fun y hy => le_of_lt (hafter y hy)) ha, ?_⟩
  intro x hx y hy
  rcases List.mem_cons.1 hy with rfl | hy
  · exact h3 x hx
  · exact hba x hx y hy

theorem init_planet_loop_perm (M : Libm) (RAND_MAX : Nat) (rand : Nat → Nat)
    (star_list : List stars) :
    ∀ (i : Nat) (head : List planets),
      (init_planet_loop M RAND_MAX rand i star_list head).Perm
        (head ++ star_nodes M RAND_MAX rand i star_list) := by
  induction star_list with
  | nil =>
    intro i head
    simp [init_planet_loop, star_nodes]
  | cons star rest ih =>
    intro i head
    rw [init_planet_loop, star_nodes]
    refine (ih (i + 1) _).trans ?_
    refine (List.Perm.append_right _ (sorted_list_insert_perm head _)).trans ?_
    simp only [List.cons_append]
    exact List.perm_middle.symm

theorem init_planet_loop_sorted (M : Libm) (RAND_MAX : Nat) (rand : Nat → Nat)
    (star_list : List stars) :
    ∀ (i : Nat) (head : List planets), head.Pairwise (fun x y => x.a ≤ y.a) →
      (init_planet_loop M RAND_MAX rand i star_list head).Pairwise (fun x y => x.a ≤ y.a) := by
  induction star_list with
  | nil =>
    intro i head h
    exact h
  | cons star rest ih =>
    intro i head h
    rw [init_planet_loop]
    exact ih (i + 1) _ (sorted_list_insert_sorted head _ h)

/-- The nodes made for the stars: the node number `j` is the one of star
`i + j`. -/
theorem star_nodes_get (M : Libm) (RAND_MAX : Nat) (rand : Nat → Nat) (star_list : List stars) :
    ∀ (i j : Nat),
      (star_nodes M RAND_MAX rand i star_list)[j]?
        = (star_list[j]?).map (fun star => star_node M RAND_MAX (rand (i + j)) (i + j) star) := by
  induction star_list with
  | nil =>
    intro i j
    simp [star_nodes]
  | cons star rest ih =>
    intro i j
    rw [star_nodes]
    cases j with
    | zero => simp
    | succ j =>
      simp only [List.getElem?_cons_succ]
      rw [ih (i + 1) j]
      have : i + 1 + j = i + (j + 1) := by omega
      rw [this]

theorem star_nodes_mem (M : Libm) (RAND_MAX : Nat) (rand : Nat → Nat) (star_list : List stars)
    (i : Nat) (node : planets) (h : node ∈ star_nodes M RAND_MAX rand i star_list) :
    ∃ (j : Nat) (star : stars), star_list[j]? = some star
      ∧ node = star_node M RAND_MAX (rand (i + j)) (i + j) star := by
  obtain ⟨j, hj⟩ := List.getElem?_of_mem h
  rw [star_nodes_get] at hj
  cases hs : star_list[j]? with
  | none => rw [hs] at hj; cases hj
  | some star =>
    rw [hs] at hj
    simp only [Option.map_some', Option.some.injEq] at hj
    exact ⟨j, star, hs, hj.symm⟩

/-- Where `node_position` finds a node, and what it finds there. -/
theorem node_position_some (i : Nat) (l : List planets) :
    (∃ node ∈ l, node.star_ptr = some i) →
      ∃ (p : Nat) (node : planets), node_position i l = some p ∧ l[p]? = some node
        ∧ node.star_ptr = some i := by
  induction l with
  | nil =>
    rintro ⟨node, hn, _⟩
    cases hn
  | cons x rest ih =>
    rintro ⟨node, hn, hp⟩
    by_cases hx : x.star_ptr = some i
    · exact ⟨0, x, by simp [node_position, hx], by simp, hx⟩
    · rcases List.mem_cons.1 hn with rfl | hn
      · exact absurd hp hx
      · obtain ⟨p, node1, h1, h2, h3⟩ := ih ⟨node, hn, hp⟩
        exact ⟨p + 1, node1, by simp [node_position, hx, h1], by simpa using h2, h3⟩

theorem link_stars_get (l : List planets) (star_list : List stars) :
    ∀ (i j : Nat),
      (link_stars l i star_list)[j]?
        = (star_list[j]?).map
            (fun star => { star with planet_ptr := node_position (i + j) l }) := by
  induction star_list with
  | nil =>
    intro i j
    simp [link_stars]
  | cons star rest ih =>
    intro i j
    rw [link_stars]
    cases j with
    | zero => simp
    | succ j =>
      simp only [List.getElem?_cons_succ]
      rw [ih (i + 1) j]
      have : i + 1 + j = i + (j + 1) := by omega
      rw [this]

theorem star_nodes_star_ptr (M : Libm) (RAND_MAX : Nat) (rand : Nat → Nat)
    (star_list : List stars) :
    ∀ i : Nat, (star_nodes M RAND_MAX rand i star_list).map (fun node => node.star_ptr)
      = (List.range' i star_list.length).map some := by
  induction star_list with
  | nil =>
    intro i
    simp [star_nodes]
  | cons star rest ih =>
    intro i
    rw [star_nodes]
    simp only [List.map_cons, List.length_cons, List.range'_succ]
    rw [ih (i + 1)]
    rfl

theorem star_nodes_length (M : Libm) (RAND_MAX : Nat) (rand : Nat → Nat)
    (star_list : List stars) :
    ∀ i : Nat, (star_nodes M RAND_MAX rand i star_list).length = star_list.length := by
  induction star_list with
  | nil =>
    intro i
    simp [star_nodes]
  | cons star rest ih =>
    intro i
    rw [star_nodes]
    simp [ih (i + 1)]

/-- C24: `init_planet_list` returns a list with as many nodes as the star list
has stars; the list is a rearrangement of the nodes made for the stars, one
for each star, so the star numbers in the `star_ptr` fields are each number of
a star once; every node has `mass_type = STAR`; the star number `i` has
exactly one node, which holds its `orbit_radius` in `a` and its
`stell_mass_ratio` in `mass`, whose `star_ptr` is the star, and to which the
`planet_ptr` of the star points afterwards; and the list is in ascending
order of `a`. -/
theorem C24_init_planet_list (M : Libm) (RAND_MAX : Nat) (rand : Nat → Nat)
    (star_head : List stars) :
    (init_planet_list M RAND_MAX rand star_head).1.length = star_head.length
    ∧ (init_planet_list M RAND_MAX rand star_head).1.Perm
        (star_nodes M RAND_MAX rand 0 star_head)
    ∧ ((init_planet_list M RAND_MAX rand star_head).1.map (fun node => node.star_ptr)).Perm
        ((List.range star_head.length).map some)
    ∧ (∀ node ∈ (init_planet_list M RAND_MAX rand star_head).1,
        node.mass_type = STAR
        ∧ ∃ (i : Nat) (star : stars), star_head[i]? = some star ∧ node.star_ptr = some i
            ∧ node.a = star.orbit_radius ∧ node.mass = star.stell_mass_ratio)
    ∧ (∀ (i : Nat) (star : stars), star_head[i]? = some star →
        ∃ (p : Nat) (node : planets),
          (init_planet_list M RAND_MAX rand star_head).1[p]? = some node
          ∧ node.mass_type = STAR ∧ node.star_ptr = some i
          ∧ node.a = star.orbit_radius ∧ node.mass = star.stell_mass_ratio
          ∧ (init_planet_list M RAND_MAX rand star_head).2[i]?
              = some { star with planet_ptr := some p }
          ∧ ∀ (q : Nat) (other : planets),
              (init_planet_list M RAND_MAX rand star_head).1[q]? = some other →
              other.star_ptr = some i → q = p)
    ∧ (init_planet_list M RAND_MAX rand star_head).1.Pairwise (fun x y => x.a ≤ y.a) := by
  have hperm : (init_planet_loop M RAND_MAX rand 0 star_head []).Perm
      (star_nodes M RAND_MAX rand 0 star_head) := by
    simpa using init_planet_loop_perm M RAND_MAX rand star_head 0 []
  have hptr : ((init_planet_loop M RAND_MAX rand 0 star_head []).map
      (fun node => node.star_ptr)).Perm ((List.range star_head.length).map some) := by
    have h := hperm.map (fun node => node.star_ptr)
    rw [star_nodes_star_ptr, ← List.range_eq_range'] at h
    exact h
  have hnodup : ((init_planet_loop M RAND_MAX rand 0 star_head []).map
      (fun node => node.star_ptr)).Nodup := by
    rw [hptr.nodup_iff]
    exact (List.nodup_range _).map (Option.some_injective _)
  have hnode : ∀ node ∈ init_planet_loop M RAND_MAX rand 0 star_head [],
      node.mass_type = STAR
      ∧ ∃ (i : Nat) (star : stars), star_head[i]? = some star ∧ node.star_ptr = some i
          ∧ node.a = star.orbit_radius ∧ node.mass = star.stell_mass_ratio := by
    intro node hn
    obtain ⟨j, star, hj, he⟩ := star_nodes_mem M RAND_MAX rand star_head 0 node (hperm.mem_iff.1 hn)
    subst he
    refine ⟨rfl, j, star, hj, ?_, rfl, rfl⟩
    simp [star_node]
  refine ⟨?_, hperm, hptr, hnode, ?_, ?_⟩
  · show (init_planet_loop M RAND_MAX rand 0 star_head []).length = _
    rw [hperm.length_eq, star_nodes_length]
  · intro i star hi
    show ∃ (p : Nat) (node : planets),
      (init_planet_loop M RAND_MAX rand 0 star_head [])[p]? = some node
      ∧ node.mass_type = STAR ∧ node.star_ptr = some i
      ∧ node.a = star.orbit_radius ∧ node.mass = star.stell_mass_ratio
      ∧ (link_stars (init_planet_loop M RAND_MAX rand 0 star_head []) 0 star_head)[i]?
          = some { star with planet_ptr := some p }
      ∧ ∀ (q : Nat) (other : planets),
          (init_planet_loop M RAND_MAX rand 0 star_head [])[q]? = some other →
          other.star_ptr = some i → q = p
    have hmem : star_node M RAND_MAX (rand i) i star
        ∈ init_planet_loop M RAND_MAX rand 0 star_head [] := by
      rw [hperm.mem_iff]
      have h := star_nodes_get M RAND_MAX rand star_head 0 i
      rw [hi] at h
      simp only [Option.map_some', Nat.zero_add] at h
      exact List.mem_iff_getElem?.2 ⟨_, h⟩
    obtain ⟨p, node, hp1, hp2, hp3⟩ :=
      node_position_some i (init_planet_loop M RAND_MAX rand 0 star_head [])
        ⟨_, hmem, by simp [star_node]⟩
    obtain ⟨hk, j, star1, hj1, hj2, hj3, hj4⟩ := hnode node (List.mem_iff_getElem?.2 ⟨_, hp2⟩)
    have hji : j = i := by
      rw [hp3] at hj2
      exact (Option.some.inj hj2).symm
    rw [hji, hi] at hj1
    have hss : star1 = star := (Option.some.inj hj1).symm
    rw [hss] at hj3 hj4
    refine ⟨p, node, hp2, hk, hp3, hj3, hj4, ?_, ?_⟩
    · rw [link_stars_get, hi]
      simp [hp1]
    · intro q other hq ho
      have hq1 : ((init_planet_loop M RAND_MAX rand 0 star_head []).map
          (fun node => node.star_ptr))[q]? = some (some i) := by
        rw [List.getElem?_map, hq]; simp [ho]
      have hp4 : ((init_planet_loop M RAND_MAX rand 0 star_head []).map
          (fun node => node.star_ptr))[p]? = some (some i) := by
        rw [List.getElem?_map, hp2]; simp [hp3]
      obtain ⟨hql, hqe⟩ := List.getElem?_eq_some.1 hq1
      obtain ⟨hpl, hpe⟩ := List.getElem?_eq_some.1 hp4
      exact (List.Nodup.getElem_inj_iff hnodup).1 (hqe.trans hpe.symm)
  · exact init_planet_loop_sorted M RAND_MAX rand star_head 0 [] List.Pairwise.nil

/-! ### The surface temperature: what iterate_surface_temp stores -/

/-- Whatever the loop of `iterate_surface_temp` returns is the state after a
pass: the last one. -/
theorem surface_loop_last_pass (M : Libm) (RAND_MAX : Nat) (rand : Nat → Nat) (planet : planets)
    (r_ecosphere water optical_depth : ℚ) (fuel : Nat) :
    ∀ (v v1 : surface_vars),
      surface_loop M RAND_MAX rand planet r_ecosphere water optical_depth fuel v
        = Outcome.value v1 →
      ∃ v0 : surface_vars,
        v1 = surface_pass M RAND_MAX rand planet r_ecosphere water optical_depth v0
          ∧ v.counter ≤ v0.counter := by
  induction fuel with
  | zero =>
    intro v v1 h
    simp [surface_loop] at h
  | succ fuel ih =>
    intro v v1 h
    rw [surface_loop_succ] at h
    split_ifs at h with hc
    · obtain ⟨v0, h1, h2⟩ := ih _ _ h
      refine ⟨v0, h1, ?_⟩
      rw [surface_pass_counter] at h2
      omega
    · simp only [Outcome.value.injEq] at h
      exact ⟨v, h.symm, le_refl _⟩

/-- The loop of `iterate_surface_temp` returns the same state with every
number of passes allowed that lets it return. -/
theorem surface_loop_unique (M : Libm) (RAND_MAX : Nat) (rand : Nat → Nat) (planet : planets)
    (r_ecosphere water optical_depth : ℚ) (n m : Nat) (v v1 v2 : surface_vars)
    (h1 : surface_loop M RAND_MAX rand planet r_ecosphere water optical_depth n v
      = Outcome.value v1)
    (h2 : surface_loop M RAND_MAX rand planet r_ecosphere water optical_depth m v
      = Outcome.value v2) :
    v1 = v2 := by
  rcases Nat.le_total n m with h | h
  · have h3 := surface_loop_more M RAND_MAX rand planet r_ecosphere water optical_depth n v v1
      (m - n) h1
    rw [show n + (m - n) = m by omega, h2] at h3
    simp only [Outcome.value.injEq] at h3
    exact h3.symm
  · have h3 := surface_loop_more M RAND_MAX rand planet r_ecosphere water optical_depth m v v2
      (n - m) h2
    rw [show m + (n - m) = n by omega, h1] at h3
    simp only [Outcome.value.injEq] at h3
    exact h3

/-- C31: `iterate_surface_temp` returns (101 passes allowed are enough, and
every number of passes that lets it return gives the same planet). The planet
afterwards differs from the one before in `hydrosphere`, `cloud_cover`,
`ice_cover`, `albedo` and `surf_temp` only, and these are the values `eff_water`,
`clouds`, `ice`, `albedo` and `new_temp` of the last pass through the loop
body, the pass number `n`. Its `hydrosphere` is 0 if its `surf_temp` is at
least `boil_point` or at most `FREEZING_POINT_OF_WATER = 273`, and
`hydro_fraction(volatile_gas_inventory, radius)` otherwise; its `cloud_cover`
and `ice_cover` are `cloud_fraction` and `ice_fraction` at its `surf_temp`, and
its `albedo` is `planet_albedo` of its `hydrosphere`, `cloud_cover` and
`ice_cover` with the four values of `rand()` of the last pass. -/
theorem C31_hydrosphere_zeroing (M : Libm) (RAND_MAX : Nat) (rand : Nat → Nat)
    (planet : planets) (r_ecosphere : ℚ) :
    ∃ (p : planets) (n : Nat) (v0 : surface_vars),
      iterate_surface_temp M RAND_MAX rand TEMP_ITERATION_LIMIT planet r_ecosphere
          = Outcome.value p
      ∧ (∀ (fuel : Nat) (p1 : planets),
          iterate_surface_temp M RAND_MAX rand fuel planet r_ecosphere = Outcome.value p1 →
          p1 = p)
      ∧ FREEZING_POINT_OF_WATER = 273
      ∧ p.hydrosphere
          = (if p.surf_temp ≥ planet.boil_point ∨ p.surf_temp ≤ FREEZING_POINT_OF_WATER then 0.0
             else hydro_fraction M planet.volatile_gas_inventory planet.radius)
      ∧ 1 ≤ n ∧ n ≤ TEMP_ITERATION_LIMIT ∧ v0.counter + 1 = n
      ∧ surface_loop M RAND_MAX rand planet r_ecosphere
            (hydro_fraction M planet.volatile_gas_inventory planet.radius)
            (opacity planet.molec_weight planet.surf_pressure) n {}
          = Outcome.value
              (surface_pass M RAND_MAX rand planet r_ecosphere
                (hydro_fraction M planet.volatile_gas_inventory planet.radius)
                (opacity planet.molec_weight planet.surf_pressure) v0)
      ∧ (∀ k : Nat, k < n →
          surface_loop M RAND_MAX rand planet r_ecosphere
              (hydro_fraction M planet.volatile_gas_inventory planet.radius)
              (opacity planet.molec_weight planet.surf_pressure) k {}
            = Outcome.unfinished)
      ∧ p = { planet with
              hydrosphere := (surface_pass M RAND_MAX rand planet r_ecosphere
                (hydro_fraction M planet.volatile_gas_inventory planet.radius)
                (opacity planet.molec_weight planet.surf_pressure) v0).eff_water,
              cloud_cover := (surface_pass M RAND_MAX rand planet r_ecosphere
                (hydro_fraction M planet.volatile_gas_inventory planet.radius)
                (opacity planet.molec_weight planet.surf_pressure) v0).clouds,
              ice_cover := (surface_pass M RAND_MAX rand planet r_ecosphere
                (hydro_fraction M planet.volatile_gas_inventory planet.radius)
                (opacity planet.molec_weight planet.surf_pressure) v0).ice,
              albedo := (surface_pass M RAND_MAX rand planet r_ecosphere
                (hydro_fraction M planet.volatile_gas_inventory planet.radius)
                (opacity planet.molec_weight planet.surf_pressure) v0).albedo,
              surf_temp := (surface_pass M RAND_MAX rand planet r_ecosphere
                (hydro_fraction M planet.volatile_gas_inventory planet.radius)
                (opacity planet.molec_weight planet.surf_pressure) v0).new_temp }
      ∧ p.cloud_cover
          = cloud_fraction M p.surf_temp planet.molec_weight planet.radius
              (hydro_fraction M planet.volatile_gas_inventory planet.radius)
      ∧ p.ice_cover
          = ice_fraction M (hydro_fraction M planet.volatile_gas_inventory planet.radius)
              p.surf_temp
      ∧ p.albedo
          = planet_albedo RAND_MAX (rand (4 * v0.counter)) (rand (4 * v0.counter + 1))
              (rand (4 * v0.counter + 2)) (rand (4 * v0.counter + 3))
              p.hydrosphere p.cloud_cover p.ice_cover planet.surf_pressure := by
  obtain ⟨n, v, h1, h2, h3, h4, h5, _⟩ := surface_loop_passes M RAND_MAX rand planet
    r_ecosphere (hydro_fraction M planet.volatile_gas_inventory planet.radius)
    (opacity planet.molec_weight planet.surf_pressure) TEMP_ITERATION_LIMIT {}
    (by simp [TEMP_ITERATION_LIMIT]) (by simp [TEMP_ITERATION_LIMIT])
  obtain ⟨v0, hv0, _⟩ := surface_loop_last_pass M RAND_MAX rand planet r_ecosphere
    (hydro_fraction M planet.volatile_gas_inventory planet.radius)
    (opacity planet.molec_weight planet.surf_pressure) n {} v h3
  have hm := surface_loop_more M RAND_MAX rand planet r_ecosphere
    (hydro_fraction M planet.volatile_gas_inventory planet.radius)
    (opacity planet.molec_weight planet.surf_pressure) n {} v (TEMP_ITERATION_LIMIT - n) h3
  rw [show n + (TEMP_ITERATION_LIMIT - n) = TEMP_ITERATION_LIMIT by omega] at hm
  have hc : v0.counter + 1 = n := by
    have : v.counter = v0.counter + 1 := by rw [hv0, surface_pass_counter]
    simp only at h5
    omega
  subst hv0
  refine ⟨_, n, v0, ?_, ?_, by norm_num [FREEZING_POINT_OF_WATER], ?_, h1, h2, hc, h3, h4,
    rfl, rfl, rfl, rfl⟩
  · unfold iterate_surface_temp
    simp only
    rw [hm]
  · intro fuel p1 hp1
    unfold iterate_surface_temp at hp1
    simp only at hp1
    split at hp1
    · rename_i w hw
      have := surface_loop_unique M RAND_MAX rand planet r_ecosphere _ _ _ _ _ _ _ hw h3
      subst this
      simp only [Outcome.value.injEq] at hp1
      exact hp1.symm
    · cases hp1
    · cases hp1
  · rfl

/-! ### check_planets -/

/-- The nodes the loop of `check_planets` frees. -/
theorem check_planets_loop_mem (M : Libm) (r_ecosphere star_radius : ℚ) (l : List planets) :
    ∀ i k : Nat, k ∈ check_planets_loop M r_ecosphere star_radius i l
      ↔ i ≤ k ∧ ∃ planet, l[k - i]? = some planet
          ∧ (planet.a ≤ star_radius
              ∨ eff_temp M r_ecosphere planet.a ROCKY_AIRLESS_ALBEDO ≥ 2000.0) := by
  induction l with
  | nil =>
    intro i k
    simp [check_planets_loop]
  | cons planet rest ih =>
    intro i k
    have hrest : ∀ p : planets, i + 1 ≤ k → ((planet :: rest)[k - i]? = some p
        ↔ rest[k - (i + 1)]? = some p) := by
      intro p hk
      rw [show k - i = (k - (i + 1)) + 1 by omega, List.getElem?_cons_succ]
    have hhead : ∀ p : planets, ((planet :: rest)[i - i]? = some p ↔ planet = p) := by
      intro p
      simp
    unfold check_planets_loop
    simp only
    by_cases h1 : planet.a ≤ star_radius
    · rw [if_pos h1, List.mem_cons, ih (i + 1) k]
      constructor
      · rintro (rfl | ⟨hk, p, hp, hc⟩)
        · exact ⟨le_refl _, planet, (hhead planet).2 rfl, Or.inl h1⟩
        · exact ⟨by omega, p, (hrest p hk).2 hp, hc⟩
      · rintro ⟨hk, p, hp, hc⟩
        rcases Nat.eq_or_lt_of_le hk with rfl | hlt
        · exact Or.inl rfl
        · exact Or.inr ⟨hlt, p, (hrest p hlt).1 hp, hc⟩
    · rw [if_neg h1]
      by_cases h2 : eff_temp M r_ecosphere planet.a ROCKY_AIRLESS_ALBEDO ≥ 2000.0
      · rw [if_pos h2, List.mem_cons, ih (i + 1) k]
        constructor
        · rintro (rfl | ⟨hk, p, hp, hc⟩)
          · exact ⟨le_refl _, planet, (hhead planet).2 rfl, Or.inr h2⟩
          · exact ⟨by omega, p, (hrest p hk).2 hp, hc⟩
        · rintro ⟨hk, p, hp, hc⟩
          rcases Nat.eq_or_lt_of_le hk with rfl | hlt
          · exact Or.inl rfl
          · exact Or.inr ⟨hlt, p, (hrest p hlt).1 hp, hc⟩
      · rw [if_neg h2, ih (i + 1) k]
        constructor
        · rintro ⟨hk, p, hp, hc⟩
          exact ⟨by omega, p, (hrest p hk).2 hp, hc⟩
        · rintro ⟨hk, p, hp, hc⟩
          rcases Nat.eq_or_lt_of_le hk with rfl | hlt
          · have hpe := (hhead p).1 hp
            subst hpe
            rcases hc with hc | hc
            · exact absurd hc h1
            · exact absurd hc h2
          · exact ⟨hlt, p, (hrest p hlt).1 hp, hc⟩

/-- C32, the code: the list the pointer returned by `check_planets` leads to
is the list it was given, whatever the planets are. The nodes it frees are
the ones the claim names (every node after the first with `a ≤ star_radius` or
`eff_temp(sqrt(luminosity), a, ROCKY_AIRLESS_ALBEDO) ≥ 2000`), but none of them
is unlinked: the node before it keeps pointing to it. At the failing input, a
star with one planet at `a = 1/1000` inside the star radius `1/100`, the planet
is freed and the returned list still has both nodes, where the list described
by the claim has the star alone. -/
theorem C32_freed_planets_stay_linked (M : Libm) (head : List planets)
    (luminosity star_radius : ℚ) :
    (check_planets M head luminosity star_radius).1 = head
    ∧ (∀ k : Nat, k ∈ (check_planets M head luminosity star_radius).2
        ↔ 1 ≤ k ∧ ∃ planet, head[k]? = some planet
            ∧ (planet.a ≤ star_radius
                ∨ eff_temp M (M.sqrt luminosity) planet.a ROCKY_AIRLESS_ALBEDO ≥ 2000.0))
    ∧ check_planets M [{ mass_type := STAR, mass := 1 }, { mass_type := PLANET, a := 1/1000 }]
          1 (1/100)
        = ([{ mass_type := STAR, mass := 1 }, { mass_type := PLANET, a := 1/1000 }], [1])
    ∧ spec_check_planets M
          [{ mass_type := STAR, mass := 1 }, { mass_type := PLANET, a := 1/1000 }] 1 (1/100)
        = [{ mass_type := STAR, mass := 1 }] := by
  refine ⟨?_, ?_, ?_, ?_⟩
  · cases head <;> rfl
  · intro k
    cases head with
    | nil => simp [check_planets]
    | cons first rest =>
      show k ∈ check_planets_loop M (M.sqrt luminosity) star_radius 1 rest ↔ _
      rw [check_planets_loop_mem]
      constructor
      · rintro ⟨hk, p, hp, hc⟩
        refine ⟨hk, p, ?_, hc⟩
        rw [show k = (k - 1) + 1 by omega, List.getElem?_cons_succ]
        exact hp
      · rintro ⟨hk, p, hp, hc⟩
        refine ⟨hk, p, ?_, hc⟩
        rw [show k = (k - 1) + 1 by omega, List.getElem?_cons_succ] at hp
        exact hp
  · have h : ((1/1000 : ℚ) ≤ 1/100) := by norm_num
    simp only [check_planets, check_planets_loop, if_pos h]
  · have h : ((1/1000 : ℚ) ≤ 1/100) := by norm_num
    simp only [spec_check_planets, List.filter, h, true_or, not_true_eq_false, decide_False]

/-! ### Gas is never marked absent -/

/-- A step of the second loop of `collect_dust` keeps `gas_present` set in
every band, whatever the arguments of the sweep. -/
theorem band_step_gas_present {r_inner r_outer mass crit_mass : ℚ}
    {stale done : List dust} {band : dust} {rest : List dust}
    {r : List dust × List dust × Bool}
    (hI : (∀ b ∈ stale, b.gas_present = true) ∧ (∀ b ∈ done, b.gas_present = true)
      ∧ (∀ b ∈ band :: rest, b.gas_present = true))
    (hs : band_step r_inner r_outer mass crit_mass stale done band rest.head? r) :
    (∀ b ∈ r.1, b.gas_present = true) ∧ (∀ b ∈ r.2.1, b.gas_present = true)
      ∧ (∀ b ∈ (if r.2.2 = true then rest.tail else rest), b.gas_present = true) := by
  obtain ⟨h1', h2', h3'⟩ := hI
  have hb : band.gas_present = true := h3' band (List.mem_cons_self _ _)
  have hrest : ∀ b ∈ rest, b.gas_present = true :=
    fun b hb1 => h3' b (List.mem_cons_of_mem _ hb1)
  have htail : ∀ b ∈ rest.tail, b.gas_present = true :=
    fun b hb1 => hrest b (List.mem_of_mem_tail hb1)
  cases hs with
  | skip h =>
    refine ⟨h1', ?_, by simpa using hrest⟩
    intro b hm
    rcases List.mem_cons.1 hm with rfl | hm
    · exact hb
    · exact h2' b hm
  | split_gas h h1 h2 hlt =>
    refine ⟨h1', ?_, by simpa using hrest⟩
    intro b hm
    simp only [List.mem_cons] at hm
    rcases hm with rfl | rfl | rfl | hm
    · exact hb
    · rfl
    · exact hb
    · exact h2' b hm
  | split h h1 h2 hge =>
    refine ⟨h1', ?_, by simpa using hrest⟩
    intro b hm
    simp only [List.mem_cons] at hm
    rcases hm with rfl | rfl | hm
    · exact hb
    · exact hb
    · exact h2' b hm
  | free_head h h1 h2 hge hd =>
    refine ⟨?_, by simp, by simpa using hrest⟩
    intro b hm
    rcases List.mem_cons.1 hm with rfl | hm
    · exact hb
    · exact h1' b hm
  | free h h1 h2 hge hd => exact ⟨h1', h2', by simpa using hrest⟩
  | clear h h1 h2 hlt =>
    refine ⟨h1', ?_, by simpa using hrest⟩
    intro b hm
    rcases List.mem_cons.1 hm with rfl | hm
    · exact hb
    · exact h2' b hm
  | cut_inner h h1 h2 hge =>
    refine ⟨h1', ?_, by simpa using hrest⟩
    intro b hm
    rcases List.mem_cons.1 hm with rfl | hm
    · exact hb
    · exact h2' b hm
  | merge_prev h h1 h2 hlt prev_band before hd hp =>
    subst hd
    refine ⟨h1', ?_, by simpa using hrest⟩
    intro b hm
    simp only [List.mem_cons] at hm
    rcases hm with rfl | rfl | hm
    · exact hb
    · exact h2' prev_band (List.mem_cons_self _ _)
    · exact h2' b (List.mem_cons_of_mem _ hm)
  | gas_before h h1 h2 hlt prev_band before hd hp =>
    refine ⟨h1', ?_, by simpa using hrest⟩
    intro b hm
    simp only [List.mem_cons] at hm
    rcases hm with rfl | rfl | hm
    · exact hb
    · rfl
    · exact h2' b hm
  | gas_lost h h1 h2 hlt hd =>
    refine ⟨h1', ?_, by simpa using hrest⟩
    intro b hm
    simp only [List.mem_singleton] at hm
    subst hm
    exact hb
  | cut_outer h h1 h2 hge =>
    refine ⟨h1', ?_, by simpa using hrest⟩
    intro b hm
    rcases List.mem_cons.1 hm with rfl | hm
    · exact hb
    · exact h2' b hm
  | merge_next h h1 h2 hlt next hn hp =>
    have hr := head?_eq_some_cons hn
    refine ⟨h1', ?_, by simpa using htail⟩
    intro b hm
    simp only [List.mem_cons] at hm
    rcases hm with rfl | rfl | hm
    · exact hrest next (by rw [hr]; exact List.mem_cons_self _ _)
    · exact hb
    · exact h2' b hm
  | gas_after h h1 h2 hlt hp =>
    refine ⟨h1', ?_, by simpa using hrest⟩
    intro b hm
    simp only [List.mem_cons] at hm
    rcases hm with rfl | rfl | hm
    · rfl
    · exact hb
    · exact h2' b hm

/-- The second loop of `collect_dust` keeps `gas_present` set in every band. -/
theorem update_bands_gas_present (r_inner r_outer mass crit_mass : ℚ) (cloud : List dust)
    (h : ∀ b ∈ cloud, b.gas_present = true) :
    ∀ b ∈ update_bands r_inner r_outer mass crit_mass [] [] cloud, b.gas_present = true := by
  obtain ⟨s1, d1, he, hI⟩ := update_bands_invariant r_inner r_outer mass crit_mass
    (fun stale done rest => (∀ b ∈ stale, b.gas_present = true)
      ∧ (∀ b ∈ done, b.gas_present = true) ∧ (∀ b ∈ rest, b.gas_present = true))
    (fun stale done band rest r hI hs => band_step_gas_present hI hs)
    [] [] cloud ⟨by simp, by simp, h⟩
  rw [he]
  intro b hb
  rcases List.mem_append.1 hb with hb | hb
  · exact hI.1 b (List.mem_reverse.1 hb)
  · exact hI.2.1 b (List.mem_reverse.1 hb)

theorem any_sweep_reachable_gas {M : Libm} {inner outer : ℚ} {cloud : List dust}
    (hr : any_sweep_reachable M inner outer cloud) :
    ∀ b ∈ cloud, b.gas_present = true := by
  induction hr with
  | init =>
    intro b hb
    simp only [set_initial_conditions, List.mem_singleton] at hb
    subst hb
    rfl
  | sweep h hc ih =>
    rw [collect_dust_some hc]
    exact update_bands_gas_present _ _ _ _ _ ih

/-- C33: in every cloud that `set_initial_conditions` followed by any number
of `collect_dust` sweeps with any arguments leaves behind, every band has
`gas_present = true`. So for every band of such a cloud and every range of
effect, mass and critical mass, the first of the three `continue` tests of
the loops of `collect_dust` (`gas_present == FALSE`) is false, and the band is
skipped exactly when one of the other two tests holds; and the cloud a further
sweep leaves behind has `gas_present = true` in every band again. -/
theorem C33_gas_never_absent (M : Libm) (inner outer : ℚ) (cloud : List dust)
    (hr : any_sweep_reachable M inner outer cloud) :
    (∀ band ∈ cloud, band.gas_present = true)
    ∧ (∀ (r_inner r_outer mass crit_mass : ℚ), ∀ band ∈ cloud,
        (band.gas_present == false) = false
        ∧ band_skipped r_inner r_outer mass crit_mass band
            = ((decide (band.outer_edge ≤ r_inner) || decide (band.inner_edge ≥ r_outer))
                || (decide (mass < crit_mass) && band.dust_present == false)))
    ∧ (∀ (dust_density mass a e crit_mass : ℚ) (cloud1 : List dust),
        (collect_dust M dust_density mass a e crit_mass cloud).map Prod.snd = some cloud1 →
        ∀ band ∈ cloud1, band.gas_present = true) := by
  have hg := any_sweep_reachable_gas hr
  refine ⟨hg, ?_, ?_⟩
  · intro r_inner r_outer mass crit_mass band hb
    have h := hg band hb
    unfold band_skipped
    rw [h]
    simp
  · intro dust_density mass a e crit_mass cloud1 hc
    exact any_sweep_reachable_gas (any_sweep_reachable.sweep hr hc)

/-- C33 at the cloud left by one sweep of the band `[1/2, 20]` with
`mass = 1/15`, `a = 4`, `e = 0` below the critical mass `1` (range of effect
`[5/3, 15/2]`). -/
theorem C33_gas_never_absent_witness :
    any_sweep_reachable table_libm (1/2) 20
        [⟨1/2, 5/3, true, true⟩, ⟨5/3, 15/2, false, true⟩, ⟨15/2, 20, true, true⟩]
    ∧ (∀ band ∈ [(⟨1/2, 5/3, true, true⟩ : dust), ⟨5/3, 15/2, false, true⟩,
          ⟨15/2, 20, true, true⟩], band.gas_present = true)
    ∧ (∀ (r_inner r_outer mass crit_mass : ℚ),
        ∀ band ∈ [(⟨1/2, 5/3, true, true⟩ : dust), ⟨5/3, 15/2, false, true⟩,
          ⟨15/2, 20, true, true⟩],
        (band.gas_present == false) = false
        ∧ band_skipped r_inner r_outer mass crit_mass band
            = ((decide (band.outer_edge ≤ r_inner) || decide (band.inner_edge ≥ r_outer))
                || (decide (mass < crit_mass) && band.dust_present == false)))
    ∧ (∀ (dust_density mass a e crit_mass : ℚ) (cloud1 : List dust),
        (collect_dust table_libm dust_density mass a e crit_mass
            [⟨1/2, 5/3, true, true⟩, ⟨5/3, 15/2, false, true⟩, ⟨15/2, 20, true, true⟩]).map
          Prod.snd = some cloud1 →
        ∀ band ∈ cloud1, band.gas_present = true) :=
  have hr : any_sweep_reachable table_libm (1/2) 20
      [⟨1/2, 5/3, true, true⟩, ⟨5/3, 15/2, false, true⟩, ⟨15/2, 20, true, true⟩] :=
    @any_sweep_reachable.sweep table_libm (1/2) 20 _ _ 1 (1/15) 4 0 1
      any_sweep_reachable.init (by decide!)
  ⟨hr, C33_gas_never_absent table_libm (1/2) 20 _ hr⟩

/-! ### The critical mass of the caller and a colliding trial -/

/-- C34: when `mass > TRIVIAL_MASS` and `find_collision` returns the node at
position `node`, `coalesce_planetesimals` is `collide_planets` for that node,
which does not take `crit_mass`: two calls that differ in `crit_mass` only
have the same outcome, planet list, dust cloud and all, for every number of
sweeps allowed. Whenever the call returns, the mass of the surviving node is
the mass returned by
`accrete_dust(node.mass + mass, new_orbit, e, stell_luminosity_ratio)`, with
the luminosity ratio in the place of the critical mass, its `a` and `e` are
the merged orbit and eccentricity, and the cloud is the one that call of
`accrete_dust` leaves. With `a > 0`, a node with `a > 0` and `mass ≥ 0`, a
positive luminosity, valid bands and a `sqrt` that maps `[0, 1)` into `[0, 1)`,
the call does return. -/
theorem C34_crit_mass_unused_on_collision (M : Libm) (g : globals)
    (a e mass crit_mass crit_mass2 stell_luminosity_ratio : ℚ) (orbit_type : Int) (node : Nat)
    (hm : TRIVIAL_MASS < mass)
    (hhit : find_collision M g.planet_head a e = some node) :
    ∃ n, g.planet_head[node]? = some n
      ∧ (∀ fuel,
          coalesce_planetesimals M fuel g a e mass crit_mass stell_luminosity_ratio orbit_type
            = coalesce_planetesimals M fuel g a e mass crit_mass2 stell_luminosity_ratio
                orbit_type)
      ∧ (∀ fuel,
          coalesce_planetesimals M fuel g a e mass crit_mass stell_luminosity_ratio orbit_type
            = collide_planets M fuel g a e mass node stell_luminosity_ratio)
      ∧ (∀ fuel g1,
          coalesce_planetesimals M fuel g a e mass crit_mass stell_luminosity_ratio orbit_type
            = Outcome.value g1 →
          ∃ mass1 g0,
            accrete_dust M fuel g (n.mass + mass) (merged_orbit n a mass)
                (merged_eccentricity M n a e mass) stell_luminosity_ratio
              = Outcome.value (mass1, g0)
            ∧ g1.planet_head = g.planet_head.set node
                { n with a := merged_orbit n a mass, e := merged_eccentricity M n a e mass,
                         mass := mass1 }
            ∧ g1.dust_head = g0.dust_head)
      ∧ (libm_facts M → (∀ x, 0 ≤ x → x < 1 → M.sqrt x < 1) → bands_valid g.dust_head →
          0 ≤ g.dust_density → 0 < a → 0 < n.a → 0 ≤ n.mass → 0 < stell_luminosity_ratio →
          ∃ fuel g1,
            coalesce_planetesimals M fuel g a e mass crit_mass stell_luminosity_ratio orbit_type
              = Outcome.value g1) := by
  obtain ⟨n, hn, _⟩ := find_collision_some hhit
  have hco : ∀ c fuel,
      coalesce_planetesimals M fuel g a e mass c stell_luminosity_ratio orbit_type
        = collide_planets M fuel g a e mass node stell_luminosity_ratio := by
    intro c fuel
    unfold coalesce_planetesimals
    rw [if_neg (not_le.2 hm), hhit]
  refine ⟨n, hn, ?_, hco crit_mass, ?_, ?_⟩
  · intro fuel
    rw [hco crit_mass, hco crit_mass2]
  · intro fuel g1 h
    rw [hco] at h
    obtain ⟨mass1, g0, hacc, hp, hd, _⟩ := collide_planets_value hn h
    exact ⟨mass1, g0, hacc, hp, hd⟩
  · intro hM hs1 hv hd ha hna hnm hl
    have hpos : (0 : ℚ) < mass := lt_trans (by norm_num [TRIVIAL_MASS]) hm
    obtain ⟨fuel, g1, h⟩ := collide_planets_returns hM hs1 g a e mass node
      stell_luminosity_ratio n hn hv hd hnm hpos hna ha hl
    exact ⟨fuel, g1, by rw [hco]; exact h⟩

/-- C34 at `merge_example`: the body `a = 4`, `e = 0`, `mass = 324/245`
collides with the star at position 0; the calls with `crit_mass = 1` and with
`crit_mass = 1/1000000` have the same outcome, and the call returns. -/
theorem C34_crit_mass_unused_on_collision_witness :
    (∀ fuel,
      coalesce_planetesimals table_libm fuel merge_example 4 0 (324/245) 1 4 PLANET
        = coalesce_planetesimals table_libm fuel merge_example 4 0 (324/245) (1/1000000) 4
            PLANET)
    ∧ ∃ fuel g1 mass1 g0 n,
        merge_example.planet_head[0]? = some n
        ∧ coalesce_planetesimals table_libm fuel merge_example 4 0 (324/245) 1 4 PLANET
          = Outcome.value g1
        ∧ accrete_dust table_libm fuel merge_example (n.mass + 324/245)
              (merged_orbit n 4 (324/245)) (merged_eccentricity table_libm n 4 0 (324/245)) 4
            = Outcome.value (mass1, g0)
        ∧ g1.dust_head = g0.dust_head := by
  obtain ⟨n, hn, hsame, _, hval, hret⟩ :=
    C34_crit_mass_unused_on_collision table_libm merge_example 4 0 (324/245) 1 (1/1000000) 4
      PLANET 0 (by norm_num [TRIVIAL_MASS]) (by decide!)
  have hn1 : ({ a := 1, e := 0, mass := 81/175, mass_type := STAR, star_ptr := some 0 }
      : planets) = n := Option.some.inj hn
  subst hn1
  obtain ⟨fuel, g1, h⟩ := hret libm_facts_table table_sqrt_lt_one (by decide!) (by decide!)
    (by norm_num) (by norm_num) (by norm_num) (by norm_num)
  obtain ⟨mass1, g0, h1, _, h3⟩ := hval fuel g1 h
  exact ⟨hsame, fuel, g1, mass1, g0, _, hn, h, h1, h3⟩

/-! ### The range of effect contains the orbit -/

/-- C35: for `a ≥ 0`, `0 ≤ e ≤ 1` and `mass ≥ 0` the reduced mass
`rm = power(mass / (1 + mass), 0.25)` lies in `[0, 1)` and
`0 ≤ inner_effect_limit(a, e, rm) ≤ a ≤ outer_effect_limit(a, e, rm)`, so that
the test `r_inner < 0.0` of `collect_dust` fails and `collect_dust` returns,
for every cloud, dust density and critical mass. -/
theorem C35_effect_range_contains_orbit (M : Libm) (hM : libm_facts M) (a e mass : ℚ)
    (ha : 0 ≤ a) (he0 : 0 ≤ e) (he1 : e ≤ 1) (hm : 0 ≤ mass) :
    0 ≤ power M (mass / (1.0 + mass)) 0.25
    ∧ power M (mass / (1.0 + mass)) 0.25 < 1
    ∧ 0 ≤ inner_effect_limit a e (power M (mass / (1.0 + mass)) 0.25)
    ∧ inner_effect_limit a e (power M (mass / (1.0 + mass)) 0.25) ≤ a
    ∧ a ≤ outer_effect_limit a e (power M (mass / (1.0 + mass)) 0.25)
    ∧ ¬ (inner_effect_limit a e (power M (mass / (1.0 + mass)) 0.25) < 0.0)
    ∧ ∀ (dust_density crit_mass : ℚ) (cloud : List dust),
        ∃ mass1 cloud1,
          collect_dust M dust_density mass a e crit_mass cloud = some (mass1, cloud1) := by
  obtain ⟨hr0, hr1⟩ := reduced_mass_range hM hm
  have hin := @inner_effect_limit_nonneg a e (power M (mass / (1.0 + mass)) 0.25) ha he1
    (le_of_lt hr1)
  have hneg : ¬ (inner_effect_limit a e (power M (mass / (1.0 + mass)) 0.25) < 0.0) := by
    rw [show (0.0 : ℚ) = 0 by norm_num]
    exact not_lt.2 hin
  refine ⟨hr0, hr1, hin, ?_, ?_, hneg, ?_⟩
  · unfold inner_effect_limit CLOUD_ECCENTRICITY
    generalize power M (mass / (1.0 + mass)) 0.25 = rm at hr0 hr1
    have h1 : (1.0 - e) * (1.0 - rm) ≤ 1 := by
      have h0 : (0 : ℚ) ≤ 1.0 - e := by linarith
      nlinarith
    have h2 : a * (1.0 - e) * (1.0 - rm) ≤ a := by
      calc a * (1.0 - e) * (1.0 - rm) = a * ((1.0 - e) * (1.0 - rm)) := by ring
        _ ≤ a * 1 := mul_le_mul_of_nonneg_left h1 ha
        _ = a := by ring
    rw [div_le_iff₀ (by norm_num)]
    norm_num at h2 ⊢
    linarith
  · unfold outer_effect_limit CLOUD_ECCENTRICITY
    generalize power M (mass / (1.0 + mass)) 0.25 = rm at hr0 hr1
    have h1 : (1 : ℚ) ≤ (1.0 + e) * (1.0 + rm) := by nlinarith
    have h2 : a ≤ a * (1.0 + e) * (1.0 + rm) := by
      calc a = a * 1 := by ring
        _ ≤ a * ((1.0 + e) * (1.0 + rm)) := mul_le_mul_of_nonneg_left h1 ha
        _ = a * (1.0 + e) * (1.0 + rm) := by ring
    rw [le_div_iff₀ (by norm_num)]
    norm_num at h2 ⊢
    linarith
  · intro dust_density crit_mass cloud
    unfold collect_dust
    simp only
    rw [if_neg hneg]
    exact ⟨_, _, rfl⟩

/-- C35 at `mass = 1/15` (reduced mass `1/2`), `a = 2`, `e = 1`: the range of
effect is `[0, 15/2]`. -/
theorem C35_effect_range_contains_orbit_witness :
    0 ≤ power table_libm ((1/15 : ℚ) / (1.0 + 1/15)) 0.25
    ∧ power table_libm ((1/15 : ℚ) / (1.0 + 1/15)) 0.25 < 1
    ∧ 0 ≤ inner_effect_limit 2 1 (power table_libm ((1/15 : ℚ) / (1.0 + 1/15)) 0.25)
    ∧ inner_effect_limit 2 1 (power table_libm ((1/15 : ℚ) / (1.0 + 1/15)) 0.25) ≤ 2
    ∧ 2 ≤ outer_effect_limit 2 1 (power table_libm ((1/15 : ℚ) / (1.0 + 1/15)) 0.25)
    ∧ ¬ (inner_effect_limit 2 1 (power table_libm ((1/15 : ℚ) / (1.0 + 1/15)) 0.25) < 0.0)
    ∧ ∀ (dust_density crit_mass : ℚ) (cloud : List dust),
        ∃ mass1 cloud1,
          collect_dust table_libm dust_density (1/15) 2 1 crit_mass cloud
            = some (mass1, cloud1) :=
  C35_effect_range_contains_orbit table_libm libm_facts_table 2 1 (1/15) (by norm_num)
    (by norm_num) (by norm_num) (by norm_num)

/-! ### The merged orbit and the eccentricity of merged circular orbits -/

/-- The merged orbit as a quotient of polynomials. -/
theorem merged_orbit_eq (n : planets) (a mass : ℚ) (hna : 0 < n.a) (ha : 0 < a) :
    merged_orbit n a mass = (n.mass + mass) * (n.a * a) / (n.mass * a + mass * n.a) := by
  unfold merged_orbit
  have h1 : n.a ≠ 0 := ne_of_gt hna
  have h2 : a ≠ 0 := ne_of_gt ha
  by_cases hz : n.mass * a + mass * n.a = 0
  · have : n.mass / n.a + mass / a = 0 := by
      field_simp
      linarith
    rw [this, hz]
    simp
  · have hz2 : n.mass / n.a + mass / a ≠ 0 := by
      intro h
      apply hz
      field_simp at h
      linarith
    field_simp

/-- The eccentricity `collide_planets` stores is the square root of the
clamped value of `temp`. -/
theorem merged_eccentricity_eq (M : Libm) (n : planets) (a e mass : ℚ) :
    merged_eccentricity M n a e mass
      = M.sqrt (if merged_eccentricity_temp M n a e mass < 0.0
                    ∨ merged_eccentricity_temp M n a e mass ≥ 1.0 then 0.0
                else merged_eccentricity_temp M n a e mass) := by
  rfl

/-- The inequality between the harmonic mean and the square of the mean of the
square roots, with weights `m1` and `m2`, cleared of its denominators. -/
theorem merged_circular_ineq (m1 m2 s1 s2 : ℚ) (hm1 : 0 < m1) (hm2 : 0 < m2) (hs1 : 0 < s1)
    (hs2 : 0 < s2) :
    (m1 + m2) ^ 3 * (s1 * s1) * (s2 * s2)
        ≤ (m1 * s1 + m2 * s2) ^ 2 * (m1 * (s2 * s2) + m2 * (s1 * s1))
    ∧ (s1 ≠ s2 →
        (m1 + m2) ^ 3 * (s1 * s1) * (s2 * s2)
          < (m1 * s1 + m2 * s2) ^ 2 * (m1 * (s2 * s2) + m2 * (s1 * s1))) := by
  have hid : (m1 * s1 + m2 * s2) ^ 2 * (m1 * (s2 * s2) + m2 * (s1 * s1))
      - (m1 + m2) ^ 3 * (s1 * s1) * (s2 * s2)
      = m1 * m2 * (s1 - s2) ^ 2 * (m1 * s1 * (s1 + 2 * s2) + m2 * s2 * (s2 + 2 * s1)) := by
    ring
  have hpos : 0 < m1 * s1 * (s1 + 2 * s2) + m2 * s2 * (s2 + 2 * s1) := by positivity
  constructor
  · have : 0 ≤ m1 * m2 * (s1 - s2) ^ 2
        * (m1 * s1 * (s1 + 2 * s2) + m2 * s2 * (s2 + 2 * s1)) := by positivity
    linarith
  · intro hne
    have h1 : 0 < (s1 - s2) ^ 2 := by
      have : s1 - s2 ≠ 0 := sub_ne_zero.2 hne
      positivity
    have : 0 < m1 * m2 * (s1 - s2) ^ 2
        * (m1 * s1 * (s1 + 2 * s2) + m2 * s2 * (s2 + 2 * s1)) := by positivity
    linarith

/-- In exact arithmetic: a node and an incoming body of positive masses on
circular orbits (`e = 0` both) with positive semi-major axes, merged by
`collide_planets`
with a C library whose `pow(x, 2)` is `x * x` and whose `sqrt` is exact at 0,
at 1, at the two semi-major axes and at the merged orbit. Then the value
`1 - x^2` of `temp` is at most 0, and negative when the two semi-major axes
differ, so that the clamp sets it to 0, and the eccentricity stored in the
surviving node is `sqrt(0) = 0`. -/
theorem circular_merge_exact_roots (M : Libm) (n : planets) (a mass : ℚ)
    (hpow : ∀ x : ℚ, M.pow x 2.0 = x * x)
    (hs0 : M.sqrt 0 = 0) (hs1 : M.sqrt 1 = 1)
    (hsn : 0 < M.sqrt n.a ∧ M.sqrt n.a * M.sqrt n.a = n.a)
    (hsa : 0 < M.sqrt a ∧ M.sqrt a * M.sqrt a = a)
    (hso : 0 < M.sqrt (merged_orbit n a mass)
      ∧ M.sqrt (merged_orbit n a mass) * M.sqrt (merged_orbit n a mass) = merged_orbit n a mass)
    (hnm : 0 < n.mass) (hm : 0 < mass) (hna : 0 < n.a) (ha : 0 < a) (hne : n.e = 0) :
    merged_eccentricity_temp M n a 0 mass ≤ 0
    ∧ (n.a ≠ a → merged_eccentricity_temp M n a 0 mass < 0)
    ∧ (if merged_eccentricity_temp M n a 0 mass < 0.0
          ∨ merged_eccentricity_temp M n a 0 mass ≥ 1.0 then (0.0 : ℚ)
        else merged_eccentricity_temp M n a 0 mass) = 0
    ∧ merged_eccentricity M n a 0 mass = 0
    ∧ ∀ (fuel : Nat) (g g1 : globals) (stell_luminosity_ratio : ℚ) (node : Nat),
        g.planet_head[node]? = some n →
        collide_planets M fuel g a 0 mass node stell_luminosity_ratio = Outcome.value g1 →
        ∃ n1, g1.planet_head[node]? = some n1 ∧ n1.e = 0 := by
  obtain ⟨hp1, hq1⟩ := hsn
  obtain ⟨hp2, hq2⟩ := hsa
  obtain ⟨hp3, hq3⟩ := hso
  have hden : 0 < n.mass * a + mass * n.a := by positivity
  have hT : merged_eccentricity_temp M n a 0 mass
      = 1 - ((n.mass * M.sqrt n.a + mass * M.sqrt a)
              / ((n.mass + mass) * M.sqrt (merged_orbit n a mass))) ^ 2 := by
    unfold merged_eccentricity_temp power
    simp only [hpow, hne]
    rw [show merged_orbit n a mass = (n.mass + mass) / ((n.mass / n.a) + (mass / a)) from rfl]
    norm_num [hs1]
    ring
  have hY : 0 < ((n.mass + mass) * M.sqrt (merged_orbit n a mass)) ^ 2 := by positivity
  have hYeq : ((n.mass + mass) * M.sqrt (merged_orbit n a mass)) ^ 2
      = (n.mass + mass) ^ 3 * (M.sqrt n.a * M.sqrt n.a) * (M.sqrt a * M.sqrt a)
          / (n.mass * (M.sqrt a * M.sqrt a) + mass * (M.sqrt n.a * M.sqrt n.a)) := by
    rw [mul_pow, pow_two (M.sqrt (merged_orbit n a mass)), hq3, merged_orbit_eq n a mass hna ha,
      hq1, hq2]
    field_simp
    ring
  obtain ⟨hle, hlt⟩ := merged_circular_ineq n.mass mass (M.sqrt n.a) (M.sqrt a) hnm hm hp1 hp2
  have hD : 0 < n.mass * (M.sqrt a * M.sqrt a) + mass * (M.sqrt n.a * M.sqrt n.a) := by
    rw [hq1, hq2]
    exact hden
  have hYX : ((n.mass + mass) * M.sqrt (merged_orbit n a mass)) ^ 2
      ≤ (n.mass * M.sqrt n.a + mass * M.sqrt a) ^ 2 := by
    rw [hYeq, div_le_iff₀ hD]
    exact hle
  have hYXlt : n.a ≠ a → ((n.mass + mass) * M.sqrt (merged_orbit n a mass)) ^ 2
      < (n.mass * M.sqrt n.a + mass * M.sqrt a) ^ 2 := by
    intro hnea
    rw [hYeq, div_lt_iff₀ hD]
    apply hlt
    intro hss
    apply hnea
    rw [← hq1, ← hq2, hss]
  have h0 : merged_eccentricity_temp M n a 0 mass ≤ 0 := by
    rw [hT, div_pow, sub_nonpos, le_div_iff₀ hY]
    linarith
  have h1 : n.a ≠ a → merged_eccentricity_temp M n a 0 mass < 0 := by
    intro hnea
    rw [hT, div_pow, sub_neg, lt_div_iff₀ hY]
    linarith [hYXlt hnea]
  have hclamp : (if merged_eccentricity_temp M n a 0 mass < 0.0
          ∨ merged_eccentricity_temp M n a 0 mass ≥ 1.0 then (0.0 : ℚ)
        else merged_eccentricity_temp M n a 0 mass) = 0 := by
    split_ifs with hc
    · norm_num
    · have : ¬ (merged_eccentricity_temp M n a 0 mass < 0) := by
        intro h
        apply hc
        left
        norm_num
        exact h
      exact le_antisymm h0 (not_lt.1 this)
  have he : merged_eccentricity M n a 0 mass = 0 := by
    rw [merged_eccentricity_eq, hclamp, hs0]
  refine ⟨h0, h1, hclamp, he, ?_⟩
  intro fuel g g1 stell_luminosity_ratio node hn h
  obtain ⟨mass1, g0, _, hp, _⟩ := collide_planets_value hn h
  have hlt2 : node < g.planet_head.length := by
    rcases Nat.lt_or_ge node g.planet_head.length with h | h
    · exact h
    · rw [List.getElem?_eq_none h] at hn
      cases hn
  rw [hp]
  exact ⟨_, List.getElem?_set_self hlt2, he⟩

theorem table_pow_two (x : ℚ) : table_libm.pow x 2.0 = x * x := by
  simp only [table_libm]
  rw [if_pos (by norm_num)]

/-! ### The bounds of dist_masses about a star -/

/-- C38: about a star (`mass_type = PLANET`) of mass ratio `mass_ratio > 0`,
with a `pow` that is positive on positive bases, the bounds `dist_masses`
computes satisfy `dust_inner_bound < planet_inner_bound ≤ planet_outer_bound
< dust_outer_bound`, where `planet_outer_bound = farthest_body(mass_ratio)` and
`dust_outer_bound` is the smaller of `stell_dust_limit(mass_ratio, 0, STAR)`
and `outer_effect_limit(planet_outer_bound, 0, PROTOPLANET_MASS)`. So the band
`set_initial_conditions` makes has `inner_edge < outer_edge`, and the test
`planet_inner_bound > planet_outer_bound` before the "orbit bounding internal
error" exit is false. -/
theorem C38_cloud_bounds_enclose (M : Libm) (mass_ratio radius : ℚ)
    (hpos : ∀ x y : ℚ, 0 < x → 0 < M.pow x y) (hm : 0 < mass_ratio) :
    dust_inner_bound M mass_ratio PLANET radius < planet_inner_bound M mass_ratio PLANET radius
    ∧ planet_inner_bound M mass_ratio PLANET radius ≤ farthest_body M mass_ratio
    ∧ farthest_body M mass_ratio < dust_outer_bound M mass_ratio PLANET radius
    ∧ dust_outer_bound M mass_ratio PLANET radius
        = min (stell_dust_limit M mass_ratio 0.0 STAR)
            (outer_effect_limit (farthest_body M mass_ratio) 0.0 PROTOPLANET_MASS)
    ∧ (∀ band ∈ set_initial_conditions (dust_inner_bound M mass_ratio PLANET radius)
          (dust_outer_bound M mass_ratio PLANET radius),
        band.inner_edge < band.outer_edge)
    ∧ ¬ (planet_inner_bound M mass_ratio PLANET radius > farthest_body M mass_ratio) := by
  have hc : 0 < power M mass_ratio (1.0 / 3.0) := hpos _ _ hm
  have hpm : PLANET ≠ MOON := by decide
  have hsp : ¬ (STAR = PLANET) := by decide
  have h1 : dust_inner_bound M mass_ratio PLANET radius
      < planet_inner_bound M mass_ratio PLANET radius := by
    unfold dust_inner_bound planet_inner_bound nearest_body inner_effect_limit
      CLOUD_ECCENTRICITY PROTOPLANET_MASS
    rw [if_neg hpm]
    generalize power M mass_ratio (1.0 / 3.0) = c at hc
    norm_num
    linarith
  have h2 : planet_inner_bound M mass_ratio PLANET radius ≤ farthest_body M mass_ratio := by
    unfold planet_inner_bound nearest_body farthest_body
    rw [if_neg hpm]
    generalize power M mass_ratio (1.0 / 3.0) = c at hc
    norm_num
    linarith
  have h4 : dust_outer_bound M mass_ratio PLANET radius
      = min (stell_dust_limit M mass_ratio 0.0 STAR)
          (outer_effect_limit (farthest_body M mass_ratio) 0.0 PROTOPLANET_MASS) := by
    unfold dust_outer_bound
    simp only [if_true]
    split_ifs with h
    · exact (min_eq_right (le_of_lt h)).symm
    · exact (min_eq_left (not_lt.1 h)).symm
  have h3 : farthest_body M mass_ratio < dust_outer_bound M mass_ratio PLANET radius := by
    rw [h4]
    unfold farthest_body stell_dust_limit outer_effect_limit CLOUD_ECCENTRICITY
      PROTOPLANET_MASS
    simp only [hsp, if_false]
    generalize power M mass_ratio (1.0 / 3.0) = c at hc
    rw [lt_min_iff]
    constructor
    · norm_num
      linarith
    · norm_num
      linarith
  refine ⟨h1, h2, h3, h4, ?_, not_lt.2 h2⟩
  intro band hb
  simp only [set_initial_conditions, List.mem_singleton] at hb
  subst hb
  exact lt_trans h1 (lt_of_le_of_lt h2 h3)

/-- C38 for a star of mass ratio 1 with the cube root 1: the planets lie in
`[3/10, 50]` and the cloud in `[(1 - 1.0E-15)/4, 125 (1 + 1.0E-15)/2]`. -/
theorem C38_cloud_bounds_enclose_witness :
    dust_inner_bound flat_libm 1 PLANET 0 < planet_inner_bound flat_libm 1 PLANET 0
    ∧ planet_inner_bound flat_libm 1 PLANET 0 ≤ farthest_body flat_libm 1
    ∧ farthest_body flat_libm 1 < dust_outer_bound flat_libm 1 PLANET 0
    ∧ dust_outer_bound flat_libm 1 PLANET 0
        = min (stell_dust_limit flat_libm 1 0.0 STAR)
            (outer_effect_limit (farthest_body flat_libm 1) 0.0 PROTOPLANET_MASS)
    ∧ (∀ band ∈ set_initial_conditions (dust_inner_bound flat_libm 1 PLANET 0)
          (dust_outer_bound flat_libm 1 PLANET 0),
        band.inner_edge < band.outer_edge)
    ∧ ¬ (planet_inner_bound flat_libm 1 PLANET 0 > farthest_body flat_libm 1) :=
  C38_cloud_bounds_enclose flat_libm 1 0 flat_pow_pos (by norm_num)

/-! ### Bodies without an atmosphere -/

/-- The first pass of the loop of `iterate_surface_temp` for a body with
`surf_pressure = 0`. -/
theorem surface_pass_airless (M : Libm) (RAND_MAX : Nat) (rand : Nat → Nat) (planet : planets)
    (r_ecosphere water optical_depth : ℚ)
    (hz : M.pow 0 0.25 = 0) (h1 : M.pow 1 0.25 = 1) (hp : planet.surf_pressure = 0)
    (hfin : EARTH_EFFECTIVE_TEMP * M.sqrt (r_ecosphere / planet.a) ≤ DBL_MAX) :
    eff_temp M r_ecosphere planet.a EARTH_ALBEDO
        = EARTH_EFFECTIVE_TEMP * M.sqrt (r_ecosphere / planet.a)
    ∧ green_rise M optical_depth (eff_temp M r_ecosphere planet.a EARTH_ALBEDO)
        planet.surf_pressure = 0
    ∧ (surface_pass M RAND_MAX rand planet r_ecosphere water optical_depth {}).new_temp
        = eff_temp M r_ecosphere planet.a EARTH_ALBEDO
    ∧ (surface_pass M RAND_MAX rand planet r_ecosphere water optical_depth {}).previous_temp
        = eff_temp M r_ecosphere planet.a EARTH_ALBEDO
    ∧ (surface_pass M RAND_MAX rand planet r_ecosphere water optical_depth {}).greenhs_rise
        = 0 := by
  have he : eff_temp M r_ecosphere planet.a EARTH_ALBEDO
      = EARTH_EFFECTIVE_TEMP * M.sqrt (r_ecosphere / planet.a) := by
    unfold eff_temp power EARTH_ALBEDO
    rw [show ((1.0 : ℚ) - 0.3) / 0.7 = 1 by norm_num, h1]
    ring
  have hg : ∀ t : ℚ, green_rise M optical_depth t planet.surf_pressure = 0 := by
    intro t
    unfold green_rise power
    simp only
    rw [hp, zero_div, hz]
    ring
  have hov : ¬ (eff_temp M r_ecosphere planet.a EARTH_ALBEDO
      + green_rise M optical_depth (eff_temp M r_ecosphere planet.a EARTH_ALBEDO)
          planet.surf_pressure > DBL_MAX) := by
    rw [hg, add_zero, he]
    exact not_lt.2 hfin
  refine ⟨he, hg _, ?_, ?_, ?_⟩
  · show (if _ then DBL_MAX else _) = _
    rw [if_neg hov, hg, add_zero]
  · rfl
  · show (if _ then (0.0 : ℚ) else _) = _
    rw [if_neg hov, hg]

/-- C39: for a planet with `surf_pressure = 0`, with a C library for which
`pow(0, 0.25) = 0` and `pow(1, 0.25) = 1`, and a temperature
`EARTH_EFFECTIVE_TEMP * sqrt(r_ecosphere / a)` that does not exceed `DBL_MAX`,
`iterate_surface_temp` runs its loop body exactly once: the greenhouse rise is
0, `new_temp` and `previous_temp` are both
`eff_temp(r_ecosphere, a, EARTH_ALBEDO) = EARTH_EFFECTIVE_TEMP *
sqrt(r_ecosphere / a)`, and that is the `surf_temp` stored, for every value
of `RAND_MAX` and every sequence `rand` of values of `rand()`. -/
theorem C39_airless_one_pass (M : Libm) (RAND_MAX : Nat) (rand : Nat → Nat)
    (planet : planets) (r_ecosphere : ℚ)
    (hz : M.pow 0 0.25 = 0) (h1 : M.pow 1 0.25 = 1) (hp : planet.surf_pressure = 0)
    (hfin : EARTH_EFFECTIVE_TEMP * M.sqrt (r_ecosphere / planet.a) ≤ DBL_MAX) :
    ∃ (v : surface_vars) (p : planets),
      surface_loop M RAND_MAX rand planet r_ecosphere
          (hydro_fraction M planet.volatile_gas_inventory planet.radius)
          (opacity planet.molec_weight planet.surf_pressure) 1 {} = Outcome.value v
      ∧ surface_loop M RAND_MAX rand planet r_ecosphere
          (hydro_fraction M planet.volatile_gas_inventory planet.radius)
          (opacity planet.molec_weight planet.surf_pressure) 0 {} = Outcome.unfinished
      ∧ v.counter = 1 ∧ v.greenhs_rise = 0
      ∧ v.new_temp = eff_temp M r_ecosphere planet.a EARTH_ALBEDO
      ∧ eff_temp M r_ecosphere planet.a EARTH_ALBEDO
          = EARTH_EFFECTIVE_TEMP * M.sqrt (r_ecosphere / planet.a)
      ∧ (∀ fuel : Nat, 1 ≤ fuel →
          iterate_surface_temp M RAND_MAX rand fuel planet r_ecosphere = Outcome.value p)
      ∧ p.surf_temp = EARTH_EFFECTIVE_TEMP * M.sqrt (r_ecosphere / planet.a) := by
  obtain ⟨he, _, hn, hpv, hgr⟩ := surface_pass_airless M RAND_MAX rand planet r_ecosphere
    (hydro_fraction M planet.volatile_gas_inventory planet.radius)
    (opacity planet.molec_weight planet.surf_pressure) hz h1 hp hfin
  have hloop : surface_loop M RAND_MAX rand planet r_ecosphere
      (hydro_fraction M planet.volatile_gas_inventory planet.radius)
      (opacity planet.molec_weight planet.surf_pressure) 1 {}
      = Outcome.value (surface_pass M RAND_MAX rand planet r_ecosphere
          (hydro_fraction M planet.volatile_gas_inventory planet.radius)
          (opacity planet.molec_weight planet.surf_pressure) {}) := by
    rw [surface_loop_succ, if_neg]
    rw [hn, hpv, sub_self, abs_zero]
    intro h
    norm_num at h
  have hone : ∃ p : planets,
      iterate_surface_temp M RAND_MAX rand 1 planet r_ecosphere = Outcome.value p
      ∧ p.surf_temp = (surface_pass M RAND_MAX rand planet r_ecosphere
          (hydro_fraction M planet.volatile_gas_inventory planet.radius)
          (opacity planet.molec_weight planet.surf_pressure) {}).new_temp := by
    unfold iterate_surface_temp
    simp only
    rw [hloop]
    exact ⟨_, rfl, rfl⟩
  obtain ⟨p, hp1, hp2⟩ := hone
  refine ⟨_, p, hloop, rfl, rfl, hgr, hn, he, ?_, ?_⟩
  · intro fuel hf
    have hm := surface_loop_more M RAND_MAX rand planet r_ecosphere
      (hydro_fraction M planet.volatile_gas_inventory planet.radius)
      (opacity planet.molec_weight planet.surf_pressure) 1 {} _ (fuel - 1) hloop
    rw [show 1 + (fuel - 1) = fuel by omega] at hm
    rw [← hp1]
    unfold iterate_surface_temp
    simp only
    rw [hm, hloop]
  · rw [hp2, hn, he]

/-- C39 for a body at `a = 1` about a star with `r_ecosphere = 4`, every call
of `rand()` giving 0: `surf_temp = 255 * sqrt(4) = 510`. -/
theorem C39_airless_one_pass_witness :
    ∃ (v : surface_vars) (p : planets),
      surface_loop unit_libm 32767 (fun _ => 0) { a := 1, radius := 6378 } 4
          (hydro_fraction unit_libm 0 6378) (opacity 0 0) 1 {} = Outcome.value v
      ∧ surface_loop unit_libm 32767 (fun _ => 0) { a := 1, radius := 6378 } 4
          (hydro_fraction unit_libm 0 6378) (opacity 0 0) 0 {} = Outcome.unfinished
      ∧ v.counter = 1 ∧ v.greenhs_rise = 0
      ∧ v.new_temp = eff_temp unit_libm 4 1 EARTH_ALBEDO
      ∧ eff_temp unit_libm 4 1 EARTH_ALBEDO = EARTH_EFFECTIVE_TEMP * unit_libm.sqrt (4 / 1)
      ∧ (∀ fuel : Nat, 1 ≤ fuel →
          iterate_surface_temp unit_libm 32767 (fun _ => 0) fuel { a := 1, radius := 6378 } 4
            = Outcome.value p)
      ∧ p.surf_temp = EARTH_EFFECTIVE_TEMP * unit_libm.sqrt (4 / 1) :=
  C39_airless_one_pass unit_libm 32767 (fun _ => 0) { a := 1, radius := 6378 } 4
    (by decide!) (by decide!) rfl (by decide!)

/-! ### planet_albedo divides by a positive number -/

/-- C40: for all `water_fraction` and `ice_frc` the value of `components` in
`planet_albedo` is 1, 2 or 3: when neither `water_fraction` nor `ice_frc` is
positive, `rock_fraction = 1 - water_fraction - ice_frc` is at least 1. So the
divisor of `cloud_adjustment = cld_fraction / components` is never 0, and
`planet_albedo` is the sum of its four parts computed with that quotient. -/
theorem C40_albedo_components_pos (RAND_MAX rand1 rand2 rand3 rand4 : Nat)
    (water_fraction cld_fraction ice_frc surf_pressure : ℚ) :
    1 ≤ albedo_components water_fraction ice_frc
    ∧ albedo_components water_fraction ice_frc ≠ 0
    ∧ (albedo_components water_fraction ice_frc = 1
        ∨ albedo_components water_fraction ice_frc = 2
        ∨ albedo_components water_fraction ice_frc = 3)
    ∧ planet_albedo RAND_MAX rand1 rand2 rand3 rand4 water_fraction cld_fraction ice_frc
          surf_pressure
        = (let rock_fraction := 1.0 - water_fraction - ice_frc
           let cloud_adjustment := cld_fraction / albedo_components water_fraction ice_frc
           let rock_fraction :=
             if rock_fraction ≥ cloud_adjustment then rock_fraction - cloud_adjustment else 0.0
           let water_fraction :=
             if water_fraction > cloud_adjustment then water_fraction - cloud_adjustment
             else 0.0
           let ice_frc := if ice_frc > cloud_adjustment then ice_frc - cloud_adjustment else 0.0
           let cloud_part := cld_fraction * about RAND_MAX rand1 CLOUD_ALBEDO 0.2
           let rock_part :=
             if surf_pressure = 0.0 then
               rock_fraction * about RAND_MAX rand2 ROCKY_AIRLESS_ALBEDO 0.3
             else rock_fraction * about RAND_MAX rand2 ROCKY_ALBEDO 0.1
           let water_part := water_fraction * about RAND_MAX rand3 WATER_ALBEDO 0.2
           let ice_part :=
             if surf_pressure = 0.0 then ice_frc * about RAND_MAX rand4 AIRLESS_ICE_ALBEDO 0.4
             else ice_frc * about RAND_MAX rand4 ICE_ALBEDO 0.1
           cloud_part + rock_part + water_part + ice_part) := by
  have hcases : albedo_components water_fraction ice_frc = 1
      ∨ albedo_components water_fraction ice_frc = 2
      ∨ albedo_components water_fraction ice_frc = 3 := by
    unfold albedo_components
    simp only
    by_cases hw : water_fraction > 0.0
    · by_cases hi : ice_frc > 0.0
      · by_cases hr : 1.0 - water_fraction - ice_frc > 0.0
        · right; right
          rw [if_pos hw, if_pos hi, if_pos hr]
          norm_num
        · right; left
          rw [if_pos hw, if_pos hi, if_neg hr]
          norm_num
      · by_cases hr : 1.0 - water_fraction - ice_frc > 0.0
        · right; left
          rw [if_pos hw, if_neg hi, if_pos hr]
          norm_num
        · left
          rw [if_pos hw, if_neg hi, if_neg hr]
          norm_num
    · by_cases hi : ice_frc > 0.0
      · by_cases hr : 1.0 - water_fraction - ice_frc > 0.0
        · right; left
          rw [if_neg hw, if_pos hi, if_pos hr]
          norm_num
        · left
          rw [if_neg hw, if_pos hi, if_neg hr]
          norm_num
      · have hr : 1.0 - water_fraction - ice_frc > 0.0 := by
          norm_num at hw hi ⊢
          linarith
        left
        rw [if_neg hw, if_neg hi, if_pos hr]
        norm_num
  refine ⟨?_, ?_, hcases, rfl⟩
  · rcases hcases with h | h | h <;> rw [h] <;> norm_num
  · rcases hcases with h | h | h <;> rw [h] <;> norm_num

/-! ### Rounding to double precision -/

theorem bit_length_loop_spec :
    ∀ (fuel n : Nat), n ≤ fuel → 0 < n →
      2 ^ (bit_length_loop fuel n - 1) ≤ n ∧ n < 2 ^ bit_length_loop fuel n
        ∧ 0 < bit_length_loop fuel n := by
  intro fuel
  induction fuel with
  | zero =>
    intro n h1 h2
    omega
  | succ fuel ih =>
    intro n h1 h2
    rw [bit_length_loop, if_neg (by omega)]
    by_cases h : n / 2 = 0
    · have hn : n = 1 := by omega
      subst hn
      cases fuel with
      | zero => simp [bit_length_loop]
      | succ f => simp [bit_length_loop]
    · have hpos : 0 < n / 2 := Nat.pos_of_ne_zero h
      obtain ⟨i1, i2, i3⟩ := ih (n / 2) (by omega) hpos
      refine ⟨?_, ?_, by omega⟩
      · simp only [Nat.add_sub_cancel]
        have : 2 ^ bit_length_loop fuel (n / 2)
            = 2 * 2 ^ (bit_length_loop fuel (n / 2) - 1) := by
          rw [← pow_succ']
          congr 1
          omega
        rw [this]
        omega
      · rw [pow_succ]
        omega

theorem bit_length_spec (n : Nat) (h : 0 < n) :
    2 ^ (bit_length n - 1) ≤ n ∧ n < 2 ^ bit_length n ∧ 0 < bit_length n :=
  bit_length_loop_spec n n (le_refl _) h

/-- The binade of `x ≠ 0` is the `e` with `2 ^ e ≤ |x| < 2 ^ (e + 1)`. -/
theorem binade_spec (x : ℚ) (hx : x ≠ 0) :
    (2 : ℚ) ^ binade x ≤ |x| ∧ |x| < (2 : ℚ) ^ (binade x + 1) := by
  have hnum : 0 < x.num.natAbs := Int.natAbs_pos.2 (Rat.num_ne_zero.2 hx)
  have hden : 0 < x.den := x.den_pos
  obtain ⟨n1, n2, n3⟩ := bit_length_spec _ hnum
  obtain ⟨d1, d2, d3⟩ := bit_length_spec _ hden
  have habs : |x| = (x.num.natAbs : ℚ) / (x.den : ℚ) := by
    have hx2 : x = (x.num : ℚ) / (x.den : ℚ) := (Rat.num_div_den x).symm
    rw [Nat.cast_natAbs, Int.cast_abs]
    conv_lhs => rw [hx2]
    rw [abs_div, Nat.abs_cast]
  have hdq : (0 : ℚ) < (x.den : ℚ) := by exact_mod_cast hden
  have n1' : (2 : ℚ) ^ ((bit_length x.num.natAbs : Int) - 1) ≤ (x.num.natAbs : ℚ) := by
    have : ((bit_length x.num.natAbs : Int) - 1) = ((bit_length x.num.natAbs - 1 : Nat) : Int) := by
      omega
    rw [this, zpow_natCast]
    exact_mod_cast n1
  have n2' : (x.num.natAbs : ℚ) < (2 : ℚ) ^ (bit_length x.num.natAbs : Int) := by
    rw [zpow_natCast]
    exact_mod_cast n2
  have d1' : (2 : ℚ) ^ ((bit_length x.den : Int) - 1) ≤ (x.den : ℚ) := by
    have : ((bit_length x.den : Int) - 1) = ((bit_length x.den - 1 : Nat) : Int) := by
      omega
    rw [this, zpow_natCast]
    exact_mod_cast d1
  have d2' : (x.den : ℚ) < (2 : ℚ) ^ (bit_length x.den : Int) := by
    rw [zpow_natCast]
    exact_mod_cast d2
  have h2 : (0 : ℚ) < 2 := by norm_num
  have h2ne : (2 : ℚ) ≠ 0 := by norm_num
  -- |x| lies strictly between 2^(e0 - 1) and 2^(e0 + 1)
  have lo : (2 : ℚ) ^ ((bit_length x.num.natAbs : Int) - (bit_length x.den : Int) - 1) < |x| := by
    rw [habs, lt_div_iff₀ hdq]
    calc (2 : ℚ) ^ ((bit_length x.num.natAbs : Int) - (bit_length x.den : Int) - 1) * (x.den : ℚ)
        < (2 : ℚ) ^ ((bit_length x.num.natAbs : Int) - (bit_length x.den : Int) - 1)
            * (2 : ℚ) ^ (bit_length x.den : Int) :=
          mul_lt_mul_of_pos_left d2' (zpow_pos h2 _)
      _ = (2 : ℚ) ^ ((bit_length x.num.natAbs : Int) - 1) := by
          rw [← zpow_add₀ h2ne]
          congr 1
          ring
      _ ≤ (x.num.natAbs : ℚ) := n1'
  have hi : |x| < (2 : ℚ) ^ ((bit_length x.num.natAbs : Int) - (bit_length x.den : Int) + 1) := by
    rw [habs, div_lt_iff₀ hdq]
    calc (x.num.natAbs : ℚ) < (2 : ℚ) ^ (bit_length x.num.natAbs : Int) := n2'
      _ = (2 : ℚ) ^ ((bit_length x.num.natAbs : Int) - (bit_length x.den : Int) + 1)
            * (2 : ℚ) ^ ((bit_length x.den : Int) - 1) := by
          rw [← zpow_add₀ h2ne]
          congr 1
          ring
      _ ≤ (2 : ℚ) ^ ((bit_length x.num.natAbs : Int) - (bit_length x.den : Int) + 1)
            * (x.den : ℚ) :=
          mul_le_mul_of_nonneg_left d1' (le_of_lt (zpow_pos h2 _))
  unfold binade
  simp only
  split_ifs with hc
  · exact ⟨hc, hi⟩
  · refine ⟨le_of_lt lo, ?_⟩
    rw [sub_add_cancel]
    exact not_le.1 hc

theorem round_half_even_floor (q : ℚ) :
    round_half_even q = ⌊q⌋ ∨ round_half_even q = ⌊q⌋ + 1 := by
  unfold round_half_even
  simp only
  split_ifs <;> simp

theorem round_half_even_error (q : ℚ) : |(round_half_even q : ℚ) - q| ≤ 1/2 := by
  have h1 := Int.floor_le q
  have h2 := Int.lt_floor_add_one q
  unfold round_half_even
  simp only
  rw [abs_le]
  split_ifs with c1 c2 c3
  · constructor <;> linarith
  · push_cast
    constructor <;> linarith
  · have : q - ⌊q⌋ = 1/2 := le_antisymm (not_lt.1 c2) (not_lt.1 c1)
    constructor <;> linarith
  · have : q - ⌊q⌋ = 1/2 := le_antisymm (not_lt.1 c2) (not_lt.1 c1)
    push_cast
    constructor <;> linarith

theorem round_half_even_int (n : Int) : round_half_even (n : ℚ) = n := by
  unfold round_half_even
  simp only [Int.floor_intCast, sub_self]
  rw [if_pos (by norm_num)]

theorem round_half_even_mono {q1 q2 : ℚ} (h : q1 ≤ q2) :
    round_half_even q1 ≤ round_half_even q2 := by
  have hf : ⌊q1⌋ ≤ ⌊q2⌋ := Int.floor_mono h
  rcases lt_or_eq_of_le hf with hlt | heq
  · have h1 : round_half_even q1 ≤ ⌊q1⌋ + 1 := by
      rcases round_half_even_floor q1 with e | e <;> rw [e] <;> omega
    have h2 : ⌊q2⌋ ≤ round_half_even q2 := by
      rcases round_half_even_floor q2 with e | e <;> rw [e] <;> omega
    omega
  · unfold round_half_even
    simp only
    rw [← heq]
    have hr : q1 - ⌊q1⌋ ≤ q2 - ⌊q1⌋ := by linarith
    split_ifs <;> first | omega | (exfalso; linarith)

theorem two_zpow_pos (e : Int) : (0 : ℚ) < (2 : ℚ) ^ e := zpow_pos (by norm_num) e

theorem two_zpow_succ (e : Int) : (2 : ℚ) ^ (e + 1) = 2 * (2 : ℚ) ^ e := by
  rw [zpow_add₀ (by norm_num : (2 : ℚ) ≠ 0), zpow_one, mul_comm]

theorem two_zpow_split (e : Int) : (2 : ℚ) ^ e = (2 : ℚ) ^ (52 : Int) * (2 : ℚ) ^ (e - 52) := by
  rw [← zpow_add₀ (by norm_num : (2 : ℚ) ≠ 0)]
  congr 1
  ring

theorem binary64_zero : binary64 0 = 0 := by
  simp [binary64]

theorem binary64_of_ne_zero {x : ℚ} (hx : x ≠ 0) :
    binary64 x
      = (round_half_even (x / (2 : ℚ) ^ (binade x - 52)) : ℚ) * (2 : ℚ) ^ (binade x - 52) := by
  unfold binary64
  rw [if_neg hx]

/-- The scaled significand of a positive `x` lies in `[2 ^ 52, 2 ^ 53)`. -/
theorem scaled_pos {x : ℚ} (hx : 0 < x) :
    (2 : ℚ) ^ (52 : Int) ≤ x / (2 : ℚ) ^ (binade x - 52)
      ∧ x / (2 : ℚ) ^ (binade x - 52) < (2 : ℚ) ^ (53 : Int) := by
  obtain ⟨h1, h2⟩ := binade_spec x (ne_of_gt hx)
  rw [abs_of_pos hx] at h1 h2
  have hq := two_zpow_pos (binade x - 52)
  constructor
  · rw [le_div_iff₀ hq, ← two_zpow_split]
    exact h1
  · rw [div_lt_iff₀ hq]
    have : (2 : ℚ) ^ (53 : Int) * (2 : ℚ) ^ (binade x - 52) = (2 : ℚ) ^ (binade x + 1) := by
      rw [← zpow_add₀ (by norm_num : (2 : ℚ) ≠ 0)]
      congr 1
      ring
    rw [this]
    exact h2

theorem scaled_neg {x : ℚ} (hx : x < 0) :
    -(2 : ℚ) ^ (53 : Int) < x / (2 : ℚ) ^ (binade x - 52)
      ∧ x / (2 : ℚ) ^ (binade x - 52) ≤ -(2 : ℚ) ^ (52 : Int) := by
  obtain ⟨h1, h2⟩ := binade_spec x (ne_of_lt hx)
  rw [abs_of_neg hx] at h1 h2
  have hq := two_zpow_pos (binade x - 52)
  constructor
  · rw [lt_div_iff₀ hq]
    have : (2 : ℚ) ^ (53 : Int) * (2 : ℚ) ^ (binade x - 52) = (2 : ℚ) ^ (binade x + 1) := by
      rw [← zpow_add₀ (by norm_num : (2 : ℚ) ≠ 0)]
      congr 1
      ring
    rw [neg_mul, this]
    linarith
  · rw [div_le_iff₀ hq, neg_mul, ← two_zpow_split]
    linarith

/-- A positive number rounds into the closure of its binade. -/
theorem binary64_pos_bounds {x : ℚ} (hx : 0 < x) :
    (2 : ℚ) ^ binade x ≤ binary64 x ∧ binary64 x ≤ (2 : ℚ) ^ (binade x + 1) := by
  obtain ⟨h1, h2⟩ := scaled_pos hx
  have hq := two_zpow_pos (binade x - 52)
  rw [binary64_of_ne_zero (ne_of_gt hx)]
  have m1 : ((2 ^ 52 : Int) : ℚ) ≤ (round_half_even (x / (2 : ℚ) ^ (binade x - 52)) : ℚ) := by
    have := round_half_even_mono (show (((2 ^ 52 : Int) : ℚ)) ≤ x / (2 : ℚ) ^ (binade x - 52) by
      push_cast
      exact_mod_cast h1)
    rw [round_half_even_int] at this
    exact_mod_cast this
  have m2 : (round_half_even (x / (2 : ℚ) ^ (binade x - 52)) : ℚ) ≤ ((2 ^ 53 : Int) : ℚ) := by
    have := round_half_even_mono (show x / (2 : ℚ) ^ (binade x - 52) ≤ (((2 ^ 53 : Int) : ℚ)) by
      push_cast
      exact_mod_cast le_of_lt h2)
    rw [round_half_even_int] at this
    exact_mod_cast this
  constructor
  · rw [two_zpow_split (binade x)]
    apply mul_le_mul_of_nonneg_right _ (le_of_lt hq)
    push_cast at m1
    exact_mod_cast m1
  · have : (2 : ℚ) ^ (binade x + 1) = (2 : ℚ) ^ (53 : Int) * (2 : ℚ) ^ (binade x - 52) := by
      rw [← zpow_add₀ (by norm_num : (2 : ℚ) ≠ 0)]
      congr 1
      ring
    rw [this]
    apply mul_le_mul_of_nonneg_right _ (le_of_lt hq)
    push_cast at m2
    exact_mod_cast m2

theorem binary64_neg_bounds {x : ℚ} (hx : x < 0) :
    -(2 : ℚ) ^ (binade x + 1) ≤ binary64 x ∧ binary64 x ≤ -(2 : ℚ) ^ binade x := by
  obtain ⟨h1, h2⟩ := scaled_neg hx
  have hq := two_zpow_pos (binade x - 52)
  rw [binary64_of_ne_zero (ne_of_lt hx)]
  have m1 : (round_half_even (x / (2 : ℚ) ^ (binade x - 52)) : ℚ) ≤ ((-(2 ^ 52) : Int) : ℚ) := by
    have := round_half_even_mono (show x / (2 : ℚ) ^ (binade x - 52) ≤ (((-(2 ^ 52) : Int)) : ℚ) by
      push_cast
      exact_mod_cast h2)
    rw [round_half_even_int] at this
    exact_mod_cast this
  have m2 : ((-(2 ^ 53) : Int) : ℚ) ≤ (round_half_even (x / (2 : ℚ) ^ (binade x - 52)) : ℚ) := by
    have := round_half_even_mono (show (((-(2 ^ 53) : Int)) : ℚ) ≤ x / (2 : ℚ) ^ (binade x - 52) by
      push_cast
      exact_mod_cast le_of_lt h1)
    rw [round_half_even_int] at this
    exact_mod_cast this
  constructor
  · have : (2 : ℚ) ^ (binade x + 1) = (2 : ℚ) ^ (53 : Int) * (2 : ℚ) ^ (binade x - 52) := by
      rw [← zpow_add₀ (by norm_num : (2 : ℚ) ≠ 0)]
      congr 1
      ring
    rw [this, ← neg_mul]
    apply mul_le_mul_of_nonneg_right _ (le_of_lt hq)
    push_cast at m2
    exact_mod_cast m2
  · rw [two_zpow_split (binade x), ← neg_mul]
    apply mul_le_mul_of_nonneg_right _ (le_of_lt hq)
    push_cast at m1
    exact_mod_cast m1

theorem binade_unique {y : ℚ} {k : Int} (h1 : (2 : ℚ) ^ k ≤ |y|) (h2 : |y| < (2 : ℚ) ^ (k + 1)) :
    binade y = k := by
  have hy : y ≠ 0 := by
    intro h
    rw [h, abs_zero] at h1
    exact absurd h1 (not_le.2 (two_zpow_pos k))
  obtain ⟨b1, b2⟩ := binade_spec y hy
  have c1 : (2 : ℚ) ^ k < (2 : ℚ) ^ (binade y + 1) := lt_of_le_of_lt h1 b2
  have c2 : (2 : ℚ) ^ binade y < (2 : ℚ) ^ (k + 1) := lt_of_le_of_lt b1 h2
  rw [zpow_lt_zpow_iff_right₀ (by norm_num : (1 : ℚ) < 2)] at c1 c2
  omega

theorem binade_neg (x : ℚ) : binade (-x) = binade x := by
  unfold binade
  simp only [Rat.neg_num, Rat.neg_den, Int.natAbs_neg, abs_neg]

theorem round_half_even_neg (q : ℚ) : round_half_even (-q) = -round_half_even q := by
  by_cases hint : (⌊q⌋ : ℚ) = q
  · rw [← hint, ← Int.cast_neg, round_half_even_int, round_half_even_int]
  · have h1 := Int.floor_le q
    have h2 := Int.lt_floor_add_one q
    have hlt : (⌊q⌋ : ℚ) < q := lt_of_le_of_ne h1 hint
    have hfl : ⌊-q⌋ = -⌊q⌋ - 1 := by
      rw [Int.floor_eq_iff]
      push_cast
      constructor <;> linarith
    unfold round_half_even
    simp only
    rw [hfl]
    push_cast
    split_ifs with c1 c2 c3 c4 c5 c6 c7 c8 c9 <;>
      first
        | omega
        | (exfalso; linarith)

theorem binary64_neg (x : ℚ) : binary64 (-x) = -binary64 x := by
  by_cases hx : x = 0
  · rw [hx]
    simp [binary64_zero]
  · rw [binary64_of_ne_zero hx, binary64_of_ne_zero (neg_ne_zero.2 hx), binade_neg, neg_div,
      round_half_even_neg]
    push_cast
    ring

/-- The error of rounding is at most half a unit in the last place, which is
at most `2 ^ (-53)` times the magnitude of the number. -/
theorem binary64_error (x : ℚ) : |binary64 x - x| ≤ unit_roundoff * |x| := by
  by_cases hx : x = 0
  · rw [hx, binary64_zero]
    simp
  · obtain ⟨b1, _⟩ := binade_spec x hx
    have hq := two_zpow_pos (binade x - 52)
    rw [binary64_of_ne_zero hx]
    have he := round_half_even_error (x / (2 : ℚ) ^ (binade x - 52))
    have hxe : x = x / (2 : ℚ) ^ (binade x - 52) * (2 : ℚ) ^ (binade x - 52) := by
      field_simp
    have h1 : (round_half_even (x / (2 : ℚ) ^ (binade x - 52)) : ℚ) * (2 : ℚ) ^ (binade x - 52) - x
        = ((round_half_even (x / (2 : ℚ) ^ (binade x - 52)) : ℚ)
            - x / (2 : ℚ) ^ (binade x - 52)) * (2 : ℚ) ^ (binade x - 52) := by
      rw [sub_mul]
      congr 1
    rw [h1, abs_mul, abs_of_pos hq]
    have h2 : (1 / 2 : ℚ) * (2 : ℚ) ^ (binade x - 52) = unit_roundoff * (2 : ℚ) ^ binade x := by
      rw [two_zpow_split (binade x)]
      unfold unit_roundoff
      norm_num
      ring
    calc |(round_half_even (x / (2 : ℚ) ^ (binade x - 52)) : ℚ) - x / (2 : ℚ) ^ (binade x - 52)|
          * (2 : ℚ) ^ (binade x - 52)
        ≤ (1 / 2) * (2 : ℚ) ^ (binade x - 52) := mul_le_mul_of_nonneg_right he (le_of_lt hq)
      _ = unit_roundoff * (2 : ℚ) ^ binade x := h2
      _ ≤ unit_roundoff * |x| :=
          mul_le_mul_of_nonneg_left b1 (by unfold unit_roundoff; norm_num)

theorem binary64_nonneg {x : ℚ} (hx : 0 ≤ x) : 0 ≤ binary64 x := by
  rcases eq_or_lt_of_le hx with h | h
  · rw [← h, binary64_zero]
  · exact le_trans (le_of_lt (two_zpow_pos _)) (binary64_pos_bounds h).1

theorem binary64_pos {x : ℚ} (hx : 0 < x) : 0 < binary64 x :=
  lt_of_lt_of_le (two_zpow_pos _) (binary64_pos_bounds hx).1

theorem binary64_neg_of_neg {x : ℚ} (hx : x < 0) : binary64 x < 0 := by
  have := (binary64_neg_bounds hx).2
  have := two_zpow_pos (binade x)
  linarith

theorem binade_mono_pos {x y : ℚ} (hx : 0 < x) (h : x ≤ y) : binade x ≤ binade y := by
  have hy : 0 < y := lt_of_lt_of_le hx h
  obtain ⟨b1, _⟩ := binade_spec x (ne_of_gt hx)
  obtain ⟨_, c2⟩ := binade_spec y (ne_of_gt hy)
  rw [abs_of_pos hx] at b1
  rw [abs_of_pos hy] at c2
  have : (2 : ℚ) ^ binade x < (2 : ℚ) ^ (binade y + 1) := lt_of_le_of_lt (le_trans b1 h) c2
  rw [zpow_lt_zpow_iff_right₀ (by norm_num : (1 : ℚ) < 2)] at this
  omega

theorem binary64_mono_pos {x y : ℚ} (hx : 0 < x) (h : x ≤ y) : binary64 x ≤ binary64 y := by
  have hy : 0 < y := lt_of_lt_of_le hx h
  rcases lt_or_eq_of_le (binade_mono_pos hx h) with hlt | heq
  · calc binary64 x ≤ (2 : ℚ) ^ (binade x + 1) := (binary64_pos_bounds hx).2
      _ ≤ (2 : ℚ) ^ binade y := zpow_le_zpow_right₀ (by norm_num) (by omega)
      _ ≤ binary64 y := (binary64_pos_bounds hy).1
  · rw [binary64_of_ne_zero (ne_of_gt hx), binary64_of_ne_zero (ne_of_gt hy), heq]
    have hq := two_zpow_pos (binade y - 52)
    apply mul_le_mul_of_nonneg_right _ (le_of_lt hq)
    have : x / (2 : ℚ) ^ (binade y - 52) ≤ y / (2 : ℚ) ^ (binade y - 52) :=
      div_le_div_of_nonneg_right h (le_of_lt hq)
    exact_mod_cast round_half_even_mono this

/-- Rounding is monotone. -/
theorem binary64_mono {x y : ℚ} (h : x ≤ y) : binary64 x ≤ binary64 y := by
  rcases lt_trichotomy x 0 with hx | hx | hx
  · rcases lt_trichotomy y 0 with hy | hy | hy
    · have := @binary64_mono_pos (-y) (-x) (by linarith) (by linarith)
      rw [binary64_neg, binary64_neg] at this
      linarith
    · rw [hy, binary64_zero]
      exact le_of_lt (binary64_neg_of_neg hx)
    · exact le_trans (le_of_lt (binary64_neg_of_neg hx)) (le_of_lt (binary64_pos hy))
  · rw [hx, binary64_zero]
    exact binary64_nonneg (by linarith)
  · exact binary64_mono_pos hx h

theorem binary64_idem_pos {x : ℚ} (hx : 0 < x) : binary64 (binary64 x) = binary64 x := by
  obtain ⟨h1, h2⟩ := scaled_pos hx
  obtain ⟨p1, p2⟩ := binary64_pos_bounds hx
  have hq := two_zpow_pos (binade x - 52)
  have hy : 0 < binary64 x := binary64_pos hx
  rcases lt_or_eq_of_le p2 with hlt | heq
  · have hb : binade (binary64 x) = binade x := by
      apply binade_unique
      · rw [abs_of_pos hy]; exact p1
      · rw [abs_of_pos hy]; exact hlt
    rw [binary64_of_ne_zero (ne_of_gt hy), hb]
    congr 1
    rw [binary64_of_ne_zero (ne_of_gt hx), mul_div_assoc, div_self (ne_of_gt hq), mul_one,
      round_half_even_int]
  · have hb : binade (binary64 x) = binade x + 1 := by
      apply binade_unique
      · rw [abs_of_pos hy, heq]
      · rw [abs_of_pos hy, heq]
        exact zpow_lt_zpow_right₀ (by norm_num) (by omega)
    rw [binary64_of_ne_zero (ne_of_gt hy), hb, heq]
    have e1 : (2 : ℚ) ^ (binade x + 1) / (2 : ℚ) ^ (binade x + 1 - 52) = ((2 ^ 52 : Int) : ℚ) := by
      rw [div_eq_iff (ne_of_gt (two_zpow_pos _))]
      push_cast
      rw [two_zpow_split (binade x + 1)]
      norm_num
    rw [e1, round_half_even_int]
    push_cast
    rw [two_zpow_split (binade x + 1)]
    norm_num

/-- A rounded number is not changed by rounding it again. -/
theorem binary64_idem (x : ℚ) : binary64 (binary64 x) = binary64 x := by
  rcases lt_trichotomy x 0 with hx | hx | hx
  · have := @binary64_idem_pos (-x) (by linarith)
    rw [binary64_neg, binary64_neg] at this
    linarith
  · rw [hx, binary64_zero, binary64_zero]
  · exact binary64_idem_pos hx

theorem binary64_one : binary64 1 = 1 := by decide!

/-! ### random_number in double precision -/

theorem binary64_of_double_le {x y : ℚ} (hy : binary64 y = y) (h : x ≤ y) : binary64 x ≤ y := by
  rw [← hy]
  exact binary64_mono h

theorem binary64_of_le_double {x y : ℚ} (hx : binary64 x = x) (h : x ≤ y) : x ≤ binary64 y := by
  rw [← hx]
  exact binary64_mono h

/-- The rounded quotient `(double)rand() / (double)(RAND_MAX)` lies in
`[0, 1]`, and is 1 for `rand() = RAND_MAX`. -/
theorem rand_fraction_range (RAND_MAX rand : Nat) (hR : 0 < RAND_MAX) (hr : rand ≤ RAND_MAX) :
    0 ≤ binary64 (binary64 (rand : ℚ) / binary64 (RAND_MAX : ℚ))
      ∧ binary64 (binary64 (rand : ℚ) / binary64 (RAND_MAX : ℚ)) ≤ 1
      ∧ binary64 (binary64 (RAND_MAX : ℚ) / binary64 (RAND_MAX : ℚ)) = 1 := by
  have h0 : (0 : ℚ) ≤ binary64 (rand : ℚ) := binary64_nonneg (by positivity)
  have hRq : (1 : ℚ) ≤ (RAND_MAX : ℚ) := by exact_mod_cast hR
  have h1 : (1 : ℚ) ≤ binary64 (RAND_MAX : ℚ) := binary64_of_le_double binary64_one hRq
  have h2 : binary64 (rand : ℚ) ≤ binary64 (RAND_MAX : ℚ) :=
    binary64_mono (by exact_mod_cast hr)
  have hpos : (0 : ℚ) < binary64 (RAND_MAX : ℚ) := by linarith
  refine ⟨binary64_nonneg (div_nonneg h0 (le_of_lt hpos)), ?_, ?_⟩
  · apply binary64_of_double_le binary64_one
    rw [div_le_one hpos]
    exact h2
  · rw [div_self (ne_of_gt hpos), binary64_one]

/-- The value `random_number` returns for `lowbound = lo` and
`range = fl(hi - lo)` with `lo < hi`. -/
theorem random_sum_range (RAND_MAX rand : Nat) (lo hi : ℚ) (hlo : binary64 lo = lo)
    (hR : 0 < RAND_MAX) (hr : rand ≤ RAND_MAX) (hlt : lo < hi) :
    lo ≤ binary64 (binary64 (binary64 (binary64 (rand : ℚ) / binary64 (RAND_MAX : ℚ))
              * binary64 (hi - lo)) + lo)
      ∧ binary64 (binary64 (binary64 (binary64 (rand : ℚ) / binary64 (RAND_MAX : ℚ))
              * binary64 (hi - lo)) + lo)
          ≤ binary64 (binary64 (hi - lo) + lo)
      ∧ binary64 (binary64 (binary64 (binary64 (RAND_MAX : ℚ) / binary64 (RAND_MAX : ℚ))
              * binary64 (hi - lo)) + lo)
          = binary64 (binary64 (hi - lo) + lo) := by
  obtain ⟨q0, q1, qR⟩ := rand_fraction_range RAND_MAX rand hR hr
  have hrange : 0 ≤ binary64 (hi - lo) := binary64_nonneg (by linarith)
  generalize binary64 (binary64 (rand : ℚ) / binary64 (RAND_MAX : ℚ)) = q at q0 q1
  have p0 : 0 ≤ binary64 (q * binary64 (hi - lo)) := binary64_nonneg (mul_nonneg q0 hrange)
  have p1 : binary64 (q * binary64 (hi - lo)) ≤ binary64 (hi - lo) := by
    apply binary64_of_double_le (binary64_idem _)
    nlinarith
  refine ⟨?_, ?_, ?_⟩
  · apply binary64_of_le_double hlo
    linarith
  · apply binary64_mono
    linarith
  · rw [qR, one_mul, binary64_idem]

/-- The value `random_number` returns at `rand() = RAND_MAX` exceeds the upper
bound by rounding errors only. -/
theorem random_sum_overshoot (lo hi : ℚ) (hlt : lo < hi) :
    binary64 (binary64 (hi - lo) + lo) ≤ hi + unit_roundoff * (|hi| + 2 * (hi - lo)) := by
  have hu : (0 : ℚ) ≤ unit_roundoff := by unfold unit_roundoff; norm_num
  have hu1 : unit_roundoff ≤ 1 := by unfold unit_roundoff; norm_num
  have e1 := binary64_error (hi - lo)
  have e2 := binary64_error (binary64 (hi - lo) + lo)
  rw [abs_of_pos (by linarith : 0 < hi - lo)] at e1
  have a1 := abs_le.1 e1
  have a2 := abs_le.1 e2
  have hs : |binary64 (hi - lo) + lo| ≤ |hi| + unit_roundoff * (hi - lo) := by
    have : binary64 (hi - lo) + lo = hi + (binary64 (hi - lo) - (hi - lo)) := by ring
    rw [this]
    calc |hi + (binary64 (hi - lo) - (hi - lo))|
        ≤ |hi| + |binary64 (hi - lo) - (hi - lo)| := abs_add _ _
      _ ≤ |hi| + unit_roundoff * (hi - lo) := by linarith
  have hd : 0 ≤ hi - lo := by linarith
  have h3 : unit_roundoff * |binary64 (hi - lo) + lo|
      ≤ unit_roundoff * (|hi| + unit_roundoff * (hi - lo)) :=
    mul_le_mul_of_nonneg_left hs hu
  have h4 : unit_roundoff * (unit_roundoff * (hi - lo)) ≤ unit_roundoff * (hi - lo) := by
    have := mul_le_mul_of_nonneg_right hu1 (mul_nonneg hu hd)
    linarith
  nlinarith [a1.2, a2.2]

/-- C23, the claim in double precision at the bounds `0.3` and `0.9` (the
doubles nearest to them) and `rand() = RAND_MAX = 32767`: the quotient is 1,
`range = fl(0.9 - 0.3)` is the double above `0.6`, and `range + 0.3` rounds to
`0.9000000000000001`, the double after `0.9`, which is above both bounds. -/
theorem C23_counterexample :
    binary64 (binary64 (3/10)) = binary64 (3/10)
      ∧ binary64 (binary64 (9/10)) = binary64 (9/10)
      ∧ binary64 (3/10) = 5404319552844595 / 18014398509481984
      ∧ binary64 (9/10) = 8106479329266893 / 9007199254740992
      ∧ random_number_fp binary64 32767 32767 (binary64 (3/10)) (binary64 (9/10))
          = 8106479329266894 / 9007199254740992
      ∧ ¬ (random_number_fp binary64 32767 32767 (binary64 (3/10)) (binary64 (9/10))
            ≤ max (binary64 (3/10)) (binary64 (9/10))) := by
  refine ⟨by decide!, by decide!, by decide!, by decide!, by decide!, by decide!⟩

/-- The range of `random_number` in double precision, for bounds that are
doubles. -/
theorem random_number_fp_range (RAND_MAX rand : Nat) (bound1 bound2 : ℚ)
    (h1 : binary64 bound1 = bound1) (h2 : binary64 bound2 = bound2)
    (hR : 0 < RAND_MAX) (hr : rand ≤ RAND_MAX) :
    min bound1 bound2 ≤ random_number_fp binary64 RAND_MAX rand bound1 bound2
      ∧ random_number_fp binary64 RAND_MAX rand bound1 bound2
          ≤ binary64 (binary64 (max bound1 bound2 - min bound1 bound2) + min bound1 bound2)
      ∧ (bound1 ≠ bound2 →
          random_number_fp binary64 RAND_MAX RAND_MAX bound1 bound2
            = binary64 (binary64 (max bound1 bound2 - min bound1 bound2) + min bound1 bound2))
      ∧ binary64 (binary64 (max bound1 bound2 - min bound1 bound2) + min bound1 bound2)
          ≤ max bound1 bound2
              + unit_roundoff * (|max bound1 bound2| + 2 * (max bound1 bound2 - min bound1 bound2))
      ∧ (bound1 = bound2 → random_number_fp binary64 RAND_MAX rand bound1 bound2 = bound1) := by
  rcases lt_trichotomy bound1 bound2 with hlt | heq | hgt
  · have hmin : min bound1 bound2 = bound1 := min_eq_left (le_of_lt hlt)
    have hmax : max bound1 bound2 = bound2 := max_eq_right (le_of_lt hlt)
    obtain ⟨r1, r2, r3⟩ := random_sum_range RAND_MAX rand bound1 bound2 h1 hR hr hlt
    have hov := random_sum_overshoot bound1 bound2 hlt
    rw [hmin, hmax]
    unfold random_number_fp
    rw [if_neg (not_lt.2 (le_of_lt hlt)), if_pos hlt]
    refine ⟨r1, r2, fun _ => ?_, hov, fun h => absurd h (ne_of_lt hlt)⟩
    rw [if_neg (not_lt.2 (le_of_lt hlt)), if_pos hlt]
    exact r3
  · subst heq
    have hs : bound1 - bound1 = 0 := sub_self _
    simp only [min_self, max_self]
    refine ⟨?_, ?_, fun h => absurd rfl h, ?_, ?_⟩
    · unfold random_number_fp
      simp
    · unfold random_number_fp
      simp only [gt_iff_lt, lt_self_iff_false, if_false]
      rw [hs, binary64_zero, zero_add, h1]
    · rw [hs, binary64_zero, zero_add, h1]
      have hu : (0 : ℚ) ≤ unit_roundoff := by unfold unit_roundoff; norm_num
      have := mul_nonneg hu (abs_nonneg bound1)
      linarith
    · intro _
      unfold random_number_fp
      simp
  · have hmin : min bound1 bound2 = bound2 := min_eq_right (le_of_lt hgt)
    have hmax : max bound1 bound2 = bound1 := max_eq_left (le_of_lt hgt)
    obtain ⟨r1, r2, r3⟩ := random_sum_range RAND_MAX rand bound2 bound1 h2 hR hr hgt
    have hov := random_sum_overshoot bound2 bound1 hgt
    rw [hmin, hmax]
    unfold random_number_fp
    rw [if_pos hgt]
    refine ⟨r1, r2, fun _ => ?_, hov, fun h => absurd h (ne_of_gt hgt)⟩
    rw [if_pos hgt]
    exact r3

/-- C23, amended: for bounds that are doubles, `RAND_MAX > 0` and every value
`rand() ≤ RAND_MAX`, with `lo` the smaller and `hi` the larger of the bounds,
`random_number` in double precision returns a value `r` with
`lo ≤ r ≤ fl(fl(hi - lo) + lo)`. The upper value is the one returned at
`rand() = RAND_MAX` (for two different bounds); it exceeds `hi` by at most
`2 ^ (-53) (|hi| + 2 (hi - lo))`. With `bound1 = bound2` the result is
`bound1`. With `fl` the identity the rounded reading is `random_number` of
the exact reading. -/
theorem C23_random_number_range_amended (RAND_MAX rand : Nat) (bound1 bound2 : ℚ)
    (h1 : binary64 bound1 = bound1) (h2 : binary64 bound2 = bound2)
    (hR : 0 < RAND_MAX) (hr : rand ≤ RAND_MAX) :
    min bound1 bound2 ≤ random_number_fp binary64 RAND_MAX rand bound1 bound2
      ∧ random_number_fp binary64 RAND_MAX rand bound1 bound2
          ≤ binary64 (binary64 (max bound1 bound2 - min bound1 bound2) + min bound1 bound2)
      ∧ (bound1 ≠ bound2 →
          random_number_fp binary64 RAND_MAX RAND_MAX bound1 bound2
            = binary64 (binary64 (max bound1 bound2 - min bound1 bound2) + min bound1 bound2))
      ∧ binary64 (binary64 (max bound1 bound2 - min bound1 bound2) + min bound1 bound2)
          ≤ max bound1 bound2
              + unit_roundoff * (|max bound1 bound2| + 2 * (max bound1 bound2 - min bound1 bound2))
      ∧ (bound1 = bound2 → random_number_fp binary64 RAND_MAX rand bound1 bound2 = bound1)
      ∧ random_number_fp id RAND_MAX rand bound1 bound2
          = random_number RAND_MAX rand bound1 bound2 := by
  obtain ⟨a1, a2, a3, a4, a5⟩ := random_number_fp_range RAND_MAX rand bound1 bound2 h1 h2 hR hr
  exact ⟨a1, a2, a3, a4, a5, rfl⟩

/-- C23, amended, at the bounds `0.9` and `0.3` given in descending order and
`rand() = 8192` of `RAND_MAX = 32767`. -/
theorem C23_random_number_range_amended_witness :
    min (binary64 (9/10)) (binary64 (3/10))
        ≤ random_number_fp binary64 32767 8192 (binary64 (9/10)) (binary64 (3/10))
      ∧ random_number_fp binary64 32767 8192 (binary64 (9/10)) (binary64 (3/10))
          ≤ binary64 (binary64 (max (binary64 (9/10)) (binary64 (3/10))
                - min (binary64 (9/10)) (binary64 (3/10)))
              + min (binary64 (9/10)) (binary64 (3/10)))
      ∧ (binary64 (9/10) ≠ binary64 (3/10) →
          random_number_fp binary64 32767 32767 (binary64 (9/10)) (binary64 (3/10))
            = binary64 (binary64 (max (binary64 (9/10)) (binary64 (3/10))
                  - min (binary64 (9/10)) (binary64 (3/10)))
                + min (binary64 (9/10)) (binary64 (3/10))))
      ∧ binary64 (binary64 (max (binary64 (9/10)) (binary64 (3/10))
              - min (binary64 (9/10)) (binary64 (3/10)))
            + min (binary64 (9/10)) (binary64 (3/10)))
          ≤ max (binary64 (9/10)) (binary64 (3/10))
              + unit_roundoff * (|max (binary64 (9/10)) (binary64 (3/10))|
                + 2 * (max (binary64 (9/10)) (binary64 (3/10))
                  - min (binary64 (9/10)) (binary64 (3/10))))
      ∧ (binary64 (9/10) = binary64 (3/10) →
          random_number_fp binary64 32767 8192 (binary64 (9/10)) (binary64 (3/10))
            = binary64 (9/10))
      ∧ random_number_fp id 32767 8192 (binary64 (9/10)) (binary64 (3/10))
          = random_number 32767 8192 (binary64 (9/10)) (binary64 (3/10)) :=
  C23_random_number_range_amended 32767 8192 (binary64 (9/10)) (binary64 (3/10))
    (binary64_idem _) (binary64_idem _) (by norm_num) (by norm_num)

/-! ### The trial location in double precision -/

theorem binary64_max {x y : ℚ} (hx : binary64 x = x) (hy : binary64 y = y) :
    binary64 (max x y) = max x y := by
  rcases le_total x y with h | h
  · rw [max_eq_right h]; exact hy
  · rw [max_eq_left h]; exact hx

theorem binary64_min {x y : ℚ} (hx : binary64 x = x) (hy : binary64 y = y) :
    binary64 (min x y) = min x y := by
  rcases le_total x y with h | h
  · rw [min_eq_left h]; exact hx
  · rw [min_eq_right h]; exact hy

/-- C18, amended: in an iteration of `dist_masses` with first dust band
`band`, whose edges and the two planet bounds are doubles, for every value
`rand() ≤ RAND_MAX` the trial semi-major axis computed in double precision
satisfies `lo ≤ a ≤ fl(fl(hi - lo) + lo)`, where `lo` and `hi` are the smaller
and the larger of `bound1 = max(band.inner_edge, planet_inner_bound)` and
`bound2 = min(band.outer_edge, planet_outer_bound)`; the upper value, which
is returned at `rand() = RAND_MAX`, exceeds `hi` by at most
`2 ^ (-53) (|hi| + 2 (hi - lo))`. When `bound1 ≤ bound2` (the band reaches
into the zone of the planets) this is
`max(band.inner_edge, planet_inner_bound) ≤ a ≤ fl(fl(bound2 - bound1) + bound1)`. -/
theorem C18_trial_location_amended (RAND_MAX rand : Nat) (band : dust)
    (planet_inner_bound planet_outer_bound : ℚ)
    (hbi : binary64 band.inner_edge = band.inner_edge)
    (hbo : binary64 band.outer_edge = band.outer_edge)
    (hpi : binary64 planet_inner_bound = planet_inner_bound)
    (hpo : binary64 planet_outer_bound = planet_outer_bound)
    (hR : 0 < RAND_MAX) (hr : rand ≤ RAND_MAX) :
    min (max band.inner_edge planet_inner_bound) (min band.outer_edge planet_outer_bound)
        ≤ trial_location_fp binary64 RAND_MAX rand band planet_inner_bound planet_outer_bound
      ∧ trial_location_fp binary64 RAND_MAX rand band planet_inner_bound planet_outer_bound
        ≤ binary64 (binary64
            (max (max band.inner_edge planet_inner_bound)
                (min band.outer_edge planet_outer_bound)
              - min (max band.inner_edge planet_inner_bound)
                (min band.outer_edge planet_outer_bound))
            + min (max band.inner_edge planet_inner_bound)
                (min band.outer_edge planet_outer_bound))
      ∧ binary64 (binary64
            (max (max band.inner_edge planet_inner_bound)
                (min band.outer_edge planet_outer_bound)
              - min (max band.inner_edge planet_inner_bound)
                (min band.outer_edge planet_outer_bound))
            + min (max band.inner_edge planet_inner_bound)
                (min band.outer_edge planet_outer_bound))
          ≤ max (max band.inner_edge planet_inner_bound)
                (min band.outer_edge planet_outer_bound)
            + unit_roundoff
              * (|max (max band.inner_edge planet_inner_bound)
                    (min band.outer_edge planet_outer_bound)|
                + 2 * (max (max band.inner_edge planet_inner_bound)
                    (min band.outer_edge planet_outer_bound)
                  - min (max band.inner_edge planet_inner_bound)
                    (min band.outer_edge planet_outer_bound)))
      ∧ (max band.inner_edge planet_inner_bound ≤ min band.outer_edge planet_outer_bound →
          max band.inner_edge planet_inner_bound
              ≤ trial_location_fp binary64 RAND_MAX rand band planet_inner_bound
                  planet_outer_bound
            ∧ trial_location_fp binary64 RAND_MAX rand band planet_inner_bound
                  planet_outer_bound
              ≤ binary64 (binary64 (min band.outer_edge planet_outer_bound
                    - max band.inner_edge planet_inner_bound)
                  + max band.inner_edge planet_inner_bound)) := by
  obtain ⟨a1, a2, _, a4, _⟩ := random_number_fp_range RAND_MAX rand
    (trial_bound1 band planet_inner_bound) (trial_bound2 band planet_outer_bound)
    (by rw [trial_bound1_eq]; exact binary64_max hbi hpi)
    (by rw [trial_bound2_eq]; exact binary64_min hbo hpo) hR hr
  rw [trial_bound1_eq, trial_bound2_eq] at a1 a2 a4
  unfold trial_location_fp
  rw [trial_bound1_eq, trial_bound2_eq]
  refine ⟨a1, a2, a4, fun hle => ?_⟩
  rw [min_eq_left hle] at a1
  rw [min_eq_left hle, max_eq_right hle] at a2
  exact ⟨a1, a2⟩

/-- C18, amended, at the band `[1/4, 1]` across `planet_inner_bound = 0.3` and
`rand() = 16384` of `RAND_MAX = 32767`. -/
theorem C18_trial_location_amended_witness :
    min (max (1/4 : ℚ) (binary64 (3/10))) (min 1 50)
        ≤ trial_location_fp binary64 32767 16384 ⟨1/4, 1, true, true⟩ (binary64 (3/10)) 50
      ∧ trial_location_fp binary64 32767 16384 ⟨1/4, 1, true, true⟩ (binary64 (3/10)) 50
        ≤ binary64 (binary64
            (max (max (1/4 : ℚ) (binary64 (3/10))) (min 1 50)
              - min (max (1/4 : ℚ) (binary64 (3/10))) (min 1 50))
            + min (max (1/4 : ℚ) (binary64 (3/10))) (min 1 50))
      ∧ binary64 (binary64
            (max (max (1/4 : ℚ) (binary64 (3/10))) (min 1 50)
              - min (max (1/4 : ℚ) (binary64 (3/10))) (min 1 50))
            + min (max (1/4 : ℚ) (binary64 (3/10))) (min 1 50))
          ≤ max (max (1/4 : ℚ) (binary64 (3/10))) (min 1 50)
            + unit_roundoff
              * (|max (max (1/4 : ℚ) (binary64 (3/10))) (min 1 50)|
                + 2 * (max (max (1/4 : ℚ) (binary64 (3/10))) (min 1 50)
                  - min (max (1/4 : ℚ) (binary64 (3/10))) (min 1 50)))
      ∧ (max (1/4 : ℚ) (binary64 (3/10)) ≤ min 1 50 →
          max (1/4 : ℚ) (binary64 (3/10))
              ≤ trial_location_fp binary64 32767 16384 ⟨1/4, 1, true, true⟩
                  (binary64 (3/10)) 50
            ∧ trial_location_fp binary64 32767 16384 ⟨1/4, 1, true, true⟩
                  (binary64 (3/10)) 50
              ≤ binary64 (binary64 (min 1 50 - max (1/4 : ℚ) (binary64 (3/10)))
                  + max (1/4 : ℚ) (binary64 (3/10)))) :=
  C18_trial_location_amended 32767 16384 ⟨1/4, 1, true, true⟩ (binary64 (3/10)) 50
    (by decide!) (by decide!) (binary64_idem _) (by decide!) (by norm_num) (by norm_num)

/-! ### The merged orbit in double precision -/

theorem unit_roundoff_pos : (0 : ℚ) < unit_roundoff := by
  unfold unit_roundoff
  norm_num

/-- Rounding a number that is not negative changes it by a factor between
`1 - 2 ^ (-53)` and `1 + 2 ^ (-53)`. -/
theorem binary64_rel {x : ℚ} (hx : 0 ≤ x) :
    x * (1 - unit_roundoff) ≤ binary64 x ∧ binary64 x ≤ x * (1 + unit_roundoff) := by
  have h := abs_le.1 (binary64_error x)
  rw [abs_of_nonneg hx] at h
  constructor <;> linarith [h.1, h.2]

/-- The exact merged orbit lies between the two orbits. -/
theorem merged_orbit_between (n : planets) (a mass : ℚ)
    (hnm : 0 < n.mass) (hm : 0 < mass) (hna : 0 < n.a) (ha : 0 < a) :
    min n.a a ≤ merged_orbit n a mass ∧ merged_orbit n a mass ≤ max n.a a := by
  have hden : 0 < n.mass * a + mass * n.a := by positivity
  have heq := merged_orbit_eq n a mass hna ha
  constructor
  · rw [heq, le_div_iff₀ hden]
    rcases le_total n.a a with h | h
    · rw [min_eq_left h]
      nlinarith [mul_nonneg (le_of_lt hnm) (mul_nonneg (le_of_lt hna) (sub_nonneg.2 h)),
        mul_pos hm hna, mul_pos hnm ha]
    · rw [min_eq_right h]
      nlinarith [mul_nonneg (le_of_lt hm) (mul_nonneg (le_of_lt ha) (sub_nonneg.2 h)),
        mul_pos hm hna, mul_pos hnm ha]
  · rw [heq, div_le_iff₀ hden]
    rcases le_total n.a a with h | h
    · rw [max_eq_right h]
      nlinarith [mul_nonneg (le_of_lt hm) (mul_nonneg (le_of_lt ha) (sub_nonneg.2 h)),
        mul_pos hm hna, mul_pos hnm ha]
    · rw [max_eq_left h]
      nlinarith [mul_nonneg (le_of_lt hnm) (mul_nonneg (le_of_lt hna) (sub_nonneg.2 h)),
        mul_pos hm hna, mul_pos hnm ha]

/-- Arithmetic of a quotient whose terms carry rounding errors. -/
theorem rounded_quotient {u T S Nn X D Q r A : ℚ} (hu0 : 0 < u) (hu1 : u < 1)
    (hS : 0 < S) (hA : A * S = T) (hD : 0 < D) (hQ : Q * D = Nn) (hQ0 : 0 < Q)
    (N1 : T * (1 - u) ≤ Nn) (N2 : Nn ≤ T * (1 + u))
    (X1 : S * (1 - u) ≤ X) (X2 : X ≤ S * (1 + u))
    (D1 : X * (1 - u) ≤ D) (D2 : D ≤ X * (1 + u))
    (R1 : Q * (1 - u) ≤ r) (R2 : r ≤ Q * (1 + u)) :
    0 < r ∧ A * (1 - u) ^ 2 ≤ r * (1 + u) ^ 2 ∧ r * (1 - u) ^ 2 ≤ A * (1 + u) ^ 2 := by
  have hm1 : 0 < 1 - u := by linarith
  have hp1 : 0 < 1 + u := by linarith
  have Dlo : S * (1 - u) * (1 - u) ≤ D :=
    le_trans (mul_le_mul_of_nonneg_right X1 (le_of_lt hm1)) D1
  have Dhi : D ≤ S * (1 + u) * (1 + u) :=
    le_trans D2 (mul_le_mul_of_nonneg_right X2 (le_of_lt hp1))
  have hr : 0 < r := lt_of_lt_of_le (mul_pos hQ0 hm1) R1
  refine ⟨hr, ?_, ?_⟩
  · -- A S (1-u) ≤ Nn = Q D ≤ Q S (1+u)^2
    have s1 : A * S * (1 - u) ≤ Q * D := by rw [hQ, hA]; exact N1
    have s2 : Q * D ≤ Q * (S * (1 + u) * (1 + u)) :=
      mul_le_mul_of_nonneg_left Dhi (le_of_lt hQ0)
    have s3 : A * (1 - u) ≤ Q * ((1 + u) * (1 + u)) := by
      have h : (A * (1 - u)) * S ≤ (Q * ((1 + u) * (1 + u))) * S := by
        calc (A * (1 - u)) * S = A * S * (1 - u) := by ring
          _ ≤ Q * D := s1
          _ ≤ Q * (S * (1 + u) * (1 + u)) := s2
          _ = (Q * ((1 + u) * (1 + u))) * S := by ring
      exact le_of_mul_le_mul_right h hS
    calc A * (1 - u) ^ 2 = (A * (1 - u)) * (1 - u) := by ring
      _ ≤ (Q * ((1 + u) * (1 + u))) * (1 - u) :=
          mul_le_mul_of_nonneg_right s3 (le_of_lt hm1)
      _ = (Q * (1 - u)) * ((1 + u) * (1 + u)) := by ring
      _ ≤ r * ((1 + u) * (1 + u)) :=
          mul_le_mul_of_nonneg_right R1 (le_of_lt (mul_pos hp1 hp1))
      _ = r * (1 + u) ^ 2 := by ring
  · have s1 : Q * D ≤ A * S * (1 + u) := by rw [hQ, hA]; exact N2
    have s2 : Q * (S * (1 - u) * (1 - u)) ≤ Q * D :=
      mul_le_mul_of_nonneg_left Dlo (le_of_lt hQ0)
    have s3 : Q * ((1 - u) * (1 - u)) ≤ A * (1 + u) := by
      have h : (Q * ((1 - u) * (1 - u))) * S ≤ (A * (1 + u)) * S := by
        calc (Q * ((1 - u) * (1 - u))) * S = Q * (S * (1 - u) * (1 - u)) := by ring
          _ ≤ Q * D := s2
          _ ≤ A * S * (1 + u) := s1
          _ = (A * (1 + u)) * S := by ring
      exact le_of_mul_le_mul_right h hS
    calc r * (1 - u) ^ 2 = r * ((1 - u) * (1 - u)) := by ring
      _ ≤ (Q * (1 + u)) * ((1 - u) * (1 - u)) :=
          mul_le_mul_of_nonneg_right R2 (le_of_lt (mul_pos hm1 hm1))
      _ = (Q * ((1 - u) * (1 - u))) * (1 + u) := by ring
      _ ≤ (A * (1 + u)) * (1 + u) := mul_le_mul_of_nonneg_right s3 (le_of_lt hp1)
      _ = A * (1 + u) ^ 2 := by ring

/-- The merged orbit computed in double precision against the exact one:
four roundings, two of them in the divisor. -/
theorem merged_orbit_fp_close (n : planets) (a mass : ℚ)
    (hnm : 0 < n.mass) (hm : 0 < mass) (hna : 0 < n.a) (ha : 0 < a) :
    0 < merged_orbit_fp binary64 n a mass
      ∧ merged_orbit n a mass * (1 - unit_roundoff) ^ 2
          ≤ merged_orbit_fp binary64 n a mass * (1 + unit_roundoff) ^ 2
      ∧ merged_orbit_fp binary64 n a mass * (1 - unit_roundoff) ^ 2
          ≤ merged_orbit n a mass * (1 + unit_roundoff) ^ 2 := by
  have hu := unit_roundoff_pos
  have hu1 : unit_roundoff < 1 := by unfold unit_roundoff; norm_num
  have hq1 : 0 < n.mass / n.a := div_pos hnm hna
  have hq2 : 0 < mass / a := div_pos hm ha
  have hS : 0 < n.mass / n.a + mass / a := by linarith
  obtain ⟨N1, N2⟩ := @binary64_rel (n.mass + mass) (by linarith)
  obtain ⟨A1, A2⟩ := @binary64_rel (n.mass / n.a) (le_of_lt hq1)
  obtain ⟨B1, B2⟩ := @binary64_rel (mass / a) (le_of_lt hq2)
  have hfa : 0 < binary64 (n.mass / n.a) := binary64_pos hq1
  have hfb : 0 < binary64 (mass / a) := binary64_pos hq2
  obtain ⟨D1, D2⟩ := @binary64_rel (binary64 (n.mass / n.a) + binary64 (mass / a)) (by linarith)
  have hD : 0 < binary64 (binary64 (n.mass / n.a) + binary64 (mass / a)) :=
    binary64_pos (by linarith)
  have hN : 0 < binary64 (n.mass + mass) := binary64_pos (by linarith)
  have hND : 0 < binary64 (n.mass + mass)
      / binary64 (binary64 (n.mass / n.a) + binary64 (mass / a)) := div_pos hN hD
  obtain ⟨R1, R2⟩ := @binary64_rel (binary64 (n.mass + mass)
      / binary64 (binary64 (n.mass / n.a) + binary64 (mass / a))) (le_of_lt hND)
  have hA : merged_orbit n a mass * (n.mass / n.a + mass / a) = n.mass + mass := by
    unfold merged_orbit
    field_simp
  have X1 : (n.mass / n.a + mass / a) * (1 - unit_roundoff)
      ≤ binary64 (n.mass / n.a) + binary64 (mass / a) := by
    rw [add_mul]; exact add_le_add A1 B1
  have X2 : binary64 (n.mass / n.a) + binary64 (mass / a)
      ≤ (n.mass / n.a + mass / a) * (1 + unit_roundoff) := by
    rw [add_mul]; exact add_le_add A2 B2
  unfold merged_orbit_fp
  exact rounded_quotient hu hu1 hS hA hD (div_mul_cancel₀ _ (ne_of_gt hD)) hND N1 N2 X1 X2 D1 D2
    R1 R2

/-- C36, the claim in double precision. A node of mass 1 at `a = 93` and an
incoming body of mass `2 ^ (-60)` at `a = 94`: the sum of the masses rounds
to 1, `1/93 + 2 ^ (-60) / 94` rounds to the double nearest `1/93`, and the
quotient rounds to `92.99999999999999`, the double before 93, which is below
both orbits. A node of mass 1 and a body of mass 2, both at `a = 5`:
`new_orbit = 4.999999999999999`. -/
theorem C36_counterexample :
    merged_orbit_fp binary64 { a := 93, mass := 1 } 94 (1 / 2 ^ 60)
        = 93 - 1 / 2 ^ 46
      ∧ ¬ (min (93 : ℚ) 94 ≤ merged_orbit_fp binary64 { a := 93, mass := 1 } 94 (1 / 2 ^ 60))
      ∧ binary64 93 = 93 ∧ binary64 94 = 94 ∧ binary64 (1 / 2 ^ 60) = 1 / 2 ^ 60
      ∧ merged_orbit_fp binary64 { a := 5, mass := 1 } 5 2 = 5 - 1 / 2 ^ 50
      ∧ ¬ (min (5 : ℚ) 5 ≤ merged_orbit_fp binary64 { a := 5, mass := 1 } 5 2) := by
  refine ⟨by decide!, by decide!, by decide!, by decide!, by decide!, by decide!, by decide!⟩

/-- C36, amended: for positive masses and positive semi-major axes the value
`new_orbit` computed in double precision is positive and lies between
`min(a1, a2) (1 - 5 * 2 ^ (-53))` and `max(a1, a2) (1 + 5 * 2 ^ (-53))`: it
differs from the exact value `(m1 + m2) / (m1/a1 + m2/a2)`, which lies
between the two orbits, by the four roundings of its computation. It is the
same when the node and the incoming body change places. -/
theorem C36_merged_orbit_between_amended (n : planets) (a mass : ℚ)
    (hnm : 0 < n.mass) (hm : 0 < mass) (hna : 0 < n.a) (ha : 0 < a) :
    0 < merged_orbit_fp binary64 n a mass
      ∧ min n.a a * (1 - 5 * unit_roundoff) ≤ merged_orbit_fp binary64 n a mass
      ∧ merged_orbit_fp binary64 n a mass ≤ max n.a a * (1 + 5 * unit_roundoff)
      ∧ merged_orbit n a mass * (1 - unit_roundoff) ^ 2
          ≤ merged_orbit_fp binary64 n a mass * (1 + unit_roundoff) ^ 2
      ∧ merged_orbit_fp binary64 n a mass * (1 - unit_roundoff) ^ 2
          ≤ merged_orbit n a mass * (1 + unit_roundoff) ^ 2
      ∧ min n.a a ≤ merged_orbit n a mass ∧ merged_orbit n a mass ≤ max n.a a
      ∧ merged_orbit_fp id n a mass = merged_orbit n a mass
      ∧ merged_orbit_fp binary64 n a mass
          = merged_orbit_fp binary64 { n with a := a, mass := mass } n.a n.mass := by
  obtain ⟨c0, c1, c2⟩ := merged_orbit_fp_close n a mass hnm hm hna ha
  obtain ⟨b1, b2⟩ := merged_orbit_between n a mass hnm hm hna ha
  have hmin : 0 < min n.a a := lt_min hna ha
  have hmax : 0 < max n.a a := lt_of_lt_of_le hna (le_max_left _ _)
  have hu := unit_roundoff_pos
  have hlo : (1 - 5 * unit_roundoff) * (1 + unit_roundoff) ^ 2 ≤ (1 - unit_roundoff) ^ 2 := by
    unfold unit_roundoff
    norm_num
  have hhi : (1 + unit_roundoff) ^ 2 ≤ (1 + 5 * unit_roundoff) * (1 - unit_roundoff) ^ 2 := by
    unfold unit_roundoff
    norm_num
  have hp : (0 : ℚ) < (1 + unit_roundoff) ^ 2 := by positivity
  have hq : (0 : ℚ) < (1 - unit_roundoff) ^ 2 := by
    unfold unit_roundoff
    norm_num
  refine ⟨c0, ?_, ?_, c1, c2, b1, b2, rfl, ?_⟩
  · have h1 : min n.a a * (1 - 5 * unit_roundoff) * (1 + unit_roundoff) ^ 2
        ≤ merged_orbit_fp binary64 n a mass * (1 + unit_roundoff) ^ 2 := by
      calc min n.a a * (1 - 5 * unit_roundoff) * (1 + unit_roundoff) ^ 2
          = min n.a a * ((1 - 5 * unit_roundoff) * (1 + unit_roundoff) ^ 2) := by ring
        _ ≤ min n.a a * (1 - unit_roundoff) ^ 2 :=
            mul_le_mul_of_nonneg_left hlo (le_of_lt hmin)
        _ ≤ merged_orbit n a mass * (1 - unit_roundoff) ^ 2 :=
            mul_le_mul_of_nonneg_right b1 (le_of_lt hq)
        _ ≤ merged_orbit_fp binary64 n a mass * (1 + unit_roundoff) ^ 2 := c1
    exact le_of_mul_le_mul_right h1 hp
  · have h1 : merged_orbit_fp binary64 n a mass * (1 - unit_roundoff) ^ 2
        ≤ max n.a a * (1 + 5 * unit_roundoff) * (1 - unit_roundoff) ^ 2 := by
      calc merged_orbit_fp binary64 n a mass * (1 - unit_roundoff) ^ 2
          ≤ merged_orbit n a mass * (1 + unit_roundoff) ^ 2 := c2
        _ ≤ max n.a a * (1 + unit_roundoff) ^ 2 :=
            mul_le_mul_of_nonneg_right b2 (le_of_lt hp)
        _ ≤ max n.a a * ((1 + 5 * unit_roundoff) * (1 - unit_roundoff) ^ 2) :=
            mul_le_mul_of_nonneg_left hhi (le_of_lt hmax)
        _ = max n.a a * (1 + 5 * unit_roundoff) * (1 - unit_roundoff) ^ 2 := by ring
    exact le_of_mul_le_mul_right h1 hq
  · unfold merged_orbit_fp
    simp only
    rw [add_comm n.mass mass, add_comm (binary64 (n.mass / n.a)) (binary64 (mass / a))]

/-- C36, amended, for a node of mass 1 at `a = 93` and a body of mass
`2 ^ (-60)` at `a = 94`. -/
theorem C36_merged_orbit_between_amended_witness :
    0 < merged_orbit_fp binary64 { a := 93, mass := 1 } 94 (1 / 2 ^ 60)
      ∧ min 93 94 * (1 - 5 * unit_roundoff)
          ≤ merged_orbit_fp binary64 { a := 93, mass := 1 } 94 (1 / 2 ^ 60)
      ∧ merged_orbit_fp binary64 { a := 93, mass := 1 } 94 (1 / 2 ^ 60)
          ≤ max 93 94 * (1 + 5 * unit_roundoff)
      ∧ merged_orbit { a := 93, mass := 1 } 94 (1 / 2 ^ 60) * (1 - unit_roundoff) ^ 2
          ≤ merged_orbit_fp binary64 { a := 93, mass := 1 } 94 (1 / 2 ^ 60)
              * (1 + unit_roundoff) ^ 2
      ∧ merged_orbit_fp binary64 { a := 93, mass := 1 } 94 (1 / 2 ^ 60)
            * (1 - unit_roundoff) ^ 2
          ≤ merged_orbit { a := 93, mass := 1 } 94 (1 / 2 ^ 60) * (1 + unit_roundoff) ^ 2
      ∧ min 93 94 ≤ merged_orbit { a := 93, mass := 1 } 94 (1 / 2 ^ 60)
      ∧ merged_orbit { a := 93, mass := 1 } 94 (1 / 2 ^ 60) ≤ max 93 94
      ∧ merged_orbit_fp id { a := 93, mass := 1 } 94 (1 / 2 ^ 60)
          = merged_orbit { a := 93, mass := 1 } 94 (1 / 2 ^ 60)
      ∧ merged_orbit_fp binary64 { a := 93, mass := 1 } 94 (1 / 2 ^ 60)
          = merged_orbit_fp binary64 { a := 94, mass := 1 / 2 ^ 60 } 93 1 :=
  C36_merged_orbit_between_amended { a := 93, mass := 1 } 94 (1 / 2 ^ 60) (by norm_num)
    (by norm_num) (by norm_num) (by norm_num)

/-! ### The eccentricity of merged circular orbits in double precision -/

/-- The entries of `double_libm` are the doubles nearest to the exact values:
each square root and fourth root of the table lies within half a unit in the
last place of its entry. -/
theorem double_libm_entries :
    sqrt_rounded 1 (double_libm.sqrt 1) ∧ sqrt_rounded 49 (double_libm.sqrt 49)
    ∧ sqrt_rounded 50 (double_libm.sqrt 50)
    ∧ sqrt_rounded (6896136929411073/140737488355328)
        (double_libm.sqrt (6896136929411073/140737488355328))
    ∧ sqrt_rounded (1/4503599627370496) (double_libm.sqrt (1/4503599627370496))
    ∧ fourth_root_rounded (1/16) (double_libm.pow (1/16) 0.25)
    ∧ fourth_root_rounded (316912650057057/316912650057057350374175801344)
        (double_libm.pow (316912650057057/316912650057057350374175801344) 0.25) := by
  refine ⟨?_, ?_, ?_, ?_, ?_, ?_, ?_⟩ <;> decide!

/-- The first loop of `collect_dust` is a chain of rounded additions of the
terms of the bands it does not skip. -/
theorem accumulate_mass_fp_fold (fl : ℚ → ℚ) (M : Libm)
    (dust_density r_inner r_outer reduced_mass mass a e crit_mass : ℚ) (cloud : List dust) :
    ∀ acc : ℚ,
      accumulate_mass_fp fl M dust_density r_inner r_outer reduced_mass mass a e crit_mass acc
          cloud
        = ((cloud.filter (fun band => !band_skipped r_inner r_outer mass crit_mass band)).map
            (band_gain_fp fl M dust_density r_inner r_outer reduced_mass mass a e
              crit_mass)).foldl (fun acc g => fl (acc + g)) acc := by
  induction cloud with
  | nil => intro acc; rfl
  | cons band rest ih =>
    intro acc
    rw [accumulate_mass_fp]
    split_ifs with hs
    · rw [ih, List.filter_cons_of_neg (by simp [hs])]
    · rw [ih, List.filter_cons_of_pos (by simp [hs])]
      rfl

/-- A chain of rounded additions of non-negative terms, started at a double
`acc ≥ m ≥ 0`: the result is a double, it is not below `acc`, it is not below
the rounded sum of `m` and any one term, and it differs from the exact sum by
at most `u / (1 - u)` times itself for each term. -/
theorem rounded_fold_bounds (m : ℚ) (hm0 : 0 ≤ m) :
    ∀ (gs : List ℚ) (acc : ℚ), (∀ g ∈ gs, 0 ≤ g) → m ≤ acc → binary64 acc = acc →
      acc ≤ gs.foldl (fun acc g => binary64 (acc + g)) acc
      ∧ binary64 (gs.foldl (fun acc g => binary64 (acc + g)) acc)
          = gs.foldl (fun acc g => binary64 (acc + g)) acc
      ∧ (∀ g ∈ gs, binary64 (m + g) ≤ gs.foldl (fun acc g => binary64 (acc + g)) acc)
      ∧ (1 - unit_roundoff) * |gs.foldl (fun acc g => binary64 (acc + g)) acc - acc - gs.sum|
          ≤ gs.length * unit_roundoff * gs.foldl (fun acc g => binary64 (acc + g)) acc := by
  have hu := unit_roundoff_pos
  have hu1 : unit_roundoff < 1 := by unfold unit_roundoff; norm_num
  intro gs
  induction gs with
  | nil =>
    intro acc _ _ hd
    simp [hd]
  | cons g rest ih =>
    intro acc hg hacc hd
    have hg0 : 0 ≤ g := hg g (List.mem_cons_self _ _)
    have hrest : ∀ x ∈ rest, 0 ≤ x := fun x hx => hg x (List.mem_cons_of_mem _ hx)
    have hstep : acc ≤ binary64 (acc + g) := by
      have := @binary64_mono acc (acc + g) (by linarith)
      rw [hd] at this
      exact this
    obtain ⟨i1, i2, i3, i4⟩ := ih (binary64 (acc + g)) hrest (le_trans hacc hstep)
      (binary64_idem _)
    simp only [List.foldl_cons, List.sum_cons, List.length_cons]
    set R := rest.foldl (fun acc g => binary64 (acc + g)) (binary64 (acc + g)) with hR
    have hacc0 : 0 ≤ acc := le_trans hm0 hacc
    obtain ⟨r1, r2⟩ := @binary64_rel (acc + g) (by linarith)
    have hR0 : 0 ≤ R := le_trans (le_trans hacc0 hstep) i1
    refine ⟨le_trans hstep i1, i2, ?_, ?_⟩
    · intro x hx
      rcases List.mem_cons.1 hx with h | h
      · rw [h]
        exact le_trans (binary64_mono (by linarith)) i1
      · exact i3 x h
    · -- the error of this addition
      have e1 : (1 - unit_roundoff) * |binary64 (acc + g) - (acc + g)| ≤ unit_roundoff * R := by
        have hb := binary64_error (acc + g)
        rw [abs_of_nonneg (by linarith : (0 : ℚ) ≤ acc + g)] at hb
        calc (1 - unit_roundoff) * |binary64 (acc + g) - (acc + g)|
            ≤ (1 - unit_roundoff) * (unit_roundoff * (acc + g)) :=
              mul_le_mul_of_nonneg_left hb (by linarith)
          _ = unit_roundoff * ((acc + g) * (1 - unit_roundoff)) := by ring
          _ ≤ unit_roundoff * binary64 (acc + g) :=
              mul_le_mul_of_nonneg_left r1 (le_of_lt hu)
          _ ≤ unit_roundoff * R := mul_le_mul_of_nonneg_left i1 (le_of_lt hu)
      have tri : |R - acc - (g + rest.sum)|
          ≤ |R - binary64 (acc + g) - rest.sum| + |binary64 (acc + g) - (acc + g)| := by
        have : R - acc - (g + rest.sum)
            = (R - binary64 (acc + g) - rest.sum) + (binary64 (acc + g) - (acc + g)) := by ring
        rw [this]
        exact abs_add _ _
      calc (1 - unit_roundoff) * |R - acc - (g + rest.sum)|
          ≤ (1 - unit_roundoff) * (|R - binary64 (acc + g) - rest.sum|
              + |binary64 (acc + g) - (acc + g)|) :=
            mul_le_mul_of_nonneg_left tri (by linarith)
        _ = (1 - unit_roundoff) * |R - binary64 (acc + g) - rest.sum|
              + (1 - unit_roundoff) * |binary64 (acc + g) - (acc + g)| := by ring
        _ ≤ (rest.length : ℚ) * unit_roundoff * R + unit_roundoff * R := add_le_add i4 e1
        _ = ((rest.length + 1 : Nat) : ℚ) * unit_roundoff * R := by push_cast; ring

/-- The sum of the rounded gains `fl (m + g) - m` of single terms against the
sum of the terms, when each rounded sum is at most `R`. -/
theorem rounded_singles_bound (m R : ℚ) (hm0 : 0 ≤ m) :
    ∀ (gs : List ℚ), (∀ g ∈ gs, 0 ≤ g ∧ binary64 (m + g) ≤ R) →
      (1 - unit_roundoff) * |(gs.map (fun g => binary64 (m + g) - m)).sum - gs.sum|
        ≤ gs.length * unit_roundoff * R := by
  have hu := unit_roundoff_pos
  have hu1 : unit_roundoff < 1 := by unfold unit_roundoff; norm_num
  intro gs
  induction gs with
  | nil => intro _; simp
  | cons g rest ih =>
    intro hg
    obtain ⟨hg0, hgR⟩ := hg g (List.mem_cons_self _ _)
    have i := ih (fun x hx => hg x (List.mem_cons_of_mem _ hx))
    simp only [List.map_cons, List.sum_cons, List.length_cons]
    obtain ⟨r1, r2⟩ := @binary64_rel (m + g) (by linarith)
    have e1 : (1 - unit_roundoff) * |binary64 (m + g) - (m + g)| ≤ unit_roundoff * R := by
      have hb := binary64_error (m + g)
      rw [abs_of_nonneg (by linarith : (0 : ℚ) ≤ m + g)] at hb
      calc (1 - unit_roundoff) * |binary64 (m + g) - (m + g)|
          ≤ (1 - unit_roundoff) * (unit_roundoff * (m + g)) :=
            mul_le_mul_of_nonneg_left hb (by linarith)
        _ = unit_roundoff * ((m + g) * (1 - unit_roundoff)) := by ring
        _ ≤ unit_roundoff * binary64 (m + g) := mul_le_mul_of_nonneg_left r1 (le_of_lt hu)
        _ ≤ unit_roundoff * R := mul_le_mul_of_nonneg_left hgR (le_of_lt hu)
    have tri : |binary64 (m + g) - m + (rest.map (fun g => binary64 (m + g) - m)).sum
          - (g + rest.sum)|
        ≤ |(rest.map (fun g => binary64 (m + g) - m)).sum - rest.sum|
          + |binary64 (m + g) - (m + g)| := by
      have : binary64 (m + g) - m + (rest.map (fun g => binary64 (m + g) - m)).sum
            - (g + rest.sum)
          = ((rest.map (fun g => binary64 (m + g) - m)).sum - rest.sum)
            + (binary64 (m + g) - (m + g)) := by ring
      rw [this]
      exact abs_add _ _
    calc (1 - unit_roundoff)
          * |binary64 (m + g) - m + (rest.map (fun g => binary64 (m + g) - m)).sum
              - (g + rest.sum)|
        ≤ (1 - unit_roundoff) * (|(rest.map (fun g => binary64 (m + g) - m)).sum - rest.sum|
            + |binary64 (m + g) - (m + g)|) :=
          mul_le_mul_of_nonneg_left tri (by linarith)
      _ = (1 - unit_roundoff) * |(rest.map (fun g => binary64 (m + g) - m)).sum - rest.sum|
            + (1 - unit_roundoff) * |binary64 (m + g) - (m + g)| := by ring
      _ ≤ (rest.length : ℚ) * unit_roundoff * R + unit_roundoff * R := add_le_add i e1
      _ = ((rest.length + 1 : Nat) : ℚ) * unit_roundoff * R := by push_cast; ring

/-- A sweep in double precision returns if and only if `r_inner ≥ 0`, and then
the mass it returns is the result of the first loop. -/
theorem collect_dust_fp_some {fl : ℚ → ℚ} {M : Libm} {dust_density mass a e crit_mass : ℚ}
    {cloud : List dust} {mass1 : ℚ} {cloud1 : List dust}
    (h : collect_dust_fp fl M dust_density mass a e crit_mass cloud = some (mass1, cloud1)) :
    ¬ inner_effect_limit_fp fl a e (power M (fl (mass / fl (1.0 + mass))) 0.25) < 0.0
    ∧ mass1 = accumulate_mass_fp fl M dust_density
        (inner_effect_limit_fp fl a e (power M (fl (mass / fl (1.0 + mass))) 0.25))
        (outer_effect_limit_fp fl a e (power M (fl (mass / fl (1.0 + mass))) 0.25))
        (power M (fl (mass / fl (1.0 + mass))) 0.25) mass a e crit_mass mass cloud := by
  unfold collect_dust_fp at h
  simp only at h
  by_cases hneg : inner_effect_limit_fp fl a e (power M (fl (mass / fl (1.0 + mass))) 0.25) < 0.0
  · rw [if_pos hneg] at h; cases h
  · rw [if_neg hneg] at h
    simp only [Option.some.injEq, Prod.mk.injEq] at h
    exact ⟨hneg, h.1.symm⟩

/-- The gain of a sweep in double precision of a cloud made of one band. -/
theorem collect_dust_fp_single (fl : ℚ → ℚ) (M : Libm) (dust_density mass a e crit_mass : ℚ)
    (band : dust)
    (hr : ¬ inner_effect_limit_fp fl a e (power M (fl (mass / fl (1.0 + mass))) 0.25) < 0.0) :
    ∃ cloud1, collect_dust_fp fl M dust_density mass a e crit_mass [band]
      = some (
          (if band_skipped
              (inner_effect_limit_fp fl a e (power M (fl (mass / fl (1.0 + mass))) 0.25))
              (outer_effect_limit_fp fl a e (power M (fl (mass / fl (1.0 + mass))) 0.25))
              mass crit_mass band
            then mass
            else fl (mass + band_gain_fp fl M dust_density
              (inner_effect_limit_fp fl a e (power M (fl (mass / fl (1.0 + mass))) 0.25))
              (outer_effect_limit_fp fl a e (power M (fl (mass / fl (1.0 + mass))) 0.25))
              (power M (fl (mass / fl (1.0 + mass))) 0.25) mass a e crit_mass band)), cloud1) := by
  unfold collect_dust_fp
  simp only
  rw [if_neg hr]
  refine ⟨update_bands
    (inner_effect_limit_fp fl a e (power M (fl (mass / fl (1.0 + mass))) 0.25))
    (outer_effect_limit_fp fl a e (power M (fl (mass / fl (1.0 + mass))) 0.25))
    mass crit_mass [] [] [band], ?_⟩
  simp only [accumulate_mass_fp]

/-- C29 (counterexample): in double precision the gain of a sweep is not the
sum of the gains on the single bands. A body of mass `0.06666666666666667`
(the double next to `1/15`; its reduced mass is `1/2`) at `a = 1`, `e = 0`,
below `crit_mass = 1`, with `dust_density = 1`, sweeps the cloud
`[0.5, 0.75], [0.75, 1]`: it returns `3.2082593202666656`, and
`1.6374629934666662` on each band alone. The gain on the cloud is
`3.1415926535999987`, the two single gains add up to `3.141592653599999`,
whether the differences and their sum are taken exactly or rounded. -/
theorem C29_counterexample :
    binary64 (4803839602528529/72057594037927936) = 4803839602528529/72057594037927936
    ∧ (collect_dust_fp binary64 double_libm 1 (4803839602528529/72057594037927936) 1 0 1
          [⟨1/2, 3/4, true, true⟩, ⟨3/4, 1, true, true⟩]).map Prod.fst
        = some (3612178869815219/1125899906842624)
    ∧ (collect_dust_fp binary64 double_libm 1 (4803839602528529/72057594037927936) 1 0 1
          [⟨1/2, 3/4, true, true⟩]).map Prod.fst
        = some (7374477727209455/4503599627370496)
    ∧ (collect_dust_fp binary64 double_libm 1 (4803839602528529/72057594037927936) 1 0 1
          [⟨3/4, 1, true, true⟩]).map Prod.fst
        = some (7374477727209455/4503599627370496)
    ∧ ((collect_dust_fp binary64 double_libm 1 (4803839602528529/72057594037927936) 1 0 1
          [⟨1/2, 3/4, true, true⟩, ⟨3/4, 1, true, true⟩]).map
            (fun r => r.1 - 4803839602528529/72057594037927936)).getD 0
        ≠ ([(⟨1/2, 3/4, true, true⟩ : dust), ⟨3/4, 1, true, true⟩].map
            (fun band =>
              ((collect_dust_fp binary64 double_libm 1 (4803839602528529/72057594037927936) 1 0 1
                [band]).map (fun r => r.1 - 4803839602528529/72057594037927936)).getD 0)).sum
    ∧ binary64 ((3612178869815219/1125899906842624 : ℚ) - 4803839602528529/72057594037927936)
        ≠ binary64
            (binary64 ((7374477727209455/4503599627370496 : ℚ)
                - 4803839602528529/72057594037927936)
              + binary64 ((7374477727209455/4503599627370496 : ℚ)
                - 4803839602528529/72057594037927936)) := by
  refine ⟨?_, ?_, ?_, ?_, ?_, ?_⟩ <;> decide!

/-- The sum over the bands of a cloud of a quantity that is 0 for the bands a
sweep skips. -/
theorem sum_over_swept_bands (skip : dust → Bool) (gain : dust → ℚ) (f : dust → ℚ)
    (single : ℚ → ℚ) (cloud : List dust)
    (hf : ∀ band ∈ cloud, f band = if skip band then 0 else single (gain band)) :
    (cloud.map f).sum
      = (((cloud.filter (fun band => !skip band)).map gain).map single).sum := by
  induction cloud with
  | nil => rfl
  | cons band rest ih =>
    have i := ih (fun b hb => hf b (List.mem_cons_of_mem _ hb))
    have hb := hf band (List.mem_cons_self _ _)
    rw [List.map_cons, List.sum_cons, i, hb]
    by_cases hs : skip band = true
    · rw [if_pos hs, List.filter_cons_of_neg (by simp [hs])]
      simp
    · rw [if_neg hs, List.filter_cons_of_pos (by simp [hs])]
      simp

/-- C29 (amended): in double precision, for a mass that is a non-negative
double and a cloud whose swept bands all give a non-negative term
`volume * mass_density`: whenever `collect_dust` returns for the cloud, it
returns for each cloud made of one of its bands alone; the mass it returns is
the chain of rounded additions of the terms of the bands it does not skip,
started at `mass`, and is at least `mass`; and the gain on the cloud (result
minus `mass`) differs from the sum over the bands of the gains on the single
bands by at most `2 n u / (1 - u)` times the mass returned, where `n` is the
number of bands and `u = 2 ^ (-53)`. (They need not be equal.) -/
theorem C29_swept_mass_additive_amended (M : Libm) (dust_density mass a e crit_mass : ℚ)
    (cloud : List dust) (mass1 : ℚ) (cloud1 : List dust)
    (reduced_mass r_inner r_outer : ℚ)
    (hrm : reduced_mass = power M (binary64 (mass / binary64 (1.0 + mass))) 0.25)
    (hri : r_inner = inner_effect_limit_fp binary64 a e reduced_mass)
    (hro : r_outer = outer_effect_limit_fp binary64 a e reduced_mass)
    (hm0 : 0 ≤ mass) (hmd : binary64 mass = mass)
    (hg : ∀ band ∈ cloud, band_skipped r_inner r_outer mass crit_mass band = false →
      0 ≤ band_gain_fp binary64 M dust_density r_inner r_outer reduced_mass mass a e crit_mass
        band)
    (h : collect_dust_fp binary64 M dust_density mass a e crit_mass cloud
      = some (mass1, cloud1)) :
    (∀ band ∈ cloud, ∃ mass_b cloud_b,
        collect_dust_fp binary64 M dust_density mass a e crit_mass [band]
          = some (mass_b, cloud_b))
    ∧ mass1 = ((cloud.filter (fun band => !band_skipped r_inner r_outer mass crit_mass band)).map
          (band_gain_fp binary64 M dust_density r_inner r_outer reduced_mass mass a e
            crit_mass)).foldl (fun acc g => binary64 (acc + g)) mass
    ∧ mass ≤ mass1
    ∧ (1 - unit_roundoff)
        * |(mass1 - mass)
            - (cloud.map (fun band =>
                ((collect_dust_fp binary64 M dust_density mass a e crit_mass [band]).map
                  (fun r => r.1 - mass)).getD 0)).sum|
      ≤ 2 * cloud.length * unit_roundoff * mass1 := by
  obtain ⟨hr, hm1⟩ := collect_dust_fp_some h
  rw [← hrm, ← hri, ← hro] at hm1
  rw [accumulate_mass_fp_fold] at hm1
  have hu := unit_roundoff_pos
  have hu1 : unit_roundoff < 1 := by unfold unit_roundoff; norm_num
  have hsingle : ∀ band ∈ cloud, ∃ c,
      collect_dust_fp binary64 M dust_density mass a e crit_mass [band]
        = some ((if band_skipped r_inner r_outer mass crit_mass band then mass
            else binary64 (mass + band_gain_fp binary64 M dust_density r_inner r_outer
              reduced_mass mass a e crit_mass band)), c) := by
    intro band _
    obtain ⟨c, hc⟩ := collect_dust_fp_single binary64 M dust_density mass a e crit_mass band hr
    rw [← hrm, ← hri, ← hro] at hc
    exact ⟨c, hc⟩
  have hgs : ∀ g ∈ (cloud.filter
      (fun band => !band_skipped r_inner r_outer mass crit_mass band)).map
        (band_gain_fp binary64 M dust_density r_inner r_outer reduced_mass mass a e crit_mass),
      0 ≤ g := by
    intro g hgm
    obtain ⟨band, hb, rfl⟩ := List.mem_map.1 hgm
    obtain ⟨hb1, hb2⟩ := List.mem_filter.1 hb
    exact hg band hb1 (by simpa using hb2)
  obtain ⟨f1, f2, f3, f4⟩ := rounded_fold_bounds mass hm0 _ mass hgs (le_refl _) hmd
  rw [← hm1] at f1 f2 f3 f4
  have s1 := rounded_singles_bound mass mass1 hm0 _ (fun g hgm => ⟨hgs g hgm, f3 g hgm⟩)
  have hsum := sum_over_swept_bands (band_skipped r_inner r_outer mass crit_mass)
    (band_gain_fp binary64 M dust_density r_inner r_outer reduced_mass mass a e crit_mass)
    (fun band => ((collect_dust_fp binary64 M dust_density mass a e crit_mass [band]).map
      (fun r => r.1 - mass)).getD 0)
    (fun g => binary64 (mass + g) - mass) cloud
    (by
      intro band hb
      obtain ⟨c, hc⟩ := hsingle band hb
      simp only [hc, Option.map_some', Option.getD_some]
      split_ifs <;> simp)
  refine ⟨?_, hm1, f1, ?_⟩
  · intro band hb
    obtain ⟨c, hc⟩ := hsingle band hb
    exact ⟨_, c, hc⟩
  · rw [hsum]
    set gs := (cloud.filter (fun band => !band_skipped r_inner r_outer mass crit_mass band)).map
      (band_gain_fp binary64 M dust_density r_inner r_outer reduced_mass mass a e crit_mass)
      with hgsdef
    have hlen : (gs.length : ℚ) ≤ cloud.length := by
      rw [hgsdef, List.length_map]
      exact_mod_cast List.length_filter_le _ _
    have hR0 : 0 ≤ mass1 := le_trans hm0 f1
    have tri : |(mass1 - mass) - (gs.map (fun g => binary64 (mass + g) - mass)).sum|
        ≤ |mass1 - mass - gs.sum|
          + |(gs.map (fun g => binary64 (mass + g) - mass)).sum - gs.sum| := by
      have : (mass1 - mass) - (gs.map (fun g => binary64 (mass + g) - mass)).sum
          = (mass1 - mass - gs.sum)
            - ((gs.map (fun g => binary64 (mass + g) - mass)).sum - gs.sum) := by ring
      rw [this]
      exact abs_sub _ _
    calc (1 - unit_roundoff)
          * |(mass1 - mass) - (gs.map (fun g => binary64 (mass + g) - mass)).sum|
        ≤ (1 - unit_roundoff) * (|mass1 - mass - gs.sum|
            + |(gs.map (fun g => binary64 (mass + g) - mass)).sum - gs.sum|) :=
          mul_le_mul_of_nonneg_left tri (by linarith)
      _ = (1 - unit_roundoff) * |mass1 - mass - gs.sum|
            + (1 - unit_roundoff)
              * |(gs.map (fun g => binary64 (mass + g) - mass)).sum - gs.sum| := by ring
      _ ≤ gs.length * unit_roundoff * mass1 + gs.length * unit_roundoff * mass1 :=
          add_le_add f4 s1
      _ = 2 * gs.length * (unit_roundoff * mass1) := by ring
      _ ≤ 2 * cloud.length * (unit_roundoff * mass1) := by
          apply mul_le_mul_of_nonneg_right _ (by positivity)
          linarith
      _ = 2 * cloud.length * unit_roundoff * mass1 := by ring

/-- C29 (amended) at the cloud `[0.5, 0.75], [0.75, 1]` swept by a body of
mass `0.06666666666666667` at `a = 1`, `e = 0` below `crit_mass = 1`: the
range of effect is `[0.4166666666666667, 1.875]`, both bands are swept and
each gives a positive term. -/
theorem C29_swept_mass_additive_amended_witness :
    (∀ band ∈ [(⟨1/2, 3/4, true, true⟩ : dust), ⟨3/4, 1, true, true⟩], ∃ mass_b cloud_b,
        collect_dust_fp binary64 double_libm 1 (4803839602528529/72057594037927936) 1 0 1 [band]
          = some (mass_b, cloud_b))
    ∧ (3612178869815219/1125899906842624 : ℚ)
        = (([(⟨1/2, 3/4, true, true⟩ : dust), ⟨3/4, 1, true, true⟩].filter
            (fun band => !band_skipped (7505999378950827/18014398509481984) (15/8)
              (4803839602528529/72057594037927936) 1 band)).map
          (band_gain_fp binary64 double_libm 1 (7505999378950827/18014398509481984) (15/8) (1/2)
            (4803839602528529/72057594037927936) 1 0 1)).foldl
          (fun acc g => binary64 (acc + g)) (4803839602528529/72057594037927936)
    ∧ (4803839602528529/72057594037927936 : ℚ) ≤ 3612178869815219/1125899906842624
    ∧ (1 - unit_roundoff)
        * |((3612178869815219/1125899906842624 : ℚ) - 4803839602528529/72057594037927936)
            - ([(⟨1/2, 3/4, true, true⟩ : dust), ⟨3/4, 1, true, true⟩].map (fun band =>
                ((collect_dust_fp binary64 double_libm 1 (4803839602528529/72057594037927936)
                    1 0 1 [band]).map
                  (fun r => r.1 - 4803839602528529/72057594037927936)).getD 0)).sum|
      ≤ 2 * ([(⟨1/2, 3/4, true, true⟩ : dust), ⟨3/4, 1, true, true⟩].length : ℚ)
          * unit_roundoff * (3612178869815219/1125899906842624) :=
  C29_swept_mass_additive_amended double_libm 1 (4803839602528529/72057594037927936) 1 0 1
    [⟨1/2, 3/4, true, true⟩, ⟨3/4, 1, true, true⟩] (3612178869815219/1125899906842624)
    [⟨1/2, 3/4, false, true⟩, ⟨3/4, 1, false, true⟩]
    (1/2) (7505999378950827/18014398509481984) (15/8)
    (by decide!) (by decide!) (by decide!) (by decide!) (by decide!) (by decide!) (by decide!)

/-! ### A sweep of collect_dust in double precision -/

theorem accrete_loop_fp_succ (fl : ℚ → ℚ) (M : Libm) (dust_density a e crit_mass : ℚ)
    (fuel : Nat) (new_mass : ℚ) (dust_head : List dust) :
    accrete_loop_fp fl M dust_density a e crit_mass (fuel + 1) new_mass dust_head
      = match collect_dust_fp fl M dust_density new_mass a e crit_mass dust_head with
        | none => Outcome.exited
        | some (swept_mass, cloud) =>
          if fl (swept_mass - new_mass) > fl (fl 0.001 * new_mass) then
            accrete_loop_fp fl M dust_density a e crit_mass fuel swept_mass cloud
          else Outcome.value (swept_mass, cloud) := by
  rfl

/-- A run in double precision in which the loop of `accrete_dust` ends after
one sweep: a body of mass `0.06666666666666667` at `a = 1`, `e = 0` below
`crit_mass = 1` in the cloud `[0.5, 0.75], [0.75, 1]` of dust density
`2 ^ (-20)`. No swept band has a negative `width`, and the value returned is
above the mass given. -/
theorem mass_monotone_run :
    swept_widths_nonneg binary64 double_libm (4803839602528529/72057594037927936) 1 0 1
      [⟨1/2, 3/4, true, true⟩, ⟨3/4, 1, true, true⟩]
    ∧ accrete_loop_fp binary64 double_libm (1 / 2 ^ 20) 1 0 1 1
        (4803839602528529/72057594037927936) [⟨1/2, 3/4, true, true⟩, ⟨3/4, 1, true, true⟩]
      = Outcome.value (accumulate_mass_fp binary64 double_libm (1 / 2 ^ 20)
            (7505999378950827/18014398509481984) (15/8) (1/2)
            (4803839602528529/72057594037927936) 1 0 1 (4803839602528529/72057594037927936)
            [⟨1/2, 3/4, true, true⟩, ⟨3/4, 1, true, true⟩],
          [⟨1/2, 3/4, false, true⟩, ⟨3/4, 1, false, true⟩])
    ∧ (4803839602528529/72057594037927936 : ℚ)
        < accumulate_mass_fp binary64 double_libm (1 / 2 ^ 20)
            (7505999378950827/18014398509481984) (15/8) (1/2)
            (4803839602528529/72057594037927936) 1 0 1 (4803839602528529/72057594037927936)
            [⟨1/2, 3/4, true, true⟩, ⟨3/4, 1, true, true⟩] := by
  have h1 : collect_dust_fp binary64 double_libm (1 / 2 ^ 20)
        (4803839602528529/72057594037927936) 1 0 1
        [⟨1/2, 3/4, true, true⟩, ⟨3/4, 1, true, true⟩]
      = some (accumulate_mass_fp binary64 double_libm (1 / 2 ^ 20)
            (7505999378950827/18014398509481984) (15/8) (1/2)
            (4803839602528529/72057594037927936) 1 0 1 (4803839602528529/72057594037927936)
            [⟨1/2, 3/4, true, true⟩, ⟨3/4, 1, true, true⟩],
          [⟨1/2, 3/4, false, true⟩, ⟨3/4, 1, false, true⟩]) := by decide!
  refine ⟨by decide!, ?_, by decide!⟩
  rw [accrete_loop_fp_succ, h1]
  simp only
  rw [if_neg (by decide!)]

/-! ### The total length of the bands with dust -/

/-- A sweep in double precision whose gain is rounded away: a protoplanet of
mass `1.0E-15` at `a = 1.5`, `e = 0`, below `crit_mass = 1`, in the band
`[1, 2]` of dust density `2 ^ (-100)`. The range of effect is
`[1.2497777150737452, 1.8753334273893822]`; the sweep clears the dust there,
and `accrete_dust` returns after this sweep with the mass it was given. -/
theorem absorbed_gain_run :
    accrete_loop_fp binary64 double_libm (1 / 2 ^ 100) (3/2) 0 1 1 (binary64 PROTOPLANET_MASS)
        [⟨1, 2, true, true⟩]
      = Outcome.value (binary64 PROTOPLANET_MASS,
          [⟨1, 5628498451902069/4503599627370496, true, true⟩,
           ⟨5628498451902069/4503599627370496, 8445750924786257/4503599627370496, false, true⟩,
           ⟨8445750924786257/4503599627370496, 2, true, true⟩])
    ∧ 0 < band_gain_fp binary64 double_libm (1 / 2 ^ 100)
        (5628498451902069/4503599627370496) (8445750924786257/4503599627370496)
        (3280346516853521/18446744073709551616) (binary64 PROTOPLANET_MASS) (3/2) 0 1
        ⟨1, 2, true, true⟩ := by
  have h1 : collect_dust_fp binary64 double_libm (1 / 2 ^ 100) (binary64 PROTOPLANET_MASS)
        (3/2) 0 1 [⟨1, 2, true, true⟩]
      = some (binary64 PROTOPLANET_MASS,
          [⟨1, 5628498451902069/4503599627370496, true, true⟩,
           ⟨5628498451902069/4503599627370496, 8445750924786257/4503599627370496, false, true⟩,
           ⟨8445750924786257/4503599627370496, 2, true, true⟩]) := by decide!
  refine ⟨?_, by decide!⟩
  rw [accrete_loop_fp_succ, h1]
  simp only
  rw [if_neg (by decide!)]

end Starform
